import Mathlib

/-!
# Game server simulation engine: shallow embedding and verified properties

The C++ sources under `src/` are embedded as pure Lean functions.

Modelling conventions used throughout:

* `double` values are modelled by exact rationals (`ℚ`); rounding error of the
  IEEE arithmetic is not modelled.
* `geom::Coord` (`int`) and `std::chrono::milliseconds` counts are modelled by
  unbounded integers (`ℤ`); `size_t` values are natural numbers, and arithmetic
  on the score is reduced modulo `2 ^ 64` as in the machine.
* `std::unordered_map` containers are modelled by association lists in their
  iteration order; pointers to dogs are positions in the session's dog list.
* A C++ exception that leaves a function is modelled by an explicit flag in the
  result together with the state reached when it was thrown.
-/

set_option autoImplicit false

/-! ## `<cmath>` -/

/-- The function `std::round`: nearest integer, halfway cases away from zero. -/
def std_round (q : ℚ) : ℤ :=
  if 0 ≤ q then ⌊q + 1 / 2⌋ else -⌊-q + 1 / 2⌋

/-- The function `std::clamp(v, lo, hi)`. -/
def std_clamp (v lo hi : ℚ) : ℚ :=
  if v < lo then lo else if hi < v then hi else v

/-! ## geom.h -/

namespace geom

/-- Integer lattice point `geom::Point`. -/
structure Point where
  x : ℤ
  y : ℤ
deriving DecidableEq, Repr

/-- Continuous point `geom::Point2D`. -/
structure Point2D where
  x : ℚ
  y : ℚ
deriving DecidableEq, Repr

/-- Continuous vector `geom::Vec2D`. -/
structure Vec2D where
  x : ℚ
  y : ℚ
deriving DecidableEq, Repr

end geom

/-! ## collision_detector.h / collision_detector.cpp

The header `collision_detector.h` is not part of the sources; the structures
below carry the fields that `collision_detector.cpp` and `app.cpp` use. -/

namespace collision_detector

/-- The struct `collision_detector::CollectionResult`. -/
structure CollectionResult where
  sq_distance : ℚ
  proj_ratio : ℚ
deriving DecidableEq, Repr

/-- Method `CollectionResult::IsCollected`. -/
def CollectionResult.IsCollected (r : CollectionResult) (collect_radius : ℚ) : Bool :=
  decide (r.proj_ratio ≥ 0) && decide (r.proj_ratio ≤ 1)
    && decide (r.sq_distance ≤ collect_radius * collect_radius)

/-- Function `TryCollectPoint`. -/
def TryCollectPoint (a b c : geom.Point2D) : CollectionResult :=
  let u_x := c.x - a.x
  let u_y := c.y - a.y
  let v_x := b.x - a.x
  let v_y := b.y - a.y
  let u_dot_v := u_x * v_x + u_y * v_y
  let u_len2 := u_x * u_x + u_y * u_y
  let v_len2 := v_x * v_x + v_y * v_y
  let proj_ratio := u_dot_v / v_len2
  let sq_distance := u_len2 - (u_dot_v * u_dot_v) / v_len2
  ⟨sq_distance, proj_ratio⟩

/-- The struct `collision_detector::Item`. -/
structure Item where
  position : geom.Point2D
  width : ℚ
deriving DecidableEq, Repr

/-- The struct `collision_detector::Gatherer`. -/
structure Gatherer where
  start_pos : geom.Point2D
  end_pos : geom.Point2D
  width : ℚ
deriving DecidableEq, Repr

/-- The struct `collision_detector::GatheringEvent`. -/
structure GatheringEvent where
  item_id : ℕ
  gatherer_id : ℕ
  sq_distance : ℚ
  time : ℚ
deriving DecidableEq, Repr

/-- The abstract class `ItemGathererProvider` with its four virtual methods. -/
structure ItemGathererProvider where
  ItemsCount : ℕ
  GetItem : ℕ → Item
  GatherersCount : ℕ
  GetGatherer : ℕ → Gatherer

/-- The inner loop of `FindGatherEvents` over the items, for gatherer `g`. -/
def events_of_gatherer (provider : ItemGathererProvider) (g : ℕ) : List GatheringEvent :=
  let gatherer := provider.GetGatherer g
  let start_pos := gatherer.start_pos
  let end_pos := gatherer.end_pos
  if start_pos.x = end_pos.x ∧ start_pos.y = end_pos.y then []
  else
    (List.range provider.ItemsCount).filterMap (fun i =>
      let item := provider.GetItem i
      let collect_result := TryCollectPoint start_pos end_pos item.position
      let collect_radius := gatherer.width + item.width
      if collect_result.IsCollected collect_radius then
        some ⟨i, g, collect_result.sq_distance, collect_result.proj_ratio⟩
      else none)

/-- The vector `detected_events` of `FindGatherEvents` before it is sorted. -/
def detected_events (provider : ItemGathererProvider) : List GatheringEvent :=
  (List.range provider.GatherersCount).flatMap (events_of_gatherer provider)

/-- Function `FindGatherEvents`.  The call of `std::sort` with the comparator
`e1.time < e2.time` is modelled by a stable insertion sort on the time; the C++
library leaves the relative order of events with equal time unspecified. -/
def FindGatherEvents (provider : ItemGathererProvider) : List GatheringEvent :=
  (detected_events provider).insertionSort (fun e1 e2 => e1.time ≤ e2.time)

/-- The projection ratio `t = (u.v) / |v|^2` of the point `c` against the segment
from `a` to `b`, with `u = c - a` and `v = b - a`: the formula of the
specification, written out without `TryCollectPoint`. -/
def segment_ratio (a b c : geom.Point2D) : ℚ :=
  ((c.x - a.x) * (b.x - a.x) + (c.y - a.y) * (b.y - a.y))
    / ((b.x - a.x) * (b.x - a.x) + (b.y - a.y) * (b.y - a.y))

/-- The squared distance `d^2 = |u|^2 - (u.v)^2 / |v|^2` of the point `c` from the
line through `a` and `b`, with `u = c - a` and `v = b - a`: the formula of the
specification, written out without `TryCollectPoint`. -/
def segment_sq_distance (a b c : geom.Point2D) : ℚ :=
  ((c.x - a.x) * (c.x - a.x) + (c.y - a.y) * (c.y - a.y))
    - ((c.x - a.x) * (b.x - a.x) + (c.y - a.y) * (b.y - a.y))
      * ((c.x - a.x) * (b.x - a.x) + (c.y - a.y) * (b.y - a.y))
      / ((b.x - a.x) * (b.x - a.x) + (b.y - a.y) * (b.y - a.y))

/-- The pair (item `i`, gatherer `g`) is a hit: the gatherer moves and, with
`r = gatherer.width + item.width`, the projection ratio `t` and the squared
distance `d²` of the item's position against the gatherer's segment satisfy
`0 ≤ t ≤ 1` and `d² ≤ r²`. -/
def is_hit (provider : ItemGathererProvider) (i g : ℕ) : Prop :=
  ((provider.GetGatherer g).start_pos ≠ (provider.GetGatherer g).end_pos) ∧
  0 ≤ segment_ratio (provider.GetGatherer g).start_pos (provider.GetGatherer g).end_pos
    (provider.GetItem i).position ∧
  segment_ratio (provider.GetGatherer g).start_pos (provider.GetGatherer g).end_pos
    (provider.GetItem i).position ≤ 1 ∧
  segment_sq_distance (provider.GetGatherer g).start_pos (provider.GetGatherer g).end_pos
    (provider.GetItem i).position
    ≤ ((provider.GetGatherer g).width + (provider.GetItem i).width)
      * ((provider.GetGatherer g).width + (provider.GetItem i).width)

instance (provider : ItemGathererProvider) (i g : ℕ) : Decidable (is_hit provider i g) := by
  unfold is_hit; infer_instance

/-- The event `(item i, gatherer g, d², t)` of the pair, with `d²` and `t` of the
item's position against the gatherer's segment. -/
def event_of (provider : ItemGathererProvider) (i g : ℕ) : GatheringEvent :=
  ⟨i, g,
    segment_sq_distance (provider.GetGatherer g).start_pos (provider.GetGatherer g).end_pos
      (provider.GetItem i).position,
    segment_ratio (provider.GetGatherer g).start_pos (provider.GetGatherer g).end_pos
      (provider.GetItem i).position⟩

end collision_detector

/-! ## model.h / model.cpp -/

namespace model

/-- The enum `model::Direction`. -/
inductive Direction where
  | NORTH
  | SOUTH
  | WEST
  | EAST
deriving DecidableEq, Repr

/-- A road `model::Road`.  The class has exactly two constructors,
`Road(HORIZONTAL, start, end_x)` and `Road(VERTICAL, start, end_y)`; a road is
one of the two. -/
inductive Road where
  | HORIZONTAL (start : geom.Point) (end_x : ℤ)
  | VERTICAL (start : geom.Point) (end_y : ℤ)
deriving DecidableEq, Repr

namespace Road

/-- Method `Road::GetStart` (the member `start_`). -/
def GetStart : Road → geom.Point
  | HORIZONTAL start _ => start
  | VERTICAL start _ => start

/-- Method `Road::GetEnd` (the member `end_` set by the constructors). -/
def GetEnd : Road → geom.Point
  | HORIZONTAL start end_x => ⟨end_x, start.y⟩
  | VERTICAL start end_y => ⟨start.x, end_y⟩

/-- Method `Road::IsHorizontal`. -/
def IsHorizontal (r : Road) : Bool :=
  r.GetStart.y == r.GetEnd.y

/-- Method `Road::IsVertical`. -/
def IsVertical (r : Road) : Bool :=
  r.GetStart.x == r.GetEnd.x

end Road

/-- The keys of `RoadGrid::grid_` (every stored value is `true`). -/
abbrev RoadGrid := List geom.Point

namespace RoadGrid

/-- The integers `lo, lo + 1, ..., hi` visited by the loops of `AddRoad`. -/
def coordRange (lo hi : ℤ) : List ℤ :=
  (List.range (hi + 1 - lo).toNat).map (fun (k : ℕ) => lo + (k : ℤ))

/-- Method `RoadGrid::AddRoad`. -/
def AddRoad (grid : RoadGrid) (road : Road) : RoadGrid :=
  if road.IsHorizontal then
    let y := road.GetStart.y
    grid ++ (coordRange (min road.GetStart.x road.GetEnd.x)
      (max road.GetStart.x road.GetEnd.x)).map (fun x => (⟨x, y⟩ : geom.Point))
  else
    let x := road.GetStart.x
    grid ++ (coordRange (min road.GetStart.y road.GetEnd.y)
      (max road.GetStart.y road.GetEnd.y)).map (fun y => (⟨x, y⟩ : geom.Point))

/-- Method `RoadGrid::ContainsRoad`. -/
def ContainsRoad (grid : RoadGrid) (p : geom.Point) : Bool :=
  decide (p ∈ grid)

end RoadGrid

/-- The class `model::Dog`. -/
structure Dog where
  id : ℕ
  name : String
  pos : geom.Point2D
  vel : geom.Vec2D
  dir : Direction
  bag_capacity : ℕ
  bag : List (ℕ × ℕ)
  score : ℕ
  age : ℤ
  idle_for : ℤ
  is_idle : Bool
deriving DecidableEq, Repr

namespace Dog

/-- Constructor `Dog(name, pos, vel, bag_capacity, id)` with the default member
initialisers of the class. -/
def mk_new (name : String) (pos : geom.Point2D) (vel : geom.Vec2D) (bag_capacity : ℕ)
    (id : ℕ) : Dog :=
  { id := id, name := name, pos := pos, vel := vel, dir := Direction.NORTH,
    bag_capacity := bag_capacity, bag := [], score := 0, age := 0, idle_for := 0,
    is_idle := true }

/-- Method `Dog::TryGrabItem`: the new dog and the returned flag. -/
def TryGrabItem (dog : Dog) (id type : ℕ) : Dog × Bool :=
  if dog.bag.length ≥ dog.bag_capacity then (dog, false)
  else ({ dog with bag := dog.bag ++ [(id, type)] }, true)

/-- Method `Dog::ClearBag`. -/
def ClearBag (dog : Dog) : Dog :=
  { dog with bag := [] }

/-- Method `Dog::SetScore`. -/
def SetScore (dog : Dog) (score : ℕ) : Dog :=
  { dog with score := score }

end Dog

/-- The part of `model::Map` used by the simulation: its roads (in insertion
order), the loot type descriptors and bases of its `ExtraData`, the dog speed and
the bag capacity, with its id and name.  A loot type descriptor is represented by the result of
`as_object().at("value").as_int64()` on it: `none` when that expression throws. -/
structure Map where
  id : String
  name : String
  roads : List Road
  loot_types : List (Option ℤ)
  bases : List collision_detector.Item
  dog_speed : ℚ
  bag_capacity : ℕ
deriving Repr

namespace Map

/-- The member `road_grid_` after the `Map::AddRoad` calls that built `roads_`. -/
def road_grid (m : Map) : RoadGrid :=
  m.roads.foldl RoadGrid.AddRoad []

/-- Constant `allowance` of `Map::MoveDog`. -/
def allowance : ℚ := 4 / 10

/-- Constant `eps` of `Map::MoveDog`. -/
def eps : ℚ := 1 / 1000000

/-- Constant `millis_per_second` of `Map::MoveDog`. -/
def millis_per_second : ℚ := 1000

/-- The point whose coordinate along the moving axis is `c` and whose other
coordinate is `fixed_coord` (the braced initialisers inside `move_axis`). -/
def cellAt (is_x_axis : Bool) (c fixed_coord : ℤ) : geom.Point :=
  ⟨if is_x_axis then c else fixed_coord, if is_x_axis then fixed_coord else c⟩

/-- The `while (cell != target_cell)` loop of `move_axis`, run for at most
`fuel` iterations. -/
def walk_loop (grid : RoadGrid) (is_x_axis : Bool) (fixed_coord step target_cell : ℤ) :
    ℕ → ℤ → ℤ
  | 0, cell => cell
  | fuel + 1, cell =>
    if cell ≠ target_cell then
      if grid.ContainsRoad (cellAt is_x_axis (cell + step) fixed_coord) then
        walk_loop grid is_x_axis fixed_coord step target_cell fuel (cell + step)
      else cell
    else cell

/-- Result of one call of the lambda `move_axis`: the new coordinate, the new
cell coordinate and whether the dog was stopped (`SetIdle(true)`,
`SetVelocity({0, 0})`). -/
structure AxisMove where
  pos : ℚ
  cell : ℤ
  stopped : Bool
deriving DecidableEq, Repr

/-- The lambda `move_axis` of `Map::MoveDog`.  The loop is given
`|target_cell - cell|` iterations, which is always enough for it to exit by
itself (`walk_loop_exit`).  The arithmetic on `double`s is exact arithmetic on
rationals here; `binary64.move_axis` is the same lambda with the result of
every operation rounded to a `double`, which decides the test
`|diff| > allowance` differently when `|diff|` is within rounding of `0.4`. -/
def move_axis (grid : RoadGrid) (dt : ℚ) (pos vel : ℚ) (cell : ℤ)
    (is_on_axis offset_out_of_range : Bool) (fixed_coord : ℤ) (is_x_axis : Bool) : AxisMove :=
  if vel ≠ 0 then
    let d := vel * dt
    let target := pos + d
    let target_cell := std_round target
    let step : ℤ := if d > 0 then 1 else -1
    let cant_move_along_axis := offset_out_of_range && is_on_axis
    let cell1 :=
      if !cant_move_along_axis then
        walk_loop grid is_x_axis fixed_coord step target_cell (target_cell - cell).natAbs cell
      else cell
    let curr : ℚ := cell1
    let diff := target - curr
    let diff_step : ℤ := if diff > 0 then 1 else -1
    let is_road_ahead := grid.ContainsRoad (cellAt is_x_axis (cell1 + diff_step) fixed_coord)
    if step = diff_step ∧ (cant_move_along_axis = true ∨ is_road_ahead = false)
        ∧ |diff| > allowance then
      ⟨curr + std_clamp diff (-allowance) allowance, cell1, true⟩
    else
      ⟨curr + diff, cell1, false⟩
  else
    ⟨pos, cell, false⟩

/-- Method `Map::MoveDog`, in exact arithmetic (`binary64.MoveDog` is the method
with every operation rounded to a `double`). -/
def MoveDog (m : Map) (dog : Dog) (delta_ms : ℤ) : Dog :=
  let grid := m.road_grid
  let dt : ℚ := (delta_ms : ℚ) / millis_per_second
  let currentPos := dog.pos
  let velocity := dog.vel
  let cell_x := std_round currentPos.x
  let cell_y := std_round currentPos.y
  let is_on_vertical :=
    grid.ContainsRoad ⟨cell_x, cell_y + 1⟩ || grid.ContainsRoad ⟨cell_x, cell_y - 1⟩
  let is_on_horizontal :=
    grid.ContainsRoad ⟨cell_x + 1, cell_y⟩ || grid.ContainsRoad ⟨cell_x - 1, cell_y⟩
  let y_offset_out_of_range : Bool := decide (|currentPos.y - cell_y| > allowance + eps)
  let x_offset_out_of_range : Bool := decide (|currentPos.x - cell_x| > allowance + eps)
  let mx := move_axis grid dt currentPos.x velocity.x cell_x is_on_vertical
    y_offset_out_of_range cell_y true
  let my := move_axis grid dt currentPos.y velocity.y cell_y is_on_horizontal
    x_offset_out_of_range mx.cell false
  let stopped := mx.stopped || my.stopped
  { dog with
    pos := ⟨mx.pos, my.pos⟩
    vel := if stopped then ⟨0, 0⟩ else dog.vel
    is_idle := if stopped then true else dog.is_idle }

end Map

end model

/-! ## Sessions, the game and the tick (model.h, app.h, app.cpp) -/

namespace model

/-- The class `model::GameSession`.  The loot generator (`loot_generator.h`, not
part of the sources) is represented by its only state, the time without loot. -/
structure GameSession where
  map_ : Map
  dogs_ : List Dog
  loot_map_ : List (ℕ × (ℕ × geom.Point2D))
  time_without_loot_ : ℤ
  loot_id_ : ℕ
deriving Repr

namespace GameSession

/-- Method `GameSession::AddLoot(loot, id)`: `emplace` under the key
`id == 0 ? ++loot_id_ : id`, which inserts nothing when the key is present. -/
def AddLoot (s : GameSession) (loot : ℕ × geom.Point2D) (id : ℕ) : GameSession :=
  let s1 := if id = 0 then { s with loot_id_ := s.loot_id_ + 1 } else s
  let key := if id = 0 then s1.loot_id_ else id
  if s1.loot_map_.any (fun e => e.1 == key) then s1
  else { s1 with loot_map_ := s1.loot_map_ ++ [(key, loot)] }

/-- Method `GameSession::RemoveLoot`: `erase` by key. -/
def RemoveLoot (s : GameSession) (idx : ℕ) : GameSession :=
  { s with loot_map_ := s.loot_map_.filter (fun e => e.1 != idx) }

end GameSession

/-- The class `model::Game`: the map catalogue, the sessions (the values of
`map_id_to_session_` in iteration order) and the global settings. -/
structure Game where
  maps_ : List Map
  sessions_ : List GameSession
  default_dog_speed_ : ℚ
  loot_gen_interval_ : ℤ
  loot_gen_prob_ : ℚ
  default_bag_capacity_ : ℕ
  max_idle_time_ : ℤ
deriving Repr

/-- The class `model::RetiredDog`. -/
structure RetiredDog where
  id : ℕ
  name : String
  score : ℤ
  play_time_ms : ℤ
deriving DecidableEq, Repr

/-- The class `model::Player`: the session is identified by the id of its map,
the dog by its id. -/
structure Player where
  session_id : String
  dog_id : ℕ
deriving DecidableEq, Repr

end model

namespace app

open model collision_detector

/-- The class `VectorItemGathererProvider` of `app.cpp`.  A `Dog*` is the
position of the dog in the dog list of the session. -/
structure VectorItemGathererProvider where
  items_ : List Item
  gatherers_ : List (ℕ × Gatherer)
  bases_offset_ : ℕ
  loot_data_ : List (ℕ × ℕ)
deriving Repr

namespace VectorItemGathererProvider

/-- The constructor of `VectorItemGathererProvider`. -/
def create (loot : List (ℕ × (ℕ × geom.Point2D))) (bases : List Item)
    (gatherers : List (ℕ × Gatherer)) : VectorItemGathererProvider :=
  { items_ := loot.map (fun e => (⟨e.2.2, 0⟩ : Item)) ++ bases
    gatherers_ := gatherers
    bases_offset_ := loot.length
    loot_data_ := loot.map (fun e => (e.1, e.2.1)) }

/-- Method `IsItemIdx`. -/
def IsItemIdx (p : VectorItemGathererProvider) (idx : ℕ) : Bool :=
  p.bases_offset_ != 0 && decide (idx < p.bases_offset_)

/-- Method `GetLootData`: `none` when `at` throws. -/
def GetLootData (p : VectorItemGathererProvider) (idx : ℕ) : Option (ℕ × ℕ) :=
  p.loot_data_[idx]?

/-- Method `GetDog`: `none` when `at` throws. -/
def GetDog (p : VectorItemGathererProvider) (idx : ℕ) : Option ℕ :=
  (p.gatherers_[idx]?).map (fun g => g.1)

/-- The provider seen through the interface `ItemGathererProvider`.  The
accessors use `at`; `FindGatherEvents` calls them with indices below the counts
only, where `at` does not throw. -/
def toProvider (p : VectorItemGathererProvider) : ItemGathererProvider :=
  { ItemsCount := p.items_.length
    GetItem := fun idx => p.items_.getD idx ⟨⟨0, 0⟩, 0⟩
    GatherersCount := p.gatherers_.length
    GetGatherer := fun idx => (p.gatherers_.getD idx (0, ⟨⟨0, 0⟩, ⟨0, 0⟩, 0⟩)).2 }

end VectorItemGathererProvider

/-- What the random sources give to one session in one tick: the state of the
loot generator after `Generate` and, for each of the `n_new_loot` new items, the
loot type and the point drawn. -/
structure LootDraw where
  time_without_loot : ℤ
  new_loot : List (ℕ × geom.Point2D)
deriving Repr

/-- The block "Generate new loot" of `Application::Tick`. -/
def generate_loot (draw : LootDraw) (s : GameSession) : GameSession :=
  draw.new_loot.foldl (fun acc loot => acc.AddLoot loot 0)
    { s with time_without_loot_ := draw.time_without_loot }

/-- The body of the loop "Move and tick dogs" of `Application::Tick` for one
dog: the dog afterwards and the gatherer recorded for it, if any. -/
def tick_dog (m : Map) (max_idle_time dt : ℤ) (dog : Dog) : Dog × Option Gatherer :=
  if dog.idle_for ≥ max_idle_time then (dog, none)
  else
    let dog1 := { dog with age := dog.age + dt }
    let dog2 :=
      if dog1.is_idle then { dog1 with idle_for := dog1.idle_for + dt }
      else { dog1 with idle_for := 0 }
    let old_pos := dog2.pos
    let dog3 := m.MoveDog dog2 dt
    (dog3, some ⟨old_pos, dog3.pos, 6 / 10⟩)

/-- The loop "Move and tick dogs": the dogs afterwards and the vector
`gatherers`; `idx` is the position of the first dog of the list. -/
def move_dogs (m : Map) (max_idle_time dt : ℤ) : List Dog → ℕ → List Dog × List (ℕ × Gatherer)
  | [], _ => ([], [])
  | dog :: rest, idx =>
    let r := tick_dog m max_idle_time dt dog
    let rs := move_dogs m max_idle_time dt rest (idx + 1)
    (r.1 :: rs.1,
      match r.2 with
      | some g => (idx, g) :: rs.2
      | none => rs.2)

/-- The sum `dog->GetScore() + value` of a `size_t` and an `int64_t`, computed
in `size_t`. -/
def add_value (score : ℕ) (value : ℤ) : ℕ :=
  (((score : ℤ) + value) % 2 ^ 64).toNat

/-- The loop over the bag at a base: the score reached and whether
`GetLootTypes().at(type).as_object().at("value").as_int64()` threw. -/
def deposit (loot_types : List (Option ℤ)) : List (ℕ × ℕ) → ℕ → ℕ × Bool
  | [], score => (score, false)
  | item :: rest, score =>
    match loot_types[item.2]? with
    | some (some value) => deposit loot_types rest (add_value score value)
    | _ => (score, true)

/-- The dogs and loot of the session during the collision pass, with the flag
that an exception has left the pass. -/
structure PassState where
  dogs : List Dog
  loot_map : List (ℕ × (ℕ × geom.Point2D))
  thrown : Bool
deriving Repr

/-- The body of the loop over `collision_events` in `Application::Tick`.  The
`Dog*` taken from the provider always points to a dog of the session; the branch
for a position outside the dog list is never taken and leaves the state as it is. -/
def handle_event (provider : VectorItemGathererProvider) (m : Map) (st : PassState)
    (e : GatheringEvent) : PassState :=
  match provider.GetDog e.gatherer_id with
  | none => { st with thrown := true }
  | some di =>
    match st.dogs[di]? with
    | none => st
    | some dog =>
      if provider.IsItemIdx e.item_id then
        match provider.GetLootData e.item_id with
        | none => { st with thrown := true }
        | some (loot_id, loot_type) =>
          let r := dog.TryGrabItem loot_id loot_type
          if r.2 then
            { st with dogs := st.dogs.set di r.1
                      loot_map := st.loot_map.filter (fun l => l.1 != loot_id) }
          else st
      else
        let r := deposit m.loot_types dog.bag dog.score
        if r.2 then { st with dogs := st.dogs.set di (dog.SetScore r.1), thrown := true }
        else { st with dogs := st.dogs.set di (dog.SetScore r.1).ClearBag }

/-- The loop over `collision_events`: it ends at the first exception. -/
def handle_events (provider : VectorItemGathererProvider) (m : Map) :
    PassState → List GatheringEvent → PassState
  | st, [] => st
  | st, e :: rest =>
    let st1 := handle_event provider m st e
    if st1.thrown then st1 else handle_events provider m st1 rest

/-- The block "Do item gathering" of `Application::Tick`. -/
def gather_items (m : Map) (gatherers : List (ℕ × Gatherer)) (dogs : List Dog)
    (loot_map : List (ℕ × (ℕ × geom.Point2D))) : PassState :=
  let provider := VectorItemGathererProvider.create loot_map m.bases gatherers
  handle_events provider m ⟨dogs, loot_map, false⟩ (FindGatherEvents provider.toProvider)

/-- The three blocks of `Application::Tick` that act on one session: loot
generation, movement and item gathering.  The flag tells whether an exception
left the tick. -/
def tick_session (max_idle_time : ℤ) (draw : LootDraw) (dt : ℤ) (s : GameSession) :
    GameSession × Bool :=
  let s1 := generate_loot draw s
  let moved := move_dogs s1.map_ max_idle_time dt s1.dogs_ 0
  let st := gather_items s1.map_ moved.2 moved.1 s1.loot_map_
  ({ s1 with dogs_ := st.dogs, loot_map_ := st.loot_map }, st.thrown)

/-- What one retirement attempt meets in the database: `GetUoW` throws, `Save`
throws, `Commit` throws, or all three succeed. -/
inductive DbOutcome where
  | uow_throws
  | save_throws
  | commit_throws
  | ok
deriving DecidableEq, Repr

/-- The database behind `db::Database` as the application sees it: the outcomes
of the coming retirement attempts (`script`, then `rest` for ever), the committed
rows of `retired_players` and a source of fresh UUIDs. -/
structure Database where
  script : List DbOutcome
  rest : DbOutcome
  retired_players : List RetiredDog
  next_uuid : ℕ
deriving Repr

/-- The conversion `static_cast<int>` of a 64-bit value. -/
def to_int32 (z : ℤ) : ℤ :=
  (z + 2 ^ 31) % 2 ^ 32 - 2 ^ 31

/-- One pass through the `try` block of `RetirementListener::OnTick` up to and
including `Commit`: the database afterwards and whether the commit succeeded. -/
def Database.attempt (db : Database) (dog : Dog) : Database × Bool :=
  match db.script.headD db.rest with
  | DbOutcome.ok =>
    ({ db with
        script := db.script.tail
        retired_players := db.retired_players ++
          [⟨db.next_uuid, dog.name, to_int32 dog.score, to_int32 dog.age⟩]
        next_uuid := db.next_uuid + 1 }, true)
  | DbOutcome.uow_throws => ({ db with script := db.script.tail }, false)
  | _ => ({ db with script := db.script.tail, next_uuid := db.next_uuid + 1 }, false)

/-- The class `app::PlayerTokens` (without its random generators). -/
structure PlayerTokens where
  token_to_player_ : List (String × ℕ)
  player_id_to_token_ : List (ℕ × String)
deriving DecidableEq, Repr

/-- Method `PlayerTokens::RemoveToken`: `none` when `at` throws. -/
def PlayerTokens.RemoveToken (t : PlayerTokens) (player_id : ℕ) : Option PlayerTokens :=
  match t.player_id_to_token_.find? (fun e => e.1 == player_id) with
  | none => none
  | some e =>
    some { token_to_player_ := t.token_to_player_.filter (fun x => x.1 != e.2)
           player_id_to_token_ := t.player_id_to_token_.filter (fun x => x.1 != player_id) }

/-- An entry of `Application::listeners_`: a weak pointer that has expired, the
retirement listener, or the serializing listener with its
`time_since_last_save_`, its `save_interval_` and the number of `SaveState` calls
it has made. -/
inductive Listener where
  | expired
  | retirement
  | serializing (time_since_last_save save_interval : ℤ) (saves : ℕ)
deriving DecidableEq, Repr

/-- The class `app::Application`. -/
structure Application where
  game_ : Game
  players_ : List (ℕ × Player)
  tokens_ : PlayerTokens
  random_spawns_ : Bool
  listeners_ : List Listener
  database_ : Database
deriving Repr

/-- The inner loop of `RetirementListener::OnTick` over the dogs of one session:
`kept` are the dogs passed, `todo` the dogs from the iterator on.  Each iteration
uses one unit of `fuel`; `none` means that the fuel ran out.  After a failed
attempt the iterator is not advanced (`continue` in the `catch` block). -/
def retire_dogs (max_idle_time : ℤ) :
    ℕ → Application → List Dog → List Dog → Option (Application × List Dog)
  | 0, _, _, _ => none
  | _ + 1, app, kept, [] => some (app, kept)
  | fuel + 1, app, kept, dog :: rest =>
    if dog.idle_for ≥ max_idle_time then
      let r := app.database_.attempt dog
      let app1 := { app with database_ := r.1 }
      if r.2 then
        match app1.tokens_.RemoveToken dog.id with
        | none => retire_dogs max_idle_time fuel app1 kept (dog :: rest)
        | some tokens =>
          retire_dogs max_idle_time fuel
            { app1 with tokens_ := tokens
                        players_ := app1.players_.filter (fun p => p.1 != dog.id) }
            kept rest
      else retire_dogs max_idle_time fuel app1 kept (dog :: rest)
    else retire_dogs max_idle_time fuel app (kept ++ [dog]) rest

/-- The outer loop of `RetirementListener::OnTick` over the sessions: `done` are
the sessions already scanned. -/
def retire_sessions (fuel : ℕ) :
    Application → List GameSession → List GameSession → Option (Application × List GameSession)
  | app, done, [] => some (app, done)
  | app, done, s :: rest =>
    match retire_dogs app.game_.max_idle_time_ fuel app [] s.dogs_ with
    | none => none
    | some r => retire_sessions fuel r.1 (done ++ [{ s with dogs_ := r.2 }]) rest

/-- Method `RetirementListener::OnTick`; `none` when the fuel ran out. -/
def RetirementListener_OnTick (fuel : ℕ) (app : Application) : Option Application :=
  match retire_sessions fuel app [] app.game_.sessions_ with
  | none => none
  | some r => some { r.1 with game_ := { r.1.game_ with sessions_ := r.2 } }

/-- Method `SerializingListener::OnTick` on the state of the listener. -/
def SerializingListener_OnTick (delta time_since_last_save save_interval : ℤ) (saves : ℕ) :
    Listener :=
  if save_interval ≥ 0 then
    if time_since_last_save + delta ≥ save_interval then
      Listener.serializing 0 save_interval (saves + 1)
    else Listener.serializing (time_since_last_save + delta) save_interval saves
  else Listener.serializing time_since_last_save save_interval saves

/-- The block "Notify" of `Application::Tick`: expired listeners are erased, the
others get `OnTick(dt)`. -/
def notify (fuel : ℕ) (dt : ℤ) : Application → List Listener → List Listener → Option Application
  | app, done, [] => some { app with listeners_ := done }
  | app, done, l :: rest =>
    match l with
    | Listener.expired => notify fuel dt app done rest
    | Listener.retirement =>
      match RetirementListener_OnTick fuel app with
      | none => none
      | some app1 => notify fuel dt app1 (done ++ [l]) rest
    | Listener.serializing t i n =>
      notify fuel dt app (done ++ [SerializingListener_OnTick dt t i n]) rest

/-- The loop of `Application::Tick` over the sessions, from session number `idx`
for `n` sessions.  The result is `none` when a listener ran out of fuel;
otherwise it carries the flag that an exception left the tick. -/
def tick_sessions (fuel : ℕ) (draws : ℕ → LootDraw) (dt : ℤ) :
    ℕ → ℕ → Application → Option (Application × Bool)
  | _, 0, app => some (app, false)
  | idx, n + 1, app =>
    match app.game_.sessions_[idx]? with
    | none => some (app, false)
    | some s =>
      let r := tick_session app.game_.max_idle_time_ (draws idx) dt s
      let app1 : Application :=
        { app with game_ := { app.game_ with sessions_ := app.game_.sessions_.set idx r.1 } }
      if r.2 then some (app1, true)
      else
        match notify fuel dt app1 [] app1.listeners_ with
        | none => none
        | some app2 => tick_sessions fuel draws dt (idx + 1) n app2

/-- Method `Application::Tick`.  `draws idx` is what the random sources give to
session number `idx`; `fuel` bounds the iterations of each run of the inner loop
of the retirement listener. -/
def Application.Tick (fuel : ℕ) (draws : ℕ → LootDraw) (dt : ℤ) (app : Application) :
    Option (Application × Bool) :=
  tick_sessions fuel draws dt 0 app.game_.sessions_.length app

end app

/-! ## model_serialization.h / model_serialization.cpp -/

namespace serialization

open model

/-- Conversion of a `size_t` to the 64-bit signed count of
`std::chrono::milliseconds`. -/
def to_int64 (n : ℕ) : ℤ :=
  if n % 2 ^ 64 < 2 ^ 63 then ((n % 2 ^ 64 : ℕ) : ℤ) else ((n % 2 ^ 64 : ℕ) : ℤ) - 2 ^ 64

/-- Conversion of a 64-bit signed count to `size_t`. -/
def to_size_t (z : ℤ) : ℕ :=
  (z % 2 ^ 64).toNat

/-- The class `serialization::DogRepr`. -/
structure DogRepr where
  id_ : ℕ
  name_ : String
  pos_ : geom.Point2D
  vel_ : geom.Vec2D
  dir_ : Direction
  bag_capacity_ : ℕ
  bag_ : List (ℕ × ℕ)
  score_ : ℕ
  age_ : ℕ
  idle_for_ : ℕ
  is_idle_ : Bool
deriving DecidableEq, Repr

namespace DogRepr

/-- Constructor `DogRepr(const model::Dog&)`. -/
def of_dog (dog : Dog) : DogRepr :=
  { id_ := dog.id, name_ := dog.name, pos_ := dog.pos, vel_ := dog.vel, dir_ := dog.dir,
    bag_capacity_ := dog.bag_capacity, bag_ := dog.bag, score_ := dog.score,
    age_ := to_size_t dog.age, idle_for_ := to_size_t dog.idle_for, is_idle_ := dog.is_idle }

/-- The loop of `DogRepr::Restore` that refills the bag: `none` when it throws
"Failed to put bag content". -/
def put_bag : List (ℕ × ℕ) → Dog → Option Dog
  | [], dog => some dog
  | item :: rest, dog =>
    let r := dog.TryGrabItem item.1 item.2
    if r.2 then put_bag rest r.1 else none

/-- Method `DogRepr::Restore`: `none` when it throws. -/
def Restore (r : DogRepr) : Option Dog :=
  put_bag r.bag_
    { Dog.mk_new r.name_ r.pos_ r.vel_ r.bag_capacity_ r.id_ with
      dir := r.dir_, score := r.score_, age := to_int64 r.age_,
      idle_for := to_int64 r.idle_for_, is_idle := r.is_idle_ }

end DogRepr

end serialization

/-! ## Notions used to state the properties of the road network -/

namespace model

/-- The lattice point `p` lies on the road: on its axis, between its two end
points inclusive. -/
def Road.covers (r : Road) (p : geom.Point) : Prop :=
  min r.GetStart.x r.GetEnd.x ≤ p.x ∧ p.x ≤ max r.GetStart.x r.GetEnd.x ∧
  min r.GetStart.y r.GetEnd.y ≤ p.y ∧ p.y ≤ max r.GetStart.y r.GetEnd.y

instance (r : Road) (p : geom.Point) : Decidable (r.covers p) := by
  unfold Road.covers; infer_instance

/-- The continuous point `p` lies within `w`, on each axis, of some point of the
road segment: it is in the rectangle of the road widened by `w`. -/
def Road.near (r : Road) (w : ℚ) (p : geom.Point2D) : Prop :=
  (min r.GetStart.x r.GetEnd.x : ℤ) - w ≤ p.x ∧ p.x ≤ (max r.GetStart.x r.GetEnd.x : ℤ) + w ∧
  (min r.GetStart.y r.GetEnd.y : ℤ) - w ≤ p.y ∧ p.y ≤ (max r.GetStart.y r.GetEnd.y : ℤ) + w

instance (r : Road) (w : ℚ) (p : geom.Point2D) : Decidable (r.near w p) := by
  unfold Road.near; infer_instance

/-- The point `p` lies within `w` of some road segment of the map. -/
def Map.on_roads (m : Map) (w : ℚ) (p : geom.Point2D) : Prop :=
  ∃ r ∈ m.roads, r.near w p

instance (m : Map) (w : ℚ) (p : geom.Point2D) : Decidable (m.on_roads w p) := by
  unfold Map.on_roads; infer_instance

/-- Any two covered cells that are neighbours along an axis lie on a common
road of the map. -/
def Map.neighbours_joined (m : Map) : Prop :=
  ∀ p q : geom.Point, m.road_grid.ContainsRoad p = true → m.road_grid.ContainsRoad q = true →
    ((q.x = p.x + 1 ∧ q.y = p.y) ∨ (q.x = p.x ∧ q.y = p.y + 1)) →
    ∃ r ∈ m.roads, r.covers p ∧ r.covers q

end model

namespace model

/-- The smaller end coordinate of the road along the `x` axis (`is_x_axis`) or
along the `y` axis. -/
def Road.lo (r : Road) (is_x_axis : Bool) : ℤ :=
  if is_x_axis then min r.GetStart.x r.GetEnd.x else min r.GetStart.y r.GetEnd.y

/-- The larger end coordinate of the road along the `x` axis (`is_x_axis`) or
along the `y` axis. -/
def Road.hi (r : Road) (is_x_axis : Bool) : ℤ :=
  if is_x_axis then max r.GetStart.x r.GetEnd.x else max r.GetStart.y r.GetEnd.y

/-- The continuous point whose coordinate along the moving axis is `a` and whose
other coordinate is `b`. -/
def Map.pointAt (is_x_axis : Bool) (a b : ℚ) : geom.Point2D :=
  ⟨if is_x_axis then a else b, if is_x_axis then b else a⟩

/-- The first call of `move_axis` in `Map::MoveDog` (the `x` axis). -/
def Map.x_call (m : Map) (dog : Dog) (delta_ms : ℤ) : Map.AxisMove :=
  Map.move_axis m.road_grid ((delta_ms : ℚ) / Map.millis_per_second) dog.pos.x dog.vel.x
    (std_round dog.pos.x)
    (m.road_grid.ContainsRoad ⟨std_round dog.pos.x, std_round dog.pos.y + 1⟩ ||
      m.road_grid.ContainsRoad ⟨std_round dog.pos.x, std_round dog.pos.y - 1⟩)
    (decide (|dog.pos.y - std_round dog.pos.y| > Map.allowance + Map.eps))
    (std_round dog.pos.y) true

/-- The second call of `move_axis` in `Map::MoveDog` (the `y` axis); its fixed
coordinate is the cell reached by the first call. -/
def Map.y_call (m : Map) (dog : Dog) (delta_ms : ℤ) : Map.AxisMove :=
  Map.move_axis m.road_grid ((delta_ms : ℚ) / Map.millis_per_second) dog.pos.y dog.vel.y
    (std_round dog.pos.y)
    (m.road_grid.ContainsRoad ⟨std_round dog.pos.x + 1, std_round dog.pos.y⟩ ||
      m.road_grid.ContainsRoad ⟨std_round dog.pos.x - 1, std_round dog.pos.y⟩)
    (decide (|dog.pos.x - std_round dog.pos.x| > Map.allowance + Map.eps))
    (m.x_call dog delta_ms).cell false

end model

namespace model

/-- The `value` of the map's loot type number `type` (0 when the descriptor has
no 64-bit integer `value`). -/
def Map.loot_value (m : Map) (type : ℕ) : ℤ :=
  match m.loot_types[type]? with
  | some (some v) => v
  | _ => 0

/-- The sum of the values of the entries of a bag. -/
def Map.bag_value (m : Map) (bag : List (ℕ × ℕ)) : ℤ :=
  (bag.map (fun item => m.loot_value item.2)).sum

end model

/-! ## Relations between the dogs before and after a tick -/

namespace app

open model collision_detector

/-- Every dog of `after` comes from a dog of `before` that is related to it by
`R`. -/
def Evolves (R : Dog → Dog → Prop) (before after : List Dog) : Prop :=
  ∀ d' ∈ after, ∃ d ∈ before, R d d'

/-- The session `s'` has the map of `s` and its dogs come from dogs of `s`
related to them by `R`. -/
def SessionEvolves (R : Dog → Dog → Prop) (s s' : GameSession) : Prop :=
  s'.map_ = s.map_ ∧ Evolves R s.dogs_ s'.dogs_

/-- The session `s'` is the session `s` with some dogs taken out. -/
def SessionShrinks (s s' : GameSession) : Prop :=
  s'.map_ = s.map_ ∧ s'.dogs_.Sublist s.dogs_

end app

/-! ## Notions used to state that scores do not go down -/

namespace app

open model collision_detector

/-- The number of events of `events` whose item is a base and whose gatherer
belongs to dog number `di`. -/
def base_events (provider : VectorItemGathererProvider) (di : ℕ)
    (events : List GatheringEvent) : ℕ :=
  (events.filter (fun e =>
    decide (provider.GetDog e.gatherer_id = some di) && !provider.IsItemIdx e.item_id)).length

/-- The dog `d` on the map `m` can deposit `n` bags without its score wrapping:
the loot values of the map lie in `[0, V]`, the bag is within its capacity and
`score + n * bag_capacity * V < 2 ^ 64`. -/
def ScoreRoom (V : ℕ) (m : Map) (n : ℕ) (d : Dog) : Prop :=
  (∀ (k : ℕ) (v : ℤ), m.loot_types[k]? = some (some v) → 0 ≤ v ∧ v ≤ V) ∧
  d.bag.length ≤ d.bag_capacity ∧
  d.score + n * (d.bag_capacity * V) < 2 ^ 64

/-- The dog `d'` is the dog `d` (same id) with a score that is not lower. -/
def ScoreGrows (d d' : Dog) : Prop :=
  d'.id = d.id ∧ d.score ≤ d'.score

end app

namespace app

open model collision_detector

/-- The session `s'` is what one tick makes of the session `s`: some dogs of `s`
are taken out (retired after a session handled earlier), the three blocks of the
tick run once with the draw `draw`, and again some dogs are taken out. -/
def SessionTicked (max_idle_time dt : ℤ) (draw : LootDraw) (s s' : GameSession) : Prop :=
  ∃ s₁, SessionShrinks s s₁ ∧ SessionShrinks (tick_session max_idle_time draw dt s₁).1 s'

end app

namespace app

open model collision_detector

/-- Method `PlayerTokens::FindPlayerByToken`: the id of the player found. -/
def PlayerTokens.FindPlayerByToken (t : PlayerTokens) (token : String) : Option ℕ :=
  (t.token_to_player_.find? (fun e => e.1 == token)).map (fun e => e.2)

/-- The token under which `player_id_to_token_` holds the player, if any. -/
def PlayerTokens.token_of (t : PlayerTokens) (player_id : ℕ) : Option String :=
  (t.player_id_to_token_.find? (fun e => e.1 == player_id)).map (fun e => e.2)

/-- The `try` block of `RetirementListener::OnTick` for one expired dog: the
application afterwards and whether the block ran to its end, so that the dog is
erased from its session. -/
def retire_attempt (app : Application) (dog : Dog) : Application × Bool :=
  let r := app.database_.attempt dog
  let app1 := { app with database_ := r.1 }
  if r.2 then
    match app1.tokens_.RemoveToken dog.id with
    | none => (app1, false)
    | some tokens =>
      ({ app1 with tokens_ := tokens
                   players_ := app1.players_.filter (fun p => p.1 != dog.id) }, true)
  else (app1, false)

/-- The dogs of all sessions whose `idle_for` is at or above the max idle time,
in the order in which `RetirementListener::OnTick` meets them. -/
def expired_dogs (app : Application) : List Dog :=
  app.game_.sessions_.flatMap (fun s =>
    s.dogs_.filter (fun d => decide (d.idle_for ≥ app.game_.max_idle_time_)))

/-- The records saved for the dogs `dogs` with the UUIDs `uuid`, `uuid + 1`, ... -/
def retired_rows (uuid : ℕ) : List Dog → List RetiredDog
  | [] => []
  | d :: rest => ⟨uuid, d.name, to_int32 d.score, to_int32 d.age⟩ :: retired_rows (uuid + 1) rest

/-- The application after the dogs `dogs` have been retired one after the other
with a database that accepts every commit: one record per dog, and the players,
the tokens and the inverse token entries of these dogs taken out. -/
def Application.retired (app : Application) (dogs : List Dog) : Application :=
  { app with
    database_ :=
      { app.database_ with
        script := app.database_.script.drop dogs.length
        retired_players := app.database_.retired_players
          ++ retired_rows app.database_.next_uuid dogs
        next_uuid := app.database_.next_uuid + dogs.length }
    players_ := app.players_.filter (fun p => dogs.all (fun d => p.1 != d.id))
    tokens_ :=
      { token_to_player_ := app.tokens_.token_to_player_.filter (fun x =>
          dogs.all (fun d => app.tokens_.token_of d.id != some x.1))
        player_id_to_token_ := app.tokens_.player_id_to_token_.filter (fun x =>
          dogs.all (fun d => x.1 != d.id)) } }

end app

/-! ## Joining the game and player actions (app.cpp, model.cpp) -/

namespace model

/-- The update `it->second = f(it->second)` of the entry found by `find` in an
`unordered_map` kept as a list: the first entry that satisfies `p` is replaced. -/
def modify_first {α : Type} (p : α → Bool) (f : α → α) : List α → List α
  | [] => []
  | a :: l => if p a then f a :: l else a :: modify_first p f l

/-- Method `Game::FindMap`. -/
def Game.FindMap (g : Game) (id : String) : Option Map :=
  g.maps_.find? (fun m => m.id == id)

/-- Method `Game::GetSession`: `none` when the map is unknown; otherwise the game
afterwards (a session is created on the first call for a map, here at the end
of the list) and the session of the map. -/
def Game.GetSession (g : Game) (id : String) : Option (Game × GameSession) :=
  match g.FindMap id with
  | none => none
  | some m =>
    match g.sessions_.find? (fun s => s.map_.id == id) with
    | some s => some (g, s)
    | none => some ({ g with sessions_ := g.sessions_ ++ [⟨m, [], [], 0, 0⟩] }, ⟨m, [], [], 0, 0⟩)

/-- Method `GameSession::CreateDog` with the id taken from `Dog::id_counter_`:
the session afterwards and the dog returned (`emplace` keeps a dog that is
already stored under the id). -/
def GameSession.CreateDog (s : GameSession) (name : String) (pos : geom.Point2D) (id : ℕ) :
    GameSession × Dog :=
  match s.dogs_.find? (fun d => d.id == id) with
  | some d => (s, d)
  | none =>
    ({ s with dogs_ := s.dogs_ ++ [Dog.mk_new name pos ⟨0, 0⟩ s.map_.bag_capacity id] },
      Dog.mk_new name pos ⟨0, 0⟩ s.map_.bag_capacity id)

/-- The body of `Application::SetPlayerAction` on the dog of the player, with
the dog speed of the map of its session. -/
def Dog.SetAction (dog : Dog) (dog_speed : ℚ) (action : String) : Dog :=
  if action = "L" then
    { dog with is_idle := false, dir := Direction.WEST, vel := ⟨-dog_speed, 0⟩ }
  else if action = "R" then
    { dog with is_idle := false, dir := Direction.EAST, vel := ⟨dog_speed, 0⟩ }
  else if action = "U" then
    { dog with is_idle := false, dir := Direction.NORTH, vel := ⟨0, -dog_speed⟩ }
  else if action = "D" then
    { dog with is_idle := false, dir := Direction.SOUTH, vel := ⟨0, dog_speed⟩ }
  else { dog with is_idle := true, vel := ⟨0, 0⟩ }

end model

namespace app

open model collision_detector

/-- Method `PlayerTokens::AddTokenForPlayer`: `token_to_player_[token] = player`
overwrites an entry under the same token, `emplace` keeps an entry under the
same player id. -/
def PlayerTokens.AddTokenForPlayer (t : PlayerTokens) (token : String) (player_id : ℕ) :
    PlayerTokens :=
  { token_to_player_ :=
      if t.token_to_player_.any (fun e => e.1 == token) then
        modify_first (fun e => e.1 == token) (fun e => (e.1, player_id)) t.token_to_player_
      else t.token_to_player_ ++ [(token, player_id)]
    player_id_to_token_ :=
      if t.player_id_to_token_.any (fun e => e.1 == player_id) then t.player_id_to_token_
      else t.player_id_to_token_ ++ [(player_id, token)] }

/-- Method `Players::Add`: `emplace` keeps a player already stored under the id
of the dog. -/
def Players_Add (players : List (ℕ × Player)) (dog : Dog) (session : GameSession) :
    List (ℕ × Player) :=
  if players.any (fun p => p.1 == dog.id) then players
  else players ++ [(dog.id, ⟨session.map_.id, dog.id⟩)]

/-- What `Application::JoinGame` returns and leaves behind: the application, the
value of `Dog::id_counter_`, the id of the player and the token. -/
structure JoinResult where
  app : Application
  id_counter : ℕ
  player_id : ℕ
  token : String

/-- The starting position chosen by `Application::JoinGame`: with random spawns a
point of the road number `draw.1` at the coordinate `draw.2` drawn along it,
otherwise the start of the first road; `none` when there is no such road. -/
def spawn_point (random_spawns : Bool) (m : Map) (draw : ℕ × ℚ) : Option geom.Point2D :=
  if random_spawns then
    (m.roads[draw.1]?).map (fun road =>
      if road.IsHorizontal then ⟨draw.2, (road.GetStart.y : ℚ)⟩
      else ⟨(road.GetStart.x : ℚ), draw.2⟩)
  else m.roads.head?.map (fun road => ⟨(road.GetStart.x : ℚ), (road.GetStart.y : ℚ)⟩)

/-- Method `Application::JoinGame`.  `id_counter` is the value of the static
`Dog::id_counter_`, `draw` what the random source gives for the spawn point and
`token` the text returned by `GenerateToken`; `none` when the map is unknown
("null session") or has no road to spawn on. -/
def Application.JoinGame (app : Application) (id_counter : ℕ) (draw : ℕ × ℚ)
    (token map_id user_name : String) : Option JoinResult :=
  match app.game_.GetSession map_id with
  | none => none
  | some (game, session) =>
    match spawn_point app.random_spawns_ session.map_ draw with
    | none => none
    | some pos =>
      let r := session.CreateDog user_name pos id_counter
      some
        { app :=
            { app with
              game_ :=
                { game with
                  sessions_ :=
                    modify_first (fun s => s.map_.id == map_id) (fun _ => r.1) game.sessions_ }
              players_ := Players_Add app.players_ r.2 r.1
              tokens_ := app.tokens_.AddTokenForPlayer token r.2.id }
          id_counter := (id_counter + 1) % 2 ^ 64
          player_id := r.2.id
          token := token }

/-- Method `Application::SetPlayerAction` for the player given by the map id of
its session and the id of its dog. -/
def Application.SetPlayerAction (app : Application) (player : Player) (action : String) :
    Application :=
  { app with
    game_ :=
      { app.game_ with
        sessions_ :=
          modify_first (fun s => s.map_.id == player.session_id)
            (fun s =>
              { s with
                dogs_ :=
                  modify_first (fun d => d.id == player.dog_id)
                    (fun d => d.SetAction s.map_.dog_speed action) s.dogs_ })
            app.game_.sessions_ } }

/-- The application together with the static `Dog::id_counter_`. -/
structure World where
  app : Application
  id_counter : ℕ

/-- A call of the application: `JoinGame` (with what the random sources give),
`SetPlayerAction` or `Tick`. -/
inductive Command where
  | join (draw : ℕ × ℚ) (token map_id user_name : String)
  | action (player : Player) (move : String)
  | tick (fuel : ℕ) (draws : ℕ → LootDraw) (dt : ℤ)

/-- The state after one call; `none` when the call does not return normally
(`JoinGame` throws, the retirement loop of a tick runs out of fuel).  A tick that
an exception leaves has changed the state up to there. -/
def Command.run : Command → World → Option World
  | Command.join draw token map_id user_name, w =>
    (w.app.JoinGame w.id_counter draw token map_id user_name).map
      (fun r => ⟨r.app, r.id_counter⟩)
  | Command.action player move, w => some ⟨w.app.SetPlayerAction player move, w.id_counter⟩
  | Command.tick fuel draws dt, w =>
    (w.app.Tick fuel draws dt).map (fun r => ⟨r.1, w.id_counter⟩)

/-- The state after a sequence of calls. -/
def run_all : List Command → World → Option World
  | [], w => some w
  | c :: rest, w => (c.run w).bind (run_all rest)

end app

namespace model

/-- The invariant of the data model: the idle flag is set if and only if the
velocity is `(0, 0)`. -/
def Dog.IdleIffStopped (d : Dog) : Prop :=
  d.is_idle = true ↔ d.vel = ⟨0, 0⟩

end model

namespace app

open model collision_detector

/-- No map of the catalogue and no map of a session has the dog speed 0, and for
every dog of every session the idle flag is set if and only if the velocity is
`(0, 0)`. -/
def IdleInvariant (app : Application) : Prop :=
  (∀ m ∈ app.game_.maps_, m.dog_speed ≠ 0) ∧
  ∀ s ∈ app.game_.sessions_, s.map_.dog_speed ≠ 0 ∧ ∀ d ∈ s.dogs_, d.IdleIffStopped

end app

namespace app

open model collision_detector

/-- The token registry and the player registry are in bijection: the keys of the
three maps are pairwise different (they are `unordered_map`s), `token_to_player_`
and `player_id_to_token_` are inverse to each other, and the players with a
token are the registered players. -/
def RegistryBijection (players : List (ℕ × Player)) (tokens : PlayerTokens) : Prop :=
  (tokens.token_to_player_.map (fun e => e.1)).Nodup ∧
  (tokens.player_id_to_token_.map (fun e => e.1)).Nodup ∧
  (players.map (fun e => e.1)).Nodup ∧
  (∀ (t : String) (p : ℕ),
    (t, p) ∈ tokens.token_to_player_ ↔ (p, t) ∈ tokens.player_id_to_token_) ∧
  (∀ p : ℕ, p ∈ players.map (fun e => e.1) ↔ p ∈ tokens.player_id_to_token_.map (fun e => e.1))

/-- Along the sequence of calls, every `JoinGame` gets from `GenerateToken` a
token that is not registered at that moment, and `Dog::id_counter_` does not
wrap. -/
def FreshJoins : List Command → World → Prop
  | [], _ => True
  | c :: rest, w =>
    (match c with
      | Command.join _ token _ _ =>
        token ∉ w.app.tokens_.token_to_player_.map (fun e => e.1) ∧ w.id_counter + 1 < 2 ^ 64
      | _ => True) ∧
    ∀ w', c.run w = some w' → FreshJoins rest w'

end app

/-! ## Authorization of API requests (request_handler.cpp) -/

namespace http_handler

open app

/-- The class `httpException`: the HTTP status, the error code and the message. -/
structure httpException where
  status : ℕ
  code : String
  message : String
deriving DecidableEq, Repr

/-- Function `ParseAuthToken` on the value of the header `Authorization` (`none`
when the request has no such header); a `std::string_view` is the list of its
`char`s. -/
def ParseAuthToken (auth : Option (List Char)) : Except httpException String :=
  match auth with
  | none => Except.error ⟨401, "invalidToken", "Authorization header is missing"⟩
  | some a =>
    if !("Bearer ".toList.isPrefixOf a) || a.length != 39 then
      Except.error ⟨401, "invalidToken", "Authorization header is missing"⟩
    else Except.ok (String.mk (a.drop 7))

/-- Method `ApiHandler::AuthPlayer`: the id of the player found. -/
def AuthPlayer (tokens : PlayerTokens) (auth : Option (List Char)) : Except httpException ℕ :=
  match ParseAuthToken auth with
  | Except.error e => Except.error e
  | Except.ok token =>
    match tokens.FindPlayerByToken token with
    | none => Except.error ⟨401, "unknownToken", "Player token has not been found"⟩
    | some player => Except.ok player

/-- A hexadecimal character. -/
def is_hex (c : Char) : Bool :=
  c.isDigit || ('a' ≤ c && c ≤ 'f') || ('A' ≤ c && c ≤ 'F')

end http_handler

/-! ## The archive of a `DogRepr` (model_serialization.h) -/

namespace serialization

open model

/-- A value of a primitive type in a Boost archive.  The archive library is not
part of the sources; an archive is kept as the list of the values written to it,
and reading gives back the values written, in order. -/
inductive Datum where
  | size (n : ℕ)
  | text (s : String)
  | real (q : ℚ)
  | flag (b : Bool)
  | pairs (l : List (ℕ × ℕ))
deriving DecidableEq, Repr

/-- The enumerator value of a `model::Direction`. -/
def Direction_value : Direction → ℕ
  | Direction.NORTH => 0
  | Direction.SOUTH => 1
  | Direction.WEST => 2
  | Direction.EAST => 3

/-- The `model::Direction` with the enumerator value `n`. -/
def Direction_of_value : ℕ → Option Direction
  | 0 => some Direction.NORTH
  | 1 => some Direction.SOUTH
  | 2 => some Direction.WEST
  | 3 => some Direction.EAST
  | _ => none

namespace DogRepr

/-- Method `DogRepr::serialize` with an output archive: the fields in the order
`id_, name_, pos_, vel_, dir_, bag_capacity_, bag_, score_, age_, idle_for_,
is_idle_`, a point or vector as `x` then `y`. -/
def save (r : DogRepr) : List Datum :=
  [Datum.size r.id_, Datum.text r.name_, Datum.real r.pos_.x, Datum.real r.pos_.y,
    Datum.real r.vel_.x, Datum.real r.vel_.y, Datum.size (Direction_value r.dir_),
    Datum.size r.bag_capacity_, Datum.pairs r.bag_, Datum.size r.score_, Datum.size r.age_,
    Datum.size r.idle_for_, Datum.flag r.is_idle_]

/-- Method `DogRepr::serialize` with an input archive: the representation read
and the rest of the archive; `none` when the archive does not hold the values of
a `DogRepr` at this place. -/
def load : List Datum → Option (DogRepr × List Datum)
  | Datum.size id :: Datum.text name :: Datum.real px :: Datum.real py :: Datum.real vx ::
      Datum.real vy :: Datum.size dir :: Datum.size bag_capacity :: Datum.pairs bag ::
      Datum.size score :: Datum.size age :: Datum.size idle_for :: Datum.flag is_idle :: rest =>
    (Direction_of_value dir).map (fun d =>
      (⟨id, name, ⟨px, py⟩, ⟨vx, vy⟩, d, bag_capacity, bag, score, age, idle_for, is_idle⟩,
        rest))
  | _ => none

end DogRepr

end serialization

/-! ## Saving and restoring the application (model_serialization.h / .cpp) -/

namespace model

/-- Method `GameSession::AddDog`: `emplace` keeps a dog that is already stored
under the id. -/
def GameSession.AddDog (s : GameSession) (dog : Dog) : GameSession :=
  if s.dogs_.any (fun d => d.id == dog.id) then s else { s with dogs_ := s.dogs_ ++ [dog] }

/-- Method `GameSession::GetDogById`. -/
def GameSession.GetDogById (s : GameSession) (id : ℕ) : Option Dog :=
  s.dogs_.find? (fun d => d.id == id)

/-- Method `Game::FindSession`. -/
def Game.FindSession (g : Game) (id : String) : Option GameSession :=
  g.sessions_.find? (fun s => s.map_.id == id)

/-- Method `Game::AddSession`: `emplace` keeps a session that is already stored
under the map id. -/
def Game.AddSession (g : Game) (session : GameSession) : Game :=
  if g.sessions_.any (fun s => s.map_.id == session.map_.id) then g
  else { g with sessions_ := g.sessions_ ++ [session] }

end model

namespace app

open model

/-- Method `Players::FindPlayerById`. -/
def FindPlayerById (players : List (ℕ × Player)) (id : ℕ) : Option Player :=
  (players.find? (fun p => p.1 == id)).map (fun p => p.2)

end app

namespace serialization

open model app

/-- The class `LootGeneratorRepr`: the count of `GetTimeWithoutLoot()` kept in
a `size_t`. -/
structure LootGeneratorRepr where
  time_without_loot_ : ℕ
deriving DecidableEq, Repr

/-- Constructor `LootGeneratorRepr(const loot_gen::LootGenerator&)` on the
loot generator of the session. -/
def LootGeneratorRepr.of_session (s : GameSession) : LootGeneratorRepr :=
  ⟨to_size_t s.time_without_loot_⟩

/-- Method `LootGeneratorRepr::Restore`: `SetTimeWithoutLoot` on the loot
generator of the session. -/
def LootGeneratorRepr.Restore (r : LootGeneratorRepr) (s : GameSession) : GameSession :=
  { s with time_without_loot_ := to_int64 r.time_without_loot_ }

/-- The class `GameSessionRepr`. -/
structure GameSessionRepr where
  map_id_ : String
  dogs_repr_ : List DogRepr
  loot_map_repr_ : List (ℕ × (ℕ × geom.Point2D))
  loot_gen_repr_ : LootGeneratorRepr
  loot_id_ : ℕ
deriving Repr

namespace GameSessionRepr

/-- Constructor `GameSessionRepr(const model::GameSession&)`. -/
def of_session (s : GameSession) : GameSessionRepr :=
  { map_id_ := s.map_.id, dogs_repr_ := s.dogs_.map DogRepr.of_dog,
    loot_map_repr_ := s.loot_map_, loot_gen_repr_ := LootGeneratorRepr.of_session s,
    loot_id_ := s.loot_id_ }

/-- The loop of `GameSessionRepr::Restore` over `dogs_repr_`: `none` when a
`DogRepr::Restore` throws. -/
def restore_dogs : List DogRepr → GameSession → Option GameSession
  | [], s => some s
  | r :: rest, s =>
    match r.Restore with
    | none => none
    | some dog => restore_dogs rest (s.AddDog dog)

/-- Method `GameSessionRepr::Restore`: `none` when it throws ("Map not found",
or the exception of a `DogRepr::Restore`). -/
def Restore (r : GameSessionRepr) (app : Application) : Option GameSession :=
  match app.game_.FindMap r.map_id_ with
  | none => none
  | some m =>
    match restore_dogs r.dogs_repr_ ⟨m, [], [], 0, 0⟩ with
    | none => none
    | some s1 =>
      let s2 := r.loot_map_repr_.foldl (fun s e => s.AddLoot e.2 e.1) s1
      let s3 := r.loot_gen_repr_.Restore s2
      some { s3 with loot_id_ := r.loot_id_ }

end GameSessionRepr

/-- The class `GameRepr`. -/
structure GameRepr where
  sessions_repr_ : List GameSessionRepr
deriving Repr

namespace GameRepr

/-- Constructor `GameRepr(const model::Game&)`. -/
def of_game (g : Game) : GameRepr :=
  ⟨g.sessions_.map GameSessionRepr.of_session⟩

/-- The loop of `GameRepr::Restore`: `none` when a `GameSessionRepr::Restore`
throws. -/
def restore_sessions : List GameSessionRepr → Application → Option Application
  | [], app => some app
  | r :: rest, app =>
    match r.Restore app with
    | none => none
    | some s => restore_sessions rest { app with game_ := app.game_.AddSession s }

/-- Method `GameRepr::Restore`. -/
def Restore (r : GameRepr) (app : Application) : Option Application :=
  restore_sessions r.sessions_repr_ app

end GameRepr

/-- The class `PlayerRepr`. -/
structure PlayerRepr where
  session_id_ : String
  dog_id_ : ℕ
deriving DecidableEq, Repr

namespace PlayerRepr

/-- Constructor `PlayerRepr(const model::Player&)`: the map id of the session
and the id of the dog. -/
def of_player (p : Player) : PlayerRepr :=
  ⟨p.session_id, p.dog_id⟩

/-- Method `PlayerRepr::Restore`: `none` when it throws ("Session not found",
"Dog not found"). -/
def Restore (r : PlayerRepr) (app : Application) : Option Player :=
  match app.game_.FindSession r.session_id_ with
  | none => none
  | some session =>
    match session.GetDogById r.dog_id_ with
    | none => none
    | some dog => some ⟨session.map_.id, dog.id⟩

end PlayerRepr

/-- The class `PlayersRepr`. -/
structure PlayersRepr where
  players_repr_ : List PlayerRepr
deriving DecidableEq, Repr

namespace PlayersRepr

/-- Constructor `PlayersRepr(const app::Players&)`. -/
def of_players (players : List (ℕ × Player)) : PlayersRepr :=
  ⟨players.map (fun e => PlayerRepr.of_player e.2)⟩

/-- The loop of `PlayersRepr::Restore`: each player restored is put under its
id, the id of its dog, with `emplace`; `none` when a `PlayerRepr::Restore`
throws. -/
def restore_players : List PlayerRepr → Application → Option Application
  | [], app => some app
  | r :: rest, app =>
    match r.Restore app with
    | none => none
    | some player =>
      restore_players rest
        { app with
          players_ :=
            if app.players_.any (fun p => p.1 == player.dog_id) then app.players_
            else app.players_ ++ [(player.dog_id, player)] }

/-- Method `PlayersRepr::Restore`. -/
def Restore (r : PlayersRepr) (app : Application) : Option Application :=
  restore_players r.players_repr_ app

end PlayersRepr

/-- The class `PlayerTokensRepr`. -/
structure PlayerTokensRepr where
  token_to_player_repr_ : List (String × ℕ)
deriving DecidableEq, Repr

namespace PlayerTokensRepr

/-- Constructor `PlayerTokensRepr(const app::PlayerTokens&)`: for each entry of
`token_to_player_` the token and the id of the player. -/
def of_tokens (t : PlayerTokens) : PlayerTokensRepr :=
  ⟨t.token_to_player_⟩

/-- The loop of `PlayerTokensRepr::Restore`: `none` when it throws ("Player not
found for token during deserialization"). -/
def restore_tokens : List (String × ℕ) → Application → Option Application
  | [], app => some app
  | e :: rest, app =>
    match FindPlayerById app.players_ e.2 with
    | none => none
    | some player =>
      restore_tokens rest
        { app with tokens_ := app.tokens_.AddTokenForPlayer e.1 player.dog_id }

/-- Method `PlayerTokensRepr::Restore`. -/
def Restore (r : PlayerTokensRepr) (app : Application) : Option Application :=
  restore_tokens r.token_to_player_repr_ app

end PlayerTokensRepr

/-- The class `ApplicationRepr`. -/
structure ApplicationRepr where
  game_repr_ : GameRepr
  players_repr_ : PlayersRepr
  player_tokens_repr_ : PlayerTokensRepr
deriving Repr

namespace ApplicationRepr

/-- Constructor `ApplicationRepr(const app::Application&)`. -/
def of_app (app : Application) : ApplicationRepr :=
  { game_repr_ := GameRepr.of_game app.game_
    players_repr_ := PlayersRepr.of_players app.players_
    player_tokens_repr_ := PlayerTokensRepr.of_tokens app.tokens_ }

/-- Method `ApplicationRepr::Restore`: the game, then the players, then the
tokens; `none` when one of the three throws.  `Dog::id_counter_` is not
touched: the dogs are built with the ids read. -/
def Restore (r : ApplicationRepr) (app : Application) : Option Application :=
  match r.game_repr_.Restore app with
  | none => none
  | some app1 =>
    match r.players_repr_.Restore app1 with
    | none => none
    | some app2 => r.player_tokens_repr_.Restore app2

end ApplicationRepr

end serialization

/-! ## Notions used to state the properties of saved states -/

namespace serialization

open model app

/-- The dog respects the invariants of `model::Dog`: the bag holds at most
`bag_capacity` entries, and the clocks are 64-bit millisecond counts. -/
def DogSaveable (d : Dog) : Prop :=
  d.bag.length ≤ d.bag_capacity ∧ (-2 ^ 63 ≤ d.age ∧ d.age < 2 ^ 63) ∧
    (-2 ^ 63 ≤ d.idle_for ∧ d.idle_for < 2 ^ 63)

/-- The session respects the invariants of `model::GameSession` in the game
`g`: its map is the map of the catalogue with that id (`map_` points into the
catalogue), the keys of `dogs_` and of `loot_map_` are pairwise different (they
are `unordered_map`s), no loot is stored under the id 0 (the ids handed out by
`++loot_id_` start at 1), every dog respects its invariants and the time
without loot is a 64-bit millisecond count. -/
def SessionSaveable (g : Game) (s : GameSession) : Prop :=
  g.FindMap s.map_.id = some s.map_ ∧
  (s.dogs_.map (fun d => d.id)).Nodup ∧ (∀ d ∈ s.dogs_, DogSaveable d) ∧
  (s.loot_map_.map (fun e => e.1)).Nodup ∧ (∀ e ∈ s.loot_map_, e.1 ≠ 0) ∧
  (-2 ^ 63 ≤ s.time_without_loot_ ∧ s.time_without_loot_ < 2 ^ 63)

/-- The application state respects the invariants of its data structures: the
keys of `map_id_to_session_`, `players_` and `token_to_player_` are pairwise
different (they are `unordered_map`s), every session respects its invariants,
every player is stored under the id of its dog and its session and dog (the
targets of its two pointers) are a session of the game and a dog of that
session, and every token belongs to a registered player. -/
def Saveable (app : Application) : Prop :=
  (app.game_.sessions_.map (fun s => s.map_.id)).Nodup ∧
  (∀ s ∈ app.game_.sessions_, SessionSaveable app.game_ s) ∧
  (app.players_.map (fun e => e.1)).Nodup ∧
  (∀ e ∈ app.players_, e.1 = e.2.dog_id ∧
    ∃ s ∈ app.game_.sessions_, s.map_.id = e.2.session_id ∧ ∃ d ∈ s.dogs_, d.id = e.2.dog_id) ∧
  (app.tokens_.token_to_player_.map (fun e => e.1)).Nodup ∧
  (∀ e ∈ app.tokens_.token_to_player_, e.2 ∈ app.players_.map (fun e => e.1))

end serialization

/-! ## `Map::MoveDog` in binary64 arithmetic (model.cpp) -/

namespace model

namespace binary64

/-- The integer nearest to `q`, the even one of the two when `q` lies halfway. -/
def round_even (q : ℚ) : ℤ :=
  if q - ⌊q⌋ < 1 / 2 then ⌊q⌋
  else if 1 / 2 < q - ⌊q⌋ then ⌊q⌋ + 1
  else if ⌊q⌋ % 2 = 0 then ⌊q⌋ else ⌊q⌋ + 1

/-- The power `2 ^ k` for an integer `k`. -/
def pow2 (k : ℤ) : ℚ :=
  if 0 ≤ k then ((2 ^ k.toNat : ℕ) : ℚ) else 1 / ((2 ^ (-k).toNat : ℕ) : ℚ)

/-- The number of halvings that take `n` below 2, i.e. `⌊log₂ n⌋` for `n ≥ 1`;
`fuel` bounds the number of steps. -/
def halvings : ℕ → ℕ → ℕ
  | 0, _ => 0
  | fuel + 1, n => if n < 2 then 0 else halvings fuel (n / 2) + 1

/-- The exponent of `q ≠ 0`: the integer `e` with `2 ^ e ≤ |q| < 2 ^ (e + 1)`, found
from the bit lengths of the numerator and the denominator. -/
def exponent (q : ℚ) : ℤ :=
  if pow2 ((halvings q.num.natAbs q.num.natAbs : ℤ) - (halvings q.den q.den : ℤ)) ≤ |q| then
    (halvings q.num.natAbs q.num.natAbs : ℤ) - (halvings q.den q.den : ℤ)
  else (halvings q.num.natAbs q.num.natAbs : ℤ) - (halvings q.den q.den : ℤ) - 1

/-- The `double` nearest to the real number `q`: a 53-bit significand, round to
nearest, ties to even.  Overflow and subnormal numbers are not modelled; the
values of `Map::MoveDog` are far from both. -/
def round (q : ℚ) : ℚ :=
  if q = 0 then 0
  else (round_even (q / pow2 (exponent q - 52)) : ℚ) * pow2 (exponent q - 52)

/-- Constant `allowance` of `Map::MoveDog`: the `double` written `0.4`. -/
def allowance : ℚ := round (4 / 10)

/-- Constant `eps` of `Map::MoveDog`: the `double` written `1e-6`. -/
def eps : ℚ := round (1 / 1000000)

/-- Constant `millis_per_second` of `Map::MoveDog`. -/
def millis_per_second : ℚ := 1000

/-- The lambda `move_axis` of `Map::MoveDog` with every arithmetic operation on
`double`s rounded: the product `vel * dt`, the sum `pos + d`, the difference
`target - curr` and the sum `curr + diff`.  The conversion of `cell` to `double`
is exact. -/
def move_axis (grid : RoadGrid) (dt pos vel : ℚ) (cell : ℤ)
    (is_on_axis offset_out_of_range : Bool) (fixed_coord : ℤ) (is_x_axis : Bool) :
    Map.AxisMove :=
  if vel ≠ 0 then
    let d := round (vel * dt)
    let target := round (pos + d)
    let target_cell := std_round target
    let step : ℤ := if d > 0 then 1 else -1
    let cant_move_along_axis := offset_out_of_range && is_on_axis
    let cell1 :=
      if !cant_move_along_axis then
        Map.walk_loop grid is_x_axis fixed_coord step target_cell (target_cell - cell).natAbs cell
      else cell
    let curr : ℚ := cell1
    let diff := round (target - curr)
    let diff_step : ℤ := if diff > 0 then 1 else -1
    let is_road_ahead := grid.ContainsRoad (Map.cellAt is_x_axis (cell1 + diff_step) fixed_coord)
    if step = diff_step ∧ (cant_move_along_axis = true ∨ is_road_ahead = false)
        ∧ |diff| > allowance then
      ⟨round (curr + std_clamp diff (-allowance) allowance), cell1, true⟩
    else
      ⟨round (curr + diff), cell1, false⟩
  else
    ⟨pos, cell, false⟩

/-- Method `Map::MoveDog` in binary64 arithmetic: what the program computes for a
dog whose coordinates and velocity are `double`s.  `Map.MoveDog` is the same
method in exact arithmetic. -/
def MoveDog (m : Map) (dog : Dog) (delta_ms : ℤ) : Dog :=
  let grid := m.road_grid
  let dt : ℚ := round (round (delta_ms : ℚ) / millis_per_second)
  let currentPos := dog.pos
  let velocity := dog.vel
  let cell_x := std_round currentPos.x
  let cell_y := std_round currentPos.y
  let is_on_vertical :=
    grid.ContainsRoad ⟨cell_x, cell_y + 1⟩ || grid.ContainsRoad ⟨cell_x, cell_y - 1⟩
  let is_on_horizontal :=
    grid.ContainsRoad ⟨cell_x + 1, cell_y⟩ || grid.ContainsRoad ⟨cell_x - 1, cell_y⟩
  let y_offset_out_of_range : Bool :=
    decide (|round (currentPos.y - cell_y)| > round (allowance + eps))
  let x_offset_out_of_range : Bool :=
    decide (|round (currentPos.x - cell_x)| > round (allowance + eps))
  let mx := move_axis grid dt currentPos.x velocity.x cell_x is_on_vertical
    y_offset_out_of_range cell_y true
  let my := move_axis grid dt currentPos.y velocity.y cell_y is_on_horizontal
    x_offset_out_of_range mx.cell false
  let stopped := mx.stopped || my.stopped
  { dog with
    pos := ⟨mx.pos, my.pos⟩
    vel := if stopped then ⟨0, 0⟩ else dog.vel
    is_idle := if stopped then true else dog.is_idle }

end binary64

end model

/-! ## Relations that follow the dogs of a session through a tick -/

namespace app

open model collision_detector

/-- Every dog of `before` has a dog in `after` that is related to it by `R`. -/
def Continues (R : Dog → Dog → Prop) (before after : List Dog) : Prop :=
  ∀ d ∈ before, ∃ d' ∈ after, R d d'

/-- The session `s'` still holds every dog of the session `s` whose `idle_for`
is below `max_idle_time`. -/
def SessionKeeps (max_idle_time : ℤ) (s s' : GameSession) : Prop :=
  ∀ d ∈ s.dogs_, d.idle_for < max_idle_time → d ∈ s'.dogs_

/-- The session `s'` is what one tick makes of the session `s` when only dogs
with `idle_for` at or above `max_idle_time` are taken out: the three blocks of
the tick run once with the draw `draw` on a session that still holds the other
dogs of `s`, and `s'` still holds the dogs that they leave with `idle_for` below
`max_idle_time`. -/
def SessionTickedLive (max_idle_time dt : ℤ) (draw : LootDraw) (s s' : GameSession) : Prop :=
  ∃ s₁, SessionKeeps max_idle_time s s₁ ∧
    SessionKeeps max_idle_time (tick_session max_idle_time draw dt s₁).1 s'

end app

/-! ## Scenario data -/

namespace scenario

open model

/-- A map with the given roads, loot types and bases (dog speed 1, bag capacity 3). -/
def map_of (roads : List Road) (loot_types : List (Option ℤ))
    (bases : List collision_detector.Item) : Map :=
  { id := "map1", name := "Map 1", roads := roads, loot_types := loot_types, bases := bases,
    dog_speed := 1, bag_capacity := 3 }

/-- A moving (not idle) dog at `pos` with velocity `vel`, bag capacity 3. -/
def moving_dog (pos : geom.Point2D) (vel : geom.Vec2D) : Dog :=
  { Dog.mk_new "Pluto" pos vel 3 0 with is_idle := false }

/-- The single road `(0,0)-(10,0)`. -/
def one_road : Map := map_of [Road.HORIZONTAL ⟨0, 0⟩ 10] [] []

/-- The crossing roads `(0,0)-(10,0)` and `(5,0)-(5,10)`. -/
def crossing : Map := map_of [Road.HORIZONTAL ⟨0, 0⟩ 10, Road.VERTICAL ⟨5, 0⟩ 10] [] []

/-- Two parallel vertical roads `(0,0)-(0,10)` and `(1,0)-(1,10)`. -/
def parallel_roads : Map := map_of [Road.VERTICAL ⟨0, 0⟩ 10, Road.VERTICAL ⟨1, 0⟩ 10] [] []

/-- A corner: the roads `(0,0)-(1,0)` and `(0,0)-(0,5)`. -/
def corner : Map := map_of [Road.HORIZONTAL ⟨0, 0⟩ 1, Road.VERTICAL ⟨0, 0⟩ 5] [] []

/-- A dog with the given bag capacity, bag and score, standing at the origin. -/
def bag_dog (bag_capacity : ℕ) (bag : List (ℕ × ℕ)) (score : ℕ) : Dog :=
  { Dog.mk_new "Pluto" ⟨0, 0⟩ ⟨0, 0⟩ bag_capacity 0 with bag := bag, score := score }

/-- Loot pickup: the loot item 1 of type 0 at `(5, 0)`. -/
def pickup_loot : List (ℕ × (ℕ × geom.Point2D)) := [(1, (0, ⟨5, 0⟩))]

/-- Loot pickup: the gatherer of dog 0 moving from `(4, 0)` to `(6, 0)`. -/
def pickup_gatherers : List (ℕ × collision_detector.Gatherer) :=
  [(0, ⟨⟨4, 0⟩, ⟨6, 0⟩, 6 / 10⟩)]

/-- Loot pickup: the event of item 0 and gatherer 0 at time `0.5`. -/
def pickup_event : collision_detector.GatheringEvent := ⟨0, 0, 0, 1 / 2⟩

/-- Full bag: the loot item 7 of type 0 at `(2, 0)`. -/
def full_bag_loot : List (ℕ × (ℕ × geom.Point2D)) := [(7, (0, ⟨2, 0⟩))]

/-- Full bag: the gatherer of dog 0 moving from `(1, 0)` to `(3, 0)`. -/
def full_bag_gatherers : List (ℕ × collision_detector.Gatherer) :=
  [(0, ⟨⟨1, 0⟩, ⟨3, 0⟩, 6 / 10⟩)]

/-- Base deposit: a map with loot types of value 10 and 5 and a base at `(3, 3)`. -/
def deposit_map : Map :=
  map_of [Road.HORIZONTAL ⟨0, 3⟩ 10] [some 10, some 5] [⟨⟨3, 3⟩, 5 / 10⟩]

/-- Base deposit: the gatherer of dog 0 moving from `(2, 3)` to `(4, 3)`. -/
def deposit_gatherers : List (ℕ × collision_detector.Gatherer) :=
  [(0, ⟨⟨2, 3⟩, ⟨4, 3⟩, 6 / 10⟩)]

/-- A map whose only loot type has the value `-5`, with a base at `(3, 3)`. -/
def negative_value_map : Map :=
  map_of [Road.HORIZONTAL ⟨0, 3⟩ 10] [some (-5)] [⟨⟨3, 3⟩, 5 / 10⟩]

end scenario

namespace scenario

open model

/-- A dog on the move at `(2, 3)` with velocity `(1, 0)`, bag capacity 3 and the
given bag and score. -/
def walker (bag : List (ℕ × ℕ)) (score : ℕ) : Dog :=
  { Dog.mk_new "Pluto" ⟨2, 3⟩ ⟨1, 0⟩ 3 0 with bag := bag, score := score, is_idle := false }

/-- The dog `walker` after a tick of 2000 ms that took it over a base. -/
def walker_after (bag : List (ℕ × ℕ)) (score : ℕ) : Dog :=
  { walker bag score with pos := ⟨4, 3⟩, age := 2000 }

/-- An application with one session on the map `m` with the dogs `dogs`, no loot,
the retirement listener and a database that accepts every commit; dogs retire
after 60000 ms of idleness. -/
def application_of (m : Map) (dogs : List Dog) : app.Application :=
  { game_ :=
      { maps_ := [m], sessions_ := [⟨m, dogs, [], 0, 0⟩], default_dog_speed_ := 1,
        loot_gen_interval_ := 5000, loot_gen_prob_ := 1 / 2, default_bag_capacity_ := 3,
        max_idle_time_ := 60000 }
    players_ := []
    tokens_ := ⟨[], []⟩
    random_spawns_ := false
    listeners_ := [app.Listener.retirement]
    database_ := ⟨[], app.DbOutcome.ok, [], 0⟩ }

/-- The loot generator produces nothing. -/
def no_loot : ℕ → app.LootDraw := fun _ => ⟨0, []⟩

/-- The dogs of every session of the application after a tick, with the flag that
an exception left the tick. -/
def dogs_after (r : Option (app.Application × Bool)) : Option (List (List Dog) × Bool) :=
  r.map (fun p => (p.1.game_.sessions_.map (fun s => s.dogs_), p.2))

end scenario

namespace scenario

/-- Two loot items supplied in the order far, near: item 0 at `(7, 0)` and item
1 at `(2, 0)`, on the path of the gatherer of dog 0 from `(0, 0)` to `(10, 0)`. -/
def far_near_provider : app.VectorItemGathererProvider :=
  app.VectorItemGathererProvider.create [(1, (0, ⟨7, 0⟩)), (2, (0, ⟨2, 0⟩))] []
    [(0, ⟨⟨0, 0⟩, ⟨10, 0⟩, 6 / 10⟩)]

end scenario

namespace scenario

open model

/-- A dog that has been idle for 70000 ms, standing at `(3, 3)`, on the base,
with the bag `[(1, 0)]`. -/
def sleeper : Dog :=
  { Dog.mk_new "Goofy" ⟨3, 3⟩ ⟨0, 0⟩ 3 1 with bag := [(1, 0)], age := 90000, idle_for := 70000 }

/-- A session on the map of the deposit scenario with the expired dog `sleeper`
and a walker. -/
def sleeper_session : GameSession :=
  ⟨deposit_map, [sleeper, walker [] 0], [], 0, 0⟩

end scenario

namespace scenario

open model

/-- A dog that has been idle for 1200 ms, with score 30 and age 5000 ms. -/
def retiree : Dog :=
  { Dog.mk_new "Rex" ⟨0, 0⟩ ⟨0, 0⟩ 3 7 with score := 30, age := 5000, idle_for := 1200 }

/-- A dog that has been idle for 200 ms. -/
def stayer : Dog :=
  { Dog.mk_new "Pluto" ⟨4, 0⟩ ⟨0, 0⟩ 3 8 with score := 12, age := 900, idle_for := 200 }

/-- The retirement scenario: max idle time 1000 ms, one session with the dogs
`retiree` (expired) and `stayer`, both with a player and a token, and a database
that answers the coming attempts with `script` and all later ones with `rest`. -/
def retirement_app (script : List app.DbOutcome) (rest : app.DbOutcome) : app.Application :=
  { game_ :=
      { maps_ := [one_road], sessions_ := [⟨one_road, [retiree, stayer], [], 0, 0⟩],
        default_dog_speed_ := 1, loot_gen_interval_ := 5000, loot_gen_prob_ := 1 / 2,
        default_bag_capacity_ := 3, max_idle_time_ := 1000 }
    players_ := [(7, ⟨"map1", 7⟩), (8, ⟨"map1", 8⟩)]
    tokens_ :=
      { token_to_player_ :=
          [("0123456789abcdef0123456789abcdef", 7), ("fedcba9876543210fedcba9876543210", 8)]
        player_id_to_token_ :=
          [(7, "0123456789abcdef0123456789abcdef"), (8, "fedcba9876543210fedcba9876543210")] }
    random_spawns_ := false
    listeners_ := [app.Listener.retirement]
    database_ := ⟨script, rest, [], 0⟩ }

end scenario

namespace scenario

open model

/-- An application that has just been started: the map catalogue `maps`, no
session, no player, the retirement listener and a healthy database. -/
def fresh_app (maps : List Map) : app.Application :=
  { game_ :=
      { maps_ := maps, sessions_ := [], default_dog_speed_ := 1, loot_gen_interval_ := 5000,
        loot_gen_prob_ := 1 / 2, default_bag_capacity_ := 3, max_idle_time_ := 60000 }
    players_ := []
    tokens_ := ⟨[], []⟩
    random_spawns_ := false
    listeners_ := [app.Listener.retirement]
    database_ := ⟨[], app.DbOutcome.ok, [], 0⟩ }

/-- The single road `(0,0)-(10,0)` on a map with dog speed 0. -/
def still_map : Map :=
  { id := "map1", name := "Map 1", roads := [Road.HORIZONTAL ⟨0, 0⟩ 10], loot_types := [],
    bases := [], dog_speed := 0, bag_capacity := 3 }

/-- A player joins the map `map1` and asks to move right. -/
def join_and_move : List app.Command :=
  [app.Command.join (0, 0) "0123456789abcdef0123456789abcdef" "map1" "Pluto",
    app.Command.action ⟨"map1", 0⟩ "R"]

/-- The idle flag and the velocity of every dog of every session. -/
def idle_and_velocity (w : Option app.World) : Option (List (List (Bool × geom.Vec2D))) :=
  w.map (fun w => w.app.game_.sessions_.map (fun s => s.dogs_.map (fun d => (d.is_idle, d.vel))))

end scenario

namespace scenario

open model

/-- Two players join the map `map1` with different tokens. -/
def two_joins : List app.Command :=
  [app.Command.join (0, 0) "0123456789abcdef0123456789abcdef" "map1" "Pluto",
    app.Command.join (0, 0) "fedcba9876543210fedcba9876543210" "map1" "Goofy"]

/-- The registries of the application. -/
def registries (w : Option app.World) :
    Option (List (ℕ × Player) × app.PlayerTokens) :=
  w.map (fun w => (w.app.players_, w.app.tokens_))

end scenario

namespace scenario

/-- An `Authorization` value with 32 characters after `"Bearer "` that are not
hexadecimal. -/
def not_hex_auth : List Char := "Bearer zzzzzzzzzzzzzzzzzzzzzzzzzzzzzzzz".toList

/-- An `Authorization` value with 32 hexadecimal characters after `"Bearer "`. -/
def hex_auth : List Char := "Bearer 0123456789abcdef0123456789abcdef".toList

end scenario

namespace scenario

open model

/-- The dog of the serialization test: "Pluto" at `(42.2, 12.5)`, id 42, bag
capacity 3, score 42, bag `[(10, 2)]`, direction EAST, velocity `(2.3, -1.2)`. -/
def pluto : Dog :=
  { Dog.mk_new "Pluto" ⟨422 / 10, 125 / 10⟩ ⟨0, 0⟩ 3 42 with
    score := 42, bag := [(10, 2)], dir := Direction.EAST, vel := ⟨23 / 10, -12 / 10⟩ }

end scenario

namespace scenario

open model

/-- The road `(0,0)-(10,0)` with one loot type of value 10. -/
def loot_road : Map := map_of [Road.HORIZONTAL ⟨0, 0⟩ 10] [some 10] []

/-- Two dogs on the move with empty bags of capacity 3: dog 0 at `(4, 0)` walking
east and dog 1 at `(6, 0)` walking west, both with speed 1. -/
def twins : List Dog :=
  [{ Dog.mk_new "Pluto" ⟨4, 0⟩ ⟨1, 0⟩ 3 0 with is_idle := false, dir := Direction.EAST },
   { Dog.mk_new "Goofy" ⟨6, 0⟩ ⟨-1, 0⟩ 3 1 with is_idle := false, dir := Direction.WEST }]

/-- The two dogs after a tick of 2000 ms in which each of them has passed the
point `(5, 0)`, with the bags given. -/
def twins_after (bag0 bag1 : List (ℕ × ℕ)) : List Dog :=
  [{ Dog.mk_new "Pluto" ⟨6, 0⟩ ⟨1, 0⟩ 3 0 with
      is_idle := false, dir := Direction.EAST, age := 2000, bag := bag0 },
   { Dog.mk_new "Goofy" ⟨4, 0⟩ ⟨-1, 0⟩ 3 1 with
      is_idle := false, dir := Direction.WEST, age := 2000, bag := bag1 }]

/-- The session of the two dogs with the one loot item 1 of type 0 at `(5, 0)`
between them. -/
def twins_session : GameSession := ⟨loot_road, twins, pickup_loot, 0, 1⟩

end scenario

namespace scenario

open model

/-- A second map, `map2`, with the single road `(0,0)-(0,10)`. -/
def map_two : Map :=
  { id := "map2", name := "Map 2", roads := [Road.VERTICAL ⟨0, 0⟩ 10], loot_types := [],
    bases := [], dog_speed := 1, bag_capacity := 3 }

/-- An application with one session without dogs and loot on each of the maps
`maps`, and the two listeners registered by `main`: the serializing listener
(with the given `time_since_last_save_` and `save_interval_`, no `SaveState`
call yet) and the retirement listener. -/
def saving_app (maps : List Map) (time_since_last_save save_interval : ℤ) : app.Application :=
  { game_ :=
      { maps_ := maps, sessions_ := maps.map (fun m => ⟨m, [], [], 0, 0⟩),
        default_dog_speed_ := 1, loot_gen_interval_ := 5000, loot_gen_prob_ := 1 / 2,
        default_bag_capacity_ := 3, max_idle_time_ := 60000 }
    players_ := []
    tokens_ := ⟨[], []⟩
    random_spawns_ := false
    listeners_ := [app.Listener.serializing time_since_last_save save_interval 0,
      app.Listener.retirement]
    database_ := ⟨[], app.DbOutcome.ok, [], 0⟩ }

/-- The listeners after a tick, with the flag that an exception left the tick. -/
def listeners_after (r : Option (app.Application × Bool)) : Option (List app.Listener × Bool) :=
  r.map (fun r => (r.1.listeners_, r.2))

end scenario

namespace scenario

open model serialization

/-- A state to be saved: on the map `loot_road` a session with the dog `pluto`
(id 42), the loot item 1 at `(5, 0)`, 1500 ms without loot and the next loot id
1; the player 42 with its token. -/
def saved_app : app.Application :=
  { game_ :=
      { maps_ := [loot_road], sessions_ := [⟨loot_road, [pluto], pickup_loot, 1500, 1⟩],
        default_dog_speed_ := 1, loot_gen_interval_ := 5000, loot_gen_prob_ := 1 / 2,
        default_bag_capacity_ := 3, max_idle_time_ := 60000 }
    players_ := [(42, ⟨"map1", 42⟩)]
    tokens_ := ⟨[("0123456789abcdef0123456789abcdef", 42)],
      [(42, "0123456789abcdef0123456789abcdef")]⟩
    random_spawns_ := false
    listeners_ := [app.Listener.retirement]
    database_ := ⟨[], app.DbOutcome.ok, [], 0⟩ }

/-- A state file in which the dog 0 on the map `map1` has two bag entries and
the bag capacity 1; it names no player and no token. -/
def overfull_repr : ApplicationRepr :=
  { game_repr_ :=
      ⟨[{ map_id_ := "map1"
          dogs_repr_ := [DogRepr.of_dog (bag_dog 1 [(1, 0), (2, 0)] 0)]
          loot_map_repr_ := [], loot_gen_repr_ := ⟨0⟩, loot_id_ := 2 }]⟩
    players_repr_ := ⟨[]⟩
    player_tokens_repr_ := ⟨[]⟩ }

/-- A state file without sessions and players whose one token names the
player 7. -/
def orphan_token_repr : ApplicationRepr :=
  { game_repr_ := ⟨[]⟩
    players_repr_ := ⟨[]⟩
    player_tokens_repr_ := ⟨[("0123456789abcdef0123456789abcdef", 7)]⟩ }

/-- The first run of the server: started with the map `one_road` and
`Dog::id_counter_ = 0`, one player joins as "Pluto". -/
def first_run : Option app.World :=
  app.run_all [app.Command.join (0, 0) "0123456789abcdef0123456789abcdef" "map1" "Pluto"]
    ⟨fresh_app [one_road], 0⟩

/-- The second run of the server: started again with the map `one_road` and
`Dog::id_counter_ = 0`, it restores the state saved by the first run, and then
a second user joins as "Goofy". -/
def second_run : Option app.JoinResult :=
  (first_run.bind (fun w => (ApplicationRepr.of_app w.app).Restore (fresh_app [one_road]))).bind
    (fun a => a.JoinGame 0 (0, 0) "fedcba9876543210fedcba9876543210" "map1" "Goofy")

/-- What is seen of the result of a join: the id of the player returned, the
ids and names of the dogs of each session, the player registry and the tokens. -/
def join_view (r : Option app.JoinResult) :
    Option (ℕ × List (List (ℕ × String)) × List (ℕ × Player) × List (String × ℕ)) :=
  r.map (fun r => (r.player_id,
    r.app.game_.sessions_.map (fun s => s.dogs_.map (fun d => (d.id, d.name))),
    r.app.players_, r.app.tokens_.token_to_player_))

end scenario

namespace scenario

open model

end scenario

namespace scenario

open model serialization

/-- Two players join the map `map1` and `GenerateToken` returns the same token
both times. -/
def same_token_joins : List app.Command :=
  [app.Command.join (0, 0) "0123456789abcdef0123456789abcdef" "map1" "Pluto",
    app.Command.join (0, 0) "0123456789abcdef0123456789abcdef" "map1" "Goofy"]

/-- The second run of the server before anybody joins: started with the map
`one_road`, it has restored the state saved by the first run. -/
def restored_run : Option app.Application :=
  first_run.bind (fun w => (ApplicationRepr.of_app w.app).Restore (fresh_app [one_road]))

/-- The second run goes on after "Goofy" has joined: the dog stands still and a
tick of 60000 ms, the max idle time, lets the retirement listener retire it. -/
def second_run_retired : Option (app.Application × Bool) :=
  second_run.bind (fun r => r.app.Tick 2 no_loot 60000)

/-- The third run of the server: started again with the map `one_road`, it
restores the state saved by the second run after the retirement. -/
def third_run : Option app.Application :=
  second_run_retired.bind
    (fun r => (ApplicationRepr.of_app r.1).Restore (fresh_app [one_road]))

/-- The names of the dogs of each session and the player registry. -/
def dogs_and_players (a : app.Application) : List (List String) × List (ℕ × Player) :=
  (a.game_.sessions_.map (fun s => s.dogs_.map (fun d => d.name)), a.players_)

end scenario

namespace scenario

open model serialization

/-- A dog that has been idle for 1200 ms, with score 3000000000 and age
4294967301 ms. -/
def wide_retiree : Dog :=
  { Dog.mk_new "Rex" ⟨0, 0⟩ ⟨0, 0⟩ 3 7 with
    score := 3000000000, age := 4294967301, idle_for := 1200 }

/-- The retirement scenario with a healthy database and the dog `wide_retiree`
in the place of `retiree`. -/
def wide_retirement_app : app.Application :=
  { retirement_app [] app.DbOutcome.ok with
    game_ :=
      { (retirement_app [] app.DbOutcome.ok).game_ with
        sessions_ := [⟨one_road, [wide_retiree, stayer], [], 0, 0⟩] } }

/-- The first run of a server with the maps `one_road` and `map_two`: "Pluto"
joins the map `map1`. -/
def two_maps_first_run : Option app.World :=
  app.run_all [app.Command.join (0, 0) "0123456789abcdef0123456789abcdef" "map1" "Pluto"]
    ⟨fresh_app [one_road, map_two], 0⟩

/-- The second run of that server: started with `Dog::id_counter_ = 0`, it
restores the state saved by the first run, and then "Goofy" joins the map
`map2`. -/
def two_maps_second_run : Option app.JoinResult :=
  (two_maps_first_run.bind
    (fun w => (ApplicationRepr.of_app w.app).Restore (fresh_app [one_road, map_two]))).bind
    (fun a => a.JoinGame 0 (0, 0) "fedcba9876543210fedcba9876543210" "map2" "Goofy")

end scenario

namespace scenario

open model

/-- A map whose only loot type has no integer `value`, with a base at `(3, 3)`. -/
def valueless_map : Map :=
  map_of [Road.HORIZONTAL ⟨0, 3⟩ 10] [none] [⟨⟨3, 3⟩, 5 / 10⟩]

/-- A dog that stands at the origin: idle, with `idle_for` 0 and age 0. -/
def bystander : Dog := Dog.mk_new "Goofy" ⟨0, 0⟩ ⟨0, 0⟩ 3 1

/-- An application with two sessions: on the map `valueless_map` the dog `walker`
carries an item of loot type 0 towards the base, on the map `map_two` stands the
dog `bystander`. -/
def interrupted_app : app.Application :=
  { application_of valueless_map [walker [(1, 0)] 0] with
    game_ :=
      { (application_of valueless_map [walker [(1, 0)] 0]).game_ with
        maps_ := [valueless_map, map_two]
        sessions_ :=
          [⟨valueless_map, [walker [(1, 0)] 0], [], 0, 0⟩, ⟨map_two, [bystander], [], 0, 0⟩] } }

end scenario

/-! ## Rounding -/

theorem std_round_lower (q : ℚ) : (std_round q : ℚ) - 1 / 2 ≤ q := by
  unfold std_round
  split_ifs with h
  · have := Int.floor_le (q + 1 / 2)
    linarith
  · have := Int.lt_floor_add_one (-q + 1 / 2)
    push_cast
    linarith

theorem std_round_upper (q : ℚ) : q ≤ (std_round q : ℚ) + 1 / 2 := by
  unfold std_round
  split_ifs with h
  · have := Int.lt_floor_add_one (q + 1 / 2)
    linarith
  · have := Int.floor_le (-q + 1 / 2)
    push_cast
    linarith

theorem std_round_mono {q r : ℚ} (h : q ≤ r) : std_round q ≤ std_round r := by
  unfold std_round
  split_ifs with hq hr hr
  · exact Int.floor_le_floor (by linarith)
  · exact absurd (le_trans hq h) hr
  · have h1 : 0 ≤ ⌊-q + 1 / 2⌋ := Int.floor_nonneg.mpr (by linarith)
    have h2 : 0 ≤ ⌊r + 1 / 2⌋ := Int.floor_nonneg.mpr (by linarith)
    omega
  · have : ⌊-r + 1 / 2⌋ ≤ ⌊-q + 1 / 2⌋ := Int.floor_le_floor (by linarith)
    omega

theorem std_round_eq_of_lt {q : ℚ} {n : ℤ} (h1 : (n : ℚ) - 1 / 2 < q) (h2 : q < (n : ℚ) + 1 / 2) :
    std_round q = n := by
  have hl := std_round_lower q
  have hu := std_round_upper q
  have a : (std_round q : ℚ) < (n : ℚ) + 1 := by linarith
  have b : (n : ℚ) - 1 < (std_round q : ℚ) := by linarith
  have a1 : std_round q < n + 1 := by exact_mod_cast a
  have b1 : n - 1 < std_round q := by exact_mod_cast b
  omega

theorem std_round_intCast (n : ℤ) : std_round (n : ℚ) = n :=
  std_round_eq_of_lt (by linarith) (by linarith)

theorem std_round_eq_of_abs_le {q : ℚ} {n : ℤ} (h : |q - n| ≤ 4 / 10) : std_round q = n := by
  rw [abs_le] at h
  exact std_round_eq_of_lt (by linarith) (by linarith)

/-! ## The road grid -/

namespace model

theorem walk_loop_spec (grid : RoadGrid) (is_x_axis : Bool) (fixed_coord step target_cell : ℤ) :
    ∀ (fuel : ℕ) (cell : ℤ), target_cell = cell + step * fuel →
      ∃ j : ℕ, j ≤ fuel ∧
        Map.walk_loop grid is_x_axis fixed_coord step target_cell fuel cell = cell + step * j ∧
        (cell + step * j = target_cell ∨
          grid.ContainsRoad (Map.cellAt is_x_axis (cell + step * j + step) fixed_coord) = false) ∧
        (∀ i : ℕ, 1 ≤ i → i ≤ j →
          grid.ContainsRoad (Map.cellAt is_x_axis (cell + step * i) fixed_coord) = true) := by
  intro fuel
  induction fuel with
  | zero =>
    intro cell ht
    exact ⟨0, le_refl _, by simp [Map.walk_loop], Or.inl (by simpa using ht.symm),
      fun i h1 h2 => by omega⟩
  | succ n ih =>
    intro cell ht
    by_cases hc : cell = target_cell
    · exact ⟨0, Nat.zero_le _, by simp [Map.walk_loop, hc], Or.inl (by simpa using hc),
        fun i h1 h2 => by omega⟩
    · by_cases hg : grid.ContainsRoad (Map.cellAt is_x_axis (cell + step) fixed_coord) = true
      · have ht2 : target_cell = (cell + step) + step * (n : ℤ) := by
          rw [ht]; push_cast; ring
        obtain ⟨j, hj, hw, hex, hall⟩ := ih (cell + step) ht2
        refine ⟨j + 1, by omega, ?_, ?_, ?_⟩
        · simp only [Map.walk_loop, ne_eq, hc, not_false_eq_true, if_true, hg]
          rw [hw]; push_cast; ring
        · have e : cell + step * ((j + 1 : ℕ) : ℤ) = cell + step + step * (j : ℤ) := by
            push_cast; ring
          rw [e]; exact hex
        · intro i h1 h2
          by_cases hi : i = 1
          · subst hi; simpa using hg
          · have := hall (i - 1) (by omega) (by omega)
            have e : cell + step * (i : ℤ) = cell + step + step * ((i - 1 : ℕ) : ℤ) := by
              have : ((i - 1 : ℕ) : ℤ) = (i : ℤ) - 1 := by omega
              rw [this]; ring
            rw [e]; exact this
      · refine ⟨0, Nat.zero_le _, ?_, Or.inr ?_, fun i h1 h2 => by omega⟩
        · simp [Map.walk_loop, hc, hg]
        · simpa using hg

end model

namespace model

/-- The stop test of `move_axis` fires exactly when the target lies more than
`allowance` beyond the cell in the direction of the step and the dog may not go
on. -/
theorem stop_test_iff (step diff_step : ℤ) (diff : ℚ) (cant ahead : Bool)
    (hs : step = 1 ∨ step = -1) (hd : diff_step = if diff > 0 then 1 else -1) :
    (step = diff_step ∧ (cant = true ∨ ahead = false) ∧ |diff| > Map.allowance) ↔
      ((4 : ℚ) / 10 < (step : ℚ) * diff ∧ (cant = true ∨ ahead = false)) := by
  unfold Map.allowance
  constructor
  · rintro ⟨h1, h2, h3⟩
    refine ⟨?_, h2⟩
    subst hd
    split_ifs at h1 with hpos
    · subst h1
      rw [abs_of_pos hpos] at h3
      push_cast; linarith
    · subst h1
      rw [abs_of_nonpos (not_lt.mp hpos)] at h3
      push_cast; linarith
  · rintro ⟨h1, h2⟩
    refine ⟨?_, h2, ?_⟩
    · subst hd
      rcases hs with hs | hs <;> subst hs
      · have : diff > 0 := by push_cast at h1; linarith
        simp [this]
      · have : ¬ diff > 0 := by push_cast at h1; intro h; linarith
        simp [this]
    · rcases hs with hs | hs <;> subst hs
      · push_cast at h1
        have : 0 < diff := by linarith
        rw [abs_of_pos this]; linarith
      · push_cast at h1
        have : diff < 0 := by linarith
        rw [abs_of_neg this]; linarith

end model

namespace model

/-- The target cell lies in the direction of the step, at the distance used as
the iteration bound of the loop. -/
theorem target_cell_dir (pos d : ℚ) :
    std_round (pos + d) = std_round pos
      + (if d > 0 then 1 else -1) * ((std_round (pos + d) - std_round pos).natAbs : ℤ) := by
  split_ifs with h
  · have := std_round_mono (show pos ≤ pos + d by linarith)
    omega
  · have := std_round_mono (show pos + d ≤ pos by linarith)
    omega

/-- Case description of one call of `move_axis` started from the cell of the
current coordinate. -/
theorem move_axis_spec (grid : RoadGrid) (dt pos vel : ℚ) (is_on off_out : Bool) (fixed : ℤ)
    (is_x : Bool) (hv : vel ≠ 0) :
    ∃ (c1 : ℤ) (j k : ℕ) (step : ℤ),
      step = (if vel * dt > 0 then 1 else -1) ∧
      (Map.move_axis grid dt pos vel (std_round pos) is_on off_out fixed is_x).cell = c1 ∧
      c1 = std_round pos + step * j ∧
      std_round (pos + vel * dt) = c1 + step * k ∧
      ((off_out && is_on) = true → j = 0) ∧
      (∀ i : ℕ, 1 ≤ i → i ≤ j →
        grid.ContainsRoad (Map.cellAt is_x (std_round pos + step * i) fixed) = true) ∧
      (((Map.move_axis grid dt pos vel (std_round pos) is_on off_out fixed is_x).stopped = true ∧
          (Map.move_axis grid dt pos vel (std_round pos) is_on off_out fixed is_x).pos
            = c1 + step * (4 / 10) ∧
          (4 : ℚ) / 10 < step * (pos + vel * dt - c1) ∧
          ((off_out && is_on) = true ∨
            grid.ContainsRoad (Map.cellAt is_x (c1 + step) fixed) = false)) ∨
       ((Map.move_axis grid dt pos vel (std_round pos) is_on off_out fixed is_x).stopped = false ∧
          (Map.move_axis grid dt pos vel (std_round pos) is_on off_out fixed is_x).pos
            = pos + vel * dt ∧
          k = 0 ∧
          ((step : ℚ) * (pos + vel * dt - c1) ≤ 4 / 10 ∨
            ((off_out && is_on) = false ∧
              grid.ContainsRoad (Map.cellAt is_x (c1 + step) fixed) = true)))) := by
  -- the step and the cell reached by the loop
  obtain ⟨step, hstep⟩ : ∃ s : ℤ, s = (if vel * dt > 0 then 1 else -1) := ⟨_, rfl⟩
  have hs : step = 1 ∨ step = -1 := by
    rw [hstep]; split_ifs <;> simp
  have hdir := target_cell_dir pos (vel * dt)
  rw [← hstep] at hdir
  -- the loop
  obtain ⟨j, hj, hw, hex, hall⟩ := walk_loop_spec grid is_x fixed step _ _ _ hdir
  obtain ⟨c1, hc1⟩ : ∃ c : ℤ, c = (if (!(off_out && is_on)) = true then
      Map.walk_loop grid is_x fixed step (std_round (pos + vel * dt))
        (std_round (pos + vel * dt) - std_round pos).natAbs (std_round pos)
      else std_round pos) := ⟨_, rfl⟩
  have hmove : Map.move_axis grid dt pos vel (std_round pos) is_on off_out fixed is_x =
      if step = (if pos + vel * dt - (c1 : ℚ) > 0 then 1 else -1) ∧
          ((off_out && is_on) = true ∨ grid.ContainsRoad (Map.cellAt is_x
            (c1 + (if pos + vel * dt - (c1 : ℚ) > 0 then 1 else -1)) fixed) = false) ∧
          |pos + vel * dt - (c1 : ℚ)| > Map.allowance then
        ⟨(c1 : ℚ) + std_clamp (pos + vel * dt - (c1 : ℚ)) (-Map.allowance) Map.allowance, c1, true⟩
      else ⟨(c1 : ℚ) + (pos + vel * dt - (c1 : ℚ)), c1, false⟩ := by
    unfold Map.move_axis
    simp only [hv, ne_eq, not_false_eq_true, if_true]
    rw [← hstep, ← hc1]
  obtain ⟨D, hD⟩ : ∃ D : ℚ, D = pos + vel * dt - (c1 : ℚ) := ⟨_, rfl⟩
  rw [← hD] at hmove
  have htest := stop_test_iff step (if D > 0 then 1 else -1) D (off_out && is_on)
    (grid.ContainsRoad (Map.cellAt is_x (c1 + (if D > 0 then 1 else -1)) fixed)) hs rfl
  have hlo := std_round_lower (pos + vel * dt)
  have hup := std_round_upper (pos + vel * dt)
  -- the cell reached, in both modes
  obtain ⟨j1, hj1, hc1j, hcant, hall1, hex1⟩ : ∃ j1 : ℕ,
      j1 ≤ (std_round (pos + vel * dt) - std_round pos).natAbs ∧
      c1 = std_round pos + step * j1 ∧ ((off_out && is_on) = true → j1 = 0) ∧
      (∀ i : ℕ, 1 ≤ i → i ≤ j1 →
        grid.ContainsRoad (Map.cellAt is_x (std_round pos + step * i) fixed) = true) ∧
      ((off_out && is_on) = false →
        (c1 = std_round (pos + vel * dt) ∨
          grid.ContainsRoad (Map.cellAt is_x (c1 + step) fixed) = false)) := by
    cases hc : (off_out && is_on)
    · refine ⟨j, hj, ?_, by simp, hall, fun _ => ?_⟩
      · rw [hc1, hc]; simpa using hw
      · have e : c1 = std_round pos + step * j := by rw [hc1, hc]; simpa using hw
        rw [e]; exact hex
    · refine ⟨0, Nat.zero_le _, ?_, fun _ => rfl, fun i h1 h2 => by omega, by simp⟩
      rw [hc1, hc]; simp
  obtain ⟨k, hk⟩ : ∃ k : ℕ, std_round (pos + vel * dt) = c1 + step * k := by
    refine ⟨(std_round (pos + vel * dt) - std_round pos).natAbs - j1, ?_⟩
    rw [Nat.cast_sub hj1, hc1j]
    linear_combination hdir
  -- a target cell strictly further along means the target is at least half a cell away
  have hfar : 1 ≤ k → (1 : ℚ) / 2 ≤ step * D := by
    intro hk1
    have hk1q : (1 : ℚ) ≤ (k : ℚ) := by exact_mod_cast hk1
    have hkq : (std_round (pos + vel * dt) : ℚ) = (c1 : ℚ) + (step : ℚ) * (k : ℚ) := by
      exact_mod_cast hk
    rcases hs with h | h <;> subst h <;> push_cast at hkq ⊢ <;> rw [hD] <;> linarith
  by_cases hstop : (4 : ℚ) / 10 < step * D ∧ ((off_out && is_on) = true ∨
      grid.ContainsRoad (Map.cellAt is_x (c1 + (if D > 0 then 1 else -1)) fixed) = false)
  · -- the dog is stopped
    have hds : (if D > 0 then (1 : ℤ) else -1) = step := by
      rcases hs with h | h <;> subst h
      · have : D > 0 := by have := hstop.1; push_cast at this; linarith
        simp [this]
      · have : ¬ D > 0 := by have := hstop.1; push_cast at this; intro h; linarith
        simp [this]
    rw [if_pos (htest.mpr hstop)] at hmove
    refine ⟨c1, j1, k, step, hstep, by rw [hmove], hc1j, hk, hcant, hall1, Or.inl ⟨by rw [hmove], ?_, ?_, ?_⟩⟩
    · rw [hmove]
      show (c1 : ℚ) + std_clamp D (-Map.allowance) Map.allowance = c1 + step * (4 / 10)
      unfold std_clamp Map.allowance
      rcases hs with h | h <;> subst h
      · have h1 := hstop.1
        push_cast at h1
        rw [if_neg (by linarith), if_pos (by linarith)]
        push_cast; ring
      · have h1 := hstop.1
        push_cast at h1
        rw [if_pos (by linarith)]
        push_cast; ring
    · rw [← hD]; exact hstop.1
    · rw [hds] at hstop; exact hstop.2
  · -- the dog goes on
    rw [if_neg (fun h => hstop (htest.mp h))] at hmove
    have hgo : (step : ℚ) * D ≤ 4 / 10 ∨ ((off_out && is_on) = false ∧
        grid.ContainsRoad (Map.cellAt is_x (c1 + step) fixed) = true) := by
      by_cases h1 : (4 : ℚ) / 10 < step * D
      · right
        have hds : (if D > 0 then (1 : ℤ) else -1) = step := by
          rcases hs with h | h <;> subst h
          · have : D > 0 := by push_cast at h1; linarith
            simp [this]
          · have : ¬ D > 0 := by push_cast at h1; intro h; linarith
            simp [this]
        rw [hds] at hstop
        have h2 : ¬ ((off_out && is_on) = true ∨
            grid.ContainsRoad (Map.cellAt is_x (c1 + step) fixed) = false) :=
          fun h => hstop ⟨h1, h⟩
        push_neg at h2
        exact ⟨by simpa using h2.1, by simpa using h2.2⟩
      · left; exact not_lt.mp h1
    have hk0 : k = 0 := by
      by_contra hne
      have hk1 : 1 ≤ k := Nat.one_le_iff_ne_zero.mpr hne
      have hf := hfar hk1
      rcases hgo with h | ⟨hc, hg⟩
      · linarith
      · rcases hex1 hc with h | h
        · rw [h] at hk
          rcases hs with h' | h' <;> subst h' <;> omega
        · rw [hg] at h; exact Bool.noConfusion h
    refine ⟨c1, j1, k, step, hstep, by rw [hmove], hc1j, hk, hcant, hall1,
      Or.inr ⟨by rw [hmove], ?_, hk0, ?_⟩⟩
    · rw [hmove, hD]; ring
    · rw [← hD]; exact hgo

end model

namespace model

theorem mem_coordRange (lo hi k : ℤ) : k ∈ RoadGrid.coordRange lo hi ↔ lo ≤ k ∧ k ≤ hi := by
  unfold RoadGrid.coordRange
  rw [List.mem_map]
  constructor
  · rintro ⟨a, ha, hk⟩
    rw [List.mem_range] at ha
    omega
  · rintro ⟨h1, h2⟩
    refine ⟨(k - lo).toNat, ?_, ?_⟩
    · rw [List.mem_range]; omega
    · omega

theorem contains_AddRoad (grid : RoadGrid) (r : Road) (p : geom.Point) :
    RoadGrid.ContainsRoad (RoadGrid.AddRoad grid r) p = true ↔
      (RoadGrid.ContainsRoad grid p = true ∨ r.covers p) := by
  obtain ⟨px, py⟩ := p
  cases r with
  | HORIZONTAL start end_x =>
    simp only [RoadGrid.ContainsRoad, RoadGrid.AddRoad, Road.IsHorizontal, Road.GetStart,
      Road.GetEnd, Road.covers, beq_self_eq_true, if_true, decide_eq_true_eq, List.mem_append,
      List.mem_map, mem_coordRange, geom.Point.mk.injEq, min_self, max_self]
    constructor
    · rintro (h | ⟨a, ⟨h1, h2⟩, rfl, rfl⟩)
      · exact Or.inl h
      · exact Or.inr ⟨h1, h2, le_refl _, le_refl _⟩
    · rintro (h | ⟨h1, h2, h3, h4⟩)
      · exact Or.inl h
      · exact Or.inr ⟨px, ⟨h1, h2⟩, rfl, le_antisymm h3 h4⟩
  | VERTICAL start end_y =>
    by_cases hh : start.y = end_y
    · subst hh
      simp only [RoadGrid.ContainsRoad, RoadGrid.AddRoad, Road.IsHorizontal, Road.GetStart,
        Road.GetEnd, Road.covers, beq_self_eq_true, if_true, decide_eq_true_eq, List.mem_append,
        List.mem_map, mem_coordRange, geom.Point.mk.injEq, min_self, max_self]
      constructor
      · rintro (h | ⟨a, ⟨h1, h2⟩, rfl, rfl⟩)
        · exact Or.inl h
        · exact Or.inr ⟨h1, h2, le_refl _, le_refl _⟩
      · rintro (h | ⟨h1, h2, h3, h4⟩)
        · exact Or.inl h
        · exact Or.inr ⟨px, ⟨h1, h2⟩, rfl, le_antisymm h3 h4⟩
    · have hb : (start.y == end_y) = false := by simpa using hh
      simp only [RoadGrid.ContainsRoad, RoadGrid.AddRoad, Road.IsHorizontal, Road.GetStart,
        Road.GetEnd, Road.covers, hb, Bool.false_eq_true, if_false, decide_eq_true_eq,
        List.mem_append, List.mem_map, mem_coordRange, geom.Point.mk.injEq, min_self, max_self]
      constructor
      · rintro (h | ⟨a, ⟨h1, h2⟩, rfl, rfl⟩)
        · exact Or.inl h
        · exact Or.inr ⟨le_refl _, le_refl _, h1, h2⟩
      · rintro (h | ⟨h1, h2, h3, h4⟩)
        · exact Or.inl h
        · exact Or.inr ⟨py, ⟨h3, h4⟩, le_antisymm h1 h2, rfl⟩

theorem contains_foldl_AddRoad (roads : List Road) (grid : RoadGrid) (p : geom.Point) :
    RoadGrid.ContainsRoad (roads.foldl RoadGrid.AddRoad grid) p = true ↔
      (RoadGrid.ContainsRoad grid p = true ∨ ∃ r ∈ roads, r.covers p) := by
  induction roads generalizing grid with
  | nil => simp
  | cons r rs ih =>
    rw [List.foldl_cons, ih, contains_AddRoad]
    simp only [List.mem_cons, exists_eq_or_imp]
    tauto

/-- A cell is in the grid of a map exactly when it lies on one of its roads. -/
theorem contains_road_grid (m : Map) (p : geom.Point) :
    m.road_grid.ContainsRoad p = true ↔ ∃ r ∈ m.roads, r.covers p := by
  unfold Map.road_grid
  rw [contains_foldl_AddRoad]
  simp [RoadGrid.ContainsRoad]

end model

namespace model

theorem move_axis_zero (grid : RoadGrid) (dt pos : ℚ) (cell : ℤ) (is_on off_out : Bool)
    (fixed : ℤ) (is_x : Bool) :
    Map.move_axis grid dt pos 0 cell is_on off_out fixed is_x = ⟨pos, cell, false⟩ := by
  simp [Map.move_axis]

/-- The cell reached by `move_axis` is in the grid when the starting cell is. -/
theorem move_axis_cell_covered (grid : RoadGrid) (dt pos vel : ℚ) (is_on off_out : Bool)
    (fixed : ℤ) (is_x : Bool)
    (hstart : grid.ContainsRoad (Map.cellAt is_x (std_round pos) fixed) = true) :
    grid.ContainsRoad (Map.cellAt is_x
      (Map.move_axis grid dt pos vel (std_round pos) is_on off_out fixed is_x).cell fixed)
      = true := by
  by_cases hv : vel = 0
  · subst hv; rw [move_axis_zero]; exact hstart
  · obtain ⟨c1, j, k, step, hstep, hcell, hc1, hk, hcant, hall, hcase⟩ :=
      move_axis_spec grid dt pos vel is_on off_out fixed is_x hv
    rw [hcell, hc1]
    by_cases hj : j = 0
    · subst hj; simpa using hstart
    · exact hall j (Nat.one_le_iff_ne_zero.mpr hj) (le_refl _)

/-- The new coordinate computed by `move_axis` rounds to the cell it reports. -/
theorem move_axis_round (grid : RoadGrid) (dt pos vel : ℚ) (is_on off_out : Bool)
    (fixed : ℤ) (is_x : Bool) :
    std_round (Map.move_axis grid dt pos vel (std_round pos) is_on off_out fixed is_x).pos
      = (Map.move_axis grid dt pos vel (std_round pos) is_on off_out fixed is_x).cell := by
  by_cases hv : vel = 0
  · subst hv; rw [move_axis_zero]
  · obtain ⟨c1, j, k, step, hstep, hcell, hc1, hk, hcant, hall, hcase⟩ :=
      move_axis_spec grid dt pos vel is_on off_out fixed is_x hv
    have hs : step = 1 ∨ step = -1 := by
      rw [hstep]; split_ifs <;> simp
    rcases hcase with ⟨_, hpos, _, _⟩ | ⟨_, hpos, hk0, _⟩
    · rw [hpos, hcell]
      apply std_round_eq_of_abs_le
      rcases hs with h | h <;> subst h <;> norm_num [abs_le]
    · rw [hpos, hcell, hk, hk0]; simp

/-- A move along an axis whose cells up to the target cell are all in the grid,
and which either ends within `allowance` beyond the target cell or has one more
grid cell in front of it, reaches the target exactly and does not stop the dog. -/
theorem move_axis_free (grid : RoadGrid) (dt pos vel : ℚ) (is_on off_out : Bool) (fixed : ℤ)
    (is_x : Bool) (hv : vel ≠ 0) (hcant : (off_out && is_on) = false)
    (hcells : ∀ c : ℤ, min (std_round pos) (std_round (pos + vel * dt)) ≤ c →
      c ≤ max (std_round pos) (std_round (pos + vel * dt)) →
      grid.ContainsRoad (Map.cellAt is_x c fixed) = true)
    (hnext : ((if vel * dt > 0 then (1 : ℚ) else -1) * (pos + vel * dt
        - std_round (pos + vel * dt)) ≤ 4 / 10) ∨
      grid.ContainsRoad (Map.cellAt is_x
        (std_round (pos + vel * dt) + (if vel * dt > 0 then 1 else -1)) fixed) = true) :
    Map.move_axis grid dt pos vel (std_round pos) is_on off_out fixed is_x
      = ⟨pos + vel * dt, std_round (pos + vel * dt), false⟩ := by
  obtain ⟨c1, j, k, step, hstep, hcell, hc1, hk, hcj, hall, hcase⟩ :=
    move_axis_spec grid dt pos vel is_on off_out fixed is_x hv
  have hs : step = 1 ∨ step = -1 := by
    rw [hstep]; split_ifs <;> simp
  have hstepq : (if vel * dt > 0 then (1 : ℚ) else -1) = (step : ℚ) := by
    rw [hstep]; split_ifs <;> simp
  rw [← hstep] at hnext
  rw [hstepq] at hnext
  rcases hcase with ⟨_, _, hfar, hblock⟩ | ⟨hstop, hpos, hk0, _⟩
  · exfalso
    rcases hblock with h | h
    · rw [hcant] at h; exact Bool.noConfusion h
    · by_cases hk0 : k = 0
      · subst hk0
        have e : std_round (pos + vel * dt) = c1 := by simpa using hk
        rw [e] at hnext
        rcases hnext with h' | h'
        · linarith
        · rw [h] at h'; exact Bool.noConfusion h'
      · have := hcells (c1 + step) (by rcases hs with h' | h' <;> subst h' <;> omega)
          (by rcases hs with h' | h' <;> subst h' <;> omega)
        rw [h] at this; exact Bool.noConfusion this
  · have e : std_round (pos + vel * dt) = c1 := by rw [hk, hk0]; simp
    rw [e, ← hcell, ← hpos, ← hstop]

end model

namespace model

/-- With no velocity along `y`, `MoveDog` is the `x` call of `move_axis`. -/
theorem MoveDog_x_only (m : Map) (dog : Dog) (delta_ms : ℤ) (hvy : dog.vel.y = 0) :
    m.MoveDog dog delta_ms =
      { dog with
        pos := ⟨(Map.move_axis m.road_grid ((delta_ms : ℚ) / 1000) dog.pos.x dog.vel.x
            (std_round dog.pos.x)
            (m.road_grid.ContainsRoad ⟨std_round dog.pos.x, std_round dog.pos.y + 1⟩ ||
              m.road_grid.ContainsRoad ⟨std_round dog.pos.x, std_round dog.pos.y - 1⟩)
            (decide (|dog.pos.y - std_round dog.pos.y| > Map.allowance + Map.eps))
            (std_round dog.pos.y) true).pos, dog.pos.y⟩
        vel := if (Map.move_axis m.road_grid ((delta_ms : ℚ) / 1000) dog.pos.x dog.vel.x
            (std_round dog.pos.x)
            (m.road_grid.ContainsRoad ⟨std_round dog.pos.x, std_round dog.pos.y + 1⟩ ||
              m.road_grid.ContainsRoad ⟨std_round dog.pos.x, std_round dog.pos.y - 1⟩)
            (decide (|dog.pos.y - std_round dog.pos.y| > Map.allowance + Map.eps))
            (std_round dog.pos.y) true).stopped then ⟨0, 0⟩ else dog.vel
        is_idle := if (Map.move_axis m.road_grid ((delta_ms : ℚ) / 1000) dog.pos.x dog.vel.x
            (std_round dog.pos.x)
            (m.road_grid.ContainsRoad ⟨std_round dog.pos.x, std_round dog.pos.y + 1⟩ ||
              m.road_grid.ContainsRoad ⟨std_round dog.pos.x, std_round dog.pos.y - 1⟩)
            (decide (|dog.pos.y - std_round dog.pos.y| > Map.allowance + Map.eps))
            (std_round dog.pos.y) true).stopped then true else dog.is_idle } := by
  unfold Map.MoveDog
  simp only [hvy, move_axis_zero, Map.millis_per_second, Bool.or_false]

/-- With no velocity along `x`, `MoveDog` is the `y` call of `move_axis`. -/
theorem MoveDog_y_only (m : Map) (dog : Dog) (delta_ms : ℤ) (hvx : dog.vel.x = 0) :
    m.MoveDog dog delta_ms =
      { dog with
        pos := ⟨dog.pos.x, (Map.move_axis m.road_grid ((delta_ms : ℚ) / 1000) dog.pos.y dog.vel.y
            (std_round dog.pos.y)
            (m.road_grid.ContainsRoad ⟨std_round dog.pos.x + 1, std_round dog.pos.y⟩ ||
              m.road_grid.ContainsRoad ⟨std_round dog.pos.x - 1, std_round dog.pos.y⟩)
            (decide (|dog.pos.x - std_round dog.pos.x| > Map.allowance + Map.eps))
            (std_round dog.pos.x) false).pos⟩
        vel := if (Map.move_axis m.road_grid ((delta_ms : ℚ) / 1000) dog.pos.y dog.vel.y
            (std_round dog.pos.y)
            (m.road_grid.ContainsRoad ⟨std_round dog.pos.x + 1, std_round dog.pos.y⟩ ||
              m.road_grid.ContainsRoad ⟨std_round dog.pos.x - 1, std_round dog.pos.y⟩)
            (decide (|dog.pos.x - std_round dog.pos.x| > Map.allowance + Map.eps))
            (std_round dog.pos.x) false).stopped then ⟨0, 0⟩ else dog.vel
        is_idle := if (Map.move_axis m.road_grid ((delta_ms : ℚ) / 1000) dog.pos.y dog.vel.y
            (std_round dog.pos.y)
            (m.road_grid.ContainsRoad ⟨std_round dog.pos.x + 1, std_round dog.pos.y⟩ ||
              m.road_grid.ContainsRoad ⟨std_round dog.pos.x - 1, std_round dog.pos.y⟩)
            (decide (|dog.pos.x - std_round dog.pos.x| > Map.allowance + Map.eps))
            (std_round dog.pos.x) false).stopped then true else dog.is_idle } := by
  unfold Map.MoveDog
  simp only [hvx, move_axis_zero, Map.millis_per_second, Bool.false_or]

/-- Free movement along `x`: the statement behind the intersection scenario. -/
theorem MoveDog_free_x (m : Map) (dog : Dog) (delta_ms : ℤ) (hvy : dog.vel.y = 0)
    (hvx : dog.vel.x ≠ 0)
    (hy : |dog.pos.y - std_round dog.pos.y| ≤ Map.allowance + Map.eps)
    (hcells : ∀ k : ℤ,
      min (std_round dog.pos.x) (std_round (dog.pos.x + dog.vel.x * ((delta_ms : ℚ) / 1000))) ≤ k →
      k ≤ max (std_round dog.pos.x) (std_round (dog.pos.x + dog.vel.x * ((delta_ms : ℚ) / 1000))) →
      m.road_grid.ContainsRoad ⟨k, std_round dog.pos.y⟩ = true)
    (hnext : ((if dog.vel.x * ((delta_ms : ℚ) / 1000) > 0 then (1 : ℚ) else -1) *
        (dog.pos.x + dog.vel.x * ((delta_ms : ℚ) / 1000)
          - std_round (dog.pos.x + dog.vel.x * ((delta_ms : ℚ) / 1000))) ≤ 4 / 10) ∨
      m.road_grid.ContainsRoad ⟨std_round (dog.pos.x + dog.vel.x * ((delta_ms : ℚ) / 1000))
        + (if dog.vel.x * ((delta_ms : ℚ) / 1000) > 0 then 1 else -1), std_round dog.pos.y⟩
        = true) :
    m.MoveDog dog delta_ms =
      { dog with pos := ⟨dog.pos.x + dog.vel.x * ((delta_ms : ℚ) / 1000), dog.pos.y⟩ } := by
  rw [MoveDog_x_only m dog delta_ms hvy]
  have hout : decide (|dog.pos.y - std_round dog.pos.y| > Map.allowance + Map.eps) = false := by
    simpa using hy
  rw [move_axis_free m.road_grid _ dog.pos.x dog.vel.x _ _ (std_round dog.pos.y) true hvx
    (by rw [hout]; rfl) (by simpa [Map.cellAt] using hcells) (by simpa [Map.cellAt] using hnext)]
  simp

end model

namespace model

/-- Free movement along `y`, the mirror image of `MoveDog_free_x`. -/
theorem MoveDog_free_y (m : Map) (dog : Dog) (delta_ms : ℤ) (hvx : dog.vel.x = 0)
    (hvy : dog.vel.y ≠ 0)
    (hx : |dog.pos.x - std_round dog.pos.x| ≤ Map.allowance + Map.eps)
    (hcells : ∀ k : ℤ,
      min (std_round dog.pos.y) (std_round (dog.pos.y + dog.vel.y * ((delta_ms : ℚ) / 1000))) ≤ k →
      k ≤ max (std_round dog.pos.y) (std_round (dog.pos.y + dog.vel.y * ((delta_ms : ℚ) / 1000))) →
      m.road_grid.ContainsRoad ⟨std_round dog.pos.x, k⟩ = true)
    (hnext : ((if dog.vel.y * ((delta_ms : ℚ) / 1000) > 0 then (1 : ℚ) else -1) *
        (dog.pos.y + dog.vel.y * ((delta_ms : ℚ) / 1000)
          - std_round (dog.pos.y + dog.vel.y * ((delta_ms : ℚ) / 1000))) ≤ 4 / 10) ∨
      m.road_grid.ContainsRoad ⟨std_round dog.pos.x,
        std_round (dog.pos.y + dog.vel.y * ((delta_ms : ℚ) / 1000))
        + (if dog.vel.y * ((delta_ms : ℚ) / 1000) > 0 then 1 else -1)⟩ = true) :
    m.MoveDog dog delta_ms =
      { dog with pos := ⟨dog.pos.x, dog.pos.y + dog.vel.y * ((delta_ms : ℚ) / 1000)⟩ } := by
  rw [MoveDog_y_only m dog delta_ms hvx]
  have hout : decide (|dog.pos.x - std_round dog.pos.x| > Map.allowance + Map.eps) = false := by
    simpa using hx
  rw [move_axis_free m.road_grid _ dog.pos.y dog.vel.y _ _ (std_round dog.pos.x) false hvy
    (by rw [hout]; rfl) (by simpa [Map.cellAt] using hcells) (by simpa [Map.cellAt] using hnext)]
  simp

/-- Claim C4, for a tick of positive length: a dog moving along `x` whose row of
cells, from the cell of its position to the cell of its target and one step
further in the direction of motion, is covered, is moved to exactly
`x + v * dt / 1000`; `y`, the velocity, the idle flag and every other field are
unchanged. -/
theorem C4_free_move_through_intersection (m : Map) (dog : Dog) (delta_ms : ℤ) (v : ℚ)
    (hvel : dog.vel = ⟨v, 0⟩) (hv : v ≠ 0)
    (hy : |dog.pos.y - std_round dog.pos.y| ≤ 4 / 10) (hdt : 0 < delta_ms)
    (hcells : ∀ k : ℤ,
      min (std_round dog.pos.x) (std_round (dog.pos.x + v * delta_ms / 1000)) ≤ k →
      k ≤ max (std_round dog.pos.x) (std_round (dog.pos.x + v * delta_ms / 1000)) →
      m.road_grid.ContainsRoad ⟨k, std_round dog.pos.y⟩ = true)
    (hnext : m.road_grid.ContainsRoad ⟨std_round (dog.pos.x + v * delta_ms / 1000)
        + (if v > 0 then 1 else -1), std_round dog.pos.y⟩ = true) :
    m.MoveDog dog delta_ms =
      { dog with pos := ⟨dog.pos.x + v * delta_ms / 1000, dog.pos.y⟩ } := by
  have hvx : dog.vel.x = v := by rw [hvel]
  have hvy : dog.vel.y = 0 := by rw [hvel]
  have e : v * ((delta_ms : ℚ) / 1000) = v * delta_ms / 1000 := by ring
  have hdq : (0 : ℚ) < (delta_ms : ℚ) / 1000 := by
    have : (0 : ℚ) < delta_ms := by exact_mod_cast hdt
    positivity
  have hsign : (v * ((delta_ms : ℚ) / 1000) > 0) ↔ v > 0 := by
    constructor
    · intro h
      by_contra hn
      have : v * ((delta_ms : ℚ) / 1000) ≤ 0 :=
        mul_nonpos_of_nonpos_of_nonneg (not_lt.mp hn) hdq.le
      linarith
    · intro h; exact mul_pos h hdq
  have := MoveDog_free_x m dog delta_ms hvy (by rw [hvx]; exact hv)
    (by unfold Map.allowance Map.eps; linarith)
    (by rw [hvx, e]; exact hcells)
    (Or.inr (by
      rw [hvx]
      by_cases hp : v > 0
      · rw [if_pos (hsign.mpr hp), e]; simpa [hp] using hnext
      · rw [if_neg (fun h => hp (hsign.mp h)), e]; simpa [hp] using hnext))
  rw [this, hvx, e]

end model

namespace model

theorem std_round_zero : std_round 0 = 0 := by
  simpa using std_round_intCast 0

/-- Witness of C4, the intersection scenario: roads `(0,0)-(10,0)` and
`(5,0)-(5,10)`, dog at `(4.9, 0)` with velocity `(5, 0)`, 200 ms. -/
theorem C4_witness_intersection :
    scenario.crossing.MoveDog (scenario.moving_dog ⟨49 / 10, 0⟩ ⟨5, 0⟩) 200
      = { scenario.moving_dog ⟨49 / 10, 0⟩ ⟨5, 0⟩ with pos := ⟨59 / 10, 0⟩ } := by
  have h1 : std_round ((49 : ℚ) / 10) = 5 := std_round_eq_of_lt (by norm_num) (by norm_num)
  have h2 : std_round ((49 : ℚ) / 10 + 5 * ((200 : ℤ) : ℚ) / 1000) = 6 :=
    std_round_eq_of_lt (by norm_num) (by norm_num)
  have := C4_free_move_through_intersection scenario.crossing
    (scenario.moving_dog ⟨49 / 10, 0⟩ ⟨5, 0⟩) 200 5 rfl (by norm_num)
    (by norm_num [scenario.moving_dog, Dog.mk_new, std_round_zero]) (by norm_num)
    (by
      intro k hk1 hk2
      simp only [scenario.moving_dog, Dog.mk_new, h1, h2, std_round_zero] at hk1 hk2 ⊢
      have : k = 5 ∨ k = 6 := by omega
      rcases this with h | h <;> subst h <;> decide)
    (by
      simp only [scenario.moving_dog, Dog.mk_new, h2, std_round_zero]
      norm_num
      decide)
  rw [this]
  simp only [scenario.moving_dog, Dog.mk_new]
  norm_num

/-- Counterexample to C4 as stated (with `dt = 0` allowed): on the road
`(0,0)-(10,0)` a dog at `(-0.45, 0)` with velocity `(1, 0)` satisfies every
premise for `dt = 0`, yet a tick of 0 ms moves it to `(-0.4, 0)` and stops it. -/
theorem C4_counterexample_zero_tick :
    ((scenario.moving_dog ⟨-45 / 100, 0⟩ ⟨1, 0⟩).vel = ⟨1, 0⟩ ∧ (1 : ℚ) ≠ 0 ∧
      |(scenario.moving_dog ⟨-45 / 100, 0⟩ ⟨1, 0⟩).pos.y
        - std_round (scenario.moving_dog ⟨-45 / 100, 0⟩ ⟨1, 0⟩).pos.y| ≤ 4 / 10 ∧
      (0 : ℤ) ≤ 0 ∧
      std_round (scenario.moving_dog ⟨-45 / 100, 0⟩ ⟨1, 0⟩).pos.x = 0 ∧
      std_round ((scenario.moving_dog ⟨-45 / 100, 0⟩ ⟨1, 0⟩).pos.x + 1 * ((0 : ℤ) : ℚ) / 1000) = 0 ∧
      std_round (scenario.moving_dog ⟨-45 / 100, 0⟩ ⟨1, 0⟩).pos.y = 0 ∧
      scenario.one_road.road_grid.ContainsRoad ⟨0, 0⟩ = true ∧
      scenario.one_road.road_grid.ContainsRoad ⟨0 + 1, 0⟩ = true) ∧
    scenario.one_road.MoveDog (scenario.moving_dog ⟨-45 / 100, 0⟩ ⟨1, 0⟩) 0
      = { scenario.moving_dog ⟨-45 / 100, 0⟩ ⟨1, 0⟩ with
          pos := ⟨-4 / 10, 0⟩, vel := ⟨0, 0⟩, is_idle := true } ∧
    (-4 / 10 : ℚ) ≠ -45 / 100 + 1 * ((0 : ℤ) : ℚ) / 1000 := by
  have h1 : std_round ((-45 : ℚ) / 100) = 0 := std_round_eq_of_lt (by norm_num) (by norm_num)
  have h1n : std_round (-((9 : ℚ) / 20)) = 0 := std_round_eq_of_lt (by norm_num) (by norm_num)
  have g0 : scenario.one_road.road_grid.ContainsRoad ⟨0, 0⟩ = true := by decide
  have g1 : scenario.one_road.road_grid.ContainsRoad ⟨0 + 1, 0⟩ = true := by decide
  have g2 : scenario.one_road.road_grid.ContainsRoad ⟨-1, 0⟩ = false := by decide
  refine ⟨⟨rfl, by norm_num, ?_, le_refl _, ?_, ?_, ?_, g0, g1⟩, ?_, by norm_num⟩
  · norm_num [scenario.moving_dog, Dog.mk_new, std_round_zero]
  · simpa [scenario.moving_dog, Dog.mk_new] using h1
  · simpa [scenario.moving_dog, Dog.mk_new] using h1
  · simp [scenario.moving_dog, Dog.mk_new, std_round_zero]
  · simp only [Map.MoveDog, Map.move_axis, scenario.moving_dog, Dog.mk_new,
      Map.millis_per_second]
    have ha : |(9 : ℚ) / 20| = 9 / 20 := abs_of_pos (by norm_num)
    norm_num [h1, h1n, std_round_zero, Map.walk_loop, g2, Map.cellAt, Map.allowance, Map.eps,
      std_clamp, ha]

end model

namespace model

/-- The grid of a map whose only road is the horizontal road from `(a, c)` to
`(b, c)`, `a ≤ b`. -/
theorem contains_single_horizontal (m : Map) (a b c : ℤ)
    (hroads : m.roads = [Road.HORIZONTAL ⟨a, c⟩ b]) (hab : a ≤ b) (k y : ℤ) :
    m.road_grid.ContainsRoad ⟨k, y⟩ = true ↔ (a ≤ k ∧ k ≤ b ∧ y = c) := by
  rw [contains_road_grid, hroads]
  simp only [List.mem_singleton, exists_eq_left, Road.covers, Road.GetStart, Road.GetEnd,
    min_self, max_self, min_eq_left hab, max_eq_right hab]
  constructor
  · rintro ⟨h1, h2, h3, h4⟩
    exact ⟨h1, h2, le_antisymm h4 h3⟩
  · rintro ⟨h1, h2, rfl⟩
    exact ⟨h1, h2, le_refl _, le_refl _⟩

end model

namespace model

/-- The method `MoveDog` in terms of its two calls of `move_axis`. -/
theorem MoveDog_eq_calls (m : Map) (dog : Dog) (delta_ms : ℤ) :
    m.MoveDog dog delta_ms =
      { dog with
        pos := ⟨(m.x_call dog delta_ms).pos, (m.y_call dog delta_ms).pos⟩
        vel := if ((m.x_call dog delta_ms).stopped || (m.y_call dog delta_ms).stopped) = true
          then ⟨0, 0⟩ else dog.vel
        is_idle := if ((m.x_call dog delta_ms).stopped || (m.y_call dog delta_ms).stopped) = true
          then true else dog.is_idle } := rfl

/-- After `MoveDog` the rounded position is the pair of cells reached by the two
calls of `move_axis`, and it is in the grid when the rounded position before was. -/
theorem MoveDog_cell (m : Map) (dog : Dog) (delta_ms : ℤ)
    (hcell : m.road_grid.ContainsRoad ⟨std_round dog.pos.x, std_round dog.pos.y⟩ = true) :
    std_round (m.MoveDog dog delta_ms).pos.x = (m.x_call dog delta_ms).cell ∧
    std_round (m.MoveDog dog delta_ms).pos.y = (m.y_call dog delta_ms).cell ∧
    m.road_grid.ContainsRoad ⟨(m.x_call dog delta_ms).cell, std_round dog.pos.y⟩ = true ∧
    m.road_grid.ContainsRoad ⟨(m.x_call dog delta_ms).cell, (m.y_call dog delta_ms).cell⟩
      = true := by
  have hx : m.road_grid.ContainsRoad ⟨(m.x_call dog delta_ms).cell, std_round dog.pos.y⟩
      = true := by
    have := move_axis_cell_covered m.road_grid ((delta_ms : ℚ) / Map.millis_per_second)
      dog.pos.x dog.vel.x
      (m.road_grid.ContainsRoad ⟨std_round dog.pos.x, std_round dog.pos.y + 1⟩ ||
        m.road_grid.ContainsRoad ⟨std_round dog.pos.x, std_round dog.pos.y - 1⟩)
      (decide (|dog.pos.y - std_round dog.pos.y| > Map.allowance + Map.eps))
      (std_round dog.pos.y) true (by simpa [Map.cellAt] using hcell)
    simpa [Map.cellAt, Map.x_call] using this
  refine ⟨?_, ?_, hx, ?_⟩
  · rw [MoveDog_eq_calls]
    exact move_axis_round _ _ _ _ _ _ _ _
  · rw [MoveDog_eq_calls]
    exact move_axis_round _ _ _ _ _ _ _ _
  · have := move_axis_cell_covered m.road_grid ((delta_ms : ℚ) / Map.millis_per_second)
      dog.pos.y dog.vel.y
      (m.road_grid.ContainsRoad ⟨std_round dog.pos.x + 1, std_round dog.pos.y⟩ ||
        m.road_grid.ContainsRoad ⟨std_round dog.pos.x - 1, std_round dog.pos.y⟩)
      (decide (|dog.pos.x - std_round dog.pos.x| > Map.allowance + Map.eps))
      (m.x_call dog delta_ms).cell false (by simpa [Map.cellAt] using hx)
    simpa [Map.cellAt, Map.y_call] using this

/-- A coordinate that started within `allowance + eps` of its cell ends more
than `allowance + eps` away from the cell reached only on the side of a grid
cell. -/
theorem move_axis_offset (grid : RoadGrid) (dt pos vel : ℚ) (is_on off_out : Bool)
    (fixed : ℤ) (is_x : Bool)
    (hstart : grid.ContainsRoad (Map.cellAt is_x (std_round pos) fixed) = true)
    (hoff : |pos - std_round pos| ≤ Map.allowance + Map.eps)
    (hbig : Map.allowance + Map.eps <
      |(Map.move_axis grid dt pos vel (std_round pos) is_on off_out fixed is_x).pos
        - (Map.move_axis grid dt pos vel (std_round pos) is_on off_out fixed is_x).cell|) :
    vel ≠ 0 ∧
    grid.ContainsRoad (Map.cellAt is_x
      ((Map.move_axis grid dt pos vel (std_round pos) is_on off_out fixed is_x).cell
        + (if (Map.move_axis grid dt pos vel (std_round pos) is_on off_out fixed is_x).pos
            > (Map.move_axis grid dt pos vel (std_round pos) is_on off_out fixed is_x).cell
          then 1 else -1)) fixed) = true := by
  have hv : vel ≠ 0 := by
    rintro rfl
    rw [move_axis_zero] at hbig
    exact absurd hoff (not_le.mpr hbig)
  refine ⟨hv, ?_⟩
  obtain ⟨c1, j, k, step, hstep, hcell, hc1, hk, hcj, hall, hcase⟩ :=
    move_axis_spec grid dt pos vel is_on off_out fixed is_x hv
  have hs : step = 1 ∨ step = -1 := by
    rw [hstep]; split_ifs <;> simp
  unfold Map.allowance Map.eps at hoff hbig
  rw [abs_le] at hoff
  rcases hcase with ⟨_, hpos, _, _⟩ | ⟨_, hpos, hk0, hgo⟩
  · exfalso
    rw [hpos, hcell] at hbig
    have : |(c1 : ℚ) + step * (4 / 10) - c1| = 4 / 10 := by
      rcases hs with h | h <;> subst h <;> norm_num [abs_of_pos]
    rw [this] at hbig
    norm_num at hbig
  · rw [hpos, hcell] at hbig ⊢
    by_cases hfront : (4 : ℚ) / 10 < step * (pos + vel * dt - c1)
    · -- the offset points in the direction of the step
      have hroad : grid.ContainsRoad (Map.cellAt is_x (c1 + step) fixed) = true := by
        rcases hgo with h | h
        · linarith
        · exact h.2
      have : (if pos + vel * dt > (c1 : ℚ) then (1 : ℤ) else -1) = step := by
        rcases hs with h | h <;> subst h
        · push_cast at hfront
          rw [if_pos (by linarith)]
        · push_cast at hfront
          rw [if_neg (by linarith)]
      rw [this]; exact hroad
    · -- the offset points backwards
      have hback : (step : ℚ) * (pos + vel * dt - c1) < -(4 / 10 + 1 / 1000000) := by
        rcases hs with h | h <;> subst h
        · push_cast at hfront ⊢
          rcases lt_abs.mp hbig with h' | h'
          · linarith
          · linarith
        · push_cast at hfront ⊢
          rcases lt_abs.mp hbig with h' | h'
          · linarith
          · linarith
      have hsign : (if pos + vel * dt > (c1 : ℚ) then (1 : ℤ) else -1) = -step := by
        rcases hs with h | h <;> subst h
        · push_cast at hback
          rw [if_neg (by linarith)]
        · push_cast at hback
          rw [if_pos (by linarith)]; simp
      rw [hsign]
      by_cases hj : j = 0
      · exfalso
        subst hj
        have hc : c1 = std_round pos := by simpa using hc1
        rw [hc] at hback
        rcases hs with h | h <;> subst h
        · have hd : vel * dt > 0 := by
            by_contra hn
            rw [if_neg hn] at hstep
            omega
          push_cast at hback
          linarith [hoff.1]
        · have hd : ¬ vel * dt > 0 := by
            intro hn
            rw [if_pos hn] at hstep
            omega
          push_cast at hback
          linarith [hoff.2]
      · by_cases hj1 : j = 1
        · subst hj1
          have : c1 + -step = std_round pos := by rw [hc1]; push_cast; ring
          rw [this]; exact hstart
        · have := hall (j - 1) (by omega) (by omega)
          have e : c1 + -step = std_round pos + step * ((j - 1 : ℕ) : ℤ) := by
            have : ((j - 1 : ℕ) : ℤ) = (j : ℤ) - 1 := by omega
            rw [hc1, this]; ring
          rw [e]; exact this

end model

namespace model

theorem abs_sub_std_round_le (q : ℚ) : |q - std_round q| ≤ 1 / 2 := by
  rw [abs_le]
  constructor
  · linarith [std_round_lower q]
  · linarith [std_round_upper q]

/-- Claim C1 as amended: if the rounded position of the dog is a covered road
cell and the position is within `0.4 + eps` of it on each axis, then after
`MoveDog` the new rounded position is again a covered road cell and the new
position is within `0.5` of it on each axis, for a tick of any length.  On an axis the new position is more
than `0.4 + eps` away from the cell only if the velocity along that axis is not
zero and the neighbouring cell on that side is covered too (for `x`, which is
updated first, the neighbour in the row the dog started in). -/
theorem C1_rounded_cell_stays_covered (m : Map) (dog : Dog) (delta_ms : ℤ)
    (hcell : m.road_grid.ContainsRoad ⟨std_round dog.pos.x, std_round dog.pos.y⟩ = true)
    (hx : |dog.pos.x - std_round dog.pos.x| ≤ Map.allowance + Map.eps)
    (hy : |dog.pos.y - std_round dog.pos.y| ≤ Map.allowance + Map.eps) :
    m.road_grid.ContainsRoad ⟨std_round (m.MoveDog dog delta_ms).pos.x,
      std_round (m.MoveDog dog delta_ms).pos.y⟩ = true ∧
    |(m.MoveDog dog delta_ms).pos.x - std_round (m.MoveDog dog delta_ms).pos.x| ≤ 1 / 2 ∧
    |(m.MoveDog dog delta_ms).pos.y - std_round (m.MoveDog dog delta_ms).pos.y| ≤ 1 / 2 ∧
    (Map.allowance + Map.eps
        < |(m.MoveDog dog delta_ms).pos.x - std_round (m.MoveDog dog delta_ms).pos.x| →
      dog.vel.x ≠ 0 ∧
      m.road_grid.ContainsRoad ⟨std_round (m.MoveDog dog delta_ms).pos.x
        + (if (m.MoveDog dog delta_ms).pos.x > std_round (m.MoveDog dog delta_ms).pos.x
            then 1 else -1), std_round dog.pos.y⟩ = true) ∧
    (Map.allowance + Map.eps
        < |(m.MoveDog dog delta_ms).pos.y - std_round (m.MoveDog dog delta_ms).pos.y| →
      dog.vel.y ≠ 0 ∧
      m.road_grid.ContainsRoad ⟨std_round (m.MoveDog dog delta_ms).pos.x,
        std_round (m.MoveDog dog delta_ms).pos.y
        + (if (m.MoveDog dog delta_ms).pos.y > std_round (m.MoveDog dog delta_ms).pos.y
            then 1 else -1)⟩ = true) := by
  obtain ⟨hrx, hry, hcx, hcxy⟩ := MoveDog_cell m dog delta_ms hcell
  refine ⟨by rw [hrx, hry]; exact hcxy, abs_sub_std_round_le _, abs_sub_std_round_le _, ?_, ?_⟩
  · intro hbig
    rw [hrx] at hbig ⊢
    have := move_axis_offset m.road_grid ((delta_ms : ℚ) / Map.millis_per_second)
      dog.pos.x dog.vel.x
      (m.road_grid.ContainsRoad ⟨std_round dog.pos.x, std_round dog.pos.y + 1⟩ ||
        m.road_grid.ContainsRoad ⟨std_round dog.pos.x, std_round dog.pos.y - 1⟩)
      (decide (|dog.pos.y - std_round dog.pos.y| > Map.allowance + Map.eps))
      (std_round dog.pos.y) true (by simpa [Map.cellAt] using hcell) hx
      (by simpa [MoveDog_eq_calls, Map.x_call] using hbig)
    refine ⟨this.1, ?_⟩
    simpa [Map.cellAt, MoveDog_eq_calls, Map.x_call] using this.2
  · intro hbig
    rw [hry] at hbig ⊢
    rw [hrx]
    have := move_axis_offset m.road_grid ((delta_ms : ℚ) / Map.millis_per_second)
      dog.pos.y dog.vel.y
      (m.road_grid.ContainsRoad ⟨std_round dog.pos.x + 1, std_round dog.pos.y⟩ ||
        m.road_grid.ContainsRoad ⟨std_round dog.pos.x - 1, std_round dog.pos.y⟩)
      (decide (|dog.pos.x - std_round dog.pos.x| > Map.allowance + Map.eps))
      (m.x_call dog delta_ms).cell false (by simpa [Map.cellAt] using hcx) hy
      (by simpa [MoveDog_eq_calls, Map.y_call] using hbig)
    refine ⟨this.1, ?_⟩
    simpa [Map.cellAt, MoveDog_eq_calls, Map.y_call] using this.2

/-- The result of `MoveDog` on the road `(0,0)-(10,0)` for a dog at the origin
with velocity `(1, 0)` after 450 ms. -/
theorem MoveDog_one_road_450 :
    scenario.one_road.MoveDog (scenario.moving_dog ⟨0, 0⟩ ⟨1, 0⟩) 450
      = { scenario.moving_dog ⟨0, 0⟩ ⟨1, 0⟩ with pos := ⟨9 / 20, 0⟩ } := by
  have h2 : std_round ((0 : ℚ) + 1 * (((450 : ℤ) : ℚ) / 1000)) = 0 :=
    std_round_eq_of_lt (by norm_num) (by norm_num)
  have := MoveDog_free_x scenario.one_road (scenario.moving_dog ⟨0, 0⟩ ⟨1, 0⟩) 450 rfl
    (by norm_num [scenario.moving_dog, Dog.mk_new])
    (by norm_num [scenario.moving_dog, Dog.mk_new, std_round_zero, Map.allowance, Map.eps])
    (by
      intro k hk1 hk2
      simp only [scenario.moving_dog, Dog.mk_new, h2, std_round_zero] at hk1 hk2 ⊢
      have : k = 0 := by omega
      subst this; decide)
    (Or.inr (by
      simp only [scenario.moving_dog, Dog.mk_new, h2, std_round_zero]
      norm_num
      decide))
  rw [this]
  simp only [scenario.moving_dog, Dog.mk_new]
  norm_num

/-- Counterexample to C1 as stated: on the road `(0,0)-(10,0)` a dog at `(0, 0)`
(on a covered cell, offset 0) with velocity `(1, 0)` is moved by a tick of 450 ms
to `(0.45, 0)`, which is `0.45 > 0.4 + eps` away from its cell `(0, 0)`. -/
theorem C1_counterexample_offset :
    (scenario.one_road.road_grid.ContainsRoad
        ⟨std_round (scenario.moving_dog ⟨0, 0⟩ ⟨1, 0⟩).pos.x,
          std_round (scenario.moving_dog ⟨0, 0⟩ ⟨1, 0⟩).pos.y⟩ = true ∧
      |(scenario.moving_dog ⟨0, 0⟩ ⟨1, 0⟩).pos.x
        - std_round (scenario.moving_dog ⟨0, 0⟩ ⟨1, 0⟩).pos.x| ≤ Map.allowance + Map.eps ∧
      |(scenario.moving_dog ⟨0, 0⟩ ⟨1, 0⟩).pos.y
        - std_round (scenario.moving_dog ⟨0, 0⟩ ⟨1, 0⟩).pos.y| ≤ Map.allowance + Map.eps ∧
      (0 : ℤ) ≤ 450) ∧
    ¬ (|(scenario.one_road.MoveDog (scenario.moving_dog ⟨0, 0⟩ ⟨1, 0⟩) 450).pos.x
        - std_round (scenario.one_road.MoveDog (scenario.moving_dog ⟨0, 0⟩ ⟨1, 0⟩) 450).pos.x|
          ≤ Map.allowance + Map.eps) := by
  have h1 : std_round ((9 : ℚ) / 20) = 0 := std_round_eq_of_lt (by norm_num) (by norm_num)
  have ha : |(9 : ℚ) / 20| = 9 / 20 := abs_of_pos (by norm_num)
  refine ⟨⟨?_, ?_, ?_, by norm_num⟩, ?_⟩
  · simp only [scenario.moving_dog, Dog.mk_new, std_round_zero]; decide
  · norm_num [scenario.moving_dog, Dog.mk_new, std_round_zero, Map.allowance, Map.eps]
  · norm_num [scenario.moving_dog, Dog.mk_new, std_round_zero, Map.allowance, Map.eps]
  · rw [MoveDog_one_road_450]
    simp only [h1]
    norm_num [ha, Map.allowance, Map.eps]

/-- Witness of the amended C1 on the same input: the dog moved to `(0.45, 0)`
still rounds to the covered cell `(0, 0)`. -/
theorem C1_witness_one_road :
    scenario.one_road.road_grid.ContainsRoad
      ⟨std_round (scenario.one_road.MoveDog (scenario.moving_dog ⟨0, 0⟩ ⟨1, 0⟩) 450).pos.x,
        std_round (scenario.one_road.MoveDog (scenario.moving_dog ⟨0, 0⟩ ⟨1, 0⟩) 450).pos.y⟩
      = true :=
  (C1_rounded_cell_stays_covered scenario.one_road (scenario.moving_dog ⟨0, 0⟩ ⟨1, 0⟩) 450
    (by simp only [scenario.moving_dog, Dog.mk_new, std_round_zero]; decide)
    (by norm_num [scenario.moving_dog, Dog.mk_new, std_round_zero, Map.allowance, Map.eps])
    (by norm_num [scenario.moving_dog, Dog.mk_new, std_round_zero, Map.allowance,
      Map.eps])).1

end model

namespace model

theorem Road.lo_le_hi (r : Road) (is_x : Bool) : r.lo is_x ≤ r.hi is_x := by
  unfold Road.lo Road.hi
  split_ifs <;> exact min_le_max

/-- A road extends along one axis only. -/
theorem Road.degenerate (r : Road) (is_x : Bool) :
    r.lo is_x = r.hi is_x ∨ r.lo (!is_x) = r.hi (!is_x) := by
  cases r <;> cases is_x <;> simp [Road.lo, Road.hi, Road.GetStart, Road.GetEnd]

theorem Road.covers_cellAt (r : Road) (is_x : Bool) (c f : ℤ) :
    r.covers (Map.cellAt is_x c f) ↔
      (r.lo is_x ≤ c ∧ c ≤ r.hi is_x ∧ r.lo (!is_x) ≤ f ∧ f ≤ r.hi (!is_x)) := by
  cases is_x
  · simp [Road.covers, Map.cellAt, Road.lo, Road.hi]; tauto
  · simp [Road.covers, Map.cellAt, Road.lo, Road.hi]

theorem Road.near_pointAt (r : Road) (w : ℚ) (is_x : Bool) (a b : ℚ) :
    r.near w (Map.pointAt is_x a b) ↔
      ((r.lo is_x : ℚ) - w ≤ a ∧ a ≤ (r.hi is_x : ℚ) + w ∧
        (r.lo (!is_x) : ℚ) - w ≤ b ∧ b ≤ (r.hi (!is_x) : ℚ) + w) := by
  cases is_x
  · simp [Road.near, Map.pointAt, Road.lo, Road.hi]; tauto
  · simp [Road.near, Map.pointAt, Road.lo, Road.hi]

/-- Two grid cells that are neighbours along the moving axis lie on a common
road, when the map joins neighbours. -/
theorem joined_along (m : Map) (hj : m.neighbours_joined) (is_x : Bool) (c f : ℤ)
    (h1 : m.road_grid.ContainsRoad (Map.cellAt is_x c f) = true)
    (h2 : m.road_grid.ContainsRoad (Map.cellAt is_x (c + 1) f) = true) :
    ∃ r ∈ m.roads, r.lo is_x ≤ c ∧ c + 1 ≤ r.hi is_x ∧ r.lo (!is_x) ≤ f ∧ f ≤ r.hi (!is_x) := by
  obtain ⟨r, hr, hp, hq⟩ := hj _ _ h1 h2 (by cases is_x <;> simp [Map.cellAt])
  rw [Road.covers_cellAt] at hp hq
  exact ⟨r, hr, hp.1, hq.2.1, hp.2.2.1, hp.2.2.2⟩

end model

namespace model

/-- A point within `0.4 + eps` of a grid cell on each axis is within `0.4 + eps`
of a road. -/
theorem on_roads_of_cell (m : Map) (is_x : Bool) (c cb : ℤ) (p b : ℚ)
    (hc : m.road_grid.ContainsRoad (Map.cellAt is_x c cb) = true)
    (hp1 : (c : ℚ) - (4 / 10 + 1 / 1000000) ≤ p) (hp2 : p ≤ (c : ℚ) + (4 / 10 + 1 / 1000000))
    (hb1 : (cb : ℚ) - (4 / 10 + 1 / 1000000) ≤ b) (hb2 : b ≤ (cb : ℚ) + (4 / 10 + 1 / 1000000)) :
    m.on_roads (Map.allowance + Map.eps) (Map.pointAt is_x p b) := by
  obtain ⟨r, hr, hcov⟩ := (contains_road_grid m _).mp hc
  rw [Road.covers_cellAt] at hcov
  obtain ⟨h1, h2, h3, h4⟩ := hcov
  have h1q : (r.lo is_x : ℚ) ≤ c := by exact_mod_cast h1
  have h2q : (c : ℚ) ≤ r.hi is_x := by exact_mod_cast h2
  have h3q : (r.lo (!is_x) : ℚ) ≤ cb := by exact_mod_cast h3
  have h4q : (cb : ℚ) ≤ r.hi (!is_x) := by exact_mod_cast h4
  refine ⟨r, hr, (Road.near_pointAt r _ is_x p b).mpr ?_⟩
  unfold Map.allowance Map.eps
  refine ⟨by linarith, by linarith, by linarith, by linarith⟩

/-- A point between two neighbouring grid cells of a map that joins neighbours,
within `0.4 + eps` of their row, is within `0.4 + eps` of a road. -/
theorem on_roads_of_joined (m : Map) (hj : m.neighbours_joined) (is_x : Bool) (c cb : ℤ)
    (p b : ℚ)
    (hc1 : m.road_grid.ContainsRoad (Map.cellAt is_x c cb) = true)
    (hc2 : m.road_grid.ContainsRoad (Map.cellAt is_x (c + 1) cb) = true)
    (hp1 : (c : ℚ) ≤ p) (hp2 : p ≤ (c : ℚ) + 1)
    (hb1 : (cb : ℚ) - (4 / 10 + 1 / 1000000) ≤ b) (hb2 : b ≤ (cb : ℚ) + (4 / 10 + 1 / 1000000)) :
    m.on_roads (Map.allowance + Map.eps) (Map.pointAt is_x p b) := by
  obtain ⟨r, hr, h1, h2, h3, h4⟩ := joined_along m hj is_x c cb hc1 hc2
  have h1q : (r.lo is_x : ℚ) ≤ c := by exact_mod_cast h1
  have h2q : (c : ℚ) + 1 ≤ r.hi is_x := by exact_mod_cast h2
  have h3q : (r.lo (!is_x) : ℚ) ≤ cb := by exact_mod_cast h3
  have h4q : (cb : ℚ) ≤ r.hi (!is_x) := by exact_mod_cast h4
  refine ⟨r, hr, (Road.near_pointAt r _ is_x p b).mpr ?_⟩
  unfold Map.allowance Map.eps
  refine ⟨by linarith, by linarith, by linarith, by linarith⟩

end model

namespace model

/-- One call of `move_axis` keeps the dog within `0.4 + eps` of the roads, on a
map that joins neighbouring cells. -/
theorem move_axis_on_roads (m : Map) (hj : m.neighbours_joined) (is_x : Bool)
    (dt a b vel : ℚ)
    (h : m.on_roads (Map.allowance + Map.eps) (Map.pointAt is_x a b)) :
    m.on_roads (Map.allowance + Map.eps) (Map.pointAt is_x
      (Map.move_axis m.road_grid dt a vel (std_round a)
        (m.road_grid.ContainsRoad (Map.cellAt is_x (std_round a) (std_round b + 1)) ||
          m.road_grid.ContainsRoad (Map.cellAt is_x (std_round a) (std_round b - 1)))
        (decide (|b - std_round b| > Map.allowance + Map.eps)) (std_round b) is_x).pos b) := by
  by_cases hv : vel = 0
  · subst hv; rw [move_axis_zero]; exact h
  obtain ⟨r0, hr0, hn0⟩ := h
  rw [Road.near_pointAt] at hn0
  unfold Map.allowance Map.eps at hn0
  obtain ⟨ha1, ha2, hb1, hb2⟩ := hn0
  have hla := std_round_lower a
  have hua := std_round_upper a
  have hlb := std_round_lower b
  have hub := std_round_upper b
  -- the cell of the dog lies on the road `r0`
  have hca1 : r0.lo is_x ≤ std_round a := by
    have : (r0.lo is_x : ℚ) - 1 < std_round a := by linarith
    have : r0.lo is_x - 1 < std_round a := by exact_mod_cast this
    omega
  have hca2 : std_round a ≤ r0.hi is_x := by
    have : (std_round a : ℚ) < (r0.hi is_x : ℚ) + 1 := by linarith
    have : std_round a < r0.hi is_x + 1 := by exact_mod_cast this
    omega
  have hcb1 : r0.lo (!is_x) ≤ std_round b := by
    have : (r0.lo (!is_x) : ℚ) - 1 < std_round b := by linarith
    have : r0.lo (!is_x) - 1 < std_round b := by exact_mod_cast this
    omega
  have hcb2 : std_round b ≤ r0.hi (!is_x) := by
    have : (std_round b : ℚ) < (r0.hi (!is_x) : ℚ) + 1 := by linarith
    have : std_round b < r0.hi (!is_x) + 1 := by exact_mod_cast this
    omega
  have hca1q : (r0.lo is_x : ℚ) ≤ std_round a := by exact_mod_cast hca1
  have hca2q : (std_round a : ℚ) ≤ r0.hi is_x := by exact_mod_cast hca2
  have hstart : m.road_grid.ContainsRoad (Map.cellAt is_x (std_round a) (std_round b)) = true :=
    (contains_road_grid m _).mpr
      ⟨r0, hr0, (Road.covers_cellAt r0 is_x _ _).mpr ⟨hca1, hca2, hcb1, hcb2⟩⟩
  have hcov := move_axis_cell_covered m.road_grid dt a vel
    (m.road_grid.ContainsRoad (Map.cellAt is_x (std_round a) (std_round b + 1)) ||
      m.road_grid.ContainsRoad (Map.cellAt is_x (std_round a) (std_round b - 1)))
    (decide (|b - std_round b| > Map.allowance + Map.eps)) (std_round b) is_x hstart
  obtain ⟨c1, j, k, step, hstep, hcell, hc1, hk, hcj, hall, hcase⟩ :=
    move_axis_spec m.road_grid dt a vel
      (m.road_grid.ContainsRoad (Map.cellAt is_x (std_round a) (std_round b + 1)) ||
        m.road_grid.ContainsRoad (Map.cellAt is_x (std_round a) (std_round b - 1)))
      (decide (|b - std_round b| > Map.allowance + Map.eps)) (std_round b) is_x hv
  rw [hcell] at hcov
  generalize (Map.move_axis m.road_grid dt a vel (std_round a)
      (m.road_grid.ContainsRoad (Map.cellAt is_x (std_round a) (std_round b + 1)) ||
        m.road_grid.ContainsRoad (Map.cellAt is_x (std_round a) (std_round b - 1)))
      (decide (|b - std_round b| > Map.allowance + Map.eps)) (std_round b) is_x).pos = P
    at hcase ⊢
  have hs : step = 1 ∨ step = -1 := by
    rw [hstep]; split_ifs <;> simp
  -- the sign of the displacement
  have hfwd : step = 1 → 0 < vel * dt := by
    intro h1
    by_contra hn
    rw [if_neg hn] at hstep
    omega
  have hbwd : step = -1 → vel * dt ≤ 0 := by
    intro h1
    by_contra hn
    rw [if_pos (not_le.mp hn)] at hstep
    omega
  have hlt := std_round_lower (a + vel * dt)
  have hut := std_round_upper (a + vel * dt)
  by_cases hout : |b - std_round b| > Map.allowance + Map.eps
  · -- the dog is off the centre line across the axis: it is on a road across the axis
    unfold Map.allowance Map.eps at hout
    have hext : r0.lo (!is_x) < r0.hi (!is_x) ∧
        (m.road_grid.ContainsRoad (Map.cellAt is_x (std_round a) (std_round b + 1)) ||
          m.road_grid.ContainsRoad (Map.cellAt is_x (std_round a) (std_round b - 1))) = true := by
      rcases lt_abs.mp hout with h' | h'
      · have : (std_round b : ℚ) < r0.hi (!is_x) := by linarith
        have h2 : std_round b < r0.hi (!is_x) := by exact_mod_cast this
        refine ⟨by omega, ?_⟩
        have : m.road_grid.ContainsRoad (Map.cellAt is_x (std_round a) (std_round b + 1))
            = true :=
          (contains_road_grid m _).mpr
            ⟨r0, hr0, (Road.covers_cellAt r0 is_x _ _).mpr ⟨hca1, hca2, by omega, by omega⟩⟩
        rw [this]; rfl
      · have : (r0.lo (!is_x) : ℚ) < std_round b := by linarith
        have h2 : r0.lo (!is_x) < std_round b := by exact_mod_cast this
        refine ⟨by omega, ?_⟩
        have : m.road_grid.ContainsRoad (Map.cellAt is_x (std_round a) (std_round b - 1))
            = true :=
          (contains_road_grid m _).mpr
            ⟨r0, hr0, (Road.covers_cellAt r0 is_x _ _).mpr ⟨hca1, hca2, by omega, by omega⟩⟩
        rw [this]; simp
    have hdeg : r0.lo is_x = r0.hi is_x := by
      rcases Road.degenerate r0 is_x with h' | h'
      · exact h'
      · omega
    have hcant : (decide (|b - std_round b| > Map.allowance + Map.eps) &&
        (m.road_grid.ContainsRoad (Map.cellAt is_x (std_round a) (std_round b + 1)) ||
          m.road_grid.ContainsRoad (Map.cellAt is_x (std_round a) (std_round b - 1)))) = true := by
      rw [hext.2]
      unfold Map.allowance Map.eps
      simpa using hout
    have hj0 := hcj hcant
    subst hj0
    have hc : c1 = std_round a := by simpa using hc1
    have hlo_eq : r0.lo is_x = c1 := by omega
    have hhi_eq : r0.hi is_x = c1 := by omega
    have hloq : (r0.lo is_x : ℚ) = c1 := by exact_mod_cast hlo_eq
    have hhiq : (r0.hi is_x : ℚ) = c1 := by exact_mod_cast hhi_eq
    refine ⟨r0, hr0, (Road.near_pointAt r0 _ is_x _ b).mpr ?_⟩
    unfold Map.allowance Map.eps
    rcases hcase with ⟨_, hpos, _, _⟩ | ⟨_, hpos, _, hgo⟩
    · rw [hpos, hloq, hhiq]
      rcases hs with h' | h' <;> subst h' <;> push_cast <;>
        exact ⟨by linarith, by linarith, hb1, hb2⟩
    · rw [hpos, hloq, hhiq]
      have hgo' : (step : ℚ) * (a + vel * dt - c1) ≤ 4 / 10 := by
        rcases hgo with h' | h'
        · exact h'
        · rw [hcant] at h'; exact Bool.noConfusion h'.1
      rw [hloq] at ha1
      rw [hhiq] at ha2
      rcases hs with h' | h'
      · have := hfwd h'
        subst h'
        push_cast at hgo'
        exact ⟨by linarith, by linarith, hb1, hb2⟩
      · have := hbwd h'
        subst h'
        push_cast at hgo'
        exact ⟨by linarith, by linarith, hb1, hb2⟩
  · -- the dog is on the centre line across the axis, up to the tolerance
    have hb := abs_le.mp (not_lt.mp hout)
    unfold Map.allowance Map.eps at hb
    have hbl : (std_round b : ℚ) - (4 / 10 + 1 / 1000000) ≤ b := by linarith [hb.1]
    have hbu : b ≤ (std_round b : ℚ) + (4 / 10 + 1 / 1000000) := by linarith [hb.2]
    rcases hcase with ⟨_, hpos, _, _⟩ | ⟨_, hpos, hk0, hgo⟩
    · rw [hpos]
      apply on_roads_of_cell m is_x c1 (std_round b) _ b hcov _ _ hbl hbu
      · rcases hs with h' | h' <;> subst h' <;> push_cast <;> linarith
      · rcases hs with h' | h' <;> subst h' <;> push_cast <;> linarith
    · rw [hpos]
      have hrt : std_round (a + vel * dt) = c1 := by rw [hk, hk0]; simp
      rw [hrt] at hlt hut
      by_cases hfront : (4 : ℚ) / 10 < step * (a + vel * dt - c1)
      · -- between the cell reached and the grid cell in front of it
        have hroad : m.road_grid.ContainsRoad (Map.cellAt is_x (c1 + step) (std_round b))
            = true := by
          rcases hgo with h' | h'
          · linarith
          · exact h'.2
        rcases hs with h' | h' <;> subst h'
        · push_cast at hfront
          exact on_roads_of_joined m hj is_x c1 (std_round b) _ b hcov hroad
            (by linarith) (by linarith) hbl hbu
        · push_cast at hfront
          have e : c1 - 1 + 1 = c1 := by ring
          have hq : ((c1 - 1 : ℤ) : ℚ) = (c1 : ℚ) - 1 := by push_cast; ring
          exact on_roads_of_joined m hj is_x (c1 - 1) (std_round b) _ b
            (by simpa [sub_eq_add_neg] using hroad) (by rw [e]; exact hcov)
            (by rw [hq]; linarith) (by rw [hq]; linarith) hbl hbu
      · by_cases hback : (step : ℚ) * (a + vel * dt - c1) < -(4 / 10)
        · by_cases hj0 : j = 0
          · -- no cell was walked: the target lies between the old position and its cell
            subst hj0
            have hc : c1 = std_round a := by simpa using hc1
            rw [← hc] at hca1q hca2q
            refine ⟨r0, hr0, (Road.near_pointAt r0 _ is_x _ b).mpr ?_⟩
            unfold Map.allowance Map.eps
            rcases hs with h' | h'
            · have := hfwd h'
              subst h'
              push_cast at hback
              exact ⟨by linarith, by linarith, hb1, hb2⟩
            · have := hbwd h'
              subst h'
              push_cast at hback
              exact ⟨by linarith, by linarith, hb1, hb2⟩
          · -- between the cell reached and the cell walked before it
            have hprev : m.road_grid.ContainsRoad (Map.cellAt is_x (c1 - step) (std_round b))
                = true := by
              by_cases hj1 : j = 1
              · subst hj1
                have : c1 - step = std_round a := by rw [hc1]; push_cast; ring
                rw [this]; exact hstart
              · have := hall (j - 1) (by omega) (by omega)
                have e : c1 - step = std_round a + step * ((j - 1 : ℕ) : ℤ) := by
                  have : ((j - 1 : ℕ) : ℤ) = (j : ℤ) - 1 := by omega
                  rw [hc1, this]; ring
                rw [e]; exact this
            rcases hs with h' | h' <;> subst h'
            · push_cast at hback
              have e : c1 - 1 + 1 = c1 := by ring
              have hq : ((c1 - 1 : ℤ) : ℚ) = (c1 : ℚ) - 1 := by push_cast; ring
              exact on_roads_of_joined m hj is_x (c1 - 1) (std_round b) _ b
                hprev (by rw [e]; exact hcov)
                (by rw [hq]; linarith) (by rw [hq]; linarith) hbl hbu
            · push_cast at hback
              exact on_roads_of_joined m hj is_x c1 (std_round b) _ b hcov
                (by simpa using hprev) (by linarith) (by linarith) hbl hbu
        · -- within the allowance of the cell reached
          have h1 := not_lt.mp hfront
          have h2 := not_lt.mp hback
          have hD : -(4 / 10 : ℚ) ≤ a + vel * dt - c1 ∧ a + vel * dt - c1 ≤ 4 / 10 := by
            rcases hs with h' | h'
            · rw [h'] at h1 h2
              push_cast at h1 h2
              exact ⟨by linarith only [h2], by linarith only [h1]⟩
            · rw [h'] at h1 h2
              push_cast at h1 h2
              exact ⟨by linarith only [h1], by linarith only [h2]⟩
          exact on_roads_of_cell m is_x c1 (std_round b) _ b hcov
            (by linarith only [hD.1]) (by linarith only [hD.2]) hbl hbu

end model

namespace model

/-- Claim C2 as amended: on a map in which any two neighbouring covered cells
lie on a common road, a dog whose velocity has at most one non-zero component
and whose position lies within `0.4 + eps`, on each axis, of some road segment
lies again within `0.4 + eps` of some road segment after `MoveDog`, for a tick of
any length. -/
theorem C2_stays_within_roads (m : Map) (dog : Dog) (delta_ms : ℤ)
    (hj : m.neighbours_joined) (hvel : dog.vel.x = 0 ∨ dog.vel.y = 0)
    (h : m.on_roads (Map.allowance + Map.eps) dog.pos) :
    m.on_roads (Map.allowance + Map.eps) (m.MoveDog dog delta_ms).pos := by
  rcases hvel with hvx | hvy
  · rw [MoveDog_y_only m dog delta_ms hvx]
    have := move_axis_on_roads m hj false ((delta_ms : ℚ) / 1000) dog.pos.y dog.pos.x
      dog.vel.y (by simpa [Map.pointAt] using h)
    simpa [Map.pointAt, Map.cellAt] using this
  · rw [MoveDog_x_only m dog delta_ms hvy]
    have := move_axis_on_roads m hj true ((delta_ms : ℚ) / 1000) dog.pos.x dog.pos.y
      dog.vel.x (by simpa [Map.pointAt] using h)
    simpa [Map.pointAt, Map.cellAt] using this

/-- A map with a single road joins its neighbouring cells. -/
theorem neighbours_joined_single (m : Map) (r : Road) (hr : m.roads = [r]) :
    m.neighbours_joined := by
  intro p q hp hq _
  rw [contains_road_grid, hr] at hp hq
  simp only [List.mem_singleton, exists_eq_left] at hp hq
  exact ⟨r, by rw [hr]; simp, hp, hq⟩

/-- Witness of the amended C2: the road `(0,0)-(10,0)`, a dog at `(0, 0)` with
velocity `(1, 0)`, 450 ms. -/
theorem C2_witness_one_road :
    scenario.one_road.on_roads (Map.allowance + Map.eps)
      (scenario.one_road.MoveDog (scenario.moving_dog ⟨0, 0⟩ ⟨1, 0⟩) 450).pos :=
  C2_stays_within_roads scenario.one_road (scenario.moving_dog ⟨0, 0⟩ ⟨1, 0⟩) 450
    (neighbours_joined_single _ _ rfl) (Or.inr rfl)
    ⟨Road.HORIZONTAL ⟨0, 0⟩ 10, by simp [scenario.one_road, scenario.map_of],
      by norm_num [Road.near, Road.GetStart, Road.GetEnd, scenario.moving_dog, Dog.mk_new,
        Map.allowance, Map.eps]⟩

end model

namespace model

/-- On two parallel roads one cell apart a dog walks from one road to the middle
of the gap between them. -/
theorem MoveDog_parallel_roads :
    scenario.parallel_roads.MoveDog (scenario.moving_dog ⟨0, 5⟩ ⟨1, 0⟩) 480
      = { scenario.moving_dog ⟨0, 5⟩ ⟨1, 0⟩ with pos := ⟨12 / 25, 5⟩ } := by
  have h2 : std_round ((0 : ℚ) + 1 * (((480 : ℤ) : ℚ) / 1000)) = 0 :=
    std_round_eq_of_lt (by norm_num) (by norm_num)
  have h5 : std_round (5 : ℚ) = 5 := by simpa using std_round_intCast 5
  have := MoveDog_free_x scenario.parallel_roads (scenario.moving_dog ⟨0, 5⟩ ⟨1, 0⟩) 480 rfl
    (by norm_num [scenario.moving_dog, Dog.mk_new])
    (by norm_num [scenario.moving_dog, Dog.mk_new, h5, Map.allowance, Map.eps])
    (by
      intro k hk1 hk2
      simp only [scenario.moving_dog, Dog.mk_new, h2, h5, std_round_zero] at hk1 hk2 ⊢
      have : k = 0 := by omega
      subst this; decide)
    (Or.inr (by
      simp only [scenario.moving_dog, Dog.mk_new, h2, h5]
      norm_num
      decide))
  rw [this]
  simp only [scenario.moving_dog, Dog.mk_new]
  norm_num

/-- A dog `0.4000005` beside the centre line of a crossing road, inside the
`eps` tolerance, walks along the crossing road. -/
theorem MoveDog_eps_band :
    scenario.crossing.MoveDog (scenario.moving_dog ⟨54000005 / 10000000, 0⟩ ⟨0, 1⟩) 2000
      = { scenario.moving_dog ⟨54000005 / 10000000, 0⟩ ⟨0, 1⟩ with
          pos := ⟨54000005 / 10000000, 2⟩ } := by
  have hx : std_round ((54000005 : ℚ) / 10000000) = 5 :=
    std_round_eq_of_lt (by norm_num) (by norm_num)
  have h2 : std_round ((0 : ℚ) + 1 * (((2000 : ℤ) : ℚ) / 1000)) = 2 :=
    std_round_eq_of_lt (by norm_num) (by norm_num)
  have ha : |(54000005 : ℚ) / 10000000 - 5| = 4000005 / 10000000 := by
    rw [abs_of_pos (by norm_num)]; norm_num
  have := MoveDog_free_y scenario.crossing
    (scenario.moving_dog ⟨54000005 / 10000000, 0⟩ ⟨0, 1⟩) 2000 rfl
    (by norm_num [scenario.moving_dog, Dog.mk_new])
    (by
      simp only [scenario.moving_dog, Dog.mk_new, hx]
      push_cast
      rw [ha]
      norm_num [Map.allowance, Map.eps])
    (by
      intro k hk1 hk2
      simp only [scenario.moving_dog, Dog.mk_new, h2, hx, std_round_zero] at hk1 hk2 ⊢
      have : k = 0 ∨ k = 1 ∨ k = 2 := by omega
      rcases this with h | h | h <;> subst h <;> decide)
    (Or.inl (by
      simp only [scenario.moving_dog, Dog.mk_new, h2]
      norm_num))
  rw [this]
  simp only [scenario.moving_dog, Dog.mk_new]
  norm_num

/-- A dog with a diagonal velocity leaves the roads at a corner. -/
theorem MoveDog_diagonal :
    scenario.corner.MoveDog (scenario.moving_dog ⟨0, 0⟩ ⟨45 / 100, 1⟩) 1000
      = { scenario.moving_dog ⟨0, 0⟩ ⟨45 / 100, 1⟩ with pos := ⟨45 / 100, 1⟩ } := by
  have h1 : std_round ((9 : ℚ) / 20) = 0 := std_round_eq_of_lt (by norm_num) (by norm_num)
  have h1' : std_round ((45 : ℚ) / 100) = 0 := std_round_eq_of_lt (by norm_num) (by norm_num)
  have h2 : std_round (1 : ℚ) = 1 := by simpa using std_round_intCast 1
  have g1 : scenario.corner.road_grid.ContainsRoad ⟨1, 0⟩ = true := by decide
  have g2 : scenario.corner.road_grid.ContainsRoad ⟨0, 1⟩ = true := by decide
  have ha : |(9 : ℚ) / 20| = 9 / 20 := abs_of_pos (by norm_num)
  have hw : ∀ c : ℤ, Map.walk_loop scenario.corner.road_grid false 0 1 1 1 c
      = if c ≠ 1 then
          if scenario.corner.road_grid.ContainsRoad (Map.cellAt false (c + 1) 0) = true
            then c + 1 else c
        else c := fun c => rfl
  simp only [Map.MoveDog, Map.move_axis, scenario.moving_dog, Dog.mk_new,
    Map.millis_per_second]
  norm_num [h1, h1', h2, std_round_zero, hw, g1, g2, Map.cellAt, Map.allowance, Map.eps,
    std_clamp, ha, Map.walk_loop]

end model

namespace model

/-- Counterexample to C2 as stated, in three independent ways; in each the dog
starts within `0.4` of a road, `dt ≥ 0`, and ends further than `0.4` from every
road.
1. Two parallel roads one cell apart: the dog walks into the gap between them
   (also more than `0.4 + eps` from both roads).
2. The `eps` tolerance: a dog `0.4000005` beside the centre line of a crossing
   road walks along it.
3. A diagonal velocity at a corner (also more than `0.4 + eps` from both roads). -/
theorem C2_counterexample_leaves_roads :
    (scenario.parallel_roads.on_roads (4 / 10) (scenario.moving_dog ⟨0, 5⟩ ⟨1, 0⟩).pos ∧
      (0 : ℤ) ≤ 480 ∧
      ¬ scenario.parallel_roads.on_roads (4 / 10)
        (scenario.parallel_roads.MoveDog (scenario.moving_dog ⟨0, 5⟩ ⟨1, 0⟩) 480).pos ∧
      ¬ scenario.parallel_roads.on_roads (Map.allowance + Map.eps)
        (scenario.parallel_roads.MoveDog (scenario.moving_dog ⟨0, 5⟩ ⟨1, 0⟩) 480).pos) ∧
    (scenario.crossing.on_roads (4 / 10)
        (scenario.moving_dog ⟨54000005 / 10000000, 0⟩ ⟨0, 1⟩).pos ∧
      (0 : ℤ) ≤ 2000 ∧
      ¬ scenario.crossing.on_roads (4 / 10)
        (scenario.crossing.MoveDog
          (scenario.moving_dog ⟨54000005 / 10000000, 0⟩ ⟨0, 1⟩) 2000).pos) ∧
    (scenario.corner.on_roads (4 / 10) (scenario.moving_dog ⟨0, 0⟩ ⟨45 / 100, 1⟩).pos ∧
      (0 : ℤ) ≤ 1000 ∧
      ¬ scenario.corner.on_roads (4 / 10)
        (scenario.corner.MoveDog (scenario.moving_dog ⟨0, 0⟩ ⟨45 / 100, 1⟩) 1000).pos ∧
      ¬ scenario.corner.on_roads (Map.allowance + Map.eps)
        (scenario.corner.MoveDog (scenario.moving_dog ⟨0, 0⟩ ⟨45 / 100, 1⟩) 1000).pos) := by
  refine ⟨⟨?_, by norm_num, ?_, ?_⟩, ⟨?_, by norm_num, ?_⟩, ⟨?_, by norm_num, ?_, ?_⟩⟩
  · exact ⟨Road.VERTICAL ⟨0, 0⟩ 10, by simp [scenario.parallel_roads, scenario.map_of],
      by norm_num [Road.near, Road.GetStart, Road.GetEnd, scenario.moving_dog, Dog.mk_new]⟩
  · rw [MoveDog_parallel_roads]
    rintro ⟨r, hr, hn⟩
    simp only [scenario.parallel_roads, scenario.map_of, List.mem_cons, List.mem_singleton,
      List.not_mem_nil, or_false] at hr
    rcases hr with rfl | rfl <;>
      norm_num [Road.near, Road.GetStart, Road.GetEnd] at hn
  · rw [MoveDog_parallel_roads]
    rintro ⟨r, hr, hn⟩
    simp only [scenario.parallel_roads, scenario.map_of, List.mem_cons, List.mem_singleton,
      List.not_mem_nil, or_false] at hr
    rcases hr with rfl | rfl <;>
      norm_num [Road.near, Road.GetStart, Road.GetEnd, Map.allowance, Map.eps] at hn
  · exact ⟨Road.HORIZONTAL ⟨0, 0⟩ 10, by simp [scenario.crossing, scenario.map_of],
      by norm_num [Road.near, Road.GetStart, Road.GetEnd, scenario.moving_dog, Dog.mk_new]⟩
  · rw [MoveDog_eps_band]
    rintro ⟨r, hr, hn⟩
    simp only [scenario.crossing, scenario.map_of, List.mem_cons, List.mem_singleton,
      List.not_mem_nil, or_false] at hr
    rcases hr with rfl | rfl <;>
      norm_num [Road.near, Road.GetStart, Road.GetEnd] at hn
  · exact ⟨Road.HORIZONTAL ⟨0, 0⟩ 1, by simp [scenario.corner, scenario.map_of],
      by norm_num [Road.near, Road.GetStart, Road.GetEnd, scenario.moving_dog, Dog.mk_new]⟩
  · rw [MoveDog_diagonal]
    rintro ⟨r, hr, hn⟩
    simp only [scenario.corner, scenario.map_of, List.mem_cons, List.mem_singleton,
      List.not_mem_nil, or_false] at hr
    rcases hr with rfl | rfl <;>
      norm_num [Road.near, Road.GetStart, Road.GetEnd] at hn
  · rw [MoveDog_diagonal]
    rintro ⟨r, hr, hn⟩
    simp only [scenario.corner, scenario.map_of, List.mem_cons, List.mem_singleton,
      List.not_mem_nil, or_false] at hr
    rcases hr with rfl | rfl <;>
      norm_num [Road.near, Road.GetStart, Road.GetEnd, Map.allowance, Map.eps] at hn

end model

/-! ## Collision detection -/

namespace collision_detector

theorem filter_flatMap_range {α : Type} (f : ℕ → List α) (P : α → Bool) (g : ℕ)
    (h : ∀ g', g' ≠ g → (f g').filter P = []) (n : ℕ) :
    ((List.range n).flatMap f).filter P = if g < n then (f g).filter P else [] := by
  induction n with
  | zero => simp
  | succ n ih =>
    rw [List.range_succ, List.flatMap_append, List.filter_append, ih, List.flatMap_singleton]
    by_cases hg : g < n
    · have : n ≠ g := by omega
      simp [hg, h n this, Nat.lt_succ_of_lt hg]
    · by_cases hgn : g = n
      · subst hgn; simp
      · have h1 : ¬ g < n + 1 := by omega
        have : n ≠ g := fun h => hgn h.symm
        simp [hg, h1, h n this]

theorem filter_filterMap_range {α : Type} (f : ℕ → Option α) (P : α → Bool) (i : ℕ)
    (h : ∀ i' e, i' ≠ i → f i' = some e → P e = false) (n : ℕ) :
    ((List.range n).filterMap f).filter P
      = if i < n then (f i).toList.filter P else [] := by
  induction n with
  | zero => simp
  | succ n ih =>
    rw [List.range_succ, List.filterMap_append, List.filter_append, ih]
    have hone : ∀ k, ([k].filterMap f).filter P = (f k).toList.filter P := by
      intro k
      cases hk : f k <;> simp [List.filterMap, hk]
    rw [hone]
    by_cases hi : i < n
    · have hne : n ≠ i := by omega
      have : (f n).toList.filter P = [] := by
        cases hk : f n with
        | none => simp
        | some e => simp [h n e hne hk]
      simp [hi, this, Nat.lt_succ_of_lt hi]
    · by_cases hin : i = n
      · subst hin; simp
      · have h1 : ¬ i < n + 1 := by omega
        have hne : n ≠ i := fun h => hin h.symm
        have : (f n).toList.filter P = [] := by
          cases hk : f n with
          | none => simp
          | some e => simp [h n e hne hk]
        simp [hi, h1, this]

end collision_detector

namespace collision_detector

theorem point2D_eq_iff (p q : geom.Point2D) : p = q ↔ (p.x = q.x ∧ p.y = q.y) := by
  cases p; cases q; simp

theorem IsCollected_iff (r : CollectionResult) (radius : ℚ) :
    r.IsCollected radius = true ↔
      (0 ≤ r.proj_ratio ∧ r.proj_ratio ≤ 1 ∧ r.sq_distance ≤ radius * radius) := by
  simp [CollectionResult.IsCollected, and_assoc]

/-- The events of one gatherer that belong to the pair (item `i`, gatherer `g`). -/
theorem filter_events_of_gatherer (provider : ItemGathererProvider) (i g g' : ℕ) :
    (events_of_gatherer provider g').filter
        (fun e => decide (e.item_id = i ∧ e.gatherer_id = g))
      = if g' = g ∧ i < provider.ItemsCount ∧ is_hit provider i g
          then [event_of provider i g] else [] := by
  unfold events_of_gatherer
  by_cases hmove : (provider.GetGatherer g').start_pos.x = (provider.GetGatherer g').end_pos.x ∧
      (provider.GetGatherer g').start_pos.y = (provider.GetGatherer g').end_pos.y
  · have hno : ¬ (g' = g ∧ i < provider.ItemsCount ∧ is_hit provider i g) := by
      rintro ⟨rfl, _, hh, _⟩
      exact hh ((point2D_eq_iff _ _).mpr hmove)
    simp only [hmove, and_self, if_true, List.filter_nil, if_neg hno]
  · simp only [if_neg hmove]
    rw [filter_filterMap_range _ _ i]
    · by_cases hg : g' = g
      · subst hg
        by_cases hi : i < provider.ItemsCount
        · by_cases hc : (TryCollectPoint (provider.GetGatherer g').start_pos
              (provider.GetGatherer g').end_pos (provider.GetItem i).position).IsCollected
                ((provider.GetGatherer g').width + (provider.GetItem i).width) = true
          · have hh : is_hit provider i g' :=
              ⟨fun h => hmove ((point2D_eq_iff _ _).mp h), (IsCollected_iff _ _).mp hc⟩
            have hev : event_of provider i g'
                = ⟨i, g',
                  (TryCollectPoint (provider.GetGatherer g').start_pos
                    (provider.GetGatherer g').end_pos (provider.GetItem i).position).sq_distance,
                  (TryCollectPoint (provider.GetGatherer g').start_pos
                    (provider.GetGatherer g').end_pos (provider.GetItem i).position).proj_ratio⟩ :=
              rfl
            simp [hi, hc, hh, hev]
          · have hh : ¬ is_hit provider i g' := fun h => hc ((IsCollected_iff _ _).mpr h.2)
            simp [hi, hc, hh]
        · simp [hi]
      · have hno : ¬ (g' = g ∧ i < provider.ItemsCount ∧ is_hit provider i g) :=
          fun h => hg h.1
        rw [if_neg hno]
        split_ifs with hi hc
        · simp [hg]
        · simp
        · rfl
    · intro i' e hne he
      split_ifs at he with hc
      simp only [Option.some.injEq] at he
      subst he
      simp [hne]

/-- Claim C10: `FindGatherEvents` returns exactly one event
`(item i, gatherer g, d², t)` for every pair (item `i`, gatherer `g`) of the
provider that is a hit (the gatherer has `start ≠ end`, `0 ≤ t ≤ 1` and
`d² ≤ r²` with `r = gatherer.width + item.width`) and no other event; a
gatherer whose start equals its end produces no event.  Here `t` and `d²` are
those of the item's position against the gatherer's segment, given by the
formulas `segment_ratio` and `segment_sq_distance` and not by what
`TryCollectPoint` returns. -/
theorem C10_events_are_exactly_the_hits (provider : ItemGathererProvider) :
    (∀ i g : ℕ,
      (FindGatherEvents provider).filter (fun e => decide (e.item_id = i ∧ e.gatherer_id = g))
        = if g < provider.GatherersCount ∧ i < provider.ItemsCount ∧ is_hit provider i g
            then [event_of provider i g] else []) ∧
    (∀ e ∈ FindGatherEvents provider,
      e.gatherer_id < provider.GatherersCount ∧ e.item_id < provider.ItemsCount ∧
      is_hit provider e.item_id e.gatherer_id ∧ e = event_of provider e.item_id e.gatherer_id) ∧
    (∀ e ∈ FindGatherEvents provider,
      (provider.GetGatherer e.gatherer_id).start_pos
        ≠ (provider.GetGatherer e.gatherer_id).end_pos) := by
  have hfilter : ∀ i g : ℕ,
      (FindGatherEvents provider).filter (fun e => decide (e.item_id = i ∧ e.gatherer_id = g))
        = if g < provider.GatherersCount ∧ i < provider.ItemsCount ∧ is_hit provider i g
            then [event_of provider i g] else [] := by
    intro i g
    have hperm : ((FindGatherEvents provider).filter
        (fun e => decide (e.item_id = i ∧ e.gatherer_id = g))).Perm
        ((detected_events provider).filter
          (fun e => decide (e.item_id = i ∧ e.gatherer_id = g))) :=
      (List.perm_insertionSort _ _).filter _
    have hdet : (detected_events provider).filter
        (fun e => decide (e.item_id = i ∧ e.gatherer_id = g))
        = if g < provider.GatherersCount ∧ i < provider.ItemsCount ∧ is_hit provider i g
            then [event_of provider i g] else [] := by
      unfold detected_events
      rw [filter_flatMap_range _ _ g]
      · rw [filter_events_of_gatherer]
        by_cases hg : g < provider.GatherersCount <;> simp [hg]
      · intro g' hne
        rw [filter_events_of_gatherer, if_neg (fun h => hne h.1)]
    rw [hdet] at hperm
    split_ifs at hperm ⊢ with hc
    · exact List.perm_singleton.mp hperm
    · exact List.perm_nil.mp hperm
  have hmem : ∀ e ∈ FindGatherEvents provider,
      e.gatherer_id < provider.GatherersCount ∧ e.item_id < provider.ItemsCount ∧
      is_hit provider e.item_id e.gatherer_id ∧
      e = event_of provider e.item_id e.gatherer_id := by
    intro e he
    have hin : e ∈ (FindGatherEvents provider).filter
        (fun e' => decide (e'.item_id = e.item_id ∧ e'.gatherer_id = e.gatherer_id)) := by
      simp [List.mem_filter, he]
    rw [hfilter] at hin
    split_ifs at hin with hc
    · exact ⟨hc.1, hc.2.1, hc.2.2, by simpa using hin⟩
    · simp at hin
  exact ⟨hfilter, hmem, fun e he => (hmem e he).2.2.1.1⟩

end collision_detector

/-! ## Item handling -/

namespace app

open model collision_detector

theorem create_IsItemIdx (loot : List (ℕ × (ℕ × geom.Point2D))) (bases : List Item)
    (gatherers : List (ℕ × Gatherer)) (idx : ℕ) :
    (VectorItemGathererProvider.create loot bases gatherers).IsItemIdx idx = true
      ↔ idx < loot.length := by
  simp only [VectorItemGathererProvider.IsItemIdx, VectorItemGathererProvider.create,
    Bool.and_eq_true, bne_iff_ne, ne_eq, decide_eq_true_eq]
  constructor
  · exact fun h => h.2
  · exact fun h => ⟨by omega, h⟩

theorem create_GetLootData (loot : List (ℕ × (ℕ × geom.Point2D))) (bases : List Item)
    (gatherers : List (ℕ × Gatherer)) (idx : ℕ) :
    (VectorItemGathererProvider.create loot bases gatherers).GetLootData idx
      = (loot[idx]?).map (fun e => (e.1, e.2.1)) := by
  simp [VectorItemGathererProvider.GetLootData, VectorItemGathererProvider.create]

theorem create_GetDog (loot : List (ℕ × (ℕ × geom.Point2D))) (bases : List Item)
    (gatherers : List (ℕ × Gatherer)) (idx : ℕ) :
    (VectorItemGathererProvider.create loot bases gatherers).GetDog idx
      = (gatherers[idx]?).map (fun g => g.1) := by
  simp [VectorItemGathererProvider.GetDog, VectorItemGathererProvider.create]

/-- Claim C5: a gathering event of the collision pass whose item is the loot
entry `(loot_id, type)` of the session and whose dog has room in its bag appends
`(loot_id, type)` at the end of the bag of that dog and of no other, removes
`loot_id` from the loot map and leaves every other loot entry as it is. -/
theorem C5_loot_pickup (loot : List (ℕ × (ℕ × geom.Point2D))) (bases : List Item)
    (gatherers : List (ℕ × Gatherer)) (m : Map) (st : PassState) (e : GatheringEvent)
    (di : ℕ) (g : Gatherer) (dog : Dog) (loot_id type : ℕ) (pos : geom.Point2D)
    (hg : gatherers[e.gatherer_id]? = some (di, g))
    (hdog : st.dogs[di]? = some dog)
    (hloot : loot[e.item_id]? = some (loot_id, (type, pos)))
    (hroom : dog.bag.length < dog.bag_capacity) :
    (handle_event (VectorItemGathererProvider.create loot bases gatherers) m st e).dogs
      = st.dogs.set di { dog with bag := dog.bag ++ [(loot_id, type)] } ∧
    (∀ l ∈ (handle_event (VectorItemGathererProvider.create loot bases gatherers) m st e).loot_map,
      l.1 ≠ loot_id) ∧
    (∀ l : ℕ × (ℕ × geom.Point2D), l.1 ≠ loot_id →
      (l ∈ (handle_event (VectorItemGathererProvider.create loot bases gatherers) m st e).loot_map
        ↔ l ∈ st.loot_map)) ∧
    (handle_event (VectorItemGathererProvider.create loot bases gatherers) m st e).loot_map.Sublist
      st.loot_map ∧
    (handle_event (VectorItemGathererProvider.create loot bases gatherers) m st e).thrown
      = st.thrown := by
  have hidx : e.item_id < loot.length := by
    by_contra h
    rw [List.getElem?_eq_none (not_lt.mp h)] at hloot
    exact Option.noConfusion hloot
  have h1 : (VectorItemGathererProvider.create loot bases gatherers).GetDog e.gatherer_id
      = some di := by rw [create_GetDog, hg]; rfl
  have h2 : (VectorItemGathererProvider.create loot bases gatherers).IsItemIdx e.item_id
      = true := (create_IsItemIdx _ _ _ _).mpr hidx
  have h3 : (VectorItemGathererProvider.create loot bases gatherers).GetLootData e.item_id
      = some (loot_id, type) := by rw [create_GetLootData, hloot]; rfl
  have h4 : dog.TryGrabItem loot_id type
      = ({ dog with bag := dog.bag ++ [(loot_id, type)] }, true) := by
    unfold Dog.TryGrabItem
    rw [if_neg (by omega)]
  have hev : handle_event (VectorItemGathererProvider.create loot bases gatherers) m st e
      = { st with dogs := st.dogs.set di { dog with bag := dog.bag ++ [(loot_id, type)] }
                  loot_map := st.loot_map.filter (fun l => l.1 != loot_id) } := by
    unfold handle_event
    simp only [h1, hdog, h2, h3, h4, if_true]
  rw [hev]
  refine ⟨rfl, ?_, ?_, List.filter_sublist _, rfl⟩
  · intro l hl
    simpa using (List.mem_filter.mp hl).2
  · intro l hne
    simp [List.mem_filter, hne]

/-- Claim C6: a gathering event of the collision pass whose item is a loot
entry and whose dog's bag is full changes nothing: the bags and scores of all
dogs and the loot map stay as they are. -/
theorem C6_full_bag_ignores_loot (loot : List (ℕ × (ℕ × geom.Point2D))) (bases : List Item)
    (gatherers : List (ℕ × Gatherer)) (m : Map) (st : PassState) (e : GatheringEvent)
    (di : ℕ) (g : Gatherer) (dog : Dog) (loot_id type : ℕ) (pos : geom.Point2D)
    (hg : gatherers[e.gatherer_id]? = some (di, g))
    (hdog : st.dogs[di]? = some dog)
    (hloot : loot[e.item_id]? = some (loot_id, (type, pos)))
    (hfull : dog.bag_capacity ≤ dog.bag.length) :
    handle_event (VectorItemGathererProvider.create loot bases gatherers) m st e = st := by
  have hidx : e.item_id < loot.length := by
    by_contra h
    rw [List.getElem?_eq_none (not_lt.mp h)] at hloot
    exact Option.noConfusion hloot
  have h1 : (VectorItemGathererProvider.create loot bases gatherers).GetDog e.gatherer_id
      = some di := by rw [create_GetDog, hg]; rfl
  have h2 : (VectorItemGathererProvider.create loot bases gatherers).IsItemIdx e.item_id
      = true := (create_IsItemIdx _ _ _ _).mpr hidx
  have h3 : (VectorItemGathererProvider.create loot bases gatherers).GetLootData e.item_id
      = some (loot_id, type) := by rw [create_GetLootData, hloot]; rfl
  have h4 : dog.TryGrabItem loot_id type = (dog, false) := by
    unfold Dog.TryGrabItem
    rw [if_pos hfull]
  unfold handle_event
  simp only [h1, hdog, h2, h3, h4, if_true, Bool.false_eq_true, if_false]

end app

namespace app

open model collision_detector

/-- In the loot pickup scenario the collision detector reports exactly the
event of item 0 and gatherer 0 at time `0.5`. -/
theorem FindGatherEvents_pickup :
    FindGatherEvents (VectorItemGathererProvider.create scenario.pickup_loot []
      scenario.pickup_gatherers).toProvider = [scenario.pickup_event] := by
  have hr : List.range 1 = [0] := rfl
  simp only [FindGatherEvents, detected_events, events_of_gatherer,
    VectorItemGathererProvider.toProvider, VectorItemGathererProvider.create,
    scenario.pickup_loot, scenario.pickup_gatherers, scenario.pickup_event, List.length_cons,
    List.length_nil, List.map_cons, List.map_nil, List.nil_append, List.append_nil, hr]
  norm_num [List.flatMap, TryCollectPoint, CollectionResult.IsCollected, List.filterMap_cons,
    events_of_gatherer, hr]

theorem handle_events_single (provider : VectorItemGathererProvider) (m : Map)
    (st : PassState) (e : GatheringEvent) :
    handle_events provider m st [e] = handle_event provider m st e := by
  simp only [handle_events]
  split_ifs <;> rfl

/-- The collision pass of the loot pickup scenario is the handling of its one
event. -/
theorem gather_items_pickup :
    gather_items scenario.one_road scenario.pickup_gatherers [scenario.bag_dog 3 [] 0]
        scenario.pickup_loot
      = handle_event (VectorItemGathererProvider.create scenario.pickup_loot
          scenario.one_road.bases scenario.pickup_gatherers) scenario.one_road
          ⟨[scenario.bag_dog 3 [] 0], scenario.pickup_loot, false⟩ scenario.pickup_event := by
  unfold gather_items
  have hb : scenario.one_road.bases = [] := rfl
  simp only [hb, FindGatherEvents_pickup, handle_events_single]

/-- Witness of C5, the loot pickup scenario: loot at `(5, 0)`, bag capacity 3,
dog segment `(4, 0) → (6, 0)`; after the collision pass the bag holds the one
entry and the loot id is gone. -/
theorem C5_witness_pickup :
    (gather_items scenario.one_road scenario.pickup_gatherers [scenario.bag_dog 3 [] 0]
        scenario.pickup_loot).dogs = [scenario.bag_dog 3 [(1, 0)] 0] ∧
    ∀ l ∈ (gather_items scenario.one_road scenario.pickup_gatherers
        [scenario.bag_dog 3 [] 0] scenario.pickup_loot).loot_map, l.1 ≠ 1 := by
  have h := C5_loot_pickup scenario.pickup_loot scenario.one_road.bases
    scenario.pickup_gatherers scenario.one_road
    ⟨[scenario.bag_dog 3 [] 0], scenario.pickup_loot, false⟩ scenario.pickup_event
    0 ⟨⟨4, 0⟩, ⟨6, 0⟩, 6 / 10⟩ (scenario.bag_dog 3 [] 0) 1 0 ⟨5, 0⟩ rfl rfl rfl
    (by decide)
  rw [gather_items_pickup]
  exact ⟨h.1, h.2.1⟩

end app

namespace app

open model collision_detector

theorem add_value_add_value (score : ℕ) (v w : ℤ) :
    add_value (add_value score v) w = add_value score (v + w) := by
  unfold add_value
  have h : ((((score : ℤ) + v) % 2 ^ 64).toNat : ℤ) = ((score : ℤ) + v) % 2 ^ 64 :=
    Int.toNat_of_nonneg (Int.emod_nonneg _ (by norm_num))
  rw [h, Int.emod_add_emod, add_assoc]

theorem add_value_zero (score : ℕ) (h : score < 2 ^ 64) : add_value score 0 = score := by
  unfold add_value
  have : ((score : ℤ) + 0) % 2 ^ 64 = score := by
    rw [add_zero]
    exact Int.emod_eq_of_lt (by positivity) (by exact_mod_cast h)
  rw [this]; simp

/-- The loop over the bag at a base, when every entry has a value: the values are
added up in `size_t` arithmetic and nothing throws. -/
theorem deposit_eq (m : Map) (bag : List (ℕ × ℕ)) (score : ℕ) (z : ℤ)
    (hvals : ∀ item ∈ bag, ∃ v, m.loot_types[item.2]? = some (some v)) :
    deposit m.loot_types bag (add_value score z)
      = (add_value score (z + m.bag_value bag), false) := by
  induction bag generalizing z with
  | nil => simp [deposit, Map.bag_value]
  | cons item rest ih =>
    obtain ⟨v, hv⟩ := hvals item (List.mem_cons_self _ _)
    have hrest : ∀ it ∈ rest, ∃ v, m.loot_types[it.2]? = some (some v) :=
      fun it hit => hvals it (List.mem_cons_of_mem _ hit)
    have hval : m.loot_value item.2 = v := by simp [Map.loot_value, hv]
    simp only [deposit, hv]
    rw [add_value_add_value, ih (z + v) hrest]
    simp only [Map.bag_value, List.map_cons, List.sum_cons, hval]
    rw [add_assoc]

/-- The handling of a base event when every bag entry has a value. -/
theorem handle_event_base (loot : List (ℕ × (ℕ × geom.Point2D))) (bases : List Item)
    (gatherers : List (ℕ × Gatherer)) (m : Map) (st : PassState) (e : GatheringEvent)
    (di : ℕ) (g : Gatherer) (dog : Dog)
    (hg : gatherers[e.gatherer_id]? = some (di, g))
    (hdog : st.dogs[di]? = some dog)
    (hbase : loot.length ≤ e.item_id)
    (hvals : ∀ item ∈ dog.bag, ∃ v, m.loot_types[item.2]? = some (some v))
    (hscore : dog.score < 2 ^ 64) :
    handle_event (VectorItemGathererProvider.create loot bases gatherers) m st e
      = { st with
          dogs := st.dogs.set di
            { dog with
              score := (((dog.score : ℤ) + m.bag_value dog.bag) % 2 ^ 64).toNat
              bag := [] } } := by
  have h1 : (VectorItemGathererProvider.create loot bases gatherers).GetDog e.gatherer_id
      = some di := by rw [create_GetDog, hg]; rfl
  have h2 : (VectorItemGathererProvider.create loot bases gatherers).IsItemIdx e.item_id
      = false := by
    rw [Bool.eq_false_iff]
    intro h
    have := (create_IsItemIdx _ _ _ _).mp h
    omega
  have h3 := deposit_eq m dog.bag dog.score 0 hvals
  rw [add_value_zero _ hscore, zero_add] at h3
  unfold handle_event
  simp only [h1, hdog, h2, h3, Bool.false_eq_true, if_false, Dog.SetScore, Dog.ClearBag,
    add_value]

/-- Claim C7 as amended: a gathering event of the collision pass whose item is a
base, for a dog all of whose bag entries have a loot type with a 64-bit integer
`value`, sets the score of the dog to `(score + sum of the values) mod 2 ^ 64`
(the sum is computed in `size_t`), which is `score + sum` whenever that lies in
`[0, 2 ^ 64)`; the bag of the dog becomes empty, no other dog changes and the
loot map is unchanged. -/
theorem C7_base_deposit (loot : List (ℕ × (ℕ × geom.Point2D))) (bases : List Item)
    (gatherers : List (ℕ × Gatherer)) (m : Map) (st : PassState) (e : GatheringEvent)
    (di : ℕ) (g : Gatherer) (dog : Dog)
    (hg : gatherers[e.gatherer_id]? = some (di, g))
    (hdog : st.dogs[di]? = some dog)
    (hbase : loot.length ≤ e.item_id)
    (hvals : ∀ item ∈ dog.bag, ∃ v, m.loot_types[item.2]? = some (some v))
    (hscore : dog.score < 2 ^ 64) :
    handle_event (VectorItemGathererProvider.create loot bases gatherers) m st e
      = { st with
          dogs := st.dogs.set di
            { dog with
              score := (((dog.score : ℤ) + m.bag_value dog.bag) % 2 ^ 64).toNat
              bag := [] } } ∧
    (0 ≤ (dog.score : ℤ) + m.bag_value dog.bag → (dog.score : ℤ) + m.bag_value dog.bag < 2 ^ 64 →
      (((((dog.score : ℤ) + m.bag_value dog.bag) % 2 ^ 64).toNat : ℕ) : ℤ)
        = (dog.score : ℤ) + m.bag_value dog.bag) := by
  refine ⟨handle_event_base loot bases gatherers m st e di g dog hg hdog hbase hvals hscore, ?_⟩
  intro h0 h1
  rw [Int.emod_eq_of_lt h0 h1]
  exact Int.toNat_of_nonneg h0

end app

namespace app

open model collision_detector

/-- In the full bag scenario the collision detector reports the event of the
loot item on the path. -/
theorem FindGatherEvents_full_bag :
    FindGatherEvents (VectorItemGathererProvider.create scenario.full_bag_loot []
      scenario.full_bag_gatherers).toProvider = [scenario.pickup_event] := by
  have hr : List.range 1 = [0] := rfl
  simp only [FindGatherEvents, detected_events, events_of_gatherer,
    VectorItemGathererProvider.toProvider, VectorItemGathererProvider.create,
    scenario.full_bag_loot, scenario.full_bag_gatherers, scenario.pickup_event,
    List.length_cons, List.length_nil, List.map_cons, List.map_nil, List.nil_append,
    List.append_nil, hr]
  norm_num [List.flatMap, TryCollectPoint, CollectionResult.IsCollected, List.filterMap_cons,
    events_of_gatherer, hr]

/-- Witness of C6, the full bag scenario: bag capacity 1, bag `[(9, 0)]`, loot at
`(2, 0)` on the path `(1, 0) → (3, 0)`; after the collision pass the bag is
unchanged and the loot is still present. -/
theorem C6_witness_full_bag :
    gather_items scenario.one_road scenario.full_bag_gatherers
        [scenario.bag_dog 1 [(9, 0)] 0] scenario.full_bag_loot
      = ⟨[scenario.bag_dog 1 [(9, 0)] 0], scenario.full_bag_loot, false⟩ := by
  have h := C6_full_bag_ignores_loot scenario.full_bag_loot scenario.one_road.bases
    scenario.full_bag_gatherers scenario.one_road
    ⟨[scenario.bag_dog 1 [(9, 0)] 0], scenario.full_bag_loot, false⟩ scenario.pickup_event
    0 ⟨⟨1, 0⟩, ⟨3, 0⟩, 6 / 10⟩ (scenario.bag_dog 1 [(9, 0)] 0) 7 0 ⟨2, 0⟩ rfl rfl rfl
    (by decide)
  unfold gather_items
  have hb : scenario.one_road.bases = [] := rfl
  rw [hb] at h ⊢
  simp only [FindGatherEvents_full_bag, handle_events_single]
  exact h

/-- In the base deposit scenario, and with the map of negative loot value, the
collision detector reports the event of the base. -/
theorem FindGatherEvents_deposit :
    FindGatherEvents (VectorItemGathererProvider.create [] [⟨⟨3, 3⟩, 5 / 10⟩]
      scenario.deposit_gatherers).toProvider = [scenario.pickup_event] := by
  have hr : List.range 1 = [0] := rfl
  simp only [FindGatherEvents, detected_events, events_of_gatherer,
    VectorItemGathererProvider.toProvider, VectorItemGathererProvider.create,
    scenario.deposit_gatherers, scenario.pickup_event,
    List.length_cons, List.length_nil, List.map_cons, List.map_nil, List.nil_append,
    List.append_nil, hr]
  norm_num [List.flatMap, TryCollectPoint, CollectionResult.IsCollected, List.filterMap_cons,
    events_of_gatherer, hr]

/-- Witness of C7, the base deposit scenario: loot types of value 10 and 5, bag
`[(1, 0), (2, 1)]`, score 0, a base at `(3, 3)` on the path; after the collision
pass the bag is empty and the score is 15. -/
theorem C7_witness_deposit :
    gather_items scenario.deposit_map scenario.deposit_gatherers
        [scenario.bag_dog 3 [(1, 0), (2, 1)] 0] []
      = ⟨[scenario.bag_dog 3 [] 15], [], false⟩ := by
  have h := (C7_base_deposit [] scenario.deposit_map.bases scenario.deposit_gatherers
    scenario.deposit_map ⟨[scenario.bag_dog 3 [(1, 0), (2, 1)] 0], [], false⟩
    scenario.pickup_event 0 ⟨⟨2, 3⟩, ⟨4, 3⟩, 6 / 10⟩ (scenario.bag_dog 3 [(1, 0), (2, 1)] 0)
    rfl rfl (Nat.zero_le _)
    (by
      intro item hi
      simp only [scenario.bag_dog, Dog.mk_new, List.mem_cons, List.mem_singleton,
        List.not_mem_nil, or_false] at hi
      rcases hi with rfl | rfl
      · exact ⟨10, rfl⟩
      · exact ⟨5, rfl⟩)
    (by decide)).1
  unfold gather_items
  have hb : scenario.deposit_map.bases = [⟨⟨3, 3⟩, 5 / 10⟩] := rfl
  rw [hb] at h ⊢
  simp only [FindGatherEvents_deposit, handle_events_single]
  rw [h]
  have hv : scenario.deposit_map.bag_value (scenario.bag_dog 3 [(1, 0), (2, 1)] 0).bag = 15 := by
    decide
  rw [hv]
  rfl

/-- Counterexample to C7 as stated: with a loot type of value `-5`, a dog with
score 0 and bag `[(1, 0)]` that reaches a base gets the score `2 ^ 64 - 5`, not
`0 + (-5)`. -/
theorem C7_counterexample_negative_value :
    (gather_items scenario.negative_value_map scenario.deposit_gatherers
        [scenario.bag_dog 3 [(1, 0)] 0] []).dogs
      = [scenario.bag_dog 3 [] 18446744073709551611] ∧
    scenario.negative_value_map.bag_value [(1, 0)] = -5 ∧
    ((18446744073709551611 : ℕ) : ℤ) ≠ ((0 : ℕ) : ℤ) + (-5) := by
  have h := handle_event_base [] scenario.negative_value_map.bases scenario.deposit_gatherers
    scenario.negative_value_map ⟨[scenario.bag_dog 3 [(1, 0)] 0], [], false⟩
    scenario.pickup_event 0 ⟨⟨2, 3⟩, ⟨4, 3⟩, 6 / 10⟩ (scenario.bag_dog 3 [(1, 0)] 0)
    rfl rfl (Nat.zero_le _)
    (by
      intro item hi
      simp only [scenario.bag_dog, Dog.mk_new, List.mem_singleton] at hi
      subst hi
      exact ⟨-5, rfl⟩)
    (by decide)
  have hv : scenario.negative_value_map.bag_value [(1, 0)] = -5 := by decide
  refine ⟨?_, hv, by norm_num⟩
  unfold gather_items
  have hb : scenario.negative_value_map.bases = [⟨⟨3, 3⟩, 5 / 10⟩] := rfl
  rw [hb] at h ⊢
  simp only [FindGatherEvents_deposit, handle_events_single]
  rw [h]
  have hv2 : scenario.negative_value_map.bag_value (scenario.bag_dog 3 [(1, 0)] 0).bag = -5 := hv
  rw [hv2]
  rfl

end app

/-! ## Invariants of the tick -/

namespace app

open model collision_detector

theorem forall₂_trans' {α : Type} {R : α → α → Prop} (htrans : ∀ a b c, R a b → R b c → R a c) :
    ∀ {l₁ l₂ l₃ : List α}, List.Forall₂ R l₁ l₂ → List.Forall₂ R l₂ l₃ → List.Forall₂ R l₁ l₃
  | [], _, _, h₁, h₂ => by
    cases h₁; cases h₂; exact List.Forall₂.nil
  | a :: l₁, _, _, h₁, h₂ => by
    cases h₁ with
    | cons hab h₁' =>
      cases h₂ with
      | cons hbc h₂' => exact List.Forall₂.cons (htrans _ _ _ hab hbc) (forall₂_trans' htrans h₁' h₂')

theorem forall₂_set_right {α : Type} {R : α → α → Prop} (hrefl : ∀ a, R a a) :
    ∀ (l : List α) (idx : ℕ) (a b : α), l[idx]? = some a → R a b →
      List.Forall₂ R l (l.set idx b)
  | [], _, _, _, h, _ => by simp at h
  | x :: l, 0, a, b, h, hab => by
    simp only [List.getElem?_cons_zero, Option.some.injEq] at h
    subst h
    exact List.Forall₂.cons hab (List.forall₂_same.mpr fun _ _ => hrefl _)
  | x :: l, idx + 1, a, b, h, hab => by
    simp only [List.getElem?_cons_succ] at h
    exact List.Forall₂.cons (hrefl x) (forall₂_set_right hrefl l idx a b h hab)

theorem forall₂_getElem? {α : Type} {R : α → α → Prop} :
    ∀ {l₁ l₂ : List α}, List.Forall₂ R l₁ l₂ → ∀ (j : ℕ) (b : α), l₂[j]? = some b →
      ∃ a, l₁[j]? = some a ∧ R a b
  | _, _, List.Forall₂.nil, j, b, h => by simp at h
  | _, _, List.Forall₂.cons hab hl, 0, b, h => by
    simp only [List.getElem?_cons_zero, Option.some.injEq] at h
    subst h
    exact ⟨_, by simp, hab⟩
  | _, _, List.Forall₂.cons hab hl, j + 1, b, h => by
    simp only [List.getElem?_cons_succ] at h
    simpa using forall₂_getElem? hl j b h

theorem Evolves_refl {R : Dog → Dog → Prop} (hrefl : ∀ d, R d d) (l : List Dog) :
    Evolves R l l := fun d hd => ⟨d, hd, hrefl d⟩

theorem Evolves_trans {R : Dog → Dog → Prop} (htrans : ∀ a b c, R a b → R b c → R a c)
    {l₁ l₂ l₃ : List Dog} (h₁ : Evolves R l₁ l₂) (h₂ : Evolves R l₂ l₃) : Evolves R l₁ l₃ := by
  intro d3 hd3
  obtain ⟨d2, hd2, h23⟩ := h₂ d3 hd3
  obtain ⟨d1, hd1, h12⟩ := h₁ d2 hd2
  exact ⟨d1, hd1, htrans _ _ _ h12 h23⟩

theorem Evolves_of_sublist {R : Dog → Dog → Prop} (hrefl : ∀ d, R d d) {l l' : List Dog}
    (h : l'.Sublist l) : Evolves R l l' := fun d hd => ⟨d, h.subset hd, hrefl d⟩

theorem Evolves_set {R : Dog → Dog → Prop} (hrefl : ∀ d, R d d) (l : List Dog) (idx : ℕ)
    (a b : Dog) (ha : l[idx]? = some a) (hab : R a b) : Evolves R l (l.set idx b) := by
  intro d hd
  rcases List.mem_or_eq_of_mem_set hd with h | h
  · exact ⟨d, h, hrefl d⟩
  · subst h
    exact ⟨a, List.mem_iff_getElem?.mpr ⟨idx, ha⟩, hab⟩

theorem SessionShrinks_refl (s : GameSession) : SessionShrinks s s :=
  ⟨rfl, List.Sublist.refl _⟩

theorem SessionShrinks_trans (a b c : GameSession) (h₁ : SessionShrinks a b)
    (h₂ : SessionShrinks b c) : SessionShrinks a c :=
  ⟨h₂.1.trans h₁.1, h₂.2.trans h₁.2⟩

theorem SessionShrinks_evolves {R : Dog → Dog → Prop} (hrefl : ∀ d, R d d)
    (s s' : GameSession) (h : SessionShrinks s s') : SessionEvolves R s s' :=
  ⟨h.1, Evolves_of_sublist hrefl h.2⟩

theorem SessionEvolves_trans {R : Dog → Dog → Prop} (htrans : ∀ a b c, R a b → R b c → R a c)
    (a b c : GameSession) (h₁ : SessionEvolves R a b) (h₂ : SessionEvolves R b c) :
    SessionEvolves R a c :=
  ⟨h₂.1.trans h₁.1, Evolves_trans htrans h₁.2 h₂.2⟩

end app

namespace app

open model collision_detector

/-- The inner loop of the retirement listener only takes dogs out of the
session and does not touch the game. -/
theorem retire_dogs_sublist (max_idle_time : ℤ) :
    ∀ (fuel : ℕ) (app : Application) (kept todo : List Dog) (app' : Application)
      (kept' : List Dog),
      retire_dogs max_idle_time fuel app kept todo = some (app', kept') →
      kept'.Sublist (kept ++ todo) ∧ app'.game_ = app.game_ ∧ app'.listeners_ = app.listeners_
  | 0, _, _, _, _, _, h => by simp [retire_dogs] at h
  | fuel + 1, app, kept, [], app', kept', h => by
    simp only [retire_dogs, Option.some.injEq, Prod.mk.injEq] at h
    obtain ⟨rfl, rfl⟩ := h
    simp
  | fuel + 1, app, kept, dog :: rest, app', kept', h => by
    simp only [retire_dogs] at h
    split_ifs at h with hidle hcommit
    · -- committed
      split at h
      · obtain ⟨h1, h2, h3⟩ := retire_dogs_sublist max_idle_time fuel _ _ _ _ _ h
        exact ⟨h1, h2, h3⟩
      · obtain ⟨h1, h2, h3⟩ := retire_dogs_sublist max_idle_time fuel _ _ _ _ _ h
        refine ⟨h1.trans ?_, h2, h3⟩
        exact List.Sublist.append_left (List.sublist_cons_self _ _) _
    · obtain ⟨h1, h2, h3⟩ := retire_dogs_sublist max_idle_time fuel _ _ _ _ _ h
      exact ⟨h1, h2, h3⟩
    · obtain ⟨h1, h2, h3⟩ := retire_dogs_sublist max_idle_time fuel _ _ _ _ _ h
      refine ⟨?_, h2, h3⟩
      simpa using h1

/-- The outer loop of the retirement listener shrinks every session. -/
theorem retire_sessions_shrinks (fuel : ℕ) :
    ∀ (todo : List GameSession) (app : Application) (done : List GameSession)
      (app' : Application) (res : List GameSession),
      retire_sessions fuel app done todo = some (app', res) →
      (∃ res2, res = done ++ res2 ∧ List.Forall₂ SessionShrinks todo res2) ∧
      app'.game_ = app.game_ ∧ app'.listeners_ = app.listeners_
  | [], app, done, app', res, h => by
    simp only [retire_sessions, Option.some.injEq, Prod.mk.injEq] at h
    obtain ⟨rfl, rfl⟩ := h
    exact ⟨⟨[], by simp, List.Forall₂.nil⟩, rfl, rfl⟩
  | s :: rest, app, done, app', res, h => by
    simp only [retire_sessions] at h
    split at h
    · exact Option.noConfusion h
    · rename_i r hr
      obtain ⟨h1, h2, h3⟩ := retire_dogs_sublist _ fuel app [] s.dogs_ r.1 r.2 (by simpa using hr)
      obtain ⟨⟨res2, hres, hf⟩, h4, h5⟩ := retire_sessions_shrinks fuel rest _ _ _ _ h
      refine ⟨⟨{ s with dogs_ := r.2 } :: res2, ?_, ?_⟩, h4.trans h2, h5.trans h3⟩
      · rw [hres]; simp
      · exact List.Forall₂.cons ⟨rfl, by simpa using h1⟩ hf

/-- The retirement listener shrinks every session and keeps the listeners. -/
theorem RetirementListener_OnTick_shrinks (fuel : ℕ) (app app' : Application)
    (h : RetirementListener_OnTick fuel app = some app') :
    List.Forall₂ SessionShrinks app.game_.sessions_ app'.game_.sessions_ ∧
    app'.game_.max_idle_time_ = app.game_.max_idle_time_ ∧
    app'.listeners_ = app.listeners_ := by
  unfold RetirementListener_OnTick at h
  split at h
  · exact Option.noConfusion h
  · rename_i r hr
    obtain ⟨⟨res2, hres, hf⟩, h4, h5⟩ := retire_sessions_shrinks fuel _ _ _ r.1 r.2
      (by simpa using hr)
    simp only [Option.some.injEq] at h
    subst h
    simp only [List.nil_append] at hres
    refine ⟨by simpa [hres] using hf, ?_, h5⟩
    simp [h4]

/-- The block "Notify" shrinks every session. -/
theorem notify_shrinks (fuel : ℕ) (dt : ℤ) :
    ∀ (todo : List Listener) (app : Application) (done : List Listener) (app' : Application),
      notify fuel dt app done todo = some app' →
      List.Forall₂ SessionShrinks app.game_.sessions_ app'.game_.sessions_ ∧
      app'.game_.max_idle_time_ = app.game_.max_idle_time_
  | [], app, done, app', h => by
    simp only [notify, Option.some.injEq] at h
    subst h
    exact ⟨List.forall₂_same.mpr fun s _ => SessionShrinks_refl s, rfl⟩
  | l :: rest, app, done, app', h => by
    cases l with
    | expired =>
      simp only [notify] at h
      exact notify_shrinks fuel dt rest _ _ _ h
    | retirement =>
      simp only [notify] at h
      split at h
      · exact Option.noConfusion h
      · rename_i app1 h1
        obtain ⟨ha, hb, _⟩ := RetirementListener_OnTick_shrinks fuel app app1 h1
        obtain ⟨hc, hd⟩ := notify_shrinks fuel dt rest _ _ _ h
        exact ⟨forall₂_trans' SessionShrinks_trans ha hc, hd.trans hb⟩
    | serializing t i n =>
      simp only [notify] at h
      exact notify_shrinks fuel dt rest _ _ _ h

end app

namespace app

open model collision_detector

theorem AddLoot_frame (s : GameSession) (loot : ℕ × geom.Point2D) (id : ℕ) :
    (s.AddLoot loot id).dogs_ = s.dogs_ ∧ (s.AddLoot loot id).map_ = s.map_ := by
  unfold GameSession.AddLoot
  by_cases h0 : id = 0 <;> simp only [h0, if_true, if_false] <;> split_ifs <;> exact ⟨rfl, rfl⟩

/-- Loot generation leaves the dogs and the map of the session as they are. -/
theorem generate_loot_frame (draw : LootDraw) (s : GameSession) :
    (generate_loot draw s).dogs_ = s.dogs_ ∧ (generate_loot draw s).map_ = s.map_ := by
  unfold generate_loot
  have : ∀ (l : List (ℕ × geom.Point2D)) (acc : GameSession),
      (l.foldl (fun acc loot => acc.AddLoot loot 0) acc).dogs_ = acc.dogs_ ∧
      (l.foldl (fun acc loot => acc.AddLoot loot 0) acc).map_ = acc.map_ := by
    intro l
    induction l with
    | nil => intro acc; exact ⟨rfl, rfl⟩
    | cons x xs ih =>
      intro acc
      rw [List.foldl_cons]
      obtain ⟨h1, h2⟩ := ih (acc.AddLoot x 0)
      obtain ⟨h3, h4⟩ := AddLoot_frame acc x 0
      exact ⟨h1.trans h3, h2.trans h4⟩
  exact this _ _

/-- The movement loop replaces every dog by its ticked version. -/
theorem move_dogs_fst (m : Map) (max_idle_time dt : ℤ) :
    ∀ (dogs : List Dog) (idx : ℕ),
      (move_dogs m max_idle_time dt dogs idx).1
        = dogs.map (fun d => (tick_dog m max_idle_time dt d).1)
  | [], _ => rfl
  | d :: rest, idx => by
    simp only [move_dogs, List.map_cons]
    rw [move_dogs_fst m max_idle_time dt rest (idx + 1)]

/-- The session after the three blocks of the tick: its map is unchanged and
its dogs are those left by the collision pass on the moved dogs. -/
theorem tick_session_dogs (max_idle_time : ℤ) (draw : LootDraw) (dt : ℤ) (s : GameSession) :
    (tick_session max_idle_time draw dt s).1.map_ = s.map_ ∧
    (tick_session max_idle_time draw dt s).1.dogs_
      = (gather_items s.map_
          (move_dogs s.map_ max_idle_time dt s.dogs_ 0).2
          (s.dogs_.map (fun d => (tick_dog s.map_ max_idle_time dt d).1))
          (generate_loot draw s).loot_map_).dogs := by
  obtain ⟨h1, h2⟩ := generate_loot_frame draw s
  unfold tick_session
  simp only [h1, h2, move_dogs_fst]
  exact ⟨trivial, trivial⟩

/-- The loop of the tick over the sessions relates the sessions before and
after by `R`, when the three blocks of the tick do so on every session all of
whose dogs satisfy `H`, a condition that survives the removal of other dogs. -/
theorem tick_sessions_evolves (R : Dog → Dog → Prop) (hrefl : ∀ d, R d d)
    (htrans : ∀ a b c, R a b → R b c → R a c) (H : Map → Dog → Prop)
    (hstep : ∀ (max_idle_time : ℤ) (draw : LootDraw) (dt : ℤ) (s : GameSession),
      (∀ d ∈ s.dogs_, H s.map_ d) →
      SessionEvolves R s (tick_session max_idle_time draw dt s).1)
    (fuel : ℕ) (draws : ℕ → LootDraw) (dt : ℤ) :
    ∀ (n idx : ℕ) (app app' : Application) (thrown : Bool),
      (∀ j s, idx ≤ j → app.game_.sessions_[j]? = some s → ∀ d ∈ s.dogs_, H s.map_ d) →
      tick_sessions fuel draws dt idx n app = some (app', thrown) →
      List.Forall₂ (SessionEvolves R) app.game_.sessions_ app'.game_.sessions_
  | 0, idx, app, app', thrown, _, h => by
    simp only [tick_sessions, Option.some.injEq, Prod.mk.injEq] at h
    obtain ⟨rfl, _⟩ := h
    exact List.forall₂_same.mpr fun s _ => ⟨rfl, Evolves_refl hrefl _⟩
  | n + 1, idx, app, app', thrown, hH, h => by
    simp only [tick_sessions] at h
    split at h
    · simp only [Option.some.injEq, Prod.mk.injEq] at h
      obtain ⟨rfl, _⟩ := h
      exact List.forall₂_same.mpr fun s _ => ⟨rfl, Evolves_refl hrefl _⟩
    · rename_i s hs
      have hs1 := hstep app.game_.max_idle_time_ (draws idx) dt s (hH idx s (le_refl _) hs)
      have hset : List.Forall₂ (SessionEvolves R) app.game_.sessions_
          (app.game_.sessions_.set idx
            (tick_session app.game_.max_idle_time_ (draws idx) dt s).1) :=
        forall₂_set_right (fun s => ⟨rfl, Evolves_refl hrefl _⟩) _ idx s _ hs hs1
      split_ifs at h with hthrown
      · simp only [Option.some.injEq, Prod.mk.injEq] at h
        obtain ⟨rfl, _⟩ := h
        exact hset
      · split at h
        · exact Option.noConfusion h
        · rename_i app2 hn
          obtain ⟨hshr, _⟩ := notify_shrinks fuel dt _ _ _ _ hn
          have hH2 : ∀ j s2, idx + 1 ≤ j → app2.game_.sessions_[j]? = some s2 →
              ∀ d ∈ s2.dogs_, H s2.map_ d := by
            intro j s2 hj hs2 d hd
            obtain ⟨s1, hs1', hsh⟩ := forall₂_getElem? hshr j s2 hs2
            have hne : idx ≠ j := by omega
            simp only [List.getElem?_set_ne hne] at hs1'
            have := hH j s1 (by omega) hs1' d (hsh.2.subset hd)
            rw [hsh.1]; exact this
          have hrec := tick_sessions_evolves R hrefl htrans H hstep fuel draws dt n (idx + 1)
            app2 app' thrown hH2 h
          exact forall₂_trans' (SessionEvolves_trans htrans) hset
            (forall₂_trans' (SessionEvolves_trans htrans)
              (hshr.imp fun a b hab => SessionShrinks_evolves hrefl a b hab) hrec)

end app

namespace app

open model collision_detector

/-- One event of the collision pass relates the dogs before and after by `R`,
when grabbing an item and depositing at a base do. -/
theorem handle_event_evolves (R : Dog → Dog → Prop) (hrefl : ∀ d, R d d)
    (hgrab : ∀ (d : Dog) (id type : ℕ), R d (d.TryGrabItem id type).1)
    (hdep : ∀ (d : Dog) (score : ℕ), R d (d.SetScore score) ∧ R d (d.SetScore score).ClearBag)
    (provider : VectorItemGathererProvider) (m : Map) (st : PassState) (e : GatheringEvent) :
    Evolves R st.dogs (handle_event provider m st e).dogs := by
  unfold handle_event
  split
  · exact Evolves_refl hrefl _
  · rename_i di _
    split
    · exact Evolves_refl hrefl _
    · rename_i dog hdog
      split_ifs with hitem
      · split
        · exact Evolves_refl hrefl _
        · rename_i loot_id loot_type _
          dsimp only
          split_ifs
          · exact Evolves_set hrefl _ di dog _ hdog (hgrab dog loot_id loot_type)
          · exact Evolves_refl hrefl _
      · dsimp only
        split_ifs
        · exact Evolves_set hrefl _ di dog _ hdog (hdep dog _).1
        · exact Evolves_set hrefl _ di dog _ hdog (hdep dog _).2

/-- The loop over the events relates the dogs before and after by `R`. -/
theorem handle_events_evolves (R : Dog → Dog → Prop) (hrefl : ∀ d, R d d)
    (htrans : ∀ a b c, R a b → R b c → R a c)
    (hgrab : ∀ (d : Dog) (id type : ℕ), R d (d.TryGrabItem id type).1)
    (hdep : ∀ (d : Dog) (score : ℕ), R d (d.SetScore score) ∧ R d (d.SetScore score).ClearBag)
    (provider : VectorItemGathererProvider) (m : Map) :
    ∀ (events : List GatheringEvent) (st : PassState),
      Evolves R st.dogs (handle_events provider m st events).dogs
  | [], st => Evolves_refl hrefl _
  | e :: rest, st => by
    simp only [handle_events]
    have h1 := handle_event_evolves R hrefl hgrab hdep provider m st e
    split_ifs
    · exact h1
    · exact Evolves_trans htrans h1
        (handle_events_evolves R hrefl htrans hgrab hdep provider m rest _)

/-- The three blocks of the tick relate the dogs of a session before and after
by `R`, when ticking a dog, grabbing an item and depositing at a base do. -/
theorem tick_session_evolves (R : Dog → Dog → Prop) (hrefl : ∀ d, R d d)
    (htrans : ∀ a b c, R a b → R b c → R a c)
    (hmove : ∀ (m : Map) (max_idle_time dt : ℤ) (d : Dog),
      R d (tick_dog m max_idle_time dt d).1)
    (hgrab : ∀ (d : Dog) (id type : ℕ), R d (d.TryGrabItem id type).1)
    (hdep : ∀ (d : Dog) (score : ℕ), R d (d.SetScore score) ∧ R d (d.SetScore score).ClearBag)
    (max_idle_time : ℤ) (draw : LootDraw) (dt : ℤ) (s : GameSession) :
    SessionEvolves R s (tick_session max_idle_time draw dt s).1 := by
  obtain ⟨h1, h2⟩ := tick_session_dogs max_idle_time draw dt s
  refine ⟨h1, ?_⟩
  rw [h2]
  unfold gather_items
  have hmoved : Evolves R s.dogs_
      (s.dogs_.map (fun d => (tick_dog s.map_ max_idle_time dt d).1)) := by
    intro d' hd'
    obtain ⟨d, hd, rfl⟩ := List.mem_map.mp hd'
    exact ⟨d, hd, hmove _ _ _ d⟩
  exact Evolves_trans htrans hmoved
    (handle_events_evolves R hrefl htrans hgrab hdep _ _ _ _)

/-- Ticking a dog changes neither its bag nor its bag capacity, score or id. -/
theorem tick_dog_frame (m : Map) (max_idle_time dt : ℤ) (d : Dog) :
    (tick_dog m max_idle_time dt d).1.bag = d.bag ∧
    (tick_dog m max_idle_time dt d).1.bag_capacity = d.bag_capacity ∧
    (tick_dog m max_idle_time dt d).1.score = d.score ∧
    (tick_dog m max_idle_time dt d).1.id = d.id := by
  unfold tick_dog
  by_cases h1 : d.idle_for ≥ max_idle_time
  · rw [if_pos h1]
    exact ⟨rfl, rfl, rfl, rfl⟩
  · rw [if_neg h1]
    by_cases h2 : d.is_idle = true
    · simp only [h2, if_true, MoveDog_eq_calls, and_self]
    · have h3 : d.is_idle = false := by simpa using h2
      simp [h3, MoveDog_eq_calls]

theorem TryGrabItem_bag_bound (d : Dog) (id type : ℕ) (h : d.bag.length ≤ d.bag_capacity) :
    (d.TryGrabItem id type).1.bag.length ≤ (d.TryGrabItem id type).1.bag_capacity := by
  unfold Dog.TryGrabItem
  split_ifs with hfull
  · exact h
  · simp only [List.length_append, List.length_singleton]
    omega

theorem put_bag_bound : ∀ (bag : List (ℕ × ℕ)) (d d' : Dog),
    serialization.DogRepr.put_bag bag d = some d' → d.bag.length ≤ d.bag_capacity →
    d'.bag.length ≤ d'.bag_capacity
  | [], d, d', h, hb => by
    simp only [serialization.DogRepr.put_bag, Option.some.injEq] at h
    subst h; exact hb
  | item :: rest, d, d', h, hb => by
    simp only [serialization.DogRepr.put_bag] at h
    split_ifs at h
    exact put_bag_bound rest _ d' h (TryGrabItem_bag_bound d item.1 item.2 hb)

theorem put_bag_too_long : ∀ (bag : List (ℕ × ℕ)) (d : Dog),
    d.bag_capacity < d.bag.length + bag.length → d.bag.length ≤ d.bag_capacity →
    serialization.DogRepr.put_bag bag d = none
  | [], d, h, hb => by simp at h; omega
  | item :: rest, d, h, hb => by
    simp only [serialization.DogRepr.put_bag]
    by_cases hfull : d.bag.length ≥ d.bag_capacity
    · simp [Dog.TryGrabItem, hfull]
    · have hg : d.TryGrabItem item.1 item.2
          = ({ d with bag := d.bag ++ [(item.1, item.2)] }, true) := by
        unfold Dog.TryGrabItem; rw [if_neg hfull]
      rw [hg]
      simp only [if_true]
      apply put_bag_too_long rest
      · simp only [List.length_append, List.length_singleton, List.length_cons] at h ⊢
        omega
      · simp only [List.length_append, List.length_singleton]
        omega

/-- Claim C8: the number of bag entries never exceeds the bag capacity.  The
bound holds for a new dog; it is preserved by `TryGrabItem` and by `ClearBag`;
if it holds for every dog of every session before `Application::Tick`, it holds
for every dog of every session after it (also when an exception leaves the
tick); and `DogRepr::Restore` yields a dog within the bound whenever it returns,
failing when the stored bag is longer than the stored capacity. -/
theorem C8_bag_never_exceeds_capacity :
    (∀ (name : String) (pos : geom.Point2D) (vel : geom.Vec2D) (bag_capacity id : ℕ),
      (Dog.mk_new name pos vel bag_capacity id).bag.length
        ≤ (Dog.mk_new name pos vel bag_capacity id).bag_capacity) ∧
    (∀ (d : Dog) (id type : ℕ), d.bag.length ≤ d.bag_capacity →
      (d.TryGrabItem id type).1.bag.length ≤ (d.TryGrabItem id type).1.bag_capacity) ∧
    (∀ d : Dog, d.ClearBag.bag.length ≤ d.ClearBag.bag_capacity) ∧
    (∀ (fuel : ℕ) (draws : ℕ → LootDraw) (dt : ℤ) (app app' : Application) (thrown : Bool),
      Application.Tick fuel draws dt app = some (app', thrown) →
      (∀ s ∈ app.game_.sessions_, ∀ d ∈ s.dogs_, d.bag.length ≤ d.bag_capacity) →
      ∀ s ∈ app'.game_.sessions_, ∀ d ∈ s.dogs_, d.bag.length ≤ d.bag_capacity) ∧
    (∀ (r : serialization.DogRepr) (d : Dog), r.Restore = some d →
      d.bag.length ≤ d.bag_capacity) ∧
    (∀ r : serialization.DogRepr, r.bag_capacity_ < r.bag_.length → r.Restore = none) := by
  refine ⟨?_, ?_, ?_, ?_, ?_, ?_⟩
  · intro name pos vel bag_capacity id
    simp [Dog.mk_new]
  · exact fun d id type h => TryGrabItem_bag_bound d id type h
  · intro d
    simp [Dog.ClearBag]
  · intro fuel draws dt app app' thrown hT hall s' hs' d' hd'
    have hev := tick_sessions_evolves
      (fun d d' => d.bag.length ≤ d.bag_capacity → d'.bag.length ≤ d'.bag_capacity)
      (fun _ h => h) (fun _ _ _ h1 h2 h => h2 (h1 h)) (fun _ _ => True)
      (fun max_idle_time draw dt s _ =>
        tick_session_evolves _ (fun _ h => h) (fun _ _ _ h1 h2 h => h2 (h1 h))
          (fun m mx dt d h => by
            obtain ⟨h1, h2, _, _⟩ := tick_dog_frame m mx dt d
            rw [h1, h2]; exact h)
          (fun d id type h => TryGrabItem_bag_bound d id type h)
          (fun d score => ⟨fun h => h, fun _ => by simp [Dog.ClearBag, Dog.SetScore]⟩)
          max_idle_time draw dt s)
      fuel draws dt _ 0 app app' thrown (fun _ _ _ _ _ _ => trivial) hT
    obtain ⟨j, hj⟩ := List.mem_iff_getElem?.mp hs'
    obtain ⟨s, hs, hse⟩ := forall₂_getElem? hev j s' hj
    obtain ⟨d, hd, hR⟩ := hse.2 d' hd'
    exact hR (hall s (List.getElem?_mem hs) d hd)
  · intro r d h
    exact put_bag_bound r.bag_ _ d h (by simp [Dog.mk_new])
  · intro r h
    exact put_bag_too_long r.bag_ _ (by simpa [Dog.mk_new] using h) (by simp [Dog.mk_new])

end app

namespace app

open model collision_detector

/-- On the road `(0,3)-(10,3)` the dog `walker`, once its clocks are advanced,
moves in 2000 ms from `(2, 3)` to `(4, 3)`. -/
theorem MoveDog_walker (loot_types : List (Option ℤ)) (bases : List Item)
    (bag : List (ℕ × ℕ)) (score : ℕ) :
    (scenario.map_of [Road.HORIZONTAL ⟨0, 3⟩ 10] loot_types bases).MoveDog
        { scenario.walker bag score with age := 2000, idle_for := 0 } 2000
      = { scenario.walker bag score with age := 2000, idle_for := 0, pos := ⟨4, 3⟩ } := by
  have h2 : std_round (2 : ℚ) = 2 := by simpa using std_round_intCast 2
  have h3 : std_round (3 : ℚ) = 3 := by simpa using std_round_intCast 3
  have h4 : std_round ((2 : ℚ) + 1 * (((2000 : ℤ) : ℚ) / 1000)) = 4 := by
    have : (2 : ℚ) + 1 * (((2000 : ℤ) : ℚ) / 1000) = ((4 : ℤ) : ℚ) := by norm_num
    rw [this, std_round_intCast]
  have hgrid := contains_single_horizontal
    (scenario.map_of [Road.HORIZONTAL ⟨0, 3⟩ 10] loot_types bases) 0 10 3 rfl (by norm_num)
  rw [MoveDog_free_x _ _ 2000 rfl (by simp [scenario.walker, Dog.mk_new])
    (by norm_num [scenario.walker, Dog.mk_new, h3, Map.allowance, Map.eps])
    (by
      intro k hk1 hk2
      simp only [scenario.walker, Dog.mk_new, h2, h3, h4] at hk1 hk2 ⊢
      rw [hgrid]
      simp only [min_def, max_def] at hk1 hk2
      norm_num at hk1 hk2
      omega)
    (by
      left
      simp only [scenario.walker, Dog.mk_new, h4]
      norm_num)]
  simp only [scenario.walker, Dog.mk_new]
  norm_num

end app

namespace app

open model collision_detector

/-- The three blocks of the tick on the session of the walker scenario: the dog
moves from `(2, 3)` to `(4, 3)` over the base at `(3, 3)` and deposits its bag. -/
theorem tick_session_walker (loot_types : List (Option ℤ)) (bag : List (ℕ × ℕ)) (score : ℕ)
    (hok : (deposit loot_types bag score).2 = false) :
    tick_session 60000 (scenario.no_loot 0) 2000
        ⟨scenario.map_of [Road.HORIZONTAL ⟨0, 3⟩ 10] loot_types [⟨⟨3, 3⟩, 5 / 10⟩],
          [scenario.walker bag score], [], 0, 0⟩
      = (⟨scenario.map_of [Road.HORIZONTAL ⟨0, 3⟩ 10] loot_types [⟨⟨3, 3⟩, 5 / 10⟩],
          [scenario.walker_after [] (deposit loot_types bag score).1], [], 0, 0⟩, false) := by
  have hidle : ¬ ((scenario.walker bag score).idle_for ≥ 60000) := by
    simp [scenario.walker, Dog.mk_new]
  have hdog : (tick_dog (scenario.map_of [Road.HORIZONTAL ⟨0, 3⟩ 10] loot_types
      [⟨⟨3, 3⟩, 5 / 10⟩]) 60000 2000 (scenario.walker bag score))
      = ({ scenario.walker bag score with age := 2000, idle_for := 0, pos := ⟨4, 3⟩ },
          some ⟨⟨2, 3⟩, ⟨4, 3⟩, 6 / 10⟩) := by
    unfold tick_dog
    rw [if_neg hidle]
    have hd : ({ scenario.walker bag score with
        age := (scenario.walker bag score).age + 2000, idle_for := 0 } : Dog)
        = { scenario.walker bag score with age := 2000, idle_for := 0 } := by
      simp [scenario.walker, Dog.mk_new]
    simp only [scenario.walker, Dog.mk_new, Bool.false_eq_true, if_false, zero_add] at hd ⊢
    have hm := MoveDog_walker loot_types [⟨⟨3, 3⟩, 5 / 10⟩] bag score
    simp only [scenario.walker, Dog.mk_new] at hm
    rw [hm]
  unfold tick_session
  simp only [generate_loot, scenario.no_loot, List.foldl_nil, move_dogs, hdog]
  unfold gather_items
  have hb : (scenario.map_of [Road.HORIZONTAL ⟨0, 3⟩ 10] loot_types [⟨⟨3, 3⟩, 5 / 10⟩]).bases
      = [⟨⟨3, 3⟩, 5 / 10⟩] := rfl
  have hg : [((0 : ℕ), (⟨⟨2, 3⟩, ⟨4, 3⟩, 6 / 10⟩ : Gatherer))] = scenario.deposit_gatherers := rfl
  simp only [hb, hg, FindGatherEvents_deposit, handle_events_single]
  have h1 : (VectorItemGathererProvider.create [] [⟨⟨3, 3⟩, 5 / 10⟩]
      scenario.deposit_gatherers).GetDog scenario.pickup_event.gatherer_id = some 0 := by
    rw [create_GetDog]; rfl
  have h2 : (VectorItemGathererProvider.create [] [⟨⟨3, 3⟩, 5 / 10⟩]
      scenario.deposit_gatherers).IsItemIdx scenario.pickup_event.item_id = false := by
    rfl
  have hl : (scenario.map_of [Road.HORIZONTAL ⟨0, 3⟩ 10] loot_types
      [⟨⟨3, 3⟩, 5 / 10⟩]).loot_types = loot_types := rfl
  unfold handle_event
  simp only [h1, h2, hl, List.getElem?_cons_zero, Bool.false_eq_true, if_false, hok,
    scenario.walker_after, scenario.walker, Dog.mk_new, Dog.SetScore, Dog.ClearBag,
    List.set_cons_zero]

/-- One tick of 2000 ms of the application of the walker scenario, when every
bag entry has a loot type with a value: the dog is at `(4, 3)` with an empty bag
and the score reached by the deposit. -/
theorem Tick_walker (loot_types : List (Option ℤ)) (bag : List (ℕ × ℕ)) (score : ℕ)
    (hok : (deposit loot_types bag score).2 = false) :
    scenario.dogs_after (Application.Tick 2 scenario.no_loot 2000
        (scenario.application_of
          (scenario.map_of [Road.HORIZONTAL ⟨0, 3⟩ 10] loot_types [⟨⟨3, 3⟩, 5 / 10⟩])
          [scenario.walker bag score]))
      = some ([[scenario.walker_after [] (deposit loot_types bag score).1]], false) := by
  have hs := tick_session_walker loot_types bag score hok
  have hidle : ¬ ((scenario.walker_after [] (deposit loot_types bag score).1).idle_for
      ≥ 60000) := by
    simp [scenario.walker_after, scenario.walker, Dog.mk_new]
  simp only [Application.Tick, scenario.application_of, List.length_singleton, tick_sessions,
    List.getElem?_cons_zero, hs, Bool.false_eq_true, if_false, List.set_cons_zero, notify,
    RetirementListener_OnTick, retire_sessions, retire_dogs, hidle, List.nil_append,
    scenario.dogs_after, Option.map_some', List.map_cons, List.map_nil]

end app

namespace app

open model collision_detector

/-- Witness of C8, the walker scenario with a full bag: loot types of value 10
and 5, bag capacity 3, bag `[(1, 0), (2, 1), (3, 0)]`; one tick of 2000 ms takes
the dog over the base, and afterwards its bag is empty, within the capacity. -/
theorem C8_witness_full_bag_at_base :
    scenario.dogs_after (Application.Tick 2 scenario.no_loot 2000
        (scenario.application_of scenario.deposit_map
          [scenario.walker [(1, 0), (2, 1), (3, 0)] 0]))
      = some ([[scenario.walker_after [] 25]], false) ∧
    (∀ s ∈ (scenario.application_of scenario.deposit_map
        [scenario.walker [(1, 0), (2, 1), (3, 0)] 0]).game_.sessions_,
      ∀ d ∈ s.dogs_, d.bag.length ≤ d.bag_capacity) ∧
    ∃ app' thrown, Application.Tick 2 scenario.no_loot 2000
        (scenario.application_of scenario.deposit_map
          [scenario.walker [(1, 0), (2, 1), (3, 0)] 0]) = some (app', thrown) ∧
      ∀ s ∈ app'.game_.sessions_, ∀ d ∈ s.dogs_, d.bag.length ≤ d.bag_capacity := by
  have hbefore : ∀ s ∈ (scenario.application_of scenario.deposit_map
      [scenario.walker [(1, 0), (2, 1), (3, 0)] 0]).game_.sessions_,
      ∀ d ∈ s.dogs_, d.bag.length ≤ d.bag_capacity := by
    intro s hs d hd
    simp only [scenario.application_of, List.mem_singleton] at hs
    subst hs
    simp only [List.mem_singleton] at hd
    subst hd
    decide
  have hT := Tick_walker [some 10, some 5] [(1, 0), (2, 1), (3, 0)] 0 (by decide)
  have hscore : (deposit [some 10, some 5] [(1, 0), (2, 1), (3, 0)] 0).1 = 25 := by decide
  rw [hscore] at hT
  refine ⟨hT, hbefore, ?_⟩
  cases hr : Application.Tick 2 scenario.no_loot 2000
      (scenario.application_of scenario.deposit_map
        [scenario.walker [(1, 0), (2, 1), (3, 0)] 0]) with
  | none =>
    have hT' := hT
    unfold scenario.deposit_map at hr
    rw [hr] at hT'
    simp [scenario.dogs_after] at hT'
  | some r =>
    exact ⟨r.1, r.2, rfl, C8_bag_never_exceeds_capacity.2.2.2.1 2 scenario.no_loot 2000
      _ r.1 r.2 hr hbefore⟩

end app

namespace app

open model collision_detector

/-- Adding a loot value in `[0, V]` to a score that has room for `V` adds it
without wrapping. -/
theorem add_value_bounds (score V : ℕ) (v : ℤ) (h0 : 0 ≤ v) (hV : v ≤ V)
    (hroom : score + V < 2 ^ 64) :
    score ≤ add_value score v ∧ add_value score v ≤ score + V := by
  unfold add_value
  have h1 : (0 : ℤ) ≤ (score : ℤ) + v := by positivity
  have h2 : (score : ℤ) + v < 2 ^ 64 := by
    have : ((score + V : ℕ) : ℤ) < 2 ^ 64 := by exact_mod_cast hroom
    push_cast at this
    linarith
  rw [Int.emod_eq_of_lt h1 h2]
  have h3 : (((score : ℤ) + v).toNat : ℤ) = (score : ℤ) + v := Int.toNat_of_nonneg h1
  constructor
  · have : (score : ℤ) ≤ (((score : ℤ) + v).toNat : ℤ) := by rw [h3]; linarith
    exact_mod_cast this
  · have : (((score : ℤ) + v).toNat : ℤ) ≤ ((score + V : ℕ) : ℤ) := by
      rw [h3]; push_cast; linarith
    exact_mod_cast this

/-- The loop over the bag at a base, when every loot value lies in `[0, V]` and
the score has room for as many values as the bag has entries: the score reached
is at least the score before and exceeds it by at most `|bag| * V`. -/
theorem deposit_bounds (loot_types : List (Option ℤ)) (V : ℕ)
    (hV : ∀ (k : ℕ) (v : ℤ), loot_types[k]? = some (some v) → 0 ≤ v ∧ v ≤ V) :
    ∀ (bag : List (ℕ × ℕ)) (score : ℕ), score + bag.length * V < 2 ^ 64 →
      score ≤ (deposit loot_types bag score).1 ∧
      (deposit loot_types bag score).1 ≤ score + bag.length * V
  | [], score, _ => by simp [deposit]
  | item :: rest, score, hroom => by
    simp only [List.length_cons] at hroom ⊢
    have hroom' : score + V + rest.length * V < 2 ^ 64 := by
      have : (rest.length + 1) * V = V + rest.length * V := by ring
      omega
    unfold deposit
    split
    · rename_i value hval
      obtain ⟨h0, h1⟩ := hV _ _ hval
      obtain ⟨ha, hb⟩ := add_value_bounds score V value h0 h1 (by omega)
      obtain ⟨hc, hd⟩ := deposit_bounds loot_types V hV rest (add_value score value)
        (by omega)
      have : (rest.length + 1) * V = V + rest.length * V := by ring
      constructor
      · omega
      · omega
    · simp only
      have : 0 ≤ (rest.length + 1) * V := Nat.zero_le _
      omega

end app

namespace app

open model collision_detector

theorem ScoreGrows_refl (d : Dog) : ScoreGrows d d := ⟨rfl, le_refl _⟩

theorem ScoreGrows_trans (a b c : Dog) (h₁ : ScoreGrows a b) (h₂ : ScoreGrows b c) :
    ScoreGrows a c :=
  ⟨h₂.1.trans h₁.1, h₁.2.trans h₂.2⟩

theorem ScoreRoom_mono {V : ℕ} {m : Map} {n n' : ℕ} {d : Dog} (h : ScoreRoom V m n d)
    (hn : n' ≤ n) : ScoreRoom V m n' d := by
  refine ⟨h.1, h.2.1, ?_⟩
  have := Nat.mul_le_mul_right (d.bag_capacity * V) hn
  have := h.2.2
  omega

theorem base_events_cons (provider : VectorItemGathererProvider) (di : ℕ) (e : GatheringEvent)
    (events : List GatheringEvent) :
    base_events provider di (e :: events)
      = base_events provider di events +
        (if provider.GetDog e.gatherer_id = some di ∧ provider.IsItemIdx e.item_id = false
          then 1 else 0) := by
  unfold base_events
  rw [List.filter_cons]
  by_cases h1 : provider.GetDog e.gatherer_id = some di <;>
    cases h2 : provider.IsItemIdx e.item_id <;> simp [h1, h2]

theorem base_events_le_cons (provider : VectorItemGathererProvider) (di : ℕ)
    (e : GatheringEvent) (events : List GatheringEvent) :
    base_events provider di events ≤ base_events provider di (e :: events) := by
  rw [base_events_cons]
  exact Nat.le_add_right _ _

/-- Replacing the dog in position `di₀` keeps the room of every dog for the
events that are left. -/
theorem score_room_set (V : ℕ) (provider : VectorItemGathererProvider) (m : Map)
    (dogs : List Dog) (e : GatheringEvent) (events : List GatheringEvent) (di₀ : ℕ)
    (newdog : Dog)
    (hinv : ∀ di d, dogs[di]? = some d →
      ScoreRoom V m (base_events provider di (e :: events)) d)
    (hnew : ScoreRoom V m (base_events provider di₀ events) newdog) :
    ∀ di d, (dogs.set di₀ newdog)[di]? = some d →
      ScoreRoom V m (base_events provider di events) d := by
  intro di d hd
  rw [List.getElem?_set] at hd
  by_cases h : di₀ = di
  · subst h
    rw [if_pos rfl] at hd
    split_ifs at hd
    simp only [Option.some.injEq] at hd
    subst hd
    exact hnew
  · rw [if_neg h] at hd
    exact ScoreRoom_mono (hinv di d hd) (base_events_le_cons _ _ _ _)

/-- One event of the collision pass, when every dog has room for its remaining
base events: no score goes down, and every dog has room for the base events
that are left. -/
theorem handle_event_score (V : ℕ) (provider : VectorItemGathererProvider) (m : Map)
    (st : PassState) (e : GatheringEvent) (events : List GatheringEvent)
    (hinv : ∀ di d, st.dogs[di]? = some d →
      ScoreRoom V m (base_events provider di (e :: events)) d) :
    Evolves ScoreGrows st.dogs (handle_event provider m st e).dogs ∧
    ∀ di d, (handle_event provider m st e).dogs[di]? = some d →
      ScoreRoom V m (base_events provider di events) d := by
  have hsame : Evolves ScoreGrows st.dogs st.dogs ∧
      ∀ di d, st.dogs[di]? = some d → ScoreRoom V m (base_events provider di events) d :=
    ⟨Evolves_refl ScoreGrows_refl _,
      fun di d hd => ScoreRoom_mono (hinv di d hd) (base_events_le_cons _ _ _ _)⟩
  unfold handle_event
  split
  · exact hsame
  · rename_i di₀ hget
    split
    · exact hsame
    · rename_i dog hdog
      have hroom := hinv di₀ dog hdog
      split_ifs with hitem
      · split
        · exact hsame
        · rename_i loot_id loot_type _
          dsimp only
          split_ifs
          · refine ⟨Evolves_set ScoreGrows_refl _ di₀ dog _ hdog ?_,
              score_room_set V provider m st.dogs e events di₀ _ hinv ?_⟩
            · unfold Dog.TryGrabItem
              split_ifs <;> exact ⟨rfl, le_refl _⟩
            · have hb := TryGrabItem_bag_bound dog loot_id loot_type hroom.2.1
              have hr := ScoreRoom_mono hroom (base_events_le_cons provider di₀ e events)
              refine ⟨hroom.1, hb, ?_⟩
              have := hr.2.2
              unfold Dog.TryGrabItem
              split_ifs <;> exact this
          · exact hsame
      · have hitem' : provider.IsItemIdx e.item_id = false := by simpa using hitem
        have hcount : base_events provider di₀ (e :: events)
            = base_events provider di₀ events + 1 := by
          rw [base_events_cons, if_pos ⟨hget, hitem'⟩]
        have hlen : dog.bag.length * V ≤ dog.bag_capacity * V :=
          Nat.mul_le_mul_right V hroom.2.1
        have hfull := hroom.2.2
        rw [hcount] at hfull
        have hexp : (base_events provider di₀ events + 1) * (dog.bag_capacity * V)
            = base_events provider di₀ events * (dog.bag_capacity * V)
              + dog.bag_capacity * V := by ring
        obtain ⟨hlo, hhi⟩ := deposit_bounds m.loot_types V hroom.1 dog.bag dog.score
          (by omega)
        dsimp only
        split_ifs
        · refine ⟨Evolves_set ScoreGrows_refl _ di₀ dog _ hdog ⟨rfl, hlo⟩,
            score_room_set V provider m st.dogs e events di₀ _ hinv ⟨hroom.1, hroom.2.1, ?_⟩⟩
          simp only [Dog.SetScore]
          omega
        · refine ⟨Evolves_set ScoreGrows_refl _ di₀ dog _ hdog ⟨rfl, hlo⟩,
            score_room_set V provider m st.dogs e events di₀ _ hinv
              ⟨hroom.1, Nat.zero_le _, ?_⟩⟩
          simp only [Dog.SetScore, Dog.ClearBag]
          omega

/-- The loop over the events, when every dog has room for its base events: no
score goes down. -/
theorem handle_events_score (V : ℕ) (provider : VectorItemGathererProvider) (m : Map) :
    ∀ (events : List GatheringEvent) (st : PassState),
      (∀ di d, st.dogs[di]? = some d → ScoreRoom V m (base_events provider di events) d) →
      Evolves ScoreGrows st.dogs (handle_events provider m st events).dogs
  | [], st, _ => Evolves_refl ScoreGrows_refl _
  | e :: rest, st, hinv => by
    simp only [handle_events]
    obtain ⟨h1, h2⟩ := handle_event_score V provider m st e rest hinv
    split_ifs
    · exact h1
    · exact Evolves_trans ScoreGrows_trans h1
        (handle_events_score V provider m rest _ h2)

end app

namespace collision_detector

theorem nodup_getElem?_inj {l : List ℕ} (h : l.Nodup) {i j a : ℕ} (hi : l[i]? = some a)
    (hj : l[j]? = some a) : i = j := by
  obtain ⟨hi', e1⟩ := List.getElem?_eq_some.mp hi
  obtain ⟨hj', e2⟩ := List.getElem?_eq_some.mp hj
  exact h.getElem_inj_iff.mp (e1.trans e2.symm)

/-- Every event of the inner loop for gatherer `g` carries `g` and the index of
an item. -/
theorem mem_events_of_gatherer (provider : ItemGathererProvider) (g : ℕ) (e : GatheringEvent)
    (he : e ∈ events_of_gatherer provider g) :
    e.gatherer_id = g ∧ e.item_id < provider.ItemsCount := by
  unfold events_of_gatherer at he
  dsimp only at he
  split_ifs at he
  · simp at he
  · rw [List.mem_filterMap] at he
    obtain ⟨i, hi, hsome⟩ := he
    split_ifs at hsome
    simp only [Option.some.injEq] at hsome
    subst hsome
    exact ⟨rfl, List.mem_range.mp hi⟩

theorem length_filter_filterMap_range {α : Type} (f : ℕ → Option α) (key : α → ℕ)
    (q : α → Bool) (a : ℕ) (hkey : ∀ i e, f i = some e → key e = i)
    (hq : ∀ e, q e = true → a ≤ key e) :
    ∀ n, (((List.range n).filterMap f).filter q).length ≤ n - a
  | 0 => by simp
  | n + 1 => by
    rw [List.range_succ, List.filterMap_append, List.filter_append, List.length_append]
    have ih := length_filter_filterMap_range f key q a hkey hq n
    cases hf : f n with
    | none =>
      simp only [List.filterMap_cons, hf, List.filterMap_nil, List.filter_nil, List.length_nil]
      omega
    | some e =>
      simp only [List.filterMap_cons, hf, List.filterMap_nil]
      by_cases hqe : q e = true
      · have h1 := hq e hqe
        rw [hkey n e hf] at h1
        simp only [List.filter_cons, hqe, if_true, List.filter_nil, List.length_singleton]
        omega
      · have hqe' : q e = false := by simpa using hqe
        simp only [List.filter_cons, hqe', Bool.false_eq_true, if_false, List.filter_nil,
          List.length_nil]
        omega

/-- Among the events of one gatherer, those that satisfy a condition which
implies `a ≤ item_id` are at most `ItemsCount - a`. -/
theorem length_filter_events_of_gatherer (provider : ItemGathererProvider) (g : ℕ)
    (q : GatheringEvent → Bool) (a : ℕ) (hq : ∀ e, q e = true → a ≤ e.item_id) :
    ((events_of_gatherer provider g).filter q).length ≤ provider.ItemsCount - a := by
  unfold events_of_gatherer
  dsimp only
  split_ifs
  · simp
  · apply length_filter_filterMap_range _ (fun e => e.item_id) q a _ hq
    intro i e he
    split_ifs at he
    simp only [Option.some.injEq] at he
    subst he
    rfl

end collision_detector

namespace app

open model collision_detector

/-- When no two gatherers belong to the same dog, the events reported by
`FindGatherEvents` contain at most one base event per base for each dog. -/
theorem base_events_le_bases (loot : List (ℕ × (ℕ × geom.Point2D))) (bases : List Item)
    (gatherers : List (ℕ × Gatherer)) (hnd : (gatherers.map (fun g => g.1)).Nodup) (di : ℕ) :
    base_events (VectorItemGathererProvider.create loot bases gatherers) di
        (FindGatherEvents (VectorItemGathererProvider.create loot bases gatherers).toProvider)
      ≤ bases.length := by
  unfold base_events FindGatherEvents
  rw [(List.Perm.filter _ (List.perm_insertionSort _ _)).length_eq]
  unfold detected_events
  have hq : ∀ e : GatheringEvent,
      (decide ((VectorItemGathererProvider.create loot bases gatherers).GetDog e.gatherer_id
          = some di) &&
        !(VectorItemGathererProvider.create loot bases gatherers).IsItemIdx e.item_id) = true →
      loot.length ≤ e.item_id := by
    intro e he
    simp only [Bool.and_eq_true, decide_eq_true_eq, Bool.not_eq_true', ] at he
    by_contra hlt
    have := (create_IsItemIdx loot bases gatherers e.item_id).mpr (by omega)
    rw [he.2] at this
    exact Bool.noConfusion this
  have hone : ∀ g, ((events_of_gatherer
      (VectorItemGathererProvider.create loot bases gatherers).toProvider g).filter
      (fun e => decide ((VectorItemGathererProvider.create loot bases gatherers).GetDog
          e.gatherer_id = some di) &&
        !(VectorItemGathererProvider.create loot bases gatherers).IsItemIdx e.item_id)).length
      ≤ bases.length := by
    intro g
    have := length_filter_events_of_gatherer
      (VectorItemGathererProvider.create loot bases gatherers).toProvider g _ loot.length hq
    have hcount : (VectorItemGathererProvider.create loot bases gatherers).toProvider.ItemsCount
        = loot.length + bases.length := by
      simp [VectorItemGathererProvider.toProvider, VectorItemGathererProvider.create]
    rw [hcount] at this
    omega
  have hnil : ∀ g₀ g, g ≠ g₀ →
      ((gatherers.map (fun g => g.1))[g₀]? = some di ∨
        ∀ g' : ℕ, (gatherers.map (fun g => g.1))[g']? ≠ some di) →
      (events_of_gatherer
        (VectorItemGathererProvider.create loot bases gatherers).toProvider g).filter
        (fun e => decide ((VectorItemGathererProvider.create loot bases gatherers).GetDog
            e.gatherer_id = some di) &&
          !(VectorItemGathererProvider.create loot bases gatherers).IsItemIdx e.item_id)
        = [] := by
    intro g₀ g hne hcase
    rw [List.filter_eq_nil_iff]
    intro e he hpe
    obtain ⟨hg, _⟩ := mem_events_of_gatherer _ g e he
    simp only [Bool.and_eq_true, decide_eq_true_eq] at hpe
    have hdog := hpe.1
    rw [create_GetDog, hg, ← List.getElem?_map] at hdog
    rcases hcase with h0 | hnone
    · exact hne (nodup_getElem?_inj hnd hdog h0)
    · exact hnone g hdog
  rcases Classical.em (∃ g₀ : ℕ, (gatherers.map (fun g => g.1))[g₀]? = some di) with hex | hex
  · obtain ⟨g₀, hg₀⟩ := hex
    rw [filter_flatMap_range _ _ g₀ (fun g hg => hnil g₀ g hg (Or.inl hg₀))]
    split_ifs
    · exact hone g₀
    · simp
  · have hnone : ∀ g' : ℕ, (gatherers.map (fun g => g.1))[g']? ≠ some di :=
      fun g' h => hex ⟨g', h⟩
    rw [filter_flatMap_range _ _ gatherers.length
      (fun g hg => hnil gatherers.length g hg (Or.inr hnone))]
    simp [VectorItemGathererProvider.toProvider, VectorItemGathererProvider.create]

end app

namespace app

open model collision_detector

/-- The gatherers recorded by the movement loop carry increasing positions of
dogs, so no two of them belong to the same dog. -/
theorem move_dogs_snd (m : Map) (max_idle_time dt : ℤ) :
    ∀ (dogs : List Dog) (idx : ℕ),
      (∀ p ∈ (move_dogs m max_idle_time dt dogs idx).2, idx ≤ p.1) ∧
      ((move_dogs m max_idle_time dt dogs idx).2.map (fun g => g.1)).Nodup
  | [], _ => by simp [move_dogs]
  | d :: rest, idx => by
    obtain ⟨h1, h2⟩ := move_dogs_snd m max_idle_time dt rest (idx + 1)
    simp only [move_dogs]
    cases (tick_dog m max_idle_time dt d).2 with
    | none =>
      exact ⟨fun p hp => Nat.le_of_succ_le (h1 p hp), h2⟩
    | some g =>
      constructor
      · intro p hp
        rcases List.mem_cons.mp hp with rfl | hp
        · exact le_refl _
        · exact Nat.le_of_succ_le (h1 p hp)
      · simp only [List.map_cons, List.nodup_cons]
        refine ⟨?_, h2⟩
        intro hmem
        obtain ⟨p, hp, hpe⟩ := List.mem_map.mp hmem
        have := h1 p hp
        omega

/-- The three blocks of the tick on one session, when every dog has room for a
deposit at each base of the map: no score goes down. -/
theorem tick_session_score (V : ℕ) (max_idle_time : ℤ) (draw : LootDraw) (dt : ℤ)
    (s : GameSession) (h : ∀ d ∈ s.dogs_, ScoreRoom V s.map_ s.map_.bases.length d) :
    SessionEvolves ScoreGrows s (tick_session max_idle_time draw dt s).1 := by
  obtain ⟨h1, h2⟩ := tick_session_dogs max_idle_time draw dt s
  refine ⟨h1, ?_⟩
  rw [h2]
  unfold gather_items
  have hmoved : Evolves ScoreGrows s.dogs_
      (s.dogs_.map (fun d => (tick_dog s.map_ max_idle_time dt d).1)) := by
    intro d' hd'
    obtain ⟨d, hd, rfl⟩ := List.mem_map.mp hd'
    obtain ⟨_, _, hs, hi⟩ := tick_dog_frame s.map_ max_idle_time dt d
    exact ⟨d, hd, hi, le_of_eq hs.symm⟩
  refine Evolves_trans ScoreGrows_trans hmoved
    (handle_events_score V _ s.map_ _ ⟨_, _, false⟩ ?_)
  intro di d' hd'
  simp only [List.getElem?_map, Option.map_eq_some'] at hd'
  obtain ⟨d, hd, rfl⟩ := hd'
  have hroom := ScoreRoom_mono (h d (List.getElem?_mem hd))
    (base_events_le_bases (generate_loot draw s).loot_map_ s.map_.bases
      (move_dogs s.map_ max_idle_time dt s.dogs_ 0).2
      (move_dogs_snd s.map_ max_idle_time dt s.dogs_ 0).2 di)
  obtain ⟨hb, hc, hs, _⟩ := tick_dog_frame s.map_ max_idle_time dt d
  refine ⟨hroom.1, ?_, ?_⟩
  · rw [hb, hc]; exact hroom.2.1
  · rw [hc, hs]; exact hroom.2.2

/-- Claim C9 as amended: when every loot value of every map in play lies in
`[0, V]`, every bag is within its capacity and every dog's score satisfies
`score + (number of bases of its map) * bag_capacity * V < 2 ^ 64`, then
`Application::Tick` leaves the sessions in place with their maps, every dog after
the tick is a dog of the same session before it with the same id and a score
that is not lower, and in a session whose dog ids are pairwise different a dog
with the same id before and after has a score after the tick that is greater
than or equal to its score before. -/
theorem C9_score_never_decreases (V : ℕ) (fuel : ℕ) (draws : ℕ → LootDraw) (dt : ℤ)
    (app app' : Application) (thrown : Bool)
    (hvalues : ∀ s ∈ app.game_.sessions_, ∀ (k : ℕ) (v : ℤ),
      s.map_.loot_types[k]? = some (some v) → 0 ≤ v ∧ v ≤ V)
    (hbag : ∀ s ∈ app.game_.sessions_, ∀ d ∈ s.dogs_, d.bag.length ≤ d.bag_capacity)
    (hroom : ∀ s ∈ app.game_.sessions_, ∀ d ∈ s.dogs_,
      d.score + s.map_.bases.length * (d.bag_capacity * V) < 2 ^ 64)
    (hT : Application.Tick fuel draws dt app = some (app', thrown)) :
    List.Forall₂
      (fun s s' => s'.map_ = s.map_ ∧
        (∀ d' ∈ s'.dogs_, ∃ d ∈ s.dogs_, d'.id = d.id ∧ d.score ≤ d'.score) ∧
        ((s.dogs_.map (fun d => d.id)).Nodup →
          ∀ d ∈ s.dogs_, ∀ d' ∈ s'.dogs_, d'.id = d.id → d.score ≤ d'.score))
      app.game_.sessions_ app'.game_.sessions_ := by
  have hev := tick_sessions_evolves ScoreGrows ScoreGrows_refl ScoreGrows_trans
    (fun m d => ScoreRoom V m m.bases.length d)
    (fun max_idle_time draw dt s h => tick_session_score V max_idle_time draw dt s h)
    fuel draws dt _ 0 app app' thrown
    (fun j s _ hs d hd =>
      ⟨hvalues s (List.getElem?_mem hs), hbag s (List.getElem?_mem hs) d hd,
        hroom s (List.getElem?_mem hs) d hd⟩)
    hT
  refine hev.imp ?_
  intro s s' hss
  refine ⟨hss.1, hss.2, ?_⟩
  intro hnd d hd d' hd' hid
  obtain ⟨d₀, hd₀, hid₀, hle⟩ := hss.2 d' hd'
  have : d₀ = d := List.inj_on_of_nodup_map hnd hd₀ hd (hid₀.symm.trans hid)
  rw [← this]
  exact hle

end app

namespace app

open model collision_detector

/-- Witness of C9, the walker scenario on the map with loot values 10 and 5 and
one base: the dog with bag `[(1, 0), (2, 1)]` and score 0 walks over the base in
a tick of 2000 ms; its score after the tick is 15. -/
theorem C9_witness_deposit :
    scenario.dogs_after (Application.Tick 2 scenario.no_loot 2000
        (scenario.application_of scenario.deposit_map [scenario.walker [(1, 0), (2, 1)] 0]))
      = some ([[scenario.walker_after [] 15]], false) ∧
    ∃ app' thrown, Application.Tick 2 scenario.no_loot 2000
        (scenario.application_of scenario.deposit_map [scenario.walker [(1, 0), (2, 1)] 0])
        = some (app', thrown) ∧
      List.Forall₂
        (fun s s' => s'.map_ = s.map_ ∧
          (∀ d' ∈ s'.dogs_, ∃ d ∈ s.dogs_, d'.id = d.id ∧ d.score ≤ d'.score) ∧
          ((s.dogs_.map (fun d => d.id)).Nodup →
            ∀ d ∈ s.dogs_, ∀ d' ∈ s'.dogs_, d'.id = d.id → d.score ≤ d'.score))
        (scenario.application_of scenario.deposit_map
          [scenario.walker [(1, 0), (2, 1)] 0]).game_.sessions_
        app'.game_.sessions_ := by
  have hT := Tick_walker [some 10, some 5] [(1, 0), (2, 1)] 0 (by decide)
  have hscore : (deposit [some 10, some 5] [(1, 0), (2, 1)] 0).1 = 15 := by decide
  rw [hscore] at hT
  refine ⟨hT, ?_⟩
  cases hr : Application.Tick 2 scenario.no_loot 2000
      (scenario.application_of scenario.deposit_map [scenario.walker [(1, 0), (2, 1)] 0]) with
  | none =>
    have hT' := hT
    unfold scenario.deposit_map at hr
    rw [hr] at hT'
    simp [scenario.dogs_after] at hT'
  | some r =>
    refine ⟨r.1, r.2, rfl, C9_score_never_decreases 10 2 scenario.no_loot 2000 _ r.1 r.2
      ?_ ?_ ?_ hr⟩
    · intro s hs k v hv
      simp only [scenario.application_of, List.mem_singleton] at hs
      subst hs
      have hk : k = 0 ∨ k = 1 ∨ 2 ≤ k := by omega
      rcases hk with rfl | rfl | hk
      · simp only [scenario.deposit_map, scenario.map_of, List.getElem?_cons_zero,
          Option.some.injEq] at hv
        subst hv
        norm_num
      · simp only [scenario.deposit_map, scenario.map_of, List.getElem?_cons_succ,
          List.getElem?_cons_zero, Option.some.injEq] at hv
        subst hv
        norm_num
      · have hnone : scenario.deposit_map.loot_types[k]? = none :=
          List.getElem?_eq_none (by simpa [scenario.deposit_map, scenario.map_of] using hk)
        rw [hnone] at hv
        exact Option.noConfusion hv
    · intro s hs d hd
      simp only [scenario.application_of, List.mem_singleton] at hs
      subst hs
      simp only [List.mem_singleton] at hd
      subst hd
      decide
    · intro s hs d hd
      simp only [scenario.application_of, List.mem_singleton] at hs
      subst hs
      simp only [List.mem_singleton] at hd
      subst hd
      decide

/-- Counterexample to C9 as stated.  (1) On the map whose loot type has the value
`-5`, the dog with score 10 and bag `[(1, 0)]` walks over the base in a tick of
2000 ms: it exists before and after the tick, with the score 5 after it.  (2) On
the map with loot values 10 and 5, the dog with score `2 ^ 64 - 1` and bag
`[(1, 0)]` has the score 9 after the tick.  -/
theorem C9_counterexample_score_drops :
    (scenario.dogs_after (Application.Tick 2 scenario.no_loot 2000
        (scenario.application_of scenario.negative_value_map [scenario.walker [(1, 0)] 10]))
      = some ([[scenario.walker_after [] 5]], false) ∧
      (scenario.walker_after [] 5).id = (scenario.walker [(1, 0)] 10).id ∧
      (scenario.walker_after [] 5).score < (scenario.walker [(1, 0)] 10).score) ∧
    (scenario.dogs_after (Application.Tick 2 scenario.no_loot 2000
        (scenario.application_of scenario.deposit_map
          [scenario.walker [(1, 0)] 18446744073709551615]))
      = some ([[scenario.walker_after [] 9]], false) ∧
      (scenario.walker_after [] 9).id = (scenario.walker [(1, 0)] 18446744073709551615).id ∧
      (scenario.walker_after [] 9).score
        < (scenario.walker [(1, 0)] 18446744073709551615).score) := by
  have h1 := Tick_walker [some (-5)] [(1, 0)] 10 (by decide)
  have hs1 : (deposit [some (-5)] [(1, 0)] 10).1 = 5 := by decide
  rw [hs1] at h1
  have h2 := Tick_walker [some 10, some 5] [(1, 0)] 18446744073709551615 (by decide)
  have hs2 : (deposit [some 10, some 5] [(1, 0)] 18446744073709551615).1 = 9 := by
    simp only [deposit, List.getElem?_cons_zero, add_value]
    norm_num
    rfl
  rw [hs2] at h2
  exact ⟨⟨h1, rfl, by decide⟩, ⟨h2, rfl, by decide⟩⟩

end app

namespace collision_detector

/-- Claim C11: for every provider, the list returned by `FindGatherEvents` is
sorted ascending by time: any event comes with a time not greater than that of
any later event, and in particular for every two consecutive events `e1`, `e2`
of the result `e1.time ≤ e2.time`. -/
theorem C11_events_sorted_by_time (provider : ItemGathererProvider) :
    (FindGatherEvents provider).Pairwise (fun e1 e2 => e1.time ≤ e2.time) ∧
    ∀ (i : ℕ) (e1 e2 : GatheringEvent),
      (FindGatherEvents provider)[i]? = some e1 →
      (FindGatherEvents provider)[i + 1]? = some e2 → e1.time ≤ e2.time := by
  have htotal : IsTotal GatheringEvent (fun e1 e2 => e1.time ≤ e2.time) :=
    ⟨fun a b => le_total a.time b.time⟩
  have htrans : IsTrans GatheringEvent (fun e1 e2 => e1.time ≤ e2.time) :=
    ⟨fun a b c hab hbc => le_trans hab hbc⟩
  have hsorted : (FindGatherEvents provider).Pairwise (fun e1 e2 => e1.time ≤ e2.time) := by
    unfold FindGatherEvents
    exact List.sorted_insertionSort (fun (e1 e2 : GatheringEvent) => e1.time ≤ e2.time)
      (detected_events provider)
  refine ⟨hsorted, ?_⟩
  intro i e1 e2 h1 h2
  obtain ⟨hi1, rfl⟩ := List.getElem?_eq_some.mp h1
  obtain ⟨hi2, rfl⟩ := List.getElem?_eq_some.mp h2
  exact List.pairwise_iff_getElem.mp hsorted i (i + 1) hi1 hi2 (Nat.lt_succ_self i)

end collision_detector

namespace collision_detector

/-- Witness of C11: two items supplied in the order far, near; the event of the
near item (time `1/5`) is reported before that of the far item (time `7/10`). -/
theorem C11_witness_far_near :
    FindGatherEvents scenario.far_near_provider.toProvider
      = [⟨1, 0, 0, 1 / 5⟩, ⟨0, 0, 0, 7 / 10⟩] ∧
    (FindGatherEvents scenario.far_near_provider.toProvider).Pairwise
      (fun e1 e2 => e1.time ≤ e2.time) := by
  refine ⟨?_, (C11_events_sorted_by_time scenario.far_near_provider.toProvider).1⟩
  have hr1 : List.range 1 = [0] := rfl
  have hr2 : List.range 2 = [0, 1] := rfl
  simp only [FindGatherEvents, detected_events, events_of_gatherer, scenario.far_near_provider,
    app.VectorItemGathererProvider.toProvider, app.VectorItemGathererProvider.create,
    List.length_cons, List.length_nil, List.map_cons, List.map_nil, List.append_nil, hr1, hr2]
  norm_num [List.flatMap, TryCollectPoint, CollectionResult.IsCollected, List.filterMap_cons,
    events_of_gatherer, hr1, hr2, List.insertionSort, List.orderedInsert]

end collision_detector

namespace app

open model collision_detector

/-- What the loop of the tick over the sessions does to each session: the
sessions stay in place; a session before position `idx` only loses dogs; a
session among the next `n` is ticked once, unless an exception left the tick,
in which case it may only have lost dogs. -/
theorem tick_sessions_trace (fuel : ℕ) (draws : ℕ → LootDraw) (dt : ℤ) :
    ∀ (n idx : ℕ) (app app' : Application) (thrown : Bool),
      tick_sessions fuel draws dt idx n app = some (app', thrown) →
      app'.game_.max_idle_time_ = app.game_.max_idle_time_ ∧
      app'.game_.sessions_.length = app.game_.sessions_.length ∧
      ∀ (j : ℕ) (s s' : GameSession), app.game_.sessions_[j]? = some s →
        app'.game_.sessions_[j]? = some s' →
        (j < idx → SessionShrinks s s') ∧
        (idx ≤ j → j < idx + n →
          SessionTicked app.game_.max_idle_time_ dt (draws j) s s' ∨
          (thrown = true ∧ SessionShrinks s s'))
  | 0, idx, app, app', thrown, h => by
    simp only [tick_sessions, Option.some.injEq, Prod.mk.injEq] at h
    obtain ⟨rfl, _⟩ := h
    refine ⟨rfl, rfl, ?_⟩
    intro j s s' hs hs'
    rw [hs] at hs'
    simp only [Option.some.injEq] at hs'
    subst hs'
    exact ⟨fun _ => SessionShrinks_refl s, fun h1 h2 => by omega⟩
  | n + 1, idx, app, app', thrown, h => by
    simp only [tick_sessions] at h
    split at h
    · rename_i hnone
      simp only [Option.some.injEq, Prod.mk.injEq] at h
      obtain ⟨rfl, _⟩ := h
      refine ⟨rfl, rfl, ?_⟩
      intro j s s' hs hs'
      rw [hs] at hs'
      simp only [Option.some.injEq] at hs'
      subst hs'
      refine ⟨fun _ => SessionShrinks_refl s, fun h1 _ => ?_⟩
      have hlen : app.game_.sessions_.length ≤ idx := by
        by_contra hlt
        rw [List.getElem?_eq_getElem (by omega)] at hnone
        exact Option.noConfusion hnone
      rw [List.getElem?_eq_none (by omega)] at hs
      exact Option.noConfusion hs
    · rename_i s₀ hs₀
      have hidx : idx < app.game_.sessions_.length := (List.getElem?_eq_some.mp hs₀).1
      split_ifs at h with hthrown
      · simp only [Option.some.injEq, Prod.mk.injEq] at h
        obtain ⟨rfl, rfl⟩ := h
        refine ⟨rfl, by simp, ?_⟩
        intro j s s' hs hs'
        simp only [List.getElem?_set] at hs'
        by_cases hj : idx = j
        · subst hj
          rw [if_pos rfl, if_pos hidx] at hs'
          simp only [Option.some.injEq] at hs'
          rw [hs₀] at hs
          simp only [Option.some.injEq] at hs
          subst hs
          subst hs'
          exact ⟨fun h1 => by omega,
            fun _ _ => Or.inl ⟨s₀, SessionShrinks_refl _, SessionShrinks_refl _⟩⟩
        · rw [if_neg hj, hs] at hs'
          simp only [Option.some.injEq] at hs'
          subst hs'
          exact ⟨fun _ => SessionShrinks_refl s,
            fun _ _ => Or.inr ⟨rfl, SessionShrinks_refl s⟩⟩
      · split at h
        · exact Option.noConfusion h
        · rename_i app₂ hn
          obtain ⟨hshr, hmax⟩ := notify_shrinks fuel dt _ _ _ _ hn
          obtain ⟨hmax', hlen', hrec⟩ :=
            tick_sessions_trace fuel draws dt n (idx + 1) app₂ app' thrown h
          have hlen₂ := hshr.length_eq
          simp only [List.length_set] at hlen₂
          have hmax₂ : app₂.game_.max_idle_time_ = app.game_.max_idle_time_ := hmax
          refine ⟨hmax'.trans hmax₂, hlen'.trans hlen₂.symm, ?_⟩
          intro j s s' hs hs'
          have hj : j < app.game_.sessions_.length := (List.getElem?_eq_some.mp hs).1
          obtain ⟨s₂, hs₂⟩ : ∃ s₂, app₂.game_.sessions_[j]? = some s₂ :=
            ⟨_, List.getElem?_eq_getElem (by omega)⟩
          obtain ⟨s₁, hs₁, hsh⟩ := forall₂_getElem? hshr j s₂ hs₂
          obtain ⟨hbefore, hin⟩ := hrec j s₂ s' hs₂ hs'
          rw [hmax₂] at hin
          simp only [List.getElem?_set] at hs₁
          by_cases hji : idx = j
          · subst hji
            rw [if_pos rfl, if_pos hidx] at hs₁
            simp only [Option.some.injEq] at hs₁
            rw [hs₀] at hs
            simp only [Option.some.injEq] at hs
            subst hs
            refine ⟨fun h1 => by omega, fun _ _ => Or.inl ⟨s₀, SessionShrinks_refl _, ?_⟩⟩
            rw [hs₁]
            exact SessionShrinks_trans _ _ _ hsh (hbefore (Nat.lt_succ_self _))
          · rw [if_neg hji, hs] at hs₁
            simp only [Option.some.injEq] at hs₁
            subst hs₁
            constructor
            · intro hlt
              exact SessionShrinks_trans _ _ _ hsh (hbefore (by omega))
            · intro h1 h2
              rcases hin (by omega) (by omega) with ⟨s₃, h3, h4⟩ | ⟨ht, h3⟩
              · exact Or.inl ⟨s₃, SessionShrinks_trans _ _ _ hsh h3, h4⟩
              · exact Or.inr ⟨ht, SessionShrinks_trans _ _ _ hsh h3⟩

end app

namespace app

open model collision_detector

/-- Ticking a dog that is not expired adds `dt` to its age, adds `dt` to its idle
time when its idle flag is set and resets the idle time otherwise; ticking an
expired dog changes nothing. -/
theorem tick_dog_clocks (m : Map) (max_idle_time dt : ℤ) (d : Dog) :
    (d.idle_for < max_idle_time →
      (tick_dog m max_idle_time dt d).1.age = d.age + dt ∧
      (tick_dog m max_idle_time dt d).1.idle_for
        = if d.is_idle = true then d.idle_for + dt else 0) ∧
    (d.idle_for ≥ max_idle_time → tick_dog m max_idle_time dt d = (d, none)) := by
  constructor
  · intro h
    unfold tick_dog
    rw [if_neg (not_le.mpr h)]
    by_cases h2 : d.is_idle = true
    · simp [h2, MoveDog_eq_calls]
    · have h3 : d.is_idle = false := by simpa using h2
      simp [h3, MoveDog_eq_calls]
  · intro h
    unfold tick_dog
    rw [if_pos h]

/-- The three blocks of the tick on one session: every dog afterwards is a dog
of the session before, with the same id and, unless it was expired, with its
clocks advanced. -/
theorem tick_session_clocks (max_idle_time : ℤ) (draw : LootDraw) (dt : ℤ) (s : GameSession) :
    ∀ d' ∈ (tick_session max_idle_time draw dt s).1.dogs_, ∃ d ∈ s.dogs_,
      d'.id = d.id ∧
      (d.idle_for < max_idle_time →
        d'.age = d.age + dt ∧
        d'.idle_for = if d.is_idle = true then d.idle_for + dt else 0) := by
  intro d' hd'
  rw [(tick_session_dogs max_idle_time draw dt s).2] at hd'
  unfold gather_items at hd'
  have hpass := handle_events_evolves
    (fun c c' => c'.id = c.id ∧ c'.age = c.age ∧ c'.idle_for = c.idle_for)
    (fun _ => ⟨rfl, rfl, rfl⟩)
    (fun a b c h₁ h₂ => ⟨h₂.1.trans h₁.1, h₂.2.1.trans h₁.2.1, h₂.2.2.trans h₁.2.2⟩)
    (fun c id type => by unfold Dog.TryGrabItem; split_ifs <;> exact ⟨rfl, rfl, rfl⟩)
    (fun c score => ⟨⟨rfl, rfl, rfl⟩, ⟨rfl, rfl, rfl⟩⟩)
    (VectorItemGathererProvider.create (generate_loot draw s).loot_map_ s.map_.bases
      (move_dogs s.map_ max_idle_time dt s.dogs_ 0).2) s.map_
    (FindGatherEvents (VectorItemGathererProvider.create (generate_loot draw s).loot_map_
      s.map_.bases (move_dogs s.map_ max_idle_time dt s.dogs_ 0).2).toProvider)
    ⟨s.dogs_.map (fun d => (tick_dog s.map_ max_idle_time dt d).1),
      (generate_loot draw s).loot_map_, false⟩
  obtain ⟨c, hc, hid, hage, hidle⟩ := hpass d' hd'
  obtain ⟨d, hd, rfl⟩ := List.mem_map.mp hc
  refine ⟨d, hd, hid.trans (tick_dog_frame s.map_ max_idle_time dt d).2.2.2, ?_⟩
  intro hlt
  obtain ⟨h1, h2⟩ := (tick_dog_clocks s.map_ max_idle_time dt d).1 hlt
  exact ⟨hage.trans h1, hidle.trans h2⟩

end app

namespace app

open model collision_detector

/-- The tick of the walker scenario returns without an exception. -/
theorem Tick_walker_returns (loot_types : List (Option ℤ)) (bag : List (ℕ × ℕ)) (score : ℕ)
    (hok : (deposit loot_types bag score).2 = false) :
    ∃ app', Application.Tick 2 scenario.no_loot 2000
        (scenario.application_of
          (scenario.map_of [Road.HORIZONTAL ⟨0, 3⟩ 10] loot_types [⟨⟨3, 3⟩, 5 / 10⟩])
          [scenario.walker bag score]) = some (app', false) ∧
      app'.game_.sessions_.map (fun s => s.dogs_)
        = [[scenario.walker_after [] (deposit loot_types bag score).1]] := by
  have hT := Tick_walker loot_types bag score hok
  cases hr : Application.Tick 2 scenario.no_loot 2000
      (scenario.application_of
        (scenario.map_of [Road.HORIZONTAL ⟨0, 3⟩ 10] loot_types [⟨⟨3, 3⟩, 5 / 10⟩])
        [scenario.walker bag score]) with
  | none =>
    rw [hr] at hT
    simp [scenario.dogs_after] at hT
  | some r =>
    rw [hr] at hT
    simp only [scenario.dogs_after, Option.map_some', Option.some.injEq, Prod.mk.injEq] at hT
    refine ⟨r.1, ?_, hT.1⟩
    rw [← hT.2]

end app

namespace app

open model collision_detector

/-- Every gatherer recorded by the movement loop belongs to a dog that is not
expired. -/
theorem move_dogs_snd_live (m : Map) (max_idle_time dt : ℤ) :
    ∀ (dogs : List Dog) (idx : ℕ), ∀ p ∈ (move_dogs m max_idle_time dt dogs idx).2,
      idx ≤ p.1 ∧ ∃ d, dogs[p.1 - idx]? = some d ∧ d.idle_for < max_idle_time
  | [], _, p, hp => by simp [move_dogs] at hp
  | d :: rest, idx, p, hp => by
    have ih := move_dogs_snd_live m max_idle_time dt rest (idx + 1)
    have htail : ∀ q ∈ (move_dogs m max_idle_time dt rest (idx + 1)).2,
        idx ≤ q.1 ∧ ∃ d', (d :: rest)[q.1 - idx]? = some d' ∧ d'.idle_for < max_idle_time := by
      intro q hq
      obtain ⟨h1, d', h2, h3⟩ := ih q hq
      refine ⟨by omega, d', ?_, h3⟩
      have : q.1 - idx = (q.1 - (idx + 1)) + 1 := by omega
      rw [this, List.getElem?_cons_succ]
      exact h2
    simp only [move_dogs] at hp
    by_cases hexp : d.idle_for ≥ max_idle_time
    · rw [((tick_dog_clocks m max_idle_time dt d).2 hexp)] at hp
      exact htail p hp
    · cases hg : (tick_dog m max_idle_time dt d).2 with
      | none =>
        rw [hg] at hp
        exact htail p hp
      | some g =>
        rw [hg] at hp
        rcases List.mem_cons.mp hp with rfl | hp
        · exact ⟨le_refl _, d, by simp, not_le.mp hexp⟩
        · exact htail p hp

/-- An event of another dog leaves the dog in position `i` as it is. -/
theorem handle_event_other (provider : VectorItemGathererProvider) (m : Map) (st : PassState)
    (e : GatheringEvent) (i : ℕ) (h : provider.GetDog e.gatherer_id ≠ some i) :
    (handle_event provider m st e).dogs[i]? = st.dogs[i]? := by
  unfold handle_event
  split
  · rfl
  · rename_i di hget
    have hne : di ≠ i := fun heq => h (by rw [hget, heq])
    split
    · rfl
    · split_ifs
      · split
        · rfl
        · dsimp only
          split_ifs
          · exact List.getElem?_set_ne hne
          · rfl
      · dsimp only
        split_ifs
        · exact List.getElem?_set_ne hne
        · exact List.getElem?_set_ne hne

/-- A collision pass without events of the dog in position `i` leaves that dog
as it is. -/
theorem handle_events_other (provider : VectorItemGathererProvider) (m : Map) (i : ℕ) :
    ∀ (events : List GatheringEvent) (st : PassState),
      (∀ e ∈ events, provider.GetDog e.gatherer_id ≠ some i) →
      (handle_events provider m st events).dogs[i]? = st.dogs[i]?
  | [], _, _ => rfl
  | e :: rest, st, h => by
    simp only [handle_events]
    have h1 := handle_event_other provider m st e i (h e (List.mem_cons_self _ _))
    split_ifs
    · exact h1
    · rw [handle_events_other provider m i rest _
        (fun e' he' => h e' (List.mem_cons_of_mem _ he'))]
      exact h1

/-- Every event reported by `FindGatherEvents` belongs to one of the gatherers
supplied. -/
theorem FindGatherEvents_gatherer (loot : List (ℕ × (ℕ × geom.Point2D))) (bases : List Item)
    (gatherers : List (ℕ × Gatherer)) (e : GatheringEvent)
    (he : e ∈ FindGatherEvents (VectorItemGathererProvider.create loot bases gatherers).toProvider) :
    ∃ p ∈ gatherers,
      (VectorItemGathererProvider.create loot bases gatherers).GetDog e.gatherer_id
        = some p.1 := by
  unfold FindGatherEvents at he
  rw [(List.perm_insertionSort _ _).mem_iff] at he
  unfold detected_events at he
  rw [List.mem_flatMap] at he
  obtain ⟨g, hg, heg⟩ := he
  obtain ⟨hid, _⟩ := mem_events_of_gatherer _ g e heg
  have hlt : g < gatherers.length := by
    simpa [VectorItemGathererProvider.toProvider, VectorItemGathererProvider.create] using hg
  refine ⟨gatherers[g], List.getElem_mem hlt, ?_⟩
  rw [create_GetDog, hid, List.getElem?_eq_getElem hlt]
  rfl

end app

namespace app

open model collision_detector

/-- Claim C13: in the three blocks of `Application::Tick` that act on a session
(loot generation, movement, collision pass), a dog whose `idle_for` is at or
above the max idle time stays in its position in the session with every field
unchanged; no gatherer is recorded for it, and no gathering event of the pass
belongs to it. -/
theorem C13_expired_dog_is_skipped (max_idle_time : ℤ) (draw : LootDraw) (dt : ℤ)
    (s : GameSession) (i : ℕ) (d : Dog) (hd : s.dogs_[i]? = some d)
    (hexp : d.idle_for ≥ max_idle_time) :
    (tick_session max_idle_time draw dt s).1.dogs_[i]? = some d ∧
    (∀ g ∈ (move_dogs s.map_ max_idle_time dt s.dogs_ 0).2, g.1 ≠ i) ∧
    (∀ e ∈ FindGatherEvents (VectorItemGathererProvider.create
          (generate_loot draw s).loot_map_ s.map_.bases
          (move_dogs s.map_ max_idle_time dt s.dogs_ 0).2).toProvider,
      (VectorItemGathererProvider.create (generate_loot draw s).loot_map_ s.map_.bases
        (move_dogs s.map_ max_idle_time dt s.dogs_ 0).2).GetDog e.gatherer_id ≠ some i) := by
  have hgath : ∀ g ∈ (move_dogs s.map_ max_idle_time dt s.dogs_ 0).2, g.1 ≠ i := by
    intro g hg hgi
    obtain ⟨_, d', hd', hlive⟩ := move_dogs_snd_live s.map_ max_idle_time dt s.dogs_ 0 g hg
    rw [Nat.sub_zero, hgi, hd] at hd'
    simp only [Option.some.injEq] at hd'
    subst hd'
    exact absurd hexp (not_le.mpr hlive)
  have hevents : ∀ e ∈ FindGatherEvents (VectorItemGathererProvider.create
        (generate_loot draw s).loot_map_ s.map_.bases
        (move_dogs s.map_ max_idle_time dt s.dogs_ 0).2).toProvider,
      (VectorItemGathererProvider.create (generate_loot draw s).loot_map_ s.map_.bases
        (move_dogs s.map_ max_idle_time dt s.dogs_ 0).2).GetDog e.gatherer_id ≠ some i := by
    intro e he hget
    obtain ⟨p, hp, hpd⟩ := FindGatherEvents_gatherer _ _ _ e he
    rw [hget] at hpd
    simp only [Option.some.injEq] at hpd
    exact hgath p hp hpd.symm
  refine ⟨?_, hgath, hevents⟩
  rw [(tick_session_dogs max_idle_time draw dt s).2]
  unfold gather_items
  rw [handle_events_other _ _ i _ _ hevents]
  simp only [List.getElem?_map, hd, Option.map_some']
  rw [(tick_dog_clocks s.map_ max_idle_time dt d).2 hexp]

/-- Witness of C13: a session with the expired dog `sleeper` (idle for 70000 ms,
max idle time 60000 ms) standing on the base with a loot item in its bag, and a
walker that passes the base. -/
theorem C13_witness_sleeper :
    scenario.sleeper_session.dogs_[0]? = some scenario.sleeper ∧
    scenario.sleeper.idle_for ≥ 60000 ∧
    (tick_session 60000 (scenario.no_loot 0) 2000 scenario.sleeper_session).1.dogs_[0]?
      = some scenario.sleeper :=
  ⟨rfl, by decide,
    (C13_expired_dog_is_skipped 60000 (scenario.no_loot 0) 2000 scenario.sleeper_session 0
      scenario.sleeper rfl (by decide)).1⟩

end app

namespace app

open model collision_detector

/-- One iteration of the inner loop of `RetirementListener::OnTick` on an
expired dog is the `try` block; the iterator moves on only when the block ran to
its end. -/
theorem retire_dogs_step (max_idle_time : ℤ) (fuel : ℕ) (app : Application)
    (kept : List Dog) (dog : Dog) (rest : List Dog) (hexp : dog.idle_for ≥ max_idle_time) :
    retire_dogs max_idle_time (fuel + 1) app kept (dog :: rest)
      = retire_dogs max_idle_time fuel (retire_attempt app dog).1 kept
          (if (retire_attempt app dog).2 = true then rest else dog :: rest) := by
  simp only [retire_dogs, if_pos hexp, retire_attempt]
  cases h : (app.database_.attempt dog).2
  · simp
  · simp only [if_true]
    cases h2 : PlayerTokens.RemoveToken app.tokens_ dog.id <;> simp

/-- One iteration of the inner loop on a dog that is not expired keeps the dog. -/
theorem retire_dogs_keep (max_idle_time : ℤ) (fuel : ℕ) (app : Application)
    (kept : List Dog) (dog : Dog) (rest : List Dog) (hlive : dog.idle_for < max_idle_time) :
    retire_dogs max_idle_time (fuel + 1) app kept (dog :: rest)
      = retire_dogs max_idle_time fuel app (kept ++ [dog]) rest := by
  simp only [retire_dogs, if_neg (not_le.mpr hlive)]

end app

namespace app

open model collision_detector

/-- An attempt that the database does not answer with a commit leaves all but
the database as it is and does not end the `try` block. -/
theorem retire_attempt_failed (app : Application) (dog : Dog)
    (h : app.database_.script.headD app.database_.rest ≠ DbOutcome.ok) :
    retire_attempt app dog = ({ app with database_ := (app.database_.attempt dog).1 }, false) ∧
    (app.database_.attempt dog).1.retired_players = app.database_.retired_players := by
  have h2 : (app.database_.attempt dog).2 = false ∧
      (app.database_.attempt dog).1.retired_players = app.database_.retired_players := by
    unfold Database.attempt
    cases hc : app.database_.script.headD app.database_.rest with
    | ok => exact absurd hc h
    | uow_throws => exact ⟨rfl, rfl⟩
    | save_throws => exact ⟨rfl, rfl⟩
    | commit_throws => exact ⟨rfl, rfl⟩
  refine ⟨?_, h2.2⟩
  unfold retire_attempt
  simp only [h2.1, Bool.false_eq_true, if_false]

/-- An attempt that ends the `try` block has committed the record of the dog. -/
theorem retire_attempt_done (app : Application) (dog : Dog)
    (h : (retire_attempt app dog).2 = true) :
    app.database_.script.headD app.database_.rest = DbOutcome.ok ∧
    (retire_attempt app dog).1.database_.retired_players
      = app.database_.retired_players
        ++ [⟨app.database_.next_uuid, dog.name, to_int32 dog.score, to_int32 dog.age⟩] := by
  by_cases hok : app.database_.script.headD app.database_.rest = DbOutcome.ok
  · refine ⟨hok, ?_⟩
    have hatt : app.database_.attempt dog
        = ({ app.database_ with
              script := app.database_.script.tail
              retired_players := app.database_.retired_players ++
                [⟨app.database_.next_uuid, dog.name, to_int32 dog.score, to_int32 dog.age⟩]
              next_uuid := app.database_.next_uuid + 1 }, true) := by
      unfold Database.attempt
      rw [hok]
    unfold retire_attempt
    simp only [hatt, if_true]
    cases PlayerTokens.RemoveToken app.tokens_ dog.id <;> rfl
  · rw [(retire_attempt_failed app dog hok).1] at h
    exact Bool.noConfusion h

/-- Claim C16: in `RetirementListener::OnTick`, a retirement attempt in which
obtaining the unit of work, `Save` or `Commit` throws changes nothing in the game
state: the `try` block is left before its cleanup, the game with its sessions and
dogs, the player registry and the token registry are as before (so every token
resolves as before), no record is committed, and the loop goes on with the same
dog still in its session.  Conversely, an attempt that reaches the end of the
`try` block (the only place where token, player and dog are removed) has got a
successful `Commit` with the record of the dog. -/
theorem C16_failed_attempt_keeps_the_dog (app : Application) (dog : Dog) :
    (app.database_.script.headD app.database_.rest ≠ DbOutcome.ok →
      (retire_attempt app dog).2 = false ∧
      (retire_attempt app dog).1.game_ = app.game_ ∧
      (retire_attempt app dog).1.players_ = app.players_ ∧
      (retire_attempt app dog).1.tokens_ = app.tokens_ ∧
      (∀ token, (retire_attempt app dog).1.tokens_.FindPlayerByToken token
        = app.tokens_.FindPlayerByToken token) ∧
      (retire_attempt app dog).1.database_.retired_players = app.database_.retired_players ∧
      ∀ (max_idle_time : ℤ) (fuel : ℕ) (kept rest : List Dog),
        dog.idle_for ≥ max_idle_time →
        retire_dogs max_idle_time (fuel + 1) app kept (dog :: rest)
          = retire_dogs max_idle_time fuel (retire_attempt app dog).1 kept (dog :: rest)) ∧
    ((retire_attempt app dog).2 = true →
      app.database_.script.headD app.database_.rest = DbOutcome.ok ∧
      (retire_attempt app dog).1.database_.retired_players
        = app.database_.retired_players
          ++ [⟨app.database_.next_uuid, dog.name, to_int32 dog.score, to_int32 dog.age⟩]) := by
  refine ⟨fun h => ?_, retire_attempt_done app dog⟩
  obtain ⟨h1, h2⟩ := retire_attempt_failed app dog h
  refine ⟨by rw [h1], by rw [h1], by rw [h1], by rw [h1], fun token => by rw [h1],
    by rw [h1]; exact h2, ?_⟩
  intro max_idle_time fuel kept rest hexp
  rw [retire_dogs_step max_idle_time fuel app kept dog rest hexp]
  rw [h1]
  simp

/-- Witness of C16, the retirement scenario with a database whose next `Commit`
throws: after the attempt for the expired dog the session, the players and the
tokens are as before, and the token of the dog still resolves to its player. -/
theorem C16_witness_commit_throws :
    (scenario.retirement_app [DbOutcome.commit_throws] DbOutcome.ok).database_.script.headD
      (scenario.retirement_app [DbOutcome.commit_throws] DbOutcome.ok).database_.rest
      ≠ DbOutcome.ok ∧
    (retire_attempt (scenario.retirement_app [DbOutcome.commit_throws] DbOutcome.ok)
      scenario.retiree).2 = false ∧
    (retire_attempt (scenario.retirement_app [DbOutcome.commit_throws] DbOutcome.ok)
      scenario.retiree).1.game_.sessions_.map (fun s => s.dogs_)
      = [[scenario.retiree, scenario.stayer]] ∧
    (retire_attempt (scenario.retirement_app [DbOutcome.commit_throws] DbOutcome.ok)
      scenario.retiree).1.tokens_.FindPlayerByToken "0123456789abcdef0123456789abcdef"
      = some 7 := by
  have h := (C16_failed_attempt_keeps_the_dog
    (scenario.retirement_app [DbOutcome.commit_throws] DbOutcome.ok) scenario.retiree).1
    (by decide)
  refine ⟨by decide, h.1, ?_, ?_⟩
  · rw [h.2.1]; rfl
  · rw [h.2.2.2.2.1]; decide

end app

namespace app

open model collision_detector

/-- While the database answers no attempt with a commit, the inner loop of the
retirement listener does not get past an expired dog, whatever the fuel. -/
theorem retire_dogs_never_returns (max_idle_time : ℤ) :
    ∀ (fuel : ℕ) (app : Application) (kept todo : List Dog),
      app.database_.script = [] → app.database_.rest ≠ DbOutcome.ok →
      (∃ d ∈ todo, d.idle_for ≥ max_idle_time) →
      retire_dogs max_idle_time fuel app kept todo = none
  | 0, _, _, _, _, _, _ => rfl
  | fuel + 1, app, kept, [], _, _, h => by
    obtain ⟨d, hd, _⟩ := h
    simp at hd
  | fuel + 1, app, kept, dog :: rest, hscript, hrest, h => by
    by_cases hexp : dog.idle_for ≥ max_idle_time
    · have hhead : app.database_.script.headD app.database_.rest ≠ DbOutcome.ok := by
        rw [hscript]; exact hrest
      rw [retire_dogs_step max_idle_time fuel app kept dog rest hexp,
        (retire_attempt_failed app dog hhead).1]
      simp only [Bool.false_eq_true, if_false]
      apply retire_dogs_never_returns max_idle_time fuel _ kept (dog :: rest)
      · unfold Database.attempt
        cases hc : app.database_.script.headD app.database_.rest <;> simp [hscript]
      · unfold Database.attempt
        cases hc : app.database_.script.headD app.database_.rest <;> simp [hrest]
      · exact ⟨dog, List.mem_cons_self _ _, hexp⟩
    · rw [retire_dogs_keep max_idle_time fuel app kept dog rest (not_le.mp hexp)]
      apply retire_dogs_never_returns max_idle_time fuel app _ rest hscript hrest
      obtain ⟨d, hd, hde⟩ := h
      rcases List.mem_cons.mp hd with rfl | hd
      · exact absurd hde hexp
      · exact ⟨d, hd, hde⟩

/-- The behaviour of the code that C17 is about.  (1) In the retirement scenario
with a database whose every `Commit` throws, `RetirementListener::OnTick` does
not return, whatever the number of iterations allowed.  (2) With a database whose
first `Commit` throws and whose second succeeds, one call of `OnTick` makes two
attempts for the same dog: the call returns with the dog retired under the second
UUID. -/
theorem C17_failed_attempt_is_retried_at_once :
    (∀ fuel, RetirementListener_OnTick fuel
      (scenario.retirement_app [] DbOutcome.commit_throws) = none) ∧
    (RetirementListener_OnTick 4
        (scenario.retirement_app [DbOutcome.commit_throws] DbOutcome.ok)).map
      (fun a => (a.game_.sessions_.map (fun s => s.dogs_), a.database_.retired_players,
        a.database_.next_uuid))
      = some ([[scenario.stayer]], [⟨1, "Rex", 30, 5000⟩], 2) := by
  constructor
  · intro fuel
    unfold RetirementListener_OnTick
    have h := retire_dogs_never_returns 1000 fuel
      (scenario.retirement_app [] DbOutcome.commit_throws) []
      [scenario.retiree, scenario.stayer] rfl (by decide)
      ⟨scenario.retiree, List.mem_cons_self _ _, by decide⟩
    simp only [scenario.retirement_app, retire_sessions] at h ⊢
    rw [h]
  · decide

end app

namespace app

open model collision_detector

theorem Application_ext (a b : Application) (h₁ : a.game_ = b.game_)
    (h₂ : a.players_ = b.players_) (h₃ : a.tokens_ = b.tokens_)
    (h₄ : a.random_spawns_ = b.random_spawns_) (h₅ : a.listeners_ = b.listeners_)
    (h₆ : a.database_ = b.database_) : a = b := by
  cases a; cases b; simp_all

theorem PlayerTokens_ext (a b : PlayerTokens) (h₁ : a.token_to_player_ = b.token_to_player_)
    (h₂ : a.player_id_to_token_ = b.player_id_to_token_) : a = b := by
  cases a; cases b; simp_all

theorem Database_ext (a b : Database) (h₁ : a.script = b.script) (h₂ : a.rest = b.rest)
    (h₃ : a.retired_players = b.retired_players) (h₄ : a.next_uuid = b.next_uuid) : a = b := by
  cases a; cases b; simp_all

theorem find?_filter_of_imp {α : Type} (p q : α → Bool) :
    ∀ (l : List α), (∀ x ∈ l, p x = true → q x = true) → (l.filter q).find? p = l.find? p
  | [], _ => rfl
  | a :: l, h => by
    have ih := find?_filter_of_imp p q l (fun x hx => h x (List.mem_cons_of_mem _ hx))
    by_cases hq : q a = true
    · rw [List.filter_cons_of_pos hq, List.find?_cons, List.find?_cons, ih]
    · have hp : p a = false := by
        by_contra hp
        exact hq (h a (List.mem_cons_self _ _) (by simpa using hp))
      rw [List.filter_cons_of_neg hq, List.find?_cons, hp, ih]

theorem retired_rows_append (d : Dog) :
    ∀ (dogs : List Dog) (uuid : ℕ),
      retired_rows uuid (dogs ++ [d])
        = retired_rows uuid dogs
          ++ [⟨uuid + dogs.length, d.name, to_int32 d.score, to_int32 d.age⟩]
  | [], uuid => by simp [retired_rows]
  | e :: rest, uuid => by
    have ih := retired_rows_append d rest (uuid + 1)
    have : uuid + 1 + rest.length = uuid + (rest.length + 1) := by omega
    rw [this] at ih
    simp only [List.cons_append, retired_rows, List.length_cons, List.append_eq, ih]

theorem headD_drop_ok (script : List DbOutcome) (k : ℕ)
    (h : ∀ o ∈ script, o = DbOutcome.ok) : (script.drop k).headD DbOutcome.ok = DbOutcome.ok := by
  cases hd : script.drop k with
  | nil => rfl
  | cons o rest =>
    have : o ∈ script := List.mem_of_mem_drop (by rw [hd]; exact List.mem_cons_self _ _)
    simp [h o this]

/-- With a database that accepts every commit, the `try` block for a dog that has
a token and whose id differs from those of the dogs retired so far retires it. -/
theorem retire_attempt_retired (app : Application) (dogs : List Dog) (d : Dog)
    (hdb : ∀ o ∈ app.database_.script, o = DbOutcome.ok)
    (hrest : app.database_.rest = DbOutcome.ok)
    (hid : ∀ e ∈ dogs, e.id ≠ d.id)
    (htok : app.tokens_.token_of d.id ≠ none) :
    retire_attempt (app.retired dogs) d = (app.retired (dogs ++ [d]), true) := by
  obtain ⟨t, ht⟩ := Option.ne_none_iff_exists'.mp htok
  have hfind : ∃ e₀, app.tokens_.player_id_to_token_.find? (fun e => e.1 == d.id) = some e₀ ∧
      e₀.2 = t := by
    unfold PlayerTokens.token_of at ht
    cases hf : app.tokens_.player_id_to_token_.find? (fun e => e.1 == d.id) with
    | none => rw [hf] at ht; exact Option.noConfusion ht
    | some e₀ =>
      rw [hf] at ht
      exact ⟨e₀, rfl, by simpa using ht⟩
  obtain ⟨e₀, he₀, het⟩ := hfind
  have hfind' : (app.tokens_.player_id_to_token_.filter (fun x =>
      dogs.all (fun e => x.1 != e.id))).find? (fun e => e.1 == d.id) = some e₀ := by
    rw [find?_filter_of_imp _ _ _ ?_, he₀]
    intro x _ hx
    have hx' : x.1 = d.id := by simpa using hx
    rw [List.all_eq_true]
    intro e he
    simpa [hx'] using (hid e he).symm
  have hhead : ((app.retired dogs).database_.script).headD (app.retired dogs).database_.rest
      = DbOutcome.ok := by
    simp only [Application.retired, hrest]
    exact headD_drop_ok _ _ hdb
  have hatt : (app.retired dogs).database_.attempt d
      = ({ (app.retired dogs).database_ with
            script := (app.retired dogs).database_.script.tail
            retired_players := (app.retired dogs).database_.retired_players ++
              [⟨(app.retired dogs).database_.next_uuid, d.name, to_int32 d.score,
                to_int32 d.age⟩]
            next_uuid := (app.retired dogs).database_.next_uuid + 1 }, true) := by
    unfold Database.attempt
    rw [hhead]
  have hrem : PlayerTokens.RemoveToken (app.retired dogs).tokens_ d.id
      = some { token_to_player_ :=
                (app.retired dogs).tokens_.token_to_player_.filter (fun x => x.1 != e₀.2)
               player_id_to_token_ :=
                (app.retired dogs).tokens_.player_id_to_token_.filter
                  (fun x => x.1 != d.id) } := by
    unfold PlayerTokens.RemoveToken
    simp only [Application.retired, hfind']
  have hcomm : ∀ (a b : Bool), (a && b) = (b && a) := Bool.and_comm
  have htoken : app.tokens_.token_of d.id = some e₀.2 := by rw [ht, het]
  unfold retire_attempt
  simp only [hatt, if_true, hrem]
  refine Prod.ext ?_ rfl
  apply Application_ext
  · rfl
  · simp only [Application.retired, List.filter_filter, List.all_append, List.all_cons,
      List.all_nil, Bool.and_true]
    apply List.filter_congr
    intro x _
    exact hcomm _ _
  · apply PlayerTokens_ext
    · simp only [Application.retired, List.filter_filter, List.all_append, List.all_cons,
        List.all_nil, Bool.and_true]
      apply List.filter_congr
      intro x _
      rw [htoken, hcomm]
      congr 1
      by_cases hx : x.1 = e₀.2
      · simp [hx]
      · have h1 : (x.1 != e₀.2) = true := by simpa using hx
        have h2 : (some e₀.2 != some x.1) = true := by
          simp only [bne_iff_ne, ne_eq, Option.some.injEq]
          exact fun h => hx h.symm
        rw [h1, h2]
    · simp only [Application.retired, List.filter_filter, List.all_append, List.all_cons,
        List.all_nil, Bool.and_true]
      apply List.filter_congr
      intro x _
      exact hcomm _ _
  · rfl
  · rfl
  · apply Database_ext
    · simp only [Application.retired, List.length_append, List.length_singleton,
        List.tail_drop]
    · rfl
    · simp only [Application.retired, retired_rows_append, List.append_assoc]
    · simp only [Application.retired, List.length_append, List.length_singleton]
      omega

end app

namespace app

open model collision_detector

theorem retired_nil (app : Application) : app.retired [] = app := by
  apply Application_ext
  · rfl
  · simp [Application.retired]
  · apply PlayerTokens_ext <;> simp [Application.retired]
  · rfl
  · rfl
  · apply Database_ext <;> simp [Application.retired, retired_rows]

/-- The inner loop of the retirement listener with a database that accepts every
commit, on dogs with pairwise different ids whose expired members have tokens:
with more fuel than dogs it returns, the expired dogs are retired in order and
the others are kept. -/
theorem retire_dogs_healthy (app₀ : Application) (max_idle_time : ℤ)
    (hdb : ∀ o ∈ app₀.database_.script, o = DbOutcome.ok)
    (hrest : app₀.database_.rest = DbOutcome.ok) :
    ∀ (todo : List Dog) (fuel : ℕ) (done kept : List Dog),
      todo.length < fuel →
      (∀ d ∈ todo, d.idle_for ≥ max_idle_time → app₀.tokens_.token_of d.id ≠ none) →
      (∀ d ∈ todo, ∀ e ∈ done, e.id ≠ d.id) →
      (todo.map (fun d => d.id)).Nodup →
      retire_dogs max_idle_time fuel (app₀.retired done) kept todo
        = some (app₀.retired (done ++ todo.filter (fun d => decide (d.idle_for ≥ max_idle_time))),
            kept ++ todo.filter (fun d => decide (d.idle_for < max_idle_time)))
  | [], fuel, done, kept, hfuel, _, _, _ => by
    obtain ⟨f, rfl⟩ : ∃ f, fuel = f + 1 := ⟨fuel - 1, by simp at hfuel; omega⟩
    simp [retire_dogs]
  | d :: rest, fuel, done, kept, hfuel, htok, hid, hnd => by
    obtain ⟨f, rfl⟩ : ∃ f, fuel = f + 1 := ⟨fuel - 1, by simp at hfuel; omega⟩
    have hfuel' : rest.length < f := by simp at hfuel; omega
    have htok' : ∀ d' ∈ rest, d'.idle_for ≥ max_idle_time →
        app₀.tokens_.token_of d'.id ≠ none :=
      fun d' hd' => htok d' (List.mem_cons_of_mem _ hd')
    simp only [List.map_cons, List.nodup_cons, List.mem_map, not_exists, not_and] at hnd
    by_cases hexp : d.idle_for ≥ max_idle_time
    · rw [retire_dogs_step max_idle_time f _ kept d rest hexp,
        retire_attempt_retired app₀ done d hdb hrest (hid d (List.mem_cons_self _ _))
          (htok d (List.mem_cons_self _ _) hexp)]
      simp only [if_true]
      rw [retire_dogs_healthy app₀ max_idle_time hdb hrest rest f (done ++ [d]) kept hfuel'
        htok' ?_ hnd.2]
      · have h1 : decide (d.idle_for ≥ max_idle_time) = true := by simpa using hexp
        have h2 : decide (d.idle_for < max_idle_time) = false := by simpa using hexp
        simp [List.filter_cons, h1, h2]
      · intro d' hd' e he
        rcases List.mem_append.mp he with he | he
        · exact hid d' (List.mem_cons_of_mem _ hd') e he
        · simp only [List.mem_singleton] at he
          subst he
          exact fun h => hnd.1 d' hd' h.symm
    · rw [retire_dogs_keep max_idle_time f _ kept d rest (not_le.mp hexp),
        retire_dogs_healthy app₀ max_idle_time hdb hrest rest f done (kept ++ [d]) hfuel'
          htok' (fun d' hd' => hid d' (List.mem_cons_of_mem _ hd')) hnd.2]
      have h1 : decide (d.idle_for ≥ max_idle_time) = false := by simpa using hexp
      have h2 : decide (d.idle_for < max_idle_time) = true := by simpa using hexp
      simp [List.filter_cons, h1, h2]

end app

namespace app

open model collision_detector

/-- The outer loop of the retirement listener with a database that accepts every
commit: every session is left with the dogs that are not expired, and the
expired dogs of all sessions are retired in order. -/
theorem retire_sessions_healthy (app₀ : Application) (fuel : ℕ)
    (hdb : ∀ o ∈ app₀.database_.script, o = DbOutcome.ok)
    (hrest : app₀.database_.rest = DbOutcome.ok) :
    ∀ (todo : List GameSession) (done : List Dog) (scanned : List GameSession),
      (∀ s ∈ todo, s.dogs_.length < fuel) →
      (∀ s ∈ todo, ∀ d ∈ s.dogs_, d.idle_for ≥ app₀.game_.max_idle_time_ →
        app₀.tokens_.token_of d.id ≠ none) →
      (∀ s ∈ todo, ∀ d ∈ s.dogs_, ∀ e ∈ done, e.id ≠ d.id) →
      ((todo.flatMap (fun s => s.dogs_)).map (fun d => d.id)).Nodup →
      retire_sessions fuel (app₀.retired done) scanned todo
        = some (app₀.retired (done ++ todo.flatMap (fun s =>
              s.dogs_.filter (fun d => decide (d.idle_for ≥ app₀.game_.max_idle_time_)))),
            scanned ++ todo.map (fun s =>
              { s with
                dogs_ :=
                  s.dogs_.filter (fun d => decide (d.idle_for < app₀.game_.max_idle_time_)) }))
  | [], done, scanned, _, _, _, _ => by simp [retire_sessions]
  | s :: rest, done, scanned, hfuel, htok, hid, hnd => by
    simp only [List.flatMap_cons, List.map_append, List.nodup_append] at hnd
    obtain ⟨hnd₁, hnd₂, hdisj⟩ := hnd
    have hinner := retire_dogs_healthy app₀ app₀.game_.max_idle_time_ hdb hrest s.dogs_ fuel
      done [] (hfuel s (List.mem_cons_self _ _)) (htok s (List.mem_cons_self _ _))
      (hid s (List.mem_cons_self _ _)) hnd₁
    have hgame : (app₀.retired done).game_.max_idle_time_ = app₀.game_.max_idle_time_ := rfl
    simp only [retire_sessions, hgame, hinner, List.nil_append]
    rw [retire_sessions_healthy app₀ fuel hdb hrest rest _ _
      (fun s' hs' => hfuel s' (List.mem_cons_of_mem _ hs'))
      (fun s' hs' => htok s' (List.mem_cons_of_mem _ hs')) ?_ hnd₂]
    · simp [List.append_assoc]
    · intro s' hs' d hd e he
      rcases List.mem_append.mp he with he | he
      · exact hid s' (List.mem_cons_of_mem _ hs') d hd e he
      · intro heq
        have he' : e ∈ s.dogs_ := (List.mem_filter.mp he).1
        exact hdisj (List.mem_map.mpr ⟨e, he', rfl⟩)
          (List.mem_map.mpr ⟨d, List.mem_flatMap.mpr ⟨s', hs', hd⟩, heq.symm⟩)

end app

namespace app

open model collision_detector

theorem to_int32_of_range (z : ℤ) (h₁ : -2 ^ 31 ≤ z) (h₂ : z < 2 ^ 31) : to_int32 z = z := by
  unfold to_int32
  rw [Int.emod_eq_of_lt (by linarith) (by linarith)]
  ring

end app

namespace model

theorem mem_modify_first {α : Type} (p : α → Bool) (f : α → α) :
    ∀ (l : List α) (x : α), x ∈ modify_first p f l →
      x ∈ l ∨ ∃ a ∈ l, p a = true ∧ x = f a
  | [], x, h => by simp [modify_first] at h
  | a :: l, x, h => by
    simp only [modify_first] at h
    split_ifs at h with hp
    · rcases List.mem_cons.mp h with rfl | h
      · exact Or.inr ⟨a, List.mem_cons_self _ _, hp, rfl⟩
      · exact Or.inl (List.mem_cons_of_mem _ h)
    · rcases List.mem_cons.mp h with rfl | h
      · exact Or.inl (List.mem_cons_self _ _)
      · rcases mem_modify_first p f l x h with h | ⟨b, hb, hpb, rfl⟩
        · exact Or.inl (List.mem_cons_of_mem _ h)
        · exact Or.inr ⟨b, List.mem_cons_of_mem _ hb, hpb, rfl⟩

theorem vec2D_eq_zero_iff (v : geom.Vec2D) : v = ⟨0, 0⟩ ↔ v.x = 0 ∧ v.y = 0 := by
  cases v
  simp

/-- After `SetPlayerAction` with a dog speed other than 0 the idle flag is set
if and only if the velocity is `(0, 0)`. -/
theorem SetAction_idle (dog : Dog) (dog_speed : ℚ) (action : String) (h : dog_speed ≠ 0) :
    (dog.SetAction dog_speed action).IdleIffStopped := by
  unfold Dog.SetAction Dog.IdleIffStopped
  split_ifs <;> simp [vec2D_eq_zero_iff, h]

/-- `Map::MoveDog` keeps the invariant. -/
theorem MoveDog_idle (m : Map) (dog : Dog) (delta_ms : ℤ) (h : dog.IdleIffStopped) :
    (m.MoveDog dog delta_ms).IdleIffStopped := by
  rw [MoveDog_eq_calls]
  unfold Dog.IdleIffStopped at h ⊢
  by_cases hs : ((m.x_call dog delta_ms).stopped || (m.y_call dog delta_ms).stopped) = true
  · simp [hs]
  · simp only [hs, if_false]
    exact h

end model

namespace app

open model collision_detector

theorem tick_dog_idle (m : Map) (max_idle_time dt : ℤ) (d : Dog) (h : d.IdleIffStopped) :
    (tick_dog m max_idle_time dt d).1.IdleIffStopped := by
  unfold tick_dog
  by_cases h1 : d.idle_for ≥ max_idle_time
  · rw [if_pos h1]
    exact h
  · rw [if_neg h1]
    apply MoveDog_idle
    unfold Dog.IdleIffStopped at h ⊢
    by_cases h2 : d.is_idle = true
    · simpa [h2] using h
    · have h3 : d.is_idle = false := by simpa using h2
      simpa [h3] using h

/-- The retirement listener leaves the map catalogue as it is. -/
theorem notify_maps (fuel : ℕ) (dt : ℤ) :
    ∀ (todo : List Listener) (app : Application) (done : List Listener) (app' : Application),
      notify fuel dt app done todo = some app' → app'.game_.maps_ = app.game_.maps_
  | [], app, done, app', h => by
    simp only [notify, Option.some.injEq] at h
    subst h
    rfl
  | l :: rest, app, done, app', h => by
    cases l with
    | expired =>
      simp only [notify] at h
      exact notify_maps fuel dt rest _ _ _ h
    | retirement =>
      simp only [notify] at h
      split at h
      · exact Option.noConfusion h
      · rename_i app1 h1
        have hm : app1.game_.maps_ = app.game_.maps_ := by
          unfold RetirementListener_OnTick at h1
          split at h1
          · exact Option.noConfusion h1
          · rename_i r hr
            obtain ⟨_, h4, _⟩ := retire_sessions_shrinks fuel _ _ _ r.1 r.2 (by simpa using hr)
            simp only [Option.some.injEq] at h1
            subst h1
            simp [h4]
        exact (notify_maps fuel dt rest _ _ _ h).trans hm
    | serializing t i n =>
      simp only [notify] at h
      exact notify_maps fuel dt rest _ _ _ h

/-- The tick leaves the map catalogue as it is. -/
theorem tick_sessions_maps (fuel : ℕ) (draws : ℕ → LootDraw) (dt : ℤ) :
    ∀ (n idx : ℕ) (app app' : Application) (thrown : Bool),
      tick_sessions fuel draws dt idx n app = some (app', thrown) →
      app'.game_.maps_ = app.game_.maps_
  | 0, idx, app, app', thrown, h => by
    simp only [tick_sessions, Option.some.injEq, Prod.mk.injEq] at h
    obtain ⟨rfl, _⟩ := h
    rfl
  | n + 1, idx, app, app', thrown, h => by
    simp only [tick_sessions] at h
    split at h
    · simp only [Option.some.injEq, Prod.mk.injEq] at h
      obtain ⟨rfl, _⟩ := h
      rfl
    · split_ifs at h
      · simp only [Option.some.injEq, Prod.mk.injEq] at h
        obtain ⟨rfl, _⟩ := h
        rfl
      · split at h
        · exact Option.noConfusion h
        · rename_i app₂ hn
          have h2 := notify_maps fuel dt _ _ _ _ hn
          exact (tick_sessions_maps fuel draws dt n (idx + 1) app₂ app' thrown h).trans h2

end app

namespace app

open model collision_detector

/-- `JoinGame` keeps the map catalogue, adds at most a session of a map of the
catalogue, and adds at most a new dog, idle and with velocity `(0, 0)`. -/
theorem JoinGame_sessions (app : Application) (id_counter : ℕ) (draw : ℕ × ℚ)
    (token map_id user_name : String) (r : JoinResult)
    (h : app.JoinGame id_counter draw token map_id user_name = some r) :
    r.app.game_.maps_ = app.game_.maps_ ∧
    ∀ s' ∈ r.app.game_.sessions_,
      (s' ∈ app.game_.sessions_) ∨
      ((s'.map_ ∈ app.game_.maps_ ∨ ∃ s ∈ app.game_.sessions_, s'.map_ = s.map_) ∧
        ∀ d ∈ s'.dogs_, (∃ s ∈ app.game_.sessions_, d ∈ s.dogs_) ∨
          ∃ pos, d = Dog.mk_new user_name pos ⟨0, 0⟩ s'.map_.bag_capacity id_counter) := by
  unfold Application.JoinGame at h
  split at h
  · exact Option.noConfusion h
  · rename_i game session hget
    split at h
    · exact Option.noConfusion h
    · rename_i pos hpos
      simp only [Option.some.injEq] at h
      subst h
      -- what `GetSession` returns
      have hgame : game.maps_ = app.game_.maps_ ∧
          (∀ s ∈ game.sessions_, s ∈ app.game_.sessions_ ∨ s = session) ∧
          ((session ∈ app.game_.sessions_) ∨
            (session.map_ ∈ app.game_.maps_ ∧ session.dogs_ = [])) := by
        unfold Game.GetSession at hget
        split at hget
        · exact Option.noConfusion hget
        · rename_i m hm
          have hmem : m ∈ app.game_.maps_ := List.mem_of_find?_eq_some hm
          split at hget
          · rename_i s hs
            simp only [Option.some.injEq, Prod.mk.injEq] at hget
            obtain ⟨rfl, rfl⟩ := hget
            exact ⟨rfl, fun s hs => Or.inl hs, Or.inl (List.mem_of_find?_eq_some hs)⟩
          · simp only [Option.some.injEq, Prod.mk.injEq] at hget
            obtain ⟨rfl, rfl⟩ := hget
            refine ⟨rfl, ?_, Or.inr ⟨hmem, rfl⟩⟩
            intro s hs
            rcases List.mem_append.mp hs with hs | hs
            · exact Or.inl hs
            · exact Or.inr (by simpa using hs)
      obtain ⟨hmaps, hsess, hsession⟩ := hgame
      -- what `CreateDog` returns
      have hcreate : (session.CreateDog user_name pos id_counter).1.map_ = session.map_ ∧
          ∀ d ∈ (session.CreateDog user_name pos id_counter).1.dogs_,
            d ∈ session.dogs_ ∨
            d = Dog.mk_new user_name pos ⟨0, 0⟩ session.map_.bag_capacity id_counter := by
        unfold GameSession.CreateDog
        split
        · exact ⟨rfl, fun d hd => Or.inl hd⟩
        · refine ⟨rfl, fun d hd => ?_⟩
          rcases List.mem_append.mp hd with hd | hd
          · exact Or.inl hd
          · exact Or.inr (by simpa using hd)
      obtain ⟨hcmap, hcdogs⟩ := hcreate
      refine ⟨hmaps, ?_⟩
      intro s' hs'
      have hnew : s' ∈ game.sessions_ ∨ s' = (session.CreateDog user_name pos id_counter).1 := by
        rcases mem_modify_first _ _ _ s' hs' with h | ⟨a, _, _, rfl⟩
        · exact Or.inl h
        · exact Or.inr rfl
      rcases hnew with h | rfl
      · rcases hsess s' h with h | rfl
        · exact Or.inl h
        · rcases hsession with h | ⟨hm, hd⟩
          · exact Or.inl h
          · exact Or.inr ⟨Or.inl hm, fun d hd' => by rw [hd] at hd'; simp at hd'⟩
      · refine Or.inr ⟨?_, ?_⟩
        · rw [hcmap]
          rcases hsession with h | ⟨hm, _⟩
          · exact Or.inr ⟨session, h, rfl⟩
          · exact Or.inl hm
        · intro d hd
          rcases hcdogs d hd with h | h
          · rcases hsession with hs | ⟨_, hempty⟩
            · exact Or.inl ⟨session, hs, h⟩
            · rw [hempty] at h; simp at h
          · exact Or.inr ⟨pos, by rw [hcmap]; exact h⟩

end app

namespace app

open model collision_detector

/-- Every call of the application keeps the invariant `IdleInvariant`. -/
theorem run_idle (c : Command) (w w' : World) (h : c.run w = some w')
    (hinv : IdleInvariant w.app) : IdleInvariant w'.app := by
  obtain ⟨hmaps, hsess⟩ := hinv
  cases c with
  | join draw token map_id user_name =>
    simp only [Command.run, Option.map_eq_some'] at h
    obtain ⟨r, hr, rfl⟩ := h
    obtain ⟨h1, h2⟩ := JoinGame_sessions w.app w.id_counter draw token map_id user_name r hr
    refine ⟨by rw [h1]; exact hmaps, ?_⟩
    intro s' hs'
    rcases h2 s' hs' with h | ⟨hm, hd⟩
    · exact hsess s' h
    · constructor
      · rcases hm with hm | ⟨s, hs, hm⟩
        · exact hmaps _ hm
        · rw [hm]; exact (hsess s hs).1
      · intro d hdd
        rcases hd d hdd with ⟨s, hs, hds⟩ | ⟨pos, rfl⟩
        · exact (hsess s hs).2 d hds
        · simp [Dog.IdleIffStopped, Dog.mk_new]
  | action player move =>
    simp only [Command.run, Option.some.injEq] at h
    subst h
    refine ⟨hmaps, ?_⟩
    intro s' hs'
    rcases mem_modify_first _ _ _ s' hs' with h | ⟨s, hs, _, rfl⟩
    · exact hsess s' h
    · refine ⟨(hsess s hs).1, ?_⟩
      intro d hd
      rcases mem_modify_first _ _ _ d hd with h | ⟨d₀, _, _, rfl⟩
      · exact (hsess s hs).2 d h
      · exact SetAction_idle d₀ _ move (hsess s hs).1
  | tick fuel draws dt =>
    simp only [Command.run, Option.map_eq_some'] at h
    obtain ⟨r, hr, rfl⟩ := h
    have hm := tick_sessions_maps fuel draws dt _ 0 w.app r.1 r.2 hr
    have hev := tick_sessions_evolves
      (fun d d' => d.IdleIffStopped → d'.IdleIffStopped)
      (fun _ h => h) (fun _ _ _ h1 h2 h => h2 (h1 h)) (fun _ _ => True)
      (fun max_idle_time draw dt s _ =>
        tick_session_evolves _ (fun _ h => h) (fun _ _ _ h1 h2 h => h2 (h1 h))
          (fun m mx dt d h => tick_dog_idle m mx dt d h)
          (fun d id type h => by
            unfold Dog.TryGrabItem
            split_ifs
            · exact h
            · exact h)
          (fun d score => ⟨fun h => h, fun h => h⟩)
          max_idle_time draw dt s)
      fuel draws dt _ 0 w.app r.1 r.2 (fun _ _ _ _ _ _ => trivial) hr
    refine ⟨by rw [hm]; exact hmaps, ?_⟩
    intro s' hs'
    obtain ⟨j, hj⟩ := List.mem_iff_getElem?.mp hs'
    obtain ⟨s, hs, hse⟩ := forall₂_getElem? hev j s' hj
    have hs_mem := List.getElem?_mem hs
    refine ⟨by rw [hse.1]; exact (hsess s hs_mem).1, ?_⟩
    intro d' hd'
    obtain ⟨d, hd, hR⟩ := hse.2 d' hd'
    exact hR ((hsess s hs_mem).2 d hd)

/-- Every sequence of calls keeps the invariant `IdleInvariant`. -/
theorem run_all_idle : ∀ (cmds : List Command) (w w' : World),
    run_all cmds w = some w' → IdleInvariant w.app → IdleInvariant w'.app
  | [], w, w', h, hinv => by
    simp only [run_all, Option.some.injEq] at h
    subst h
    exact hinv
  | c :: rest, w, w', h, hinv => by
    simp only [run_all, Option.bind_eq_some] at h
    obtain ⟨w₁, h1, h2⟩ := h
    exact run_all_idle rest w₁ w' h2 (run_idle c w w₁ h1 hinv)

/-- Claim C14 as amended: where no map has the dog speed 0, every sequence of
`JoinGame`, `SetPlayerAction` and `Tick` calls that starts in a state in which
every dog has its idle flag set if and only if its velocity is `(0, 0)` (such as
a state without dogs) ends in a state in which this holds for every dog of every
session. -/
theorem C14_idle_iff_stopped (cmds : List Command) (w w' : World)
    (hmaps : ∀ m ∈ w.app.game_.maps_, m.dog_speed ≠ 0)
    (hsess : ∀ s ∈ w.app.game_.sessions_, s.map_.dog_speed ≠ 0)
    (hdogs : ∀ s ∈ w.app.game_.sessions_, ∀ d ∈ s.dogs_, (d.is_idle = true ↔ d.vel = ⟨0, 0⟩))
    (hrun : run_all cmds w = some w') :
    ∀ s ∈ w'.app.game_.sessions_, ∀ d ∈ s.dogs_, (d.is_idle = true ↔ d.vel = ⟨0, 0⟩) := by
  have h := run_all_idle cmds w w' hrun ⟨hmaps, fun s hs => ⟨hsess s hs, hdogs s hs⟩⟩
  exact fun s hs d hd => (h.2 s hs).2 d hd

/-- Witness of C14: on the map with the road `(0,0)-(10,0)` and dog speed 1, a
player joins and asks to move right; the dog is not idle and has the velocity
`(1, 0)`. -/
theorem C14_witness_join_and_move :
    scenario.idle_and_velocity
        (run_all scenario.join_and_move ⟨scenario.fresh_app [scenario.one_road], 0⟩)
      = some [[(false, ⟨1, 0⟩)]] ∧
    ∃ w', run_all scenario.join_and_move ⟨scenario.fresh_app [scenario.one_road], 0⟩ = some w' ∧
      ∀ s ∈ w'.app.game_.sessions_, ∀ d ∈ s.dogs_, (d.is_idle = true ↔ d.vel = ⟨0, 0⟩) := by
  have hrun : ∃ w', run_all scenario.join_and_move
      ⟨scenario.fresh_app [scenario.one_road], 0⟩ = some w' := ⟨_, rfl⟩
  obtain ⟨w', hw'⟩ := hrun
  refine ⟨rfl, w', hw', ?_⟩
  apply C14_idle_iff_stopped scenario.join_and_move
    ⟨scenario.fresh_app [scenario.one_road], 0⟩ w' ?_ ?_ ?_ hw'
  · intro m hm
    simp only [scenario.fresh_app, List.mem_singleton] at hm
    subst hm
    simp [scenario.one_road, scenario.map_of]
  · intro s hs
    simp [scenario.fresh_app] at hs
  · intro s hs
    simp [scenario.fresh_app] at hs

/-- Counterexample to C14 as stated: on a map with dog speed 0, a player joins
and asks to move right; `SetPlayerAction` clears the idle flag and sets the
velocity `(0, 0)`. -/
theorem C14_counterexample_zero_speed :
    scenario.idle_and_velocity
        (run_all scenario.join_and_move ⟨scenario.fresh_app [scenario.still_map], 0⟩)
      = some [[(false, ⟨0, 0⟩)]] := by
  rfl

end app

namespace app

open model collision_detector

/-- The registries change in a tick only where the retirement listener removes
a token and a player after a commit: a property of the registries that
survives this survives the inner loop of the listener. -/
theorem retire_dogs_registry (P : List (ℕ × Player) → PlayerTokens → Prop)
    (hP : ∀ players tokens (id : ℕ) tokens', P players tokens →
      tokens.RemoveToken id = some tokens' → P (players.filter (fun p => p.1 != id)) tokens')
    (max_idle_time : ℤ) :
    ∀ (fuel : ℕ) (app : Application) (kept todo : List Dog) (app' : Application)
      (kept' : List Dog),
      retire_dogs max_idle_time fuel app kept todo = some (app', kept') →
      P app.players_ app.tokens_ → P app'.players_ app'.tokens_
  | 0, _, _, _, _, _, h, _ => by simp [retire_dogs] at h
  | fuel + 1, app, kept, [], app', kept', h, hp => by
    simp only [retire_dogs, Option.some.injEq, Prod.mk.injEq] at h
    obtain ⟨rfl, _⟩ := h
    exact hp
  | fuel + 1, app, kept, dog :: rest, app', kept', h, hp => by
    simp only [retire_dogs] at h
    split_ifs at h with hidle hcommit
    · split at h
      · exact retire_dogs_registry P hP max_idle_time fuel _ _ _ _ _ h hp
      · rename_i tokens htok
        exact retire_dogs_registry P hP max_idle_time fuel _ _ _ _ _ h
          (hP _ _ dog.id tokens hp htok)
    · exact retire_dogs_registry P hP max_idle_time fuel _ _ _ _ _ h hp
    · exact retire_dogs_registry P hP max_idle_time fuel _ _ _ _ _ h hp

theorem retire_sessions_registry (P : List (ℕ × Player) → PlayerTokens → Prop)
    (hP : ∀ players tokens (id : ℕ) tokens', P players tokens →
      tokens.RemoveToken id = some tokens' → P (players.filter (fun p => p.1 != id)) tokens')
    (fuel : ℕ) :
    ∀ (todo : List GameSession) (app : Application) (done : List GameSession)
      (app' : Application) (res : List GameSession),
      retire_sessions fuel app done todo = some (app', res) →
      P app.players_ app.tokens_ → P app'.players_ app'.tokens_
  | [], app, done, app', res, h, hp => by
    simp only [retire_sessions, Option.some.injEq, Prod.mk.injEq] at h
    obtain ⟨rfl, _⟩ := h
    exact hp
  | s :: rest, app, done, app', res, h, hp => by
    simp only [retire_sessions] at h
    split at h
    · exact Option.noConfusion h
    · rename_i r hr
      exact retire_sessions_registry P hP fuel rest _ _ _ _ h
        (retire_dogs_registry P hP _ fuel app [] s.dogs_ r.1 r.2 (by simpa using hr) hp)

theorem notify_registry (P : List (ℕ × Player) → PlayerTokens → Prop)
    (hP : ∀ players tokens (id : ℕ) tokens', P players tokens →
      tokens.RemoveToken id = some tokens' → P (players.filter (fun p => p.1 != id)) tokens')
    (fuel : ℕ) (dt : ℤ) :
    ∀ (todo : List Listener) (app : Application) (done : List Listener) (app' : Application),
      notify fuel dt app done todo = some app' →
      P app.players_ app.tokens_ → P app'.players_ app'.tokens_
  | [], app, done, app', h, hp => by
    simp only [notify, Option.some.injEq] at h
    subst h
    exact hp
  | l :: rest, app, done, app', h, hp => by
    cases l with
    | expired =>
      simp only [notify] at h
      exact notify_registry P hP fuel dt rest _ _ _ h hp
    | retirement =>
      simp only [notify] at h
      split at h
      · exact Option.noConfusion h
      · rename_i app1 h1
        have hp1 : P app1.players_ app1.tokens_ := by
          unfold RetirementListener_OnTick at h1
          split at h1
          · exact Option.noConfusion h1
          · rename_i r hr
            have := retire_sessions_registry P hP fuel _ _ _ r.1 r.2 (by simpa using hr) hp
            simp only [Option.some.injEq] at h1
            subst h1
            exact this
        exact notify_registry P hP fuel dt rest _ _ _ h hp1
    | serializing t i n =>
      simp only [notify] at h
      exact notify_registry P hP fuel dt rest _ _ _ h hp

/-- A property of the registries that survives the removal of a token and its
player survives `Application::Tick`. -/
theorem tick_sessions_registry (P : List (ℕ × Player) → PlayerTokens → Prop)
    (hP : ∀ players tokens (id : ℕ) tokens', P players tokens →
      tokens.RemoveToken id = some tokens' → P (players.filter (fun p => p.1 != id)) tokens')
    (fuel : ℕ) (draws : ℕ → LootDraw) (dt : ℤ) :
    ∀ (n idx : ℕ) (app app' : Application) (thrown : Bool),
      tick_sessions fuel draws dt idx n app = some (app', thrown) →
      P app.players_ app.tokens_ → P app'.players_ app'.tokens_
  | 0, idx, app, app', thrown, h, hp => by
    simp only [tick_sessions, Option.some.injEq, Prod.mk.injEq] at h
    obtain ⟨rfl, _⟩ := h
    exact hp
  | n + 1, idx, app, app', thrown, h, hp => by
    simp only [tick_sessions] at h
    split at h
    · simp only [Option.some.injEq, Prod.mk.injEq] at h
      obtain ⟨rfl, _⟩ := h
      exact hp
    · split_ifs at h
      · simp only [Option.some.injEq, Prod.mk.injEq] at h
        obtain ⟨rfl, _⟩ := h
        exact hp
      · split at h
        · exact Option.noConfusion h
        · rename_i app₂ hn
          have h2 := notify_registry P hP fuel dt _ _ _ _ hn hp
          exact tick_sessions_registry P hP fuel draws dt n (idx + 1) app₂ app' thrown h h2

end app

namespace app

open model collision_detector

theorem nodup_keys_filter {α β : Type} (l : List (α × β)) (q : α × β → Bool)
    (h : (l.map (fun e => e.1)).Nodup) : ((l.filter q).map (fun e => e.1)).Nodup :=
  h.sublist ((List.filter_sublist l).map _)

theorem nodup_keys_unique {α β : Type} :
    ∀ (l : List (α × β)), (l.map (fun e => e.1)).Nodup →
      ∀ (k : α) (v v' : β), (k, v) ∈ l → (k, v') ∈ l → v = v'
  | [], _, _, _, _, h, _ => by simp at h
  | e :: l, hnd, k, v, v', h, h' => by
    simp only [List.map_cons, List.nodup_cons, List.mem_map, not_exists, not_and] at hnd
    rcases List.mem_cons.mp h with heq | h
    · rcases List.mem_cons.mp h' with heq' | h'
      · exact (Prod.mk.inj (heq.trans heq'.symm)).2
      · exact absurd (by rw [← heq]) (hnd.1 _ h')
    · rcases List.mem_cons.mp h' with heq' | h'
      · exact absurd (by rw [← heq']) (hnd.1 _ h)
      · exact nodup_keys_unique l hnd.2 k v v' h h'

/-- `RemoveToken` followed by `RemovePlayer` keeps the registries in bijection. -/
theorem registry_remove (players : List (ℕ × Player)) (tokens : PlayerTokens) (id : ℕ)
    (tokens' : PlayerTokens) (h : RegistryBijection players tokens)
    (hrem : tokens.RemoveToken id = some tokens') :
    RegistryBijection (players.filter (fun p => p.1 != id)) tokens' := by
  obtain ⟨h1, h2, h3, h4, h5⟩ := h
  unfold PlayerTokens.RemoveToken at hrem
  split at hrem
  · exact Option.noConfusion hrem
  · rename_i e he
    simp only [Option.some.injEq] at hrem
    subst hrem
    have hmem : e ∈ tokens.player_id_to_token_ := List.mem_of_find?_eq_some he
    have hkey : e.1 = id := by simpa using List.find?_some he
    have hmem' : (id, e.2) ∈ tokens.player_id_to_token_ := by rw [← hkey]; exact hmem
    refine ⟨nodup_keys_filter _ _ h1, nodup_keys_filter _ _ h2, nodup_keys_filter _ _ h3, ?_, ?_⟩
    · intro t p
      simp only [List.mem_filter, bne_iff_ne, ne_eq]
      constructor
      · rintro ⟨hin, hne⟩
        refine ⟨(h4 t p).mp hin, ?_⟩
        intro hp
        subst hp
        exact hne (nodup_keys_unique _ h2 p t e.2 ((h4 t p).mp hin) hmem')
      · rintro ⟨hin, hne⟩
        refine ⟨(h4 t p).mpr hin, ?_⟩
        intro ht
        subst ht
        exact hne (nodup_keys_unique _ h1 e.2 p id ((h4 e.2 p).mpr hin) ((h4 e.2 id).mpr hmem'))
    · intro p
      simp only [List.mem_map, List.mem_filter, bne_iff_ne, ne_eq]
      constructor
      · rintro ⟨x, ⟨hx, hne⟩, rfl⟩
        obtain ⟨y, hy, hyx⟩ := List.mem_map.mp ((h5 x.1).mp (List.mem_map.mpr ⟨x, hx, rfl⟩))
        exact ⟨y, ⟨hy, by rw [hyx]; exact hne⟩, hyx⟩
      · rintro ⟨y, ⟨hy, hne⟩, rfl⟩
        obtain ⟨x, hx, hxy⟩ := List.mem_map.mp ((h5 y.1).mpr (List.mem_map.mpr ⟨y, hy, rfl⟩))
        exact ⟨x, ⟨hx, by rw [hxy]; exact hne⟩, hxy⟩

/-- The dog returned by `CreateDog` has the id taken from the counter. -/
theorem CreateDog_id (s : GameSession) (name : String) (pos : geom.Point2D) (id : ℕ) :
    (s.CreateDog name pos id).2.id = id := by
  unfold GameSession.CreateDog
  split
  · rename_i d hd
    simpa using List.find?_some hd
  · rfl

/-- What `JoinGame` does to the registries and the counter. -/
theorem JoinGame_registry (app : Application) (id_counter : ℕ) (draw : ℕ × ℚ)
    (token map_id user_name : String) (r : JoinResult)
    (h : app.JoinGame id_counter draw token map_id user_name = some r) :
    r.id_counter = (id_counter + 1) % 2 ^ 64 ∧ r.player_id = id_counter ∧ r.token = token ∧
    r.app.tokens_ = app.tokens_.AddTokenForPlayer token id_counter ∧
    r.app.players_ = (if app.players_.any (fun p => p.1 == id_counter) then app.players_
      else app.players_ ++ [(id_counter, ⟨map_id, id_counter⟩)]) := by
  unfold Application.JoinGame at h
  split at h
  · exact Option.noConfusion h
  · rename_i game session hget
    split at h
    · exact Option.noConfusion h
    · rename_i pos hpos
      simp only [Option.some.injEq] at h
      subst h
      have hid := CreateDog_id session user_name pos id_counter
      have hmap : (session.CreateDog user_name pos id_counter).1.map_.id = map_id := by
        have h1 : (session.CreateDog user_name pos id_counter).1.map_ = session.map_ := by
          unfold GameSession.CreateDog
          split <;> rfl
        rw [h1]
        unfold Game.GetSession at hget
        split at hget
        · exact Option.noConfusion hget
        · rename_i m hm
          split at hget
          · rename_i s hs
            simp only [Option.some.injEq, Prod.mk.injEq] at hget
            obtain ⟨_, rfl⟩ := hget
            simpa using List.find?_some hs
          · simp only [Option.some.injEq, Prod.mk.injEq] at hget
            obtain ⟨_, rfl⟩ := hget
            simpa [Game.FindMap] using List.find?_some hm
      refine ⟨rfl, hid, rfl, by simp only [hid], ?_⟩
      simp only [Players_Add, hid, hmap]

end app

namespace app

open model collision_detector

theorem lookup_nodup_keys {α β : Type} [DecidableEq α] :
    ∀ (l : List (α × β)), (l.map (fun e => e.1)).Nodup → ∀ (k : α) (v : β),
      (l.find? (fun e => e.1 == k)).map (fun e => e.2) = some v ↔ (k, v) ∈ l
  | [], _, k, v => by simp
  | e :: l, hnd, k, v => by
    simp only [List.map_cons, List.nodup_cons, List.mem_map, not_exists, not_and] at hnd
    have ih := lookup_nodup_keys l hnd.2 k v
    by_cases hk : e.1 = k
    · have hb : (e.1 == k) = true := by simpa using hk
      simp only [List.find?_cons, hb, Option.map_some', Option.some.injEq, List.mem_cons]
      constructor
      · intro hv
        left
        rw [← hk, ← hv]
      · rintro (heq | hin)
        · rw [← heq]
        · exact absurd hk.symm (hnd.1 _ hin)
    · have hb : (e.1 == k) = false := by simpa using hk
      simp only [List.find?_cons, hb, List.mem_cons]
      rw [ih]
      constructor
      · exact fun h => Or.inr h
      · rintro (heq | hin)
        · exact absurd (by rw [← heq]) hk
        · exact hin

/-- `Players::Add` and `AddPlayer` for a new player id and a new token keep the
registries in bijection. -/
theorem registry_join (players : List (ℕ × Player)) (tokens : PlayerTokens) (id : ℕ)
    (token : String) (player : Player) (h : RegistryBijection players tokens)
    (hid : id ∉ players.map (fun e => e.1))
    (htoken : token ∉ tokens.token_to_player_.map (fun e => e.1)) :
    RegistryBijection
      (if players.any (fun p => p.1 == id) then players else players ++ [(id, player)])
      (tokens.AddTokenForPlayer token id) := by
  obtain ⟨h1, h2, h3, h4, h5⟩ := h
  have hid' : id ∉ tokens.player_id_to_token_.map (fun e => e.1) := fun hin => hid ((h5 id).mpr hin)
  have hany1 : players.any (fun p => p.1 == id) = false := by
    rw [Bool.eq_false_iff]
    intro hany
    obtain ⟨x, hx, hxe⟩ := List.any_eq_true.mp hany
    exact hid (List.mem_map.mpr ⟨x, hx, by simpa using hxe⟩)
  have hany2 : tokens.token_to_player_.any (fun e => e.1 == token) = false := by
    rw [Bool.eq_false_iff]
    intro hany
    obtain ⟨x, hx, hxe⟩ := List.any_eq_true.mp hany
    exact htoken (List.mem_map.mpr ⟨x, hx, by simpa using hxe⟩)
  have hany3 : tokens.player_id_to_token_.any (fun e => e.1 == id) = false := by
    rw [Bool.eq_false_iff]
    intro hany
    obtain ⟨x, hx, hxe⟩ := List.any_eq_true.mp hany
    exact hid' (List.mem_map.mpr ⟨x, hx, by simpa using hxe⟩)
  simp only [PlayerTokens.AddTokenForPlayer, hany1, hany2, hany3, Bool.false_eq_true, if_false]
  refine ⟨?_, ?_, ?_, ?_, ?_⟩
  · rw [List.map_append, List.nodup_append]
    refine ⟨h1, by simp, ?_⟩
    intro a ha hb
    simp only [List.map_cons, List.map_nil, List.mem_singleton] at hb
    subst hb
    exact htoken ha
  · rw [List.map_append, List.nodup_append]
    refine ⟨h2, by simp, ?_⟩
    intro a ha hb
    simp only [List.map_cons, List.map_nil, List.mem_singleton] at hb
    subst hb
    exact hid' ha
  · rw [List.map_append, List.nodup_append]
    refine ⟨h3, by simp, ?_⟩
    intro a ha hb
    simp only [List.map_cons, List.map_nil, List.mem_singleton] at hb
    subst hb
    exact hid ha
  · intro t p
    simp only [List.mem_append, List.mem_singleton, Prod.mk.injEq]
    rw [h4 t p]
    constructor
    · rintro (h | ⟨rfl, rfl⟩)
      · exact Or.inl h
      · exact Or.inr ⟨rfl, rfl⟩
    · rintro (h | ⟨rfl, rfl⟩)
      · exact Or.inl h
      · exact Or.inr ⟨rfl, rfl⟩
  · intro p
    simp only [List.map_append, List.mem_append, List.map_cons, List.map_nil,
      List.mem_singleton]
    rw [h5 p]

end app

namespace app

open model collision_detector

/-- Every call keeps the registries in bijection and the player ids below
`Dog::id_counter_`, when a `JoinGame` gets a token that is not registered and
the counter does not wrap. -/
theorem run_registry (c : Command) (w w' : World) (h : c.run w = some w')
    (hfresh : ∀ draw token map_id user_name, c = Command.join draw token map_id user_name →
      token ∉ w.app.tokens_.token_to_player_.map (fun e => e.1) ∧ w.id_counter + 1 < 2 ^ 64)
    (hreg : RegistryBijection w.app.players_ w.app.tokens_)
    (hids : ∀ p ∈ w.app.players_.map (fun e => e.1), p < w.id_counter) :
    RegistryBijection w'.app.players_ w'.app.tokens_ ∧
    ∀ p ∈ w'.app.players_.map (fun e => e.1), p < w'.id_counter := by
  cases c with
  | join draw token map_id user_name =>
    obtain ⟨htoken, hwrap⟩ := hfresh draw token map_id user_name rfl
    simp only [Command.run, Option.map_eq_some'] at h
    obtain ⟨r, hr, rfl⟩ := h
    obtain ⟨h1, _, _, h4, h5⟩ :=
      JoinGame_registry w.app w.id_counter draw token map_id user_name r hr
    have hnew : w.id_counter ∉ w.app.players_.map (fun e => e.1) :=
      fun hin => absurd (hids _ hin) (lt_irrefl _)
    have hc : r.id_counter = w.id_counter + 1 := by
      rw [h1, Nat.mod_eq_of_lt hwrap]
    refine ⟨?_, ?_⟩
    · show RegistryBijection r.app.players_ r.app.tokens_
      rw [h4, h5]
      exact registry_join _ _ _ _ _ hreg hnew htoken
    · show ∀ p ∈ r.app.players_.map (fun e => e.1), p < r.id_counter
      rw [h5, hc]
      intro p hp
      have hany : w.app.players_.any (fun p => p.1 == w.id_counter) = false := by
        rw [Bool.eq_false_iff]
        intro hany
        obtain ⟨x, hx, hxe⟩ := List.any_eq_true.mp hany
        exact hnew (List.mem_map.mpr ⟨x, hx, by simpa using hxe⟩)
      simp only [hany, Bool.false_eq_true, if_false, List.map_append, List.mem_append,
        List.map_cons, List.map_nil, List.mem_singleton] at hp
      rcases hp with hp | rfl
      · exact Nat.lt_succ_of_lt (hids p hp)
      · exact Nat.lt_succ_self _
  | action player move =>
    simp only [Command.run, Option.some.injEq] at h
    subst h
    exact ⟨hreg, hids⟩
  | tick fuel draws dt =>
    simp only [Command.run, Option.map_eq_some'] at h
    obtain ⟨r, hr, rfl⟩ := h
    exact tick_sessions_registry
      (fun (players : List (ℕ × Player)) (tokens : PlayerTokens) =>
        RegistryBijection players tokens ∧
        ∀ p ∈ players.map (fun (e : ℕ × Player) => e.1), p < w.id_counter)
      (fun players tokens id tokens' hp hrem =>
        ⟨registry_remove players tokens id tokens' hp.1 hrem,
          fun p hp' => hp.2 p
            (((List.filter_sublist players).map (fun (e : ℕ × Player) => e.1)).subset hp')⟩)
      fuel draws dt _ 0 w.app r.1 r.2 hr ⟨hreg, hids⟩

theorem run_all_registry : ∀ (cmds : List Command) (w w' : World),
    run_all cmds w = some w' → FreshJoins cmds w →
    RegistryBijection w.app.players_ w.app.tokens_ →
    (∀ p ∈ w.app.players_.map (fun e => e.1), p < w.id_counter) →
    RegistryBijection w'.app.players_ w'.app.tokens_
  | [], w, w', h, _, hreg, _ => by
    simp only [run_all, Option.some.injEq] at h
    subst h
    exact hreg
  | c :: rest, w, w', h, hfresh, hreg, hids => by
    simp only [run_all, Option.bind_eq_some] at h
    obtain ⟨w₁, h1, h2⟩ := h
    obtain ⟨hf1, hf2⟩ := hfresh
    have hstep := run_registry c w w₁ h1
      (fun draw token map_id user_name hc => by subst hc; exact hf1) hreg hids
    exact run_all_registry rest w₁ w' h2 (hf2 w₁ h1) hstep.1 hstep.2

/-- Claim C18 as amended: after any sequence of `JoinGame`, `SetPlayerAction`
and `Tick` calls (the ticks run the retirement listener) that starts with the
registries in bijection and the player ids below `Dog::id_counter_` (such as the
empty registries of a server that has restored no state), provided that every
`JoinGame` gets from `GenerateToken` a token that is not registered at that
moment (the code does not check this) and the counter does not wrap:
`token_to_player_` and
`player_id_to_token_` are inverse to each other, every registered player has
exactly one token, and every token resolves (`FindPlayerByToken`) to a
registered player. -/
theorem C18_registry_bijection (cmds : List Command) (w w' : World)
    (hreg : RegistryBijection w.app.players_ w.app.tokens_)
    (hids : ∀ p ∈ w.app.players_.map (fun e => e.1), p < w.id_counter)
    (hfresh : FreshJoins cmds w)
    (hrun : run_all cmds w = some w') :
    RegistryBijection w'.app.players_ w'.app.tokens_ ∧
    (∀ (t : String) (p : ℕ),
      w'.app.tokens_.FindPlayerByToken t = some p ↔ w'.app.tokens_.token_of p = some t) ∧
    (∀ p ∈ w'.app.players_.map (fun e => e.1), ∃ t,
      w'.app.tokens_.token_of p = some t ∧
      ∀ t', w'.app.tokens_.FindPlayerByToken t' = some p → t' = t) ∧
    (∀ (t : String) (p : ℕ), w'.app.tokens_.FindPlayerByToken t = some p →
      p ∈ w'.app.players_.map (fun e => e.1)) := by
  have h := run_all_registry cmds w w' hrun hfresh hreg hids
  obtain ⟨h1, h2, h3, h4, h5⟩ := h
  have hinv : ∀ (t : String) (p : ℕ),
      w'.app.tokens_.FindPlayerByToken t = some p ↔ w'.app.tokens_.token_of p = some t := by
    intro t p
    unfold PlayerTokens.FindPlayerByToken PlayerTokens.token_of
    rw [lookup_nodup_keys _ h1, lookup_nodup_keys _ h2]
    exact h4 t p
  refine ⟨⟨h1, h2, h3, h4, h5⟩, hinv, ?_, ?_⟩
  · intro p hp
    obtain ⟨e, he, hep⟩ := List.mem_map.mp ((h5 p).mp hp)
    have hmem : (p, e.2) ∈ w'.app.tokens_.player_id_to_token_ := by rw [← hep]; exact he
    have htok : w'.app.tokens_.token_of p = some e.2 := by
      unfold PlayerTokens.token_of
      exact (lookup_nodup_keys _ h2 p e.2).mpr hmem
    refine ⟨e.2, htok, ?_⟩
    intro t' ht'
    have := (hinv t' p).mp ht'
    rw [htok] at this
    exact (Option.some.inj this).symm
  · intro t p htp
    have := (hinv t p).mp htp
    unfold PlayerTokens.token_of at this
    have hmem := (lookup_nodup_keys _ h2 p t).mp this
    exact (h5 p).mpr (List.mem_map.mpr ⟨(p, t), hmem, rfl⟩)

end app

namespace app

open model collision_detector

/-- Witness of C18: two players join a map of a fresh application with two
different tokens; each token resolves to its player and back. -/
theorem C18_witness_two_joins :
    scenario.registries
        (run_all scenario.two_joins ⟨scenario.fresh_app [scenario.one_road], 0⟩)
      = some ([(0, ⟨"map1", 0⟩), (1, ⟨"map1", 1⟩)],
          ⟨[("0123456789abcdef0123456789abcdef", 0), ("fedcba9876543210fedcba9876543210", 1)],
            [(0, "0123456789abcdef0123456789abcdef"),
              (1, "fedcba9876543210fedcba9876543210")]⟩) ∧
    ∃ w', run_all scenario.two_joins ⟨scenario.fresh_app [scenario.one_road], 0⟩ = some w' ∧
      RegistryBijection w'.app.players_ w'.app.tokens_ ∧
      (∀ (t : String) (p : ℕ),
        w'.app.tokens_.FindPlayerByToken t = some p ↔ w'.app.tokens_.token_of p = some t) := by
  have hrun : ∃ w', run_all scenario.two_joins
      ⟨scenario.fresh_app [scenario.one_road], 0⟩ = some w' := ⟨_, rfl⟩
  obtain ⟨w', hw'⟩ := hrun
  have hfresh : FreshJoins scenario.two_joins ⟨scenario.fresh_app [scenario.one_road], 0⟩ := by
    refine ⟨⟨by simp [scenario.fresh_app], by norm_num⟩, ?_⟩
    intro w₁ hw₁
    have hw₁' : w₁.app.tokens_.token_to_player_ = [("0123456789abcdef0123456789abcdef", 0)] ∧
        w₁.id_counter = 1 := by
      have : some w₁ = Command.run
          (Command.join (0, 0) "0123456789abcdef0123456789abcdef" "map1" "Pluto")
          ⟨scenario.fresh_app [scenario.one_road], 0⟩ := hw₁.symm
      rw [Option.some.inj (this.trans rfl)]
      exact ⟨rfl, rfl⟩
    refine ⟨⟨?_, ?_⟩, ?_⟩
    · rw [hw₁'.1]
      decide
    · rw [hw₁'.2]
      norm_num
    · intro w₂ _
      trivial
  have h := C18_registry_bijection scenario.two_joins
    ⟨scenario.fresh_app [scenario.one_road], 0⟩ w'
    (by
      refine ⟨?_, ?_, ?_, ?_, ?_⟩ <;> simp [scenario.fresh_app])
    (by intro p hp; simp [scenario.fresh_app] at hp) hfresh hw'
  exact ⟨rfl, w', hw', h.1, h.2.1⟩

end app

namespace http_handler

open app

/-- What `ParseAuthToken` accepts: the values that consist of `"Bearer "` and
exactly 32 more characters. -/
theorem ParseAuthToken_ok (auth : Option (List Char)) (token : String) :
    ParseAuthToken auth = Except.ok token ↔
      ∃ rest : List Char, auth = some ("Bearer ".toList ++ rest) ∧ rest.length = 32 ∧
        token = String.mk rest := by
  unfold ParseAuthToken
  cases auth with
  | none => simp
  | some a =>
    simp only [Option.some.injEq]
    by_cases hp : "Bearer ".toList.isPrefixOf a = true
    · obtain ⟨rest, hrest⟩ := List.isPrefixOf_iff_prefix.mp hp
      subst hrest
      have hlen : ("Bearer ".toList ++ rest).length = 7 + rest.length := by
        rw [List.length_append]; rfl
      have hdrop : ("Bearer ".toList ++ rest).drop 7 = rest := List.drop_left' rfl
      by_cases h39 : rest.length = 32
      · have hcond : (!("Bearer ".toList.isPrefixOf ("Bearer ".toList ++ rest)) ||
            ("Bearer ".toList ++ rest).length != 39) = false := by
          rw [hp, hlen, h39]
          rfl
        rw [hcond]
        simp only [Bool.false_eq_true, if_false, hdrop, Except.ok.injEq]
        constructor
        · intro h
          exact ⟨rest, rfl, h39, h.symm⟩
        · rintro ⟨rest', h1, _, h3⟩
          rw [List.append_cancel_left h1, h3]
      · have hcond : (!("Bearer ".toList.isPrefixOf ("Bearer ".toList ++ rest)) ||
            ("Bearer ".toList ++ rest).length != 39) = true := by
          have hne : (7 + rest.length != 39) = true := by
            rw [bne_iff_ne]; omega
          rw [hp, hlen, hne]
          rfl
        rw [hcond]
        simp only [if_true]
        constructor
        · intro h
          exact Except.noConfusion h
        · rintro ⟨rest', h1, h2, _⟩
          rw [List.append_cancel_left h1] at h39
          exact absurd h2 h39
    · have hcond : (!("Bearer ".toList.isPrefixOf a) || a.length != 39) = true := by
        rw [Bool.eq_false_iff.mpr hp]
        rfl
      rw [hcond]
      simp only [if_true]
      constructor
      · intro h
        exact Except.noConfusion h
      · rintro ⟨rest', h1, _, _⟩
        exact absurd (List.isPrefixOf_iff_prefix.mpr ⟨rest', h1.symm⟩) hp

/-- Whatever `ParseAuthToken` does not accept fails with 401 `invalidToken`. -/
theorem ParseAuthToken_error (auth : Option (List Char)) :
    (∃ token, ParseAuthToken auth = Except.ok token) ∨
    ParseAuthToken auth
      = Except.error ⟨401, "invalidToken", "Authorization header is missing"⟩ := by
  unfold ParseAuthToken
  cases auth with
  | none => exact Or.inr rfl
  | some a =>
    simp only
    split_ifs
    · exact Or.inr rfl
    · exact Or.inl ⟨_, rfl⟩

end http_handler

namespace http_handler

open app

/-- Claim C19 as amended: `ParseAuthToken` accepts an `Authorization` value if
and only if it is the text `"Bearer "` followed by exactly 32 characters, of any
kind, and returns those 32 characters as the token; for a missing header or any
other value it fails with 401 `invalidToken`, and so does
`ApiHandler::AuthPlayer`; `AuthPlayer` answers 401 `unknownToken` exactly for
the values `"Bearer "` plus 32 characters that are not a registered token. -/
theorem C19_auth_token_format (tokens : PlayerTokens) (auth : Option (List Char)) :
    (∀ token, ParseAuthToken auth = Except.ok token ↔
      ∃ rest : List Char, auth = some ("Bearer ".toList ++ rest) ∧ rest.length = 32 ∧
        token = String.mk rest) ∧
    ((¬ ∃ rest : List Char, auth = some ("Bearer ".toList ++ rest) ∧ rest.length = 32) →
      ParseAuthToken auth
        = Except.error ⟨401, "invalidToken", "Authorization header is missing"⟩ ∧
      AuthPlayer tokens auth
        = Except.error ⟨401, "invalidToken", "Authorization header is missing"⟩) ∧
    (AuthPlayer tokens auth
        = Except.error ⟨401, "unknownToken", "Player token has not been found"⟩ ↔
      ∃ rest : List Char, auth = some ("Bearer ".toList ++ rest) ∧ rest.length = 32 ∧
        tokens.FindPlayerByToken (String.mk rest) = none) := by
  refine ⟨ParseAuthToken_ok auth, ?_, ?_⟩
  · intro hno
    have herr : ParseAuthToken auth
        = Except.error ⟨401, "invalidToken", "Authorization header is missing"⟩ := by
      rcases ParseAuthToken_error auth with ⟨token, htoken⟩ | h
      · obtain ⟨rest, h1, h2, _⟩ := (ParseAuthToken_ok auth token).mp htoken
        exact absurd ⟨rest, h1, h2⟩ hno
      · exact h
    refine ⟨herr, ?_⟩
    unfold AuthPlayer
    rw [herr]
  · constructor
    · intro h
      rcases ParseAuthToken_error auth with ⟨token, htoken⟩ | herr
      · obtain ⟨rest, h1, h2, h3⟩ := (ParseAuthToken_ok auth token).mp htoken
        refine ⟨rest, h1, h2, ?_⟩
        unfold AuthPlayer at h
        rw [htoken] at h
        simp only at h
        rw [← h3]
        cases hf : tokens.FindPlayerByToken token with
        | none => rfl
        | some p =>
          rw [hf] at h
          exact Except.noConfusion h
      · unfold AuthPlayer at h
        rw [herr] at h
        simp only [Except.error.injEq, httpException.mk.injEq] at h
        exact absurd h.2.1 (by decide)
    · rintro ⟨rest, h1, h2, h3⟩
      have hok := (ParseAuthToken_ok auth (String.mk rest)).mpr ⟨rest, h1, h2, rfl⟩
      unfold AuthPlayer
      rw [hok]
      simp only [h3]

/-- Witness of C19: the value `"Bearer "` plus 32 hexadecimal characters is
accepted with these characters as the token, and without a player registered
under it the answer is 401 `unknownToken`. -/
theorem C19_witness_hex_token :
    ParseAuthToken (some scenario.hex_auth) = Except.ok "0123456789abcdef0123456789abcdef" ∧
    AuthPlayer ⟨[], []⟩ (some scenario.hex_auth)
      = Except.error ⟨401, "unknownToken", "Player token has not been found"⟩ :=
  ⟨((C19_auth_token_format ⟨[], []⟩ (some scenario.hex_auth)).1 _).mpr
      ⟨"0123456789abcdef0123456789abcdef".toList, rfl, rfl, rfl⟩,
    rfl⟩

/-- Counterexample to C19 as stated: the value `"Bearer "` plus 32 letters `z`,
none of them hexadecimal, is accepted by `ParseAuthToken`, and `AuthPlayer`
answers it with `unknownToken`, not with `invalidToken`. -/
theorem C19_counterexample_not_hex :
    (scenario.not_hex_auth.drop 7).all is_hex = false ∧
    ParseAuthToken (some scenario.not_hex_auth) = Except.ok "zzzzzzzzzzzzzzzzzzzzzzzzzzzzzzzz" ∧
    AuthPlayer ⟨[], []⟩ (some scenario.not_hex_auth)
      = Except.error ⟨401, "unknownToken", "Player token has not been found"⟩ := by
  refine ⟨by decide, rfl, rfl⟩

end http_handler

namespace serialization

open model

theorem to_int64_to_size_t (z : ℤ) (h₁ : -2 ^ 63 ≤ z) (h₂ : z < 2 ^ 63) :
    to_int64 (to_size_t z) = z := by
  unfold to_int64 to_size_t
  have hnn : (0 : ℤ) ≤ z % 2 ^ 64 := Int.emod_nonneg z (by norm_num)
  have hlt : z % 2 ^ 64 < 2 ^ 64 := Int.emod_lt_of_pos z (by norm_num)
  have hcast : (((z % 2 ^ 64).toNat : ℕ) : ℤ) = z % 2 ^ 64 := Int.toNat_of_nonneg hnn
  have hmod : (z % 2 ^ 64).toNat % 2 ^ 64 = (z % 2 ^ 64).toNat := by
    apply Nat.mod_eq_of_lt
    have : (((z % 2 ^ 64).toNat : ℕ) : ℤ) < ((2 ^ 64 : ℕ) : ℤ) := by
      rw [hcast]; exact_mod_cast hlt
    exact_mod_cast this
  rw [hmod, hcast]
  by_cases hz : 0 ≤ z
  · have hzm : z % 2 ^ 64 = z := Int.emod_eq_of_lt hz (by linarith)
    have hlt63 : (z % 2 ^ 64).toNat < 2 ^ 63 := by
      have : (((z % 2 ^ 64).toNat : ℕ) : ℤ) < ((2 ^ 63 : ℕ) : ℤ) := by
        rw [hcast, hzm]; exact_mod_cast h₂
      exact_mod_cast this
    rw [if_pos hlt63, hzm]
  · have hzm : z % 2 ^ 64 = z + 2 ^ 64 := by
      have : (z + 2 ^ 64) % 2 ^ 64 = z + 2 ^ 64 :=
        Int.emod_eq_of_lt (by linarith) (by linarith)
      rw [← this, Int.add_emod_self]
    have hge63 : ¬ (z % 2 ^ 64).toNat < 2 ^ 63 := by
      intro hlt63
      have : (((z % 2 ^ 64).toNat : ℕ) : ℤ) < ((2 ^ 63 : ℕ) : ℤ) := by exact_mod_cast hlt63
      rw [hcast, hzm] at this
      push_cast at this
      linarith
    rw [if_neg hge63, hzm]
    ring

/-- The loop of `Restore` puts back a bag that fits into the capacity. -/
theorem put_bag_fits : ∀ (bag : List (ℕ × ℕ)) (d : Dog),
    d.bag.length + bag.length ≤ d.bag_capacity →
    DogRepr.put_bag bag d = some { d with bag := d.bag ++ bag }
  | [], d, _ => by simp [DogRepr.put_bag]
  | item :: rest, d, h => by
    simp only [List.length_cons] at h
    have hroom : ¬ d.bag.length ≥ d.bag_capacity := by omega
    have hgrab : d.TryGrabItem item.1 item.2
        = ({ d with bag := d.bag ++ [(item.1, item.2)] }, true) := by
      unfold Dog.TryGrabItem
      rw [if_neg hroom]
    simp only [DogRepr.put_bag, hgrab, if_true]
    rw [put_bag_fits rest _ (by simp only [List.length_append, List.length_singleton]; omega)]
    simp

theorem Direction_of_value_value (d : Direction) :
    Direction_of_value (Direction_value d) = some d := by
  cases d <;> rfl

/-- Claim C20: for every dog whose bag holds at most `bag_capacity` entries
(and whose age and idle time are 64-bit millisecond counts),
`DogRepr(dog).Restore()` returns a dog equal to the original in every field: id,
name, position, velocity, direction, bag capacity, bag contents in order, score,
age, `idle_for` and idle flag; the same holds after the `DogRepr` has been
written to an archive and read back, which gives the same `DogRepr`. -/
theorem C20_dog_round_trip (dog : Dog) (hbag : dog.bag.length ≤ dog.bag_capacity)
    (hage : -2 ^ 63 ≤ dog.age ∧ dog.age < 2 ^ 63)
    (hidle : -2 ^ 63 ≤ dog.idle_for ∧ dog.idle_for < 2 ^ 63) :
    (DogRepr.of_dog dog).Restore = some dog ∧
    (∀ rest, DogRepr.load ((DogRepr.of_dog dog).save ++ rest)
      = some (DogRepr.of_dog dog, rest)) ∧
    (∀ rest, (DogRepr.load ((DogRepr.of_dog dog).save ++ rest)).bind
      (fun r => r.1.Restore) = some dog) := by
  have hrestore : (DogRepr.of_dog dog).Restore = some dog := by
    unfold DogRepr.Restore DogRepr.of_dog
    rw [put_bag_fits]
    · simp only [Dog.mk_new, List.nil_append, to_int64_to_size_t dog.age hage.1 hage.2,
        to_int64_to_size_t dog.idle_for hidle.1 hidle.2]
    · simpa [Dog.mk_new] using hbag
  have hload : ∀ rest, DogRepr.load ((DogRepr.of_dog dog).save ++ rest)
      = some (DogRepr.of_dog dog, rest) := by
    intro rest
    simp only [DogRepr.save, List.cons_append, List.nil_append, DogRepr.load,
      Direction_of_value_value, Option.map_some']
  refine ⟨hrestore, hload, ?_⟩
  intro rest
  rw [hload rest]
  exact hrestore

/-- Witness of C20: the dog of the serialization test. -/
theorem C20_witness_pluto :
    scenario.pluto.bag.length ≤ scenario.pluto.bag_capacity ∧
    (DogRepr.of_dog scenario.pluto).Restore = some scenario.pluto ∧
    (DogRepr.load (DogRepr.of_dog scenario.pluto).save).bind (fun r => r.1.Restore)
      = some scenario.pluto := by
  have h := C20_dog_round_trip scenario.pluto (by decide) (by decide) (by decide)
  refine ⟨by decide, h.1, ?_⟩
  have := h.2.2 []
  rwa [List.append_nil] at this

end serialization

/-! ## The road grid holds exactly the cells of the roads (C24) -/

namespace model

/-- Claim C24: for every list of roads added with `RoadGrid::AddRoad` (which is
what `Map::AddRoad` does for each road of a map) and every integer point `p`,
`RoadGrid::ContainsRoad(p)` is true if and only if `p` lies on some added road:
on the axis of the road, between its two end points inclusive, whichever of
the two is the smaller. -/
theorem C24_contains_iff_on_a_road (roads : List Road) (p : geom.Point) :
    RoadGrid.ContainsRoad (roads.foldl RoadGrid.AddRoad []) p = true ↔
      ∃ r ∈ roads,
        match r with
        | Road.HORIZONTAL start end_x =>
            p.y = start.y ∧ min start.x end_x ≤ p.x ∧ p.x ≤ max start.x end_x
        | Road.VERTICAL start end_y =>
            p.x = start.x ∧ min start.y end_y ≤ p.y ∧ p.y ≤ max start.y end_y := by
  rw [contains_foldl_AddRoad]
  have h0 : RoadGrid.ContainsRoad [] p = true ↔ False := by simp [RoadGrid.ContainsRoad]
  rw [h0, false_or]
  constructor
  · rintro ⟨r, hr, hc⟩
    refine ⟨r, hr, ?_⟩
    cases r with
    | HORIZONTAL start end_x =>
      simp only [Road.covers, Road.GetStart, Road.GetEnd, min_self, max_self] at hc
      exact ⟨le_antisymm hc.2.2.2 hc.2.2.1, hc.1, hc.2.1⟩
    | VERTICAL start end_y =>
      simp only [Road.covers, Road.GetStart, Road.GetEnd, min_self, max_self] at hc
      exact ⟨le_antisymm hc.2.1 hc.1, hc.2.2.1, hc.2.2.2⟩
  · rintro ⟨r, hr, hc⟩
    refine ⟨r, hr, ?_⟩
    cases r with
    | HORIZONTAL start end_x =>
      simp only [Road.covers, Road.GetStart, Road.GetEnd, min_self, max_self]
      exact ⟨hc.2.1, hc.2.2, hc.1.ge, hc.1.le⟩
    | VERTICAL start end_y =>
      simp only [Road.covers, Road.GetStart, Road.GetEnd, min_self, max_self]
      exact ⟨hc.1.ge, hc.1.le, hc.2.1, hc.2.2⟩

/-! ## The rounded position stays on the roads (C29) -/

/-- Claim C29: for every map, every dog with any velocity (both components may
be different from zero) and a tick of any length, in particular every
`dt >= 0`: if the rounded position `(round x, round y)` of the dog is a covered
road cell before `Map::MoveDog`, then the rounded position after `MoveDog` is
a covered road cell too. -/
theorem C29_rounded_position_stays_on_roads (m : Map) (dog : Dog) (delta_ms : ℤ)
    (hcell : m.road_grid.ContainsRoad ⟨std_round dog.pos.x, std_round dog.pos.y⟩ = true) :
    m.road_grid.ContainsRoad ⟨std_round (m.MoveDog dog delta_ms).pos.x,
      std_round (m.MoveDog dog delta_ms).pos.y⟩ = true := by
  obtain ⟨hrx, hry, _, hcxy⟩ := MoveDog_cell m dog delta_ms hcell
  rw [hrx, hry]
  exact hcxy

/-- Witness of C29: a dog at the crossing `(5, 0)` of two roads with the
diagonal velocity `(1, 1)`, moved for 700 ms. -/
theorem C29_witness_diagonal :
    scenario.crossing.road_grid.ContainsRoad
      ⟨std_round (scenario.crossing.MoveDog (scenario.moving_dog ⟨5, 0⟩ ⟨1, 1⟩) 700).pos.x,
        std_round (scenario.crossing.MoveDog (scenario.moving_dog ⟨5, 0⟩ ⟨1, 1⟩) 700).pos.y⟩
      = true :=
  C29_rounded_position_stays_on_roads scenario.crossing
    (scenario.moving_dog ⟨5, 0⟩ ⟨1, 1⟩) 700
    (by
      have h5 : std_round (5 : ℚ) = 5 := by
        have := std_round_intCast 5
        simpa using this
      simp only [scenario.moving_dog, Dog.mk_new, std_round_zero, h5]
      decide)

/-! ## The action of a player (C30) -/

/-- Claim C30: `Application::SetPlayerAction` with the dog speed `s` of the map
maps the action to the state of the dog as follows and changes nothing else
(position, bag, score, age, idle time, and also id, name and bag capacity):
`"L"` gives direction WEST and velocity `(-s, 0)`, `"R"` gives EAST and
`(s, 0)`, `"U"` gives NORTH and `(0, -s)`, `"D"` gives SOUTH and `(0, s)`, each
clearing the idle flag; any other action, the empty one included, gives
velocity `(0, 0)`, sets the idle flag and keeps the direction.  In the
application the dog changed is the dog of the player in the session of the
player, the speed is the one of the map of that session, and players and
tokens are not touched. -/
theorem C30_action_sets_direction_and_velocity (dog : Dog) (s : ℚ) (action : String)
    (app : app.Application) (player : Player) :
    dog.SetAction s "L"
      = { dog with dir := Direction.WEST, vel := ⟨-s, 0⟩, is_idle := false } ∧
    dog.SetAction s "R"
      = { dog with dir := Direction.EAST, vel := ⟨s, 0⟩, is_idle := false } ∧
    dog.SetAction s "U"
      = { dog with dir := Direction.NORTH, vel := ⟨0, -s⟩, is_idle := false } ∧
    dog.SetAction s "D"
      = { dog with dir := Direction.SOUTH, vel := ⟨0, s⟩, is_idle := false } ∧
    ((action = "L" ∨ action = "R" ∨ action = "U" ∨ action = "D") ∨
      dog.SetAction s action = { dog with vel := ⟨0, 0⟩, is_idle := true }) ∧
    ((dog.SetAction s action).pos = dog.pos ∧ (dog.SetAction s action).bag = dog.bag ∧
      (dog.SetAction s action).score = dog.score ∧ (dog.SetAction s action).age = dog.age ∧
      (dog.SetAction s action).idle_for = dog.idle_for ∧
      (dog.SetAction s action).id = dog.id ∧ (dog.SetAction s action).name = dog.name ∧
      (dog.SetAction s action).bag_capacity = dog.bag_capacity) ∧
    ((app.SetPlayerAction player action).players_ = app.players_ ∧
      (app.SetPlayerAction player action).tokens_ = app.tokens_ ∧
      (app.SetPlayerAction player action).game_.maps_ = app.game_.maps_ ∧
      (app.SetPlayerAction player action).game_.sessions_ =
        modify_first (fun x => x.map_.id == player.session_id)
          (fun x =>
            { x with
              dogs_ :=
                modify_first (fun d => d.id == player.dog_id)
                  (fun d => d.SetAction x.map_.dog_speed action) x.dogs_ })
          app.game_.sessions_) := by
  refine ⟨rfl, rfl, rfl, rfl, ?_, ?_, rfl, rfl, rfl, rfl⟩
  · by_cases hL : action = "L"
    · exact Or.inl (Or.inl hL)
    by_cases hR : action = "R"
    · exact Or.inl (Or.inr (Or.inl hR))
    by_cases hU : action = "U"
    · exact Or.inl (Or.inr (Or.inr (Or.inl hU)))
    by_cases hD : action = "D"
    · exact Or.inl (Or.inr (Or.inr (Or.inr hD)))
    right
    simp [Dog.SetAction, hL, hR, hU, hD]
  · unfold Dog.SetAction
    split_ifs <;> exact ⟨rfl, rfl, rfl, rfl, rfl, rfl, rfl, rfl⟩

end model

/-! ## The geometry of `TryCollectPoint` (C26) -/

namespace collision_detector

/-- Claim C26: for all points `a != b` and `c`, `TryCollectPoint(a, b, c)`
returns `proj_ratio = (u.v)/|v|^2` and `sq_distance = |u|^2 - (u.v)^2/|v|^2`
with `u = c - a` and `v = b - a`, and these are the geometric quantities: with
`t` the ratio returned, the point `a + t (b - a)` of the line through `a` and
`b` is the orthogonal projection of `c` (the difference to `c` is orthogonal to
`b - a`), `sq_distance` is the squared distance from `c` to that point, and no
point of the line is nearer to `c`. -/
theorem C26_projection_geometry (a b c : geom.Point2D) (hab : a ≠ b) :
    (TryCollectPoint a b c).proj_ratio =
      ((c.x - a.x) * (b.x - a.x) + (c.y - a.y) * (b.y - a.y))
        / ((b.x - a.x) * (b.x - a.x) + (b.y - a.y) * (b.y - a.y)) ∧
    (TryCollectPoint a b c).sq_distance =
      ((c.x - a.x) * (c.x - a.x) + (c.y - a.y) * (c.y - a.y))
        - ((c.x - a.x) * (b.x - a.x) + (c.y - a.y) * (b.y - a.y))
          * ((c.x - a.x) * (b.x - a.x) + (c.y - a.y) * (b.y - a.y))
          / ((b.x - a.x) * (b.x - a.x) + (b.y - a.y) * (b.y - a.y)) ∧
    (c.x - (a.x + (TryCollectPoint a b c).proj_ratio * (b.x - a.x))) * (b.x - a.x)
      + (c.y - (a.y + (TryCollectPoint a b c).proj_ratio * (b.y - a.y))) * (b.y - a.y) = 0 ∧
    (TryCollectPoint a b c).sq_distance =
      (c.x - (a.x + (TryCollectPoint a b c).proj_ratio * (b.x - a.x))) ^ 2
        + (c.y - (a.y + (TryCollectPoint a b c).proj_ratio * (b.y - a.y))) ^ 2 ∧
    ∀ s : ℚ, (TryCollectPoint a b c).sq_distance ≤
      (c.x - (a.x + s * (b.x - a.x))) ^ 2 + (c.y - (a.y + s * (b.y - a.y))) ^ 2 := by
  obtain ⟨ax, ay⟩ := a
  obtain ⟨bx, by_⟩ := b
  obtain ⟨cx, cy⟩ := c
  have hv : (bx - ax) * (bx - ax) + (by_ - ay) * (by_ - ay) ≠ 0 := by
    intro h
    have h1 : bx - ax = 0 := by nlinarith [mul_self_nonneg (bx - ax), mul_self_nonneg (by_ - ay)]
    have h2 : by_ - ay = 0 := by nlinarith [mul_self_nonneg (bx - ax), mul_self_nonneg (by_ - ay)]
    apply hab
    rw [show ax = bx by linarith, show ay = by_ by linarith]
  have hpos : 0 < (bx - ax) * (bx - ax) + (by_ - ay) * (by_ - ay) :=
    lt_of_le_of_ne (add_nonneg (mul_self_nonneg _) (mul_self_nonneg _)) (Ne.symm hv)
  refine ⟨rfl, rfl, ?_, ?_, ?_⟩
  · simp only [TryCollectPoint]
    field_simp
    ring
  · simp only [TryCollectPoint]
    field_simp
    ring
  · simp only [TryCollectPoint]
    intro s
    have key : (cx - (ax + s * (bx - ax))) ^ 2 + (cy - (ay + s * (by_ - ay))) ^ 2
        - (((cx - ax) * (cx - ax) + (cy - ay) * (cy - ay))
          - ((cx - ax) * (bx - ax) + (cy - ay) * (by_ - ay))
            * ((cx - ax) * (bx - ax) + (cy - ay) * (by_ - ay))
            / ((bx - ax) * (bx - ax) + (by_ - ay) * (by_ - ay)))
        = (s * ((bx - ax) * (bx - ax) + (by_ - ay) * (by_ - ay))
            - ((cx - ax) * (bx - ax) + (cy - ay) * (by_ - ay))) ^ 2
          / ((bx - ax) * (bx - ax) + (by_ - ay) * (by_ - ay)) := by
      field_simp
      ring
    have hnn : 0 ≤ (s * ((bx - ax) * (bx - ax) + (by_ - ay) * (by_ - ay))
            - ((cx - ax) * (bx - ax) + (cy - ay) * (by_ - ay))) ^ 2
          / ((bx - ax) * (bx - ax) + (by_ - ay) * (by_ - ay)) :=
      div_nonneg (sq_nonneg _) hpos.le
    linarith

/-- Witness of C26 at `a = (4, 0)`, `b = (6, 0)`, `c = (5, 0)`: the ratio is
`1/2` and the squared distance is `0`. -/
theorem C26_witness_midpoint :
    (⟨4, 0⟩ : geom.Point2D) ≠ ⟨6, 0⟩ ∧
    (TryCollectPoint ⟨4, 0⟩ ⟨6, 0⟩ ⟨5, 0⟩).proj_ratio = 1 / 2 ∧
    (TryCollectPoint ⟨4, 0⟩ ⟨6, 0⟩ ⟨5, 0⟩).sq_distance = 0 := by
  have h := C26_projection_geometry ⟨4, 0⟩ ⟨6, 0⟩ ⟨5, 0⟩ (by decide)
  refine ⟨by decide, ?_, ?_⟩
  · rw [h.1]; norm_num
  · rw [h.2.1]; norm_num

end collision_detector

/-! ## One loot item collected by two dogs (C27) -/

namespace app

open model collision_detector

/-- On a map whose only road is `(0,0)-(10,0)` a dog at the lattice point
`(x0, 0)` with a velocity along `x` moves freely to the lattice point `(x1, 0)`
of the road. -/
theorem MoveDog_along (m : Map) (dog : Dog) (delta_ms : ℤ) (x0 x1 : ℤ) (v : ℚ)
    (hroads : m.roads = [Road.HORIZONTAL ⟨0, 0⟩ 10])
    (hpos : dog.pos = ⟨x0, 0⟩) (hvel : dog.vel = ⟨v, 0⟩) (hv : v ≠ 0)
    (hx1 : (x0 : ℚ) + v * ((delta_ms : ℚ) / 1000) = x1)
    (h0 : 0 ≤ x0 ∧ x0 ≤ 10) (h1 : 0 ≤ x1 ∧ x1 ≤ 10) :
    m.MoveDog dog delta_ms = { dog with pos := ⟨x1, 0⟩ } := by
  have hgrid := contains_single_horizontal m 0 10 0 hroads (by norm_num)
  have hr0 : std_round ((x0 : ℤ) : ℚ) = x0 := std_round_intCast x0
  have hr1 : std_round ((x1 : ℤ) : ℚ) = x1 := std_round_intCast x1
  rw [MoveDog_free_x m dog delta_ms (by rw [hvel]) (by rw [hvel]; exact hv)
    (by rw [hpos]; norm_num [std_round_zero, Map.allowance, Map.eps])
    (by
      intro k hk1 hk2
      rw [hpos, hvel] at hk1 hk2
      simp only [hx1, hr0, hr1] at hk1 hk2
      rw [hpos]
      simp only [std_round_zero]
      rw [hgrid]
      rcases min_le_iff.mp hk1 with h | h <;> rcases le_max_iff.mp hk2 with h' | h' <;>
        omega)
    (by
      left
      rw [hpos, hvel]
      simp only [hx1, hr1]
      norm_num)]
  rw [hpos, hvel]
  simp only [hx1]

/-- The collision detector on the two dogs that cross at the loot item: each of
the two gatherers meets item 0, at time `1/2`. -/
theorem FindGatherEvents_twins :
    FindGatherEvents (VectorItemGathererProvider.create scenario.pickup_loot []
      [(0, ⟨⟨4, 0⟩, ⟨6, 0⟩, 6 / 10⟩), (1, ⟨⟨6, 0⟩, ⟨4, 0⟩, 6 / 10⟩)]).toProvider
      = [⟨0, 0, 0, 1 / 2⟩, ⟨0, 1, 0, 1 / 2⟩] := by
  have hr : List.range 1 = [0] := rfl
  have hr2 : List.range 2 = [0, 1] := rfl
  simp only [FindGatherEvents, detected_events, events_of_gatherer,
    VectorItemGathererProvider.toProvider, VectorItemGathererProvider.create,
    scenario.pickup_loot, List.length_cons,
    List.length_nil, List.map_cons, List.map_nil, List.nil_append, List.append_nil, hr, hr2]
  norm_num [List.flatMap, TryCollectPoint, CollectionResult.IsCollected, List.filterMap_cons,
    events_of_gatherer, hr, hr2, List.insertionSort, List.orderedInsert]

end app

namespace app

open model collision_detector

theorem tick_dog_twin0 :
    tick_dog scenario.loot_road 60000 2000
        { Dog.mk_new "Pluto" ⟨4, 0⟩ ⟨1, 0⟩ 3 0 with is_idle := false, dir := Direction.EAST }
      = ({ Dog.mk_new "Pluto" ⟨6, 0⟩ ⟨1, 0⟩ 3 0 with
            is_idle := false, dir := Direction.EAST, age := 2000 },
          some ⟨⟨4, 0⟩, ⟨6, 0⟩, 6 / 10⟩) := by
  unfold tick_dog
  simp only [Dog.mk_new, ge_iff_le, Bool.false_eq_true, if_false, zero_add]
  rw [if_neg (by norm_num)]
  rw [MoveDog_along scenario.loot_road _ 2000 4 6 1 rfl (by norm_num) rfl (by norm_num)
    (by norm_num) (by norm_num) (by norm_num)]
  norm_num

theorem tick_dog_twin1 :
    tick_dog scenario.loot_road 60000 2000
        { Dog.mk_new "Goofy" ⟨6, 0⟩ ⟨-1, 0⟩ 3 1 with is_idle := false, dir := Direction.WEST }
      = ({ Dog.mk_new "Goofy" ⟨4, 0⟩ ⟨-1, 0⟩ 3 1 with
            is_idle := false, dir := Direction.WEST, age := 2000 },
          some ⟨⟨6, 0⟩, ⟨4, 0⟩, 6 / 10⟩) := by
  unfold tick_dog
  simp only [Dog.mk_new, ge_iff_le, Bool.false_eq_true, if_false, zero_add]
  rw [if_neg (by norm_num)]
  rw [MoveDog_along scenario.loot_road _ 2000 6 4 (-1) rfl (by norm_num) rfl (by norm_num)
    (by norm_num) (by norm_num) (by norm_num)]
  norm_num

/-- Claim C27 on the code: two dogs with empty bags walk towards each other on
the road `(0,0)-(10,0)` and in one tick of 2000 ms both pass the only loot item
of the session, item 1 at `(5, 0)`.  The collision pass reads the loot from the
provider, which was filled before the pass and is not changed when
`RemoveLoot` takes the item out of the session: after the tick the entry
`(1, 0)` is in the bag of dog 0 and in the bag of dog 1, two bag entries were
added and one loot entry was removed. -/
theorem C27_same_loot_in_two_bags :
    tick_session 60000 (scenario.no_loot 0) 2000 scenario.twins_session
      = (⟨scenario.loot_road, scenario.twins_after [(1, 0)] [(1, 0)], [], 0, 1⟩, false) ∧
    scenario.twins_session.dogs_.map (fun d => d.bag) = [[], []] ∧
    scenario.twins_session.loot_map_.length = 1 := by
  refine ⟨?_, rfl, rfl⟩
  unfold tick_session
  simp only [generate_loot, scenario.no_loot, List.foldl_nil, scenario.twins_session,
    scenario.twins, move_dogs, tick_dog_twin0, tick_dog_twin1, zero_add]
  unfold gather_items
  have hb : scenario.loot_road.bases = [] := rfl
  simp only [hb, FindGatherEvents_twins]
  rfl

end app

/-! ## The serializing listener is notified once per session (C23) -/

namespace app

open model collision_detector

/-- Claim C23 on the code: `Application::Tick` runs its block "Notify" inside
the loop over the sessions, so a listener gets `OnTick(dt)` once for every
session.  With two sessions, a save interval of 1000 ms and
`time_since_last_save_ = 0`, a tick of 100 ms leaves `time_since_last_save_`
at 200, not at 100; with one session it leaves 100; with no session the
listener is not notified and the time stays 0; and with a save interval of
100 ms the tick with two sessions calls `SaveState` twice.  With a negative
interval nothing is saved and the time is not advanced. -/
theorem C23_listener_is_notified_per_session :
    scenario.listeners_after (Application.Tick 1 scenario.no_loot 100
        (scenario.saving_app [scenario.one_road, scenario.map_two] 0 1000))
      = some ([Listener.serializing 200 1000 0, Listener.retirement], false) ∧
    scenario.listeners_after (Application.Tick 1 scenario.no_loot 100
        (scenario.saving_app [scenario.one_road] 0 1000))
      = some ([Listener.serializing 100 1000 0, Listener.retirement], false) ∧
    scenario.listeners_after (Application.Tick 1 scenario.no_loot 100
        (scenario.saving_app [] 0 1000))
      = some ([Listener.serializing 0 1000 0, Listener.retirement], false) ∧
    scenario.listeners_after (Application.Tick 1 scenario.no_loot 100
        (scenario.saving_app [scenario.one_road, scenario.map_two] 0 100))
      = some ([Listener.serializing 0 100 2, Listener.retirement], false) ∧
    scenario.listeners_after (Application.Tick 1 scenario.no_loot 100
        (scenario.saving_app [scenario.one_road, scenario.map_two] 0 (-1)))
      = some ([Listener.serializing 0 (-1) 0, Listener.retirement], false) := by
  refine ⟨?_, ?_, ?_, ?_, ?_⟩ <;> rfl

end app

/-! ## Joining without random spawn -/

namespace app

open model collision_detector

theorem modify_first_congr {α : Type} (p : α → Bool) (f g : α → α) :
    ∀ (l : List α) (a : α), l.find? p = some a → f a = g a →
      modify_first p f l = modify_first p g l
  | [], _, h, _ => by simp at h
  | b :: l, a, h, hfg => by
    simp only [modify_first]
    by_cases hb : p b = true
    · rw [List.find?_cons_of_pos _ hb] at h
      simp only [Option.some.injEq] at h
      subst h
      simp [hb, hfg]
    · rw [List.find?_cons_of_neg _ hb] at h
      simp only [hb, Bool.false_eq_true, if_false]
      rw [modify_first_congr p f g l a h hfg]

theorem modify_first_append_last {α : Type} (p : α → Bool) (f : α → α) (x : α) (hx : p x = true) :
    ∀ (l : List α), l.find? p = none → modify_first p f (l ++ [x]) = l ++ [f x]
  | [], _ => by simp [modify_first, hx]
  | b :: l, h => by
    have hb : ¬ (p b = true) := by
      intro hb
      rw [List.find?_cons_of_pos _ hb] at h
      exact Option.noConfusion h
    rw [List.find?_cons_of_neg _ hb] at h
    have ih := modify_first_append_last p f x hx l h
    simp only [List.cons_append, modify_first, hb, Bool.false_eq_true, if_false, List.append_eq]
    rw [ih]

/-- After `AddTokenForPlayer(token, id)` the token resolves to the player `id`. -/
theorem FindPlayerByToken_AddTokenForPlayer (t : PlayerTokens) (token : String) (id : ℕ) :
    (t.AddTokenForPlayer token id).FindPlayerByToken token = some id := by
  unfold PlayerTokens.AddTokenForPlayer PlayerTokens.FindPlayerByToken
  dsimp only
  generalize t.token_to_player_ = l
  induction l with
  | nil => simp
  | cons e l ih =>
    by_cases he : e.1 = token
    · simp [modify_first, he]
    · have he' : (e.1 == token) = false := by simpa using he
      simp only [List.any_cons, he', Bool.false_or, modify_first, Bool.false_eq_true, if_false]
      split_ifs with hany
      · rw [if_pos hany] at ih
        rw [List.find?_cons_of_neg _ (by simp [he])]
        exact ih
      · rw [if_neg hany] at ih
        rw [List.cons_append, List.find?_cons_of_neg _ (by simp [he])]
        exact ih

end app

namespace app

open model collision_detector

/-- Joining where `Dog::id_counter_` has not been handed out yet (it is neither
the id of a dog of the session of the map nor the id of a registered player):
with randomized spawn disabled, for every map `m` of the catalogue with at
least one road, `JoinGame(map_id, name)` returns and adds to the session of that
map (created when there is none yet) exactly one new dog, named `name`, at the
start point of the first road of the map, with velocity `(0, 0)`, the idle flag
set, an empty bag, score 0 and the bag capacity of the map; it registers one
player whose id equals the id of the dog, and returns that player with a token
that resolves to it.  After `ApplicationRepr::Restore` the hypothesis on the
counter fails. -/
theorem JoinGame_spawns_at_first_road (app : Application) (id_counter : ℕ) (draw : ℕ × ℚ)
    (token map_id user_name : String) (m : Map) (road : Road) (roads : List Road)
    (hspawn : app.random_spawns_ = false)
    (hmap : app.game_.FindMap map_id = some m)
    (hroads : m.roads = road :: roads)
    (hsess : ∀ s ∈ app.game_.sessions_, s.map_.id = map_id → s.map_ = m)
    (hdog : ∀ s ∈ app.game_.sessions_, s.map_.id = map_id → ∀ d ∈ s.dogs_, d.id ≠ id_counter)
    (hplayer : ∀ p ∈ app.players_, p.1 ≠ id_counter) :
    ∃ r dog, app.JoinGame id_counter draw token map_id user_name = some r ∧
      dog.id = id_counter ∧ dog.name = user_name ∧
      dog.pos = ⟨(road.GetStart.x : ℚ), (road.GetStart.y : ℚ)⟩ ∧ dog.vel = ⟨0, 0⟩ ∧
      dog.is_idle = true ∧ dog.bag = [] ∧ dog.score = 0 ∧
      dog.bag_capacity = m.bag_capacity ∧ dog.age = 0 ∧ dog.idle_for = 0 ∧
      dog.dir = Direction.NORTH ∧
      r.app.game_.sessions_ =
        (match app.game_.sessions_.find? (fun s => s.map_.id == map_id) with
          | some _ =>
            modify_first (fun s => s.map_.id == map_id)
              (fun s => { s with dogs_ := s.dogs_ ++ [dog] }) app.game_.sessions_
          | none => app.game_.sessions_ ++ [⟨m, [dog], [], 0, 0⟩]) ∧
      r.app.players_ = app.players_ ++ [(dog.id, ⟨map_id, dog.id⟩)] ∧
      r.player_id = dog.id ∧ r.token = token ∧
      r.app.tokens_.FindPlayerByToken r.token = some r.player_id := by
  have hmid : m.id = map_id := by
    have := List.find?_some hmap
    simpa using this
  have hplayers : app.players_.any (fun p => p.1 == id_counter) = false := by
    rw [Bool.eq_false_iff]
    intro hany
    obtain ⟨p, hp, hpe⟩ := List.any_eq_true.mp hany
    exact hplayer p hp (by simpa using hpe)
  have key : ∃ r, app.JoinGame id_counter draw token map_id user_name = some r ∧
      r.app.game_.sessions_ =
        (match app.game_.sessions_.find? (fun s => s.map_.id == map_id) with
          | some _ =>
            modify_first (fun s => s.map_.id == map_id)
              (fun s => { s with dogs_ := s.dogs_ ++ [Dog.mk_new user_name
                ⟨(road.GetStart.x : ℚ), (road.GetStart.y : ℚ)⟩ ⟨0, 0⟩ m.bag_capacity id_counter] })
              app.game_.sessions_
          | none => app.game_.sessions_ ++ [⟨m, [Dog.mk_new user_name
                ⟨(road.GetStart.x : ℚ), (road.GetStart.y : ℚ)⟩ ⟨0, 0⟩ m.bag_capacity id_counter],
                [], 0, 0⟩]) := by
    unfold Application.JoinGame Game.GetSession
    rw [hmap]
    cases hfind : app.game_.sessions_.find? (fun s => s.map_.id == map_id) with
    | some s =>
      have hs : s ∈ app.game_.sessions_ := List.mem_of_find?_eq_some hfind
      have hsid : s.map_.id = map_id := by simpa using List.find?_some hfind
      have hsm : s.map_ = m := hsess s hs hsid
      have hnew : s.dogs_.find? (fun d => d.id == id_counter) = none := by
        rw [List.find?_eq_none]
        intro d hd
        simpa using hdog s hs hsid d hd
      simp only [hspawn, spawn_point, Bool.false_eq_true, if_false, hsm, hroads, List.head?_cons,
        Option.map_some', GameSession.CreateDog, hnew]
      refine ⟨_, rfl, ?_⟩
      dsimp only
      exact modify_first_congr _ _ _ _ s hfind (by simp [hsm])
    | none =>
      simp only [hspawn, spawn_point, Bool.false_eq_true, if_false, hroads, List.head?_cons,
        Option.map_some', GameSession.CreateDog, List.find?_nil]
      refine ⟨_, rfl, ?_⟩
      dsimp only
      exact modify_first_append_last _ _ _ (by simpa using hmid) _ hfind
  obtain ⟨r, hr, hsessions⟩ := key
  obtain ⟨_, hpid, htok, htokens, hpl⟩ :=
    JoinGame_registry app id_counter draw token map_id user_name r hr
  refine ⟨r, Dog.mk_new user_name ⟨(road.GetStart.x : ℚ), (road.GetStart.y : ℚ)⟩ ⟨0, 0⟩
    m.bag_capacity id_counter, hr, rfl, rfl, rfl, rfl, rfl, rfl, rfl, rfl, rfl, rfl, rfl,
    hsessions,
    ?_, hpid, htok, ?_⟩
  · rw [hpl, hplayers]
    rfl
  · rw [htokens, htok, hpid]
    exact FindPlayerByToken_AddTokenForPlayer _ _ _

/-- A second player joins the map `map1`, whose session holds the dog 0, when
`Dog::id_counter_` is 1; the new dog 1 named Goofy stands at the start `(0, 0)`
of the first road and the token resolves to player 1. -/
theorem JoinGame_second_join :
    ∃ r dog, (scenario.application_of scenario.one_road [scenario.bag_dog 3 [] 0]).JoinGame 1
        (0, 0) "0123456789abcdef0123456789abcdef" "map1" "Goofy" = some r ∧
      dog.id = 1 ∧ dog.name = "Goofy" ∧ dog.pos = ⟨0, 0⟩ ∧ dog.bag_capacity = 3 ∧
      r.app.game_.sessions_
        = [⟨scenario.one_road, [scenario.bag_dog 3 [] 0, dog], [], 0, 0⟩] ∧
      r.app.players_ = [(1, ⟨"map1", 1⟩)] ∧ r.player_id = 1 ∧
      r.app.tokens_.FindPlayerByToken "0123456789abcdef0123456789abcdef" = some 1 := by
  obtain ⟨r, dog, hr, hid, hname, hpos, _, _, _, _, hcap, _, _, _, hs, hp, hpid, htok, hfind⟩ :=
    JoinGame_spawns_at_first_road
      (scenario.application_of scenario.one_road [scenario.bag_dog 3 [] 0]) 1 (0, 0)
      "0123456789abcdef0123456789abcdef" "map1" "Goofy" scenario.one_road
      (Road.HORIZONTAL ⟨0, 0⟩ 10) [] rfl rfl rfl
      (by
        intro s hs _
        simp only [scenario.application_of, List.mem_singleton] at hs
        rw [hs])
      (by
        intro s hs _ d hd
        simp only [scenario.application_of, List.mem_singleton] at hs
        subst hs
        simp only [List.mem_singleton] at hd
        subst hd
        decide)
      (by
        intro p hp
        simp [scenario.application_of] at hp)
  refine ⟨r, dog, hr, hid, hname, ?_, hcap, ?_, ?_, ?_, ?_⟩
  · rw [hpos]
    simp [Road.GetStart]
  · rw [hs]
    rfl
  · rw [hp, hid]
    rfl
  · rw [hpid, hid]
  · rw [htok, hpid, hid] at hfind
    exact hfind

end app

/-! ## Saving and restoring the application (C21, C22, C28) -/

namespace serialization

open model app

theorem find?_key_of_nodup {α κ : Type} [DecidableEq κ] (key : α → κ) :
    ∀ (l : List α), (l.map key).Nodup → ∀ a ∈ l, l.find? (fun x => key x == key a) = some a
  | [], _, a, ha => by simp at ha
  | b :: l, hnd, a, ha => by
    simp only [List.map_cons, List.nodup_cons, List.mem_map, not_exists, not_and] at hnd
    rcases List.mem_cons.mp ha with rfl | ha
    · simp
    · have hb : ¬ (key b = key a) := fun h => hnd.1 a ha h.symm
      rw [List.find?_cons_of_neg _ (by simpa using hb)]
      exact find?_key_of_nodup key l hnd.2 a ha

theorem any_key_false {α κ : Type} [DecidableEq κ] (key : α → κ) (l : List α) (k : κ)
    (h : k ∉ l.map key) : l.any (fun x => key x == k) = false := by
  rw [Bool.eq_false_iff]
  intro hany
  obtain ⟨x, hx, hxe⟩ := List.any_eq_true.mp hany
  exact h (List.mem_map.mpr ⟨x, hx, by simpa using hxe⟩)

theorem nodup_append_cons {κ : Type} (l : List κ) (k : κ) (rest : List κ)
    (h : (l ++ k :: rest).Nodup) : k ∉ l ∧ ((l ++ [k]) ++ rest).Nodup := by
  constructor
  · intro hk
    rw [List.nodup_append] at h
    exact h.2.2 hk (List.mem_cons_self _ _)
  · simpa using h

/-- A dog with at most `bag_capacity` bag entries and 64-bit clocks is restored
from its representation. -/
theorem Restore_of_dog (dog : Dog) (hbag : dog.bag.length ≤ dog.bag_capacity)
    (hage : -2 ^ 63 ≤ dog.age ∧ dog.age < 2 ^ 63)
    (hidle : -2 ^ 63 ≤ dog.idle_for ∧ dog.idle_for < 2 ^ 63) :
    (DogRepr.of_dog dog).Restore = some dog := by
  unfold DogRepr.Restore DogRepr.of_dog
  rw [put_bag_fits]
  · simp only [Dog.mk_new, List.nil_append, to_int64_to_size_t dog.age hage.1 hage.2,
      to_int64_to_size_t dog.idle_for hidle.1 hidle.2]
  · simpa [Dog.mk_new] using hbag

theorem restore_dogs_of_dogs : ∀ (dogs : List Dog) (s : GameSession),
    ((s.dogs_ ++ dogs).map (fun d => d.id)).Nodup →
    (∀ d ∈ dogs, DogSaveable d) →
    GameSessionRepr.restore_dogs (dogs.map DogRepr.of_dog) s
      = some { s with dogs_ := s.dogs_ ++ dogs }
  | [], s, _, _ => by simp [GameSessionRepr.restore_dogs]
  | d :: rest, s, hnd, hok => by
    obtain ⟨hb, ha, hi⟩ := hok d (List.mem_cons_self _ _)
    rw [List.map_append, List.map_cons] at hnd
    obtain ⟨hnew, hnd'⟩ := nodup_append_cons _ _ _ hnd
    simp only [List.map_cons, GameSessionRepr.restore_dogs, Restore_of_dog d hb ha hi,
      GameSession.AddDog, any_key_false (fun (x : Dog) => x.id) s.dogs_ d.id hnew,
      Bool.false_eq_true, if_false]
    rw [restore_dogs_of_dogs rest _ (by simpa using hnd')
      (fun x hx => hok x (List.mem_cons_of_mem _ hx))]
    simp

theorem foldl_AddLoot : ∀ (loot : List (ℕ × (ℕ × geom.Point2D))) (s : GameSession),
    ((s.loot_map_ ++ loot).map (fun e => e.1)).Nodup → (∀ e ∈ loot, e.1 ≠ 0) →
    loot.foldl (fun s e => s.AddLoot e.2 e.1) s = { s with loot_map_ := s.loot_map_ ++ loot }
  | [], s, _, _ => by simp
  | e :: rest, s, hnd, h0 => by
    have he : e.1 ≠ 0 := h0 e (List.mem_cons_self _ _)
    rw [List.map_append, List.map_cons] at hnd
    obtain ⟨hnew, hnd'⟩ := nodup_append_cons _ _ _ hnd
    have hadd : s.AddLoot e.2 e.1 = { s with loot_map_ := s.loot_map_ ++ [e] } := by
      simp only [GameSession.AddLoot, he, if_false,
        any_key_false (fun (x : ℕ × (ℕ × geom.Point2D)) => x.1) s.loot_map_ e.1 hnew,
        Bool.false_eq_true]
    rw [List.foldl_cons, hadd, foldl_AddLoot rest _ (by simpa using hnd')
      (fun x hx => h0 x (List.mem_cons_of_mem _ hx))]
    simp

end serialization

namespace serialization

open model app

/-- A session that respects its invariants is restored from its representation
in every application with the same map catalogue. -/
theorem Restore_of_session (app : Application) (s : GameSession)
    (h : SessionSaveable app.game_ s) :
    (GameSessionRepr.of_session s).Restore app = some s := by
  obtain ⟨hmap, hdn, hdogs, hln, hl0, ht1, ht2⟩ := h
  unfold GameSessionRepr.Restore GameSessionRepr.of_session
  dsimp only
  rw [hmap]
  dsimp only
  rw [restore_dogs_of_dogs s.dogs_ ⟨s.map_, [], [], 0, 0⟩ (by simpa using hdn) hdogs]
  dsimp only
  rw [foldl_AddLoot s.loot_map_ _ (by simpa using hln) hl0]
  simp only [LootGeneratorRepr.Restore, LootGeneratorRepr.of_session, List.nil_append,
    to_int64_to_size_t s.time_without_loot_ ht1 ht2]

theorem restore_sessions_of_sessions : ∀ (sessions : List GameSession) (app : Application),
    ((app.game_.sessions_ ++ sessions).map (fun s => s.map_.id)).Nodup →
    (∀ s ∈ sessions, SessionSaveable app.game_ s) →
    GameRepr.restore_sessions (sessions.map GameSessionRepr.of_session) app
      = some { app with game_ := { app.game_ with sessions_ := app.game_.sessions_ ++ sessions } }
  | [], app, _, _ => by simp [GameRepr.restore_sessions]
  | s :: rest, app, hnd, hok => by
    rw [List.map_append, List.map_cons] at hnd
    obtain ⟨hnew, hnd'⟩ := nodup_append_cons _ _ _ hnd
    simp only [List.map_cons, GameRepr.restore_sessions,
      Restore_of_session app s (hok s (List.mem_cons_self _ _)), Game.AddSession,
      any_key_false (fun (x : GameSession) => x.map_.id) app.game_.sessions_ s.map_.id hnew,
      Bool.false_eq_true, if_false]
    rw [restore_sessions_of_sessions rest _ (by simpa using hnd')
      (fun x hx => by
        have := hok x (List.mem_cons_of_mem _ hx)
        exact this)]
    simp

end serialization

namespace serialization

open model app

/-- A player whose session and dog are in the game is restored from its
representation. -/
theorem Restore_of_player (app : Application) (p : Player)
    (hnd : (app.game_.sessions_.map (fun s => s.map_.id)).Nodup)
    (hdn : ∀ s ∈ app.game_.sessions_, (s.dogs_.map (fun d => d.id)).Nodup)
    (h : ∃ s ∈ app.game_.sessions_, s.map_.id = p.session_id ∧ ∃ d ∈ s.dogs_, d.id = p.dog_id) :
    (PlayerRepr.of_player p).Restore app = some p := by
  obtain ⟨s, hs, hsid, d, hd, hdid⟩ := h
  have h1 := find?_key_of_nodup (fun (x : GameSession) => x.map_.id) _ hnd s hs
  have h2 := find?_key_of_nodup (fun (x : Dog) => x.id) _ (hdn s hs) d hd
  simp only [hsid] at h1
  simp only [hdid] at h2
  simp only [PlayerRepr.Restore, PlayerRepr.of_player, Game.FindSession, h1,
    GameSession.GetDogById, h2, hsid, hdid]

theorem restore_players_of_players : ∀ (players : List (ℕ × Player)) (app : Application),
    (app.game_.sessions_.map (fun s => s.map_.id)).Nodup →
    (∀ s ∈ app.game_.sessions_, (s.dogs_.map (fun d => d.id)).Nodup) →
    ((app.players_ ++ players).map (fun e => e.1)).Nodup →
    (∀ e ∈ players, e.1 = e.2.dog_id ∧
      ∃ s ∈ app.game_.sessions_, s.map_.id = e.2.session_id ∧ ∃ d ∈ s.dogs_, d.id = e.2.dog_id) →
    PlayersRepr.restore_players (players.map (fun e => PlayerRepr.of_player e.2)) app
      = some { app with players_ := app.players_ ++ players }
  | [], app, _, _, _, _ => by simp [PlayersRepr.restore_players]
  | e :: rest, app, hsn, hdn, hnd, hok => by
    obtain ⟨hkey, hex⟩ := hok e (List.mem_cons_self _ _)
    rw [List.map_append, List.map_cons] at hnd
    obtain ⟨hnew, hnd'⟩ := nodup_append_cons _ _ _ hnd
    have hany := any_key_false (fun (x : ℕ × Player) => x.1) app.players_ e.1 hnew
    rw [hkey] at hany
    have he : (e.2.dog_id, e.2) = e := by rw [← hkey]
    simp only [List.map_cons, PlayersRepr.restore_players,
      Restore_of_player app e.2 hsn hdn hex, hany, Bool.false_eq_true, if_false, he]
    have ih := restore_players_of_players rest { app with players_ := app.players_ ++ [e] }
      hsn hdn (by simpa using hnd') (fun x hx => hok x (List.mem_cons_of_mem _ hx))
    rw [ih]
    simp

theorem restore_tokens_of_tokens : ∀ (tokens : List (String × ℕ)) (app : Application),
    ((app.tokens_.token_to_player_ ++ tokens).map (fun e => e.1)).Nodup →
    (∀ e ∈ app.players_, e.1 = e.2.dog_id) →
    (∀ e ∈ tokens, e.2 ∈ app.players_.map (fun e => e.1)) →
    ∃ app', PlayerTokensRepr.restore_tokens tokens app = some app' ∧
      app'.game_ = app.game_ ∧ app'.players_ = app.players_ ∧
      app'.tokens_.token_to_player_ = app.tokens_.token_to_player_ ++ tokens
  | [], app, _, _, _ => ⟨app, rfl, rfl, rfl, by simp⟩
  | e :: rest, app, hnd, hkeys, hok => by
    rw [List.map_append, List.map_cons] at hnd
    obtain ⟨hnew, hnd'⟩ := nodup_append_cons _ _ _ hnd
    have hany := any_key_false (fun (x : String × ℕ) => x.1) app.tokens_.token_to_player_ e.1 hnew
    obtain ⟨x, hx, hxe⟩ := List.mem_map.mp (hok e (List.mem_cons_self _ _))
    have hfind : ∃ y, app.players_.find? (fun p => p.1 == e.2) = some y := by
      cases hf : app.players_.find? (fun p => p.1 == e.2) with
      | some y => exact ⟨y, rfl⟩
      | none =>
        rw [List.find?_eq_none] at hf
        exact absurd (by simpa using hxe) (hf x hx)
    obtain ⟨y, hy⟩ := hfind
    have hy1 : y.1 = e.2 := by simpa using List.find?_some hy
    have hy2 : y.2.dog_id = e.2 := by
      rw [← hkeys y (List.mem_of_find?_eq_some hy), hy1]
    obtain ⟨app', h1, h2, h3, h4⟩ := restore_tokens_of_tokens rest
      { app with tokens_ := app.tokens_.AddTokenForPlayer e.1 e.2 }
      (by simpa [PlayerTokens.AddTokenForPlayer, hany] using hnd') hkeys
      (fun x hx => hok x (List.mem_cons_of_mem _ hx))
    refine ⟨app', ?_, h2, h3, ?_⟩
    · simp only [PlayerTokensRepr.restore_tokens, FindPlayerById, hy, Option.map_some', hy2]
      exact h1
    · rw [h4]
      simp [PlayerTokens.AddTokenForPlayer, hany]

end serialization

namespace serialization

open model app

/-- The round trip of a state that respects the invariants of its data
structures (`Saveable`): restoring `ApplicationRepr(s)` into a fresh application
with the same map catalogue and no sessions, players or tokens succeeds and
yields a state equal to `s` in the sessions (by map id; per session the dogs
with all their fields, the loot map, the time without loot of the loot
generator and the next loot id), the player registry and the mapping from
tokens to player ids.  A `JoinGame` after a restore can lead to states that are
not `Saveable`. -/
theorem application_round_trip (s fresh : Application) (hs : Saveable s)
    (hmaps : fresh.game_.maps_ = s.game_.maps_)
    (hsessions : fresh.game_.sessions_ = []) (hplayers : fresh.players_ = [])
    (htokens : fresh.tokens_ = ⟨[], []⟩) :
    ∃ app', (ApplicationRepr.of_app s).Restore fresh = some app' ∧
      app'.game_.maps_ = s.game_.maps_ ∧
      app'.game_.sessions_ = s.game_.sessions_ ∧
      app'.players_ = s.players_ ∧
      app'.tokens_.token_to_player_ = s.tokens_.token_to_player_ := by
  obtain ⟨hsn, hsok, hpn, hpok, htn, htok⟩ := hs
  obtain ⟨⟨maps, sessions, g1, g2, g3, g4, g5⟩, players, tokens, rs, ls, db⟩ := fresh
  dsimp only at hmaps hsessions hplayers htokens
  subst hmaps hsessions hplayers htokens
  have h1 := restore_sessions_of_sessions s.game_.sessions_
    ⟨⟨s.game_.maps_, [], g1, g2, g3, g4, g5⟩, [], ⟨[], []⟩, rs, ls, db⟩
    (by simpa using hsn)
    (fun x hx => by
      obtain ⟨a, b⟩ := hsok x hx
      exact ⟨a, b⟩)
  have h2 := restore_players_of_players s.players_
    ⟨⟨s.game_.maps_, s.game_.sessions_, g1, g2, g3, g4, g5⟩, [], ⟨[], []⟩, rs, ls, db⟩
    hsn (fun x hx => (hsok x hx).2.1) (by simpa using hpn) hpok
  obtain ⟨app', h3, h4, h5, h6⟩ := restore_tokens_of_tokens s.tokens_.token_to_player_
    ⟨⟨s.game_.maps_, s.game_.sessions_, g1, g2, g3, g4, g5⟩, s.players_, ⟨[], []⟩, rs, ls, db⟩
    (by simpa using htn) (fun e he => (hpok e he).1) htok
  have e1 : (ApplicationRepr.of_app s).game_repr_.Restore
      ⟨⟨s.game_.maps_, [], g1, g2, g3, g4, g5⟩, [], ⟨[], []⟩, rs, ls, db⟩
      = some ⟨⟨s.game_.maps_, s.game_.sessions_, g1, g2, g3, g4, g5⟩, [], ⟨[], []⟩, rs, ls, db⟩ :=
    h1
  have e2 : (ApplicationRepr.of_app s).players_repr_.Restore
      ⟨⟨s.game_.maps_, s.game_.sessions_, g1, g2, g3, g4, g5⟩, [], ⟨[], []⟩, rs, ls, db⟩
      = some ⟨⟨s.game_.maps_, s.game_.sessions_, g1, g2, g3, g4, g5⟩, s.players_, ⟨[], []⟩, rs, ls,
          db⟩ := h2
  have e3 : (ApplicationRepr.of_app s).player_tokens_repr_.Restore
      ⟨⟨s.game_.maps_, s.game_.sessions_, g1, g2, g3, g4, g5⟩, s.players_, ⟨[], []⟩, rs, ls, db⟩
      = some app' := h3
  refine ⟨app', ?_, ?_, ?_, h5, ?_⟩
  · simp only [ApplicationRepr.Restore, e1, e2, e3]
  · rw [h4]
  · rw [h4]
  · rw [h6]; rfl

end serialization

namespace serialization

open model app

/-- The state `saved_app` (one session with the dog 42 and one loot item, one
player, one token) is restored into the application just started with the same
map. -/
theorem round_trip_saved_app :
    Saveable scenario.saved_app ∧
    ∃ app', (ApplicationRepr.of_app scenario.saved_app).Restore
        (scenario.fresh_app [scenario.loot_road]) = some app' ∧
      app'.game_.maps_ = scenario.saved_app.game_.maps_ ∧
      app'.game_.sessions_ = scenario.saved_app.game_.sessions_ ∧
      app'.players_ = scenario.saved_app.players_ ∧
      app'.tokens_.token_to_player_ = scenario.saved_app.tokens_.token_to_player_ := by
  have hs : Saveable scenario.saved_app := by
    refine ⟨by decide, ?_, by decide, ?_, by decide, by decide⟩
    · intro s hs
      simp only [scenario.saved_app, List.mem_singleton] at hs
      subst hs
      refine ⟨rfl, by decide, ?_, by decide, by decide, by decide, by decide⟩
      intro d hd
      simp only [List.mem_singleton] at hd
      subst hd
      exact ⟨by decide, by decide, by decide⟩
    · intro e he
      simp only [scenario.saved_app, List.mem_singleton] at he
      subst he
      exact ⟨rfl, _, List.mem_singleton.mpr rfl, rfl, scenario.pluto,
        List.mem_singleton.mpr rfl, rfl⟩
  exact ⟨hs, application_round_trip scenario.saved_app
    (scenario.fresh_app [scenario.loot_road]) hs rfl rfl rfl rfl⟩

/-- Claim C28 on the code: `ApplicationRepr::Restore` builds the dogs with the
ids read and leaves `Dog::id_counter_` alone.  The first run of the server
hands out the id 0 to the dog of "Pluto" and saves the state; the second run
starts with `Dog::id_counter_ = 0`, restores that state, and the next
`JoinGame`, for "Goofy", builds a dog with the id 0 again: `emplace` in
`GameSession::CreateDog` and in `Players::Add` keeps the entries of "Pluto", so
the session still has one dog and the registry one player, the player
returned is player 0 of "Pluto", and the new token resolves to that player. -/
theorem C28_join_after_restore_reuses_id :
    scenario.join_view scenario.second_run
      = some (0, [[(0, "Pluto")]], [(0, ⟨"map1", 0⟩)],
          [("0123456789abcdef0123456789abcdef", 0), ("fedcba9876543210fedcba9876543210", 0)]) ∧
    scenario.first_run.map (fun w => (w.id_counter,
        w.app.game_.sessions_.map (fun s => s.dogs_.map (fun d => (d.id, d.name))),
        w.app.players_, w.app.tokens_.token_to_player_))
      = some (1, [[(0, "Pluto")]], [(0, ⟨"map1", 0⟩)],
          [("0123456789abcdef0123456789abcdef", 0)]) := by
  constructor <;> rfl

end serialization

namespace serialization

open model app

/-- `DogRepr::Restore` throws exactly when the bag read holds more entries than
the bag capacity read. -/
theorem DogRepr_Restore_eq_none (r : DogRepr) :
    r.Restore = none ↔ r.bag_capacity_ < r.bag_.length := by
  unfold DogRepr.Restore
  constructor
  · intro h
    by_contra hle
    rw [put_bag_fits _ _ (by simp only [Dog.mk_new, List.length_nil]; omega)] at h
    exact Option.noConfusion h
  · intro h
    exact put_bag_too_long _ _ (by simpa [Dog.mk_new] using h) (by simp [Dog.mk_new])

theorem restore_dogs_eq_none : ∀ (l : List DogRepr) (s : GameSession),
    GameSessionRepr.restore_dogs l s = none ↔ ∃ r ∈ l, r.bag_capacity_ < r.bag_.length
  | [], s => by simp [GameSessionRepr.restore_dogs]
  | r :: rest, s => by
    simp only [GameSessionRepr.restore_dogs, List.mem_cons, exists_eq_or_imp]
    cases h : r.Restore with
    | none => simp [(DogRepr_Restore_eq_none r).mp h]
    | some dog =>
      have hr : ¬ r.bag_capacity_ < r.bag_.length := by
        intro hlt
        rw [(DogRepr_Restore_eq_none r).mpr hlt] at h
        exact Option.noConfusion h
      simp only [hr, false_or]
      exact restore_dogs_eq_none rest _

theorem GameSessionRepr_Restore_eq_none (r : GameSessionRepr) (app : Application) :
    r.Restore app = none ↔
      (app.game_.FindMap r.map_id_ = none ∨ ∃ d ∈ r.dogs_repr_, d.bag_capacity_ < d.bag_.length) := by
  unfold GameSessionRepr.Restore
  cases hm : app.game_.FindMap r.map_id_ with
  | none => simp
  | some m =>
    dsimp only
    cases hd : GameSessionRepr.restore_dogs r.dogs_repr_ ⟨m, [], [], 0, 0⟩ with
    | none => simpa using (restore_dogs_eq_none _ _).mp hd
    | some s1 =>
      have hno : ¬ ∃ d ∈ r.dogs_repr_, d.bag_capacity_ < d.bag_.length := by
        intro hex
        rw [(restore_dogs_eq_none _ _).mpr hex] at hd
        exact Option.noConfusion hd
      simp [hno]

theorem restore_sessions_eq_none : ∀ (l : List GameSessionRepr) (app : Application),
    GameRepr.restore_sessions l app = none ↔
      ∃ r ∈ l, app.game_.FindMap r.map_id_ = none ∨
        ∃ d ∈ r.dogs_repr_, d.bag_capacity_ < d.bag_.length
  | [], app => by simp [GameRepr.restore_sessions]
  | r :: rest, app => by
    simp only [GameRepr.restore_sessions, List.mem_cons, exists_eq_or_imp]
    cases h : r.Restore app with
    | none => simp [(GameSessionRepr_Restore_eq_none r app).mp h]
    | some s =>
      have hr : ¬ (app.game_.FindMap r.map_id_ = none ∨
          ∃ d ∈ r.dogs_repr_, d.bag_capacity_ < d.bag_.length) := by
        intro hex
        rw [(GameSessionRepr_Restore_eq_none r app).mpr hex] at h
        exact Option.noConfusion h
      simp only [hr, false_or]
      have ih := restore_sessions_eq_none rest { app with game_ := app.game_.AddSession s }
      have hmaps : ∀ id, (app.game_.AddSession s).FindMap id = app.game_.FindMap id := by
        intro id
        unfold Game.AddSession Game.FindMap
        split_ifs <;> rfl
      simp only [hmaps] at ih
      exact ih

theorem restore_players_eq_none : ∀ (l : List PlayerRepr) (app : Application),
    PlayersRepr.restore_players l app = none ↔
      ∃ r ∈ l, (app.game_.FindSession r.session_id_).bind
        (fun s => s.GetDogById r.dog_id_) = none
  | [], app => by simp [PlayersRepr.restore_players]
  | r :: rest, app => by
    have hr : r.Restore app = none ↔ (app.game_.FindSession r.session_id_).bind
        (fun s => s.GetDogById r.dog_id_) = none := by
      unfold PlayerRepr.Restore
      cases app.game_.FindSession r.session_id_ with
      | none => simp
      | some s =>
        cases hd : s.GetDogById r.dog_id_ with
        | none => simp [hd]
        | some d => simp [hd]
    simp only [PlayersRepr.restore_players, List.mem_cons, exists_eq_or_imp]
    cases h : r.Restore app with
    | none => simp [hr.mp h]
    | some player =>
      have hno : ¬ ((app.game_.FindSession r.session_id_).bind
          (fun s => s.GetDogById r.dog_id_) = none) := by
        intro hex
        rw [hr.mpr hex] at h
        exact Option.noConfusion h
      simp only [hno, false_or]
      exact restore_players_eq_none rest _

theorem restore_tokens_eq_none : ∀ (l : List (String × ℕ)) (app : Application),
    PlayerTokensRepr.restore_tokens l app = none ↔
      ∃ e ∈ l, FindPlayerById app.players_ e.2 = none
  | [], app => by simp [PlayerTokensRepr.restore_tokens]
  | e :: rest, app => by
    simp only [PlayerTokensRepr.restore_tokens, List.mem_cons, exists_eq_or_imp]
    cases h : FindPlayerById app.players_ e.2 with
    | none => simp
    | some player =>
      have ih := restore_tokens_eq_none rest
        { app with tokens_ := app.tokens_.AddTokenForPlayer e.1 player.dog_id }
      simp only [false_or, reduceCtorEq]
      exact ih

end serialization

namespace serialization

open model app

/-- Claim C22 as amended: `ApplicationRepr::Restore` fails with an error if and
only if some serialized session names a map id that the game does not contain,
or some serialized dog holds more bag entries than its bag capacity
(`DogRepr::Restore` throws "Failed to put bag content"), or, the game having
been restored, some serialized player names a session or a dog id that is not
there, or, the players having been restored too, some serialized token names a
player id that is not registered; when none of these holds it succeeds. -/
theorem C22_restore_fails_iff (r : ApplicationRepr) (app : Application) :
    r.Restore app = none ↔
      ((∃ sr ∈ r.game_repr_.sessions_repr_, app.game_.FindMap sr.map_id_ = none ∨
          ∃ d ∈ sr.dogs_repr_, d.bag_capacity_ < d.bag_.length) ∨
        (∃ app1, r.game_repr_.Restore app = some app1 ∧
          ∃ pr ∈ r.players_repr_.players_repr_,
            (app1.game_.FindSession pr.session_id_).bind
              (fun s => s.GetDogById pr.dog_id_) = none) ∨
        (∃ app1 app2, r.game_repr_.Restore app = some app1 ∧
          r.players_repr_.Restore app1 = some app2 ∧
          ∃ e ∈ r.player_tokens_repr_.token_to_player_repr_,
            FindPlayerById app2.players_ e.2 = none)) := by
  unfold ApplicationRepr.Restore
  cases h1 : r.game_repr_.Restore app with
  | none =>
    have := (restore_sessions_eq_none _ _).mp h1
    simp only [true_iff]
    exact Or.inl this
  | some app1 =>
    have hno1 : ¬ ∃ sr ∈ r.game_repr_.sessions_repr_, app.game_.FindMap sr.map_id_ = none ∨
        ∃ d ∈ sr.dogs_repr_, d.bag_capacity_ < d.bag_.length := by
      intro hex
      have := (restore_sessions_eq_none _ _).mpr hex
      unfold GameRepr.Restore at h1
      rw [this] at h1
      exact Option.noConfusion h1
    dsimp only
    cases h2 : r.players_repr_.Restore app1 with
    | none =>
      have := (restore_players_eq_none _ _).mp h2
      simp only [true_iff]
      exact Or.inr (Or.inl ⟨app1, rfl, this⟩)
    | some app2 =>
      have hno2 : ¬ ∃ pr ∈ r.players_repr_.players_repr_,
          (app1.game_.FindSession pr.session_id_).bind
            (fun s => s.GetDogById pr.dog_id_) = none := by
        intro hex
        have := (restore_players_eq_none _ _).mpr hex
        unfold PlayersRepr.Restore at h2
        rw [this] at h2
        exact Option.noConfusion h2
      dsimp only
      unfold PlayerTokensRepr.Restore
      rw [restore_tokens_eq_none]
      constructor
      · intro h
        exact Or.inr (Or.inr ⟨app1, app2, rfl, h2, h⟩)
      · rintro (h | ⟨a1, h, hp⟩ | ⟨a1, a2, h, h', ht⟩)
        · exact absurd h hno1
        · simp only [Option.some.injEq] at h
          subst h
          exact absurd hp hno2
        · simp only [Option.some.injEq] at h
          subst h
          rw [h2] at h'
          simp only [Option.some.injEq] at h'
          subst h'
          exact ht

/-- Counterexample to C22 as stated: the state file `overfull_repr` names the
map `map1`, which the game contains, no player and no token, and
`ApplicationRepr::Restore` fails all the same, because its dog has two bag
entries and the bag capacity 1. -/
theorem C22_counterexample_overfull_bag :
    scenario.overfull_repr.Restore (scenario.fresh_app [scenario.one_road]) = none ∧
    (∀ sr ∈ scenario.overfull_repr.game_repr_.sessions_repr_,
      (scenario.fresh_app [scenario.one_road]).game_.FindMap sr.map_id_ ≠ none) ∧
    scenario.overfull_repr.players_repr_.players_repr_ = [] ∧
    scenario.overfull_repr.player_tokens_repr_.token_to_player_repr_ = [] := by
  refine ⟨rfl, ?_, rfl, rfl⟩
  intro sr hsr
  simp only [scenario.overfull_repr, List.mem_singleton] at hsr
  subst hsr
  exact fun h => Option.noConfusion h

/-- Witness of the amended C22: the state file `orphan_token_repr` has a token
of the player 7, who is not registered once the game and the players (none)
have been restored, so `ApplicationRepr::Restore` fails; the state saved from
`saved_app` meets none of the conditions and is restored. -/
theorem C22_witness_orphan_token :
    scenario.orphan_token_repr.Restore (scenario.fresh_app [scenario.one_road]) = none ∧
    (ApplicationRepr.of_app scenario.saved_app).Restore
      (scenario.fresh_app [scenario.loot_road]) ≠ none := by
  constructor
  · exact (C22_restore_fails_iff scenario.orphan_token_repr
      (scenario.fresh_app [scenario.one_road])).mpr
      (Or.inr (Or.inr ⟨scenario.fresh_app [scenario.one_road],
        scenario.fresh_app [scenario.one_road], rfl, rfl, _, List.mem_singleton.mpr rfl, rfl⟩))
  · intro h
    have hsome : ((ApplicationRepr.of_app scenario.saved_app).Restore
        (scenario.fresh_app [scenario.loot_road])).isSome = true := rfl
    rw [h] at hsome
    exact Bool.noConfusion hsome

end serialization

namespace collision_detector

/-- Witness of C10, the loot pickup scenario: a gatherer moving from `(4, 0)` to
`(6, 0)` with width `0.6` and one item of width 0 at `(5, 0)`; the pair
(item 0, gatherer 0) is a hit with `t = 1/2` and `d² = 0`, and the events of
that pair are exactly the one event `(0, 0, 0, 1/2)`. -/
theorem C10_witness_pickup :
    (FindGatherEvents (app.VectorItemGathererProvider.create scenario.pickup_loot []
        scenario.pickup_gatherers).toProvider).filter
        (fun e => decide (e.item_id = 0 ∧ e.gatherer_id = 0))
      = [⟨0, 0, 0, 1 / 2⟩] ∧
    ∀ e ∈ FindGatherEvents (app.VectorItemGathererProvider.create scenario.pickup_loot []
        scenario.pickup_gatherers).toProvider, e = ⟨0, 0, 0, 1 / 2⟩ := by
  have h := C10_events_are_exactly_the_hits
    (app.VectorItemGathererProvider.create scenario.pickup_loot []
      scenario.pickup_gatherers).toProvider
  refine ⟨?_, ?_⟩
  · rw [h.1 0 0]
    decide!
  · intro e he
    obtain ⟨hg, hi, _, heq⟩ := h.2.1 e he
    have hg' : e.gatherer_id = 0 := by
      have : e.gatherer_id < 1 := hg
      omega
    have hi' : e.item_id = 0 := by
      have : e.item_id < 1 := hi
      omega
    rw [heq, hg', hi']
    decide!

end collision_detector

/-! ## The dead end of a single road (C3) -/

namespace model

end model

namespace model

/-- In binary64 arithmetic, just off the dead end of the road `(0,0)-(10,0)`: a
dog at `(10, 0)` moved for 1000 ms with the velocity `0.400002` (target beyond
`10.4` by more than `1e-6`) is stopped at the `double` nearest to `10.4`; with
the velocity `0.399998` (target within `10.4` by more than `1e-6`) it keeps
moving. -/
theorem MoveDog_binary64_near_dead_end :
    binary64.MoveDog scenario.one_road
        (scenario.moving_dog ⟨10, 0⟩ ⟨binary64.round (400002 / 1000000), 0⟩) 1000
      = { scenario.moving_dog ⟨10, 0⟩ ⟨binary64.round (400002 / 1000000), 0⟩ with
          pos := ⟨binary64.round (104 / 10), 0⟩, vel := ⟨0, 0⟩, is_idle := true } ∧
    (binary64.MoveDog scenario.one_road
        (scenario.moving_dog ⟨10, 0⟩ ⟨binary64.round (399998 / 1000000), 0⟩) 1000).vel
      = ⟨binary64.round (399998 / 1000000), 0⟩ ∧
    (binary64.MoveDog scenario.one_road
        (scenario.moving_dog ⟨10, 0⟩ ⟨binary64.round (399998 / 1000000), 0⟩) 1000).is_idle
      = false := by
  refine ⟨by decide!, by decide!, by decide!⟩

end model

/-! ## The registries after a repeated token (C18) -/

namespace app

open model collision_detector

/-- Counterexample to C18 as stated: two `JoinGame` calls for which
`GenerateToken` returns the same token.  `token_to_player_[token] = player`
overwrites the entry of the first player, `player_id_to_token_.emplace` adds an
entry for the second: both players are registered, the token resolves to
player 1 only, player 0 has no token that resolves to it, and the two maps are
not inverse to each other. -/
theorem C18_counterexample_same_token :
    scenario.registries
        (run_all scenario.same_token_joins ⟨scenario.fresh_app [scenario.one_road], 0⟩)
      = some ([(0, ⟨"map1", 0⟩), (1, ⟨"map1", 1⟩)],
          ⟨[("0123456789abcdef0123456789abcdef", 1)],
            [(0, "0123456789abcdef0123456789abcdef"),
              (1, "0123456789abcdef0123456789abcdef")]⟩) ∧
    (∀ w', run_all scenario.same_token_joins ⟨scenario.fresh_app [scenario.one_road], 0⟩
        = some w' →
      w'.app.tokens_.token_of 0 = some "0123456789abcdef0123456789abcdef" ∧
      w'.app.tokens_.FindPlayerByToken "0123456789abcdef0123456789abcdef" = some 1 ∧
      ¬ RegistryBijection w'.app.players_ w'.app.tokens_) := by
  refine ⟨rfl, ?_⟩
  intro w' hw'
  have hw : some w' = run_all scenario.same_token_joins
      ⟨scenario.fresh_app [scenario.one_road], 0⟩ := hw'.symm
  rw [Option.some.inj (hw.trans rfl)]
  refine ⟨rfl, rfl, ?_⟩
  rintro ⟨_, _, _, hinv, _⟩
  have h := (hinv "0123456789abcdef0123456789abcdef" 0).mpr (by decide)
  revert h
  decide

end app

/-! ## Joining and saving after a restore (C25, C21) -/

namespace serialization

open model app

/-- Claim C25 on the code: the second run of the server has restored the state
of the first run, one session with the dog 0 of "Pluto" and the player 0, and
`Dog::id_counter_` is 0 again.  `JoinGame("map1", "Goofy")` builds a dog with
the id 0; `emplace` in `GameSession::CreateDog` keeps the dog of "Pluto" and
returns it, `emplace` in `Players::Add` keeps the player 0 and returns it.
After the call the session holds the one dog named "Pluto" and no dog named
"Goofy", the registry holds the one player, and the player returned is
player 0. -/
theorem C25_join_after_restore_adds_no_dog :
    scenario.restored_run.map scenario.dogs_and_players
      = some ([["Pluto"]], [(0, ⟨"map1", 0⟩)]) ∧
    scenario.second_run.map (fun r => (scenario.dogs_and_players r.app, r.player_id))
      = some (([["Pluto"]], [(0, ⟨"map1", 0⟩)]), 0) ∧
    scenario.second_run.map
        (fun r => r.app.tokens_.FindPlayerByToken "fedcba9876543210fedcba9876543210")
      = some (some 0) := by
  refine ⟨?_, ?_, ?_⟩ <;> rfl

/-- Claim C21 on the code: in the second run of the server "Goofy" has joined
after the restore and shares the player 0 with "Pluto" (two tokens for one
player, one entry in `player_id_to_token_`).  When the dog is retired,
`RemoveToken(0)` erases the one token that `player_id_to_token_` knows and the
player is erased, so `token_to_player_` keeps the token of "Goofy" for a player
that is gone.  `ApplicationRepr` of this state names the player 0 for that
token, and `ApplicationRepr::Restore` into the third run, freshly started with
the same map, throws "Player not found for token during deserialization": the
state is not restored. -/
theorem C21_dangling_token_is_not_restored :
    scenario.second_run_retired.map
        (fun r => (r.2, scenario.dogs_and_players r.1, r.1.tokens_.token_to_player_))
      = some (false, ([[]], []), [("fedcba9876543210fedcba9876543210", 0)]) ∧
    scenario.third_run.isSome = false := by
  constructor
  · rfl
  · rfl

end serialization

namespace app

open model collision_detector

theorem RemoveToken_eq_none (t : PlayerTokens) (p : ℕ) (h : t.token_of p = none) :
    t.RemoveToken p = none := by
  unfold PlayerTokens.token_of at h
  unfold PlayerTokens.RemoveToken
  cases hf : t.player_id_to_token_.find? (fun e => e.1 == p) with
  | none => rfl
  | some e => rw [hf] at h; simp at h

theorem RemoveToken_token_of (t t' : PlayerTokens) (p q : ℕ) (h : t.token_of q = none)
    (hr : t.RemoveToken p = some t') : t'.token_of q = none := by
  unfold PlayerTokens.RemoveToken at hr
  cases hf : t.player_id_to_token_.find? (fun e => e.1 == p) with
  | none => rw [hf] at hr; exact Option.noConfusion hr
  | some e =>
    rw [hf] at hr
    simp only [Option.some.injEq] at hr
    subst hr
    unfold PlayerTokens.token_of at h ⊢
    simp only [Option.map_eq_none', List.find?_eq_none] at h ⊢
    intro x hx
    exact h x (List.mem_filter.mp hx).1

/-- One pass through the `try` block for a dog without an entry in
`player_id_to_token_` does not reach the end of the block (`at` throws in
`RemoveToken`), and no pass gives a token to a player that has none. -/
theorem retire_attempt_tokenless (app : Application) (dog : Dog) (q : ℕ)
    (h : app.tokens_.token_of q = none) :
    (retire_attempt app dog).1.tokens_.token_of q = none ∧
    (q = dog.id → (retire_attempt app dog).2 = false) := by
  unfold retire_attempt
  simp only
  split_ifs with hc
  · split
    · exact ⟨h, fun _ => rfl⟩
    · rename_i t hr
      refine ⟨RemoveToken_token_of _ _ _ _ h hr, ?_⟩
      intro hq
      subst hq
      rw [RemoveToken_eq_none _ _ h] at hr
      exact Option.noConfusion hr
  · exact ⟨h, fun _ => rfl⟩

/-- The inner loop of the retirement listener does not get past an expired dog
without an entry in `player_id_to_token_`, whatever the fuel and the database. -/
theorem retire_dogs_tokenless (max_idle_time : ℤ) :
    ∀ (fuel : ℕ) (app : Application) (kept todo : List Dog),
      (∃ d ∈ todo, d.idle_for ≥ max_idle_time ∧ app.tokens_.token_of d.id = none) →
      retire_dogs max_idle_time fuel app kept todo = none
  | 0, _, _, _, _ => rfl
  | fuel + 1, app, kept, [], h => by
    obtain ⟨d, hd, _⟩ := h
    simp at hd
  | fuel + 1, app, kept, dog :: rest, h => by
    obtain ⟨d, hd, hexp, htok⟩ := h
    have hatt := retire_attempt_tokenless app dog d.id htok
    by_cases hdog : dog.idle_for ≥ max_idle_time
    · rw [retire_dogs_step max_idle_time fuel app kept dog rest hdog]
      apply retire_dogs_tokenless max_idle_time fuel
      refine ⟨d, ?_, hexp, hatt.1⟩
      rcases List.mem_cons.mp hd with rfl | hd
      · rw [hatt.2 rfl]
        simp
      · split_ifs
        · exact hd
        · exact List.mem_cons_of_mem _ hd
    · rw [retire_dogs_keep max_idle_time fuel app kept dog rest (not_le.mp hdog)]
      apply retire_dogs_tokenless max_idle_time fuel
      refine ⟨d, ?_, hexp, htok⟩
      rcases List.mem_cons.mp hd with rfl | hd
      · exact absurd hexp hdog
      · exact hd

/-- The inner loop of the retirement listener gives no token to a player that
has none. -/
theorem retire_dogs_token_of (max_idle_time : ℤ) (q : ℕ) :
    ∀ (fuel : ℕ) (app : Application) (kept todo : List Dog) (r : Application × List Dog),
      retire_dogs max_idle_time fuel app kept todo = some r →
      app.tokens_.token_of q = none → r.1.tokens_.token_of q = none
  | 0, _, _, _, _, h, _ => by simp [retire_dogs] at h
  | fuel + 1, app, kept, [], r, h, hq => by
    simp only [retire_dogs, Option.some.injEq] at h
    subst h
    exact hq
  | fuel + 1, app, kept, dog :: rest, r, h, hq => by
    by_cases hdog : dog.idle_for ≥ max_idle_time
    · rw [retire_dogs_step max_idle_time fuel app kept dog rest hdog] at h
      exact retire_dogs_token_of max_idle_time q fuel _ _ _ r h
        (retire_attempt_tokenless app dog q hq).1
    · rw [retire_dogs_keep max_idle_time fuel app kept dog rest (not_le.mp hdog)] at h
      exact retire_dogs_token_of max_idle_time q fuel _ _ _ r h hq

/-- The retirement listener does not return when a session holds an expired dog
without an entry in `player_id_to_token_`. -/
theorem retire_sessions_tokenless (fuel : ℕ) :
    ∀ (todo : List GameSession) (app : Application) (done : List GameSession),
      (∃ s ∈ todo, ∃ d ∈ s.dogs_, d.idle_for ≥ app.game_.max_idle_time_ ∧
        app.tokens_.token_of d.id = none) →
      retire_sessions fuel app done todo = none
  | [], _, _, h => by
    obtain ⟨s, hs, _⟩ := h
    simp at hs
  | s :: rest, app, done, h => by
    obtain ⟨s0, hs0, d, hd, hexp, htok⟩ := h
    simp only [retire_sessions]
    cases hr : retire_dogs app.game_.max_idle_time_ fuel app [] s.dogs_ with
    | none => rfl
    | some r =>
      simp only
      rcases List.mem_cons.mp hs0 with rfl | hs0
      · rw [retire_dogs_tokenless _ fuel app [] _ ⟨d, hd, hexp, htok⟩] at hr
        exact Option.noConfusion hr
      · obtain ⟨_, hg, _⟩ := retire_dogs_sublist _ fuel app [] s.dogs_ r.1 r.2 hr
        apply retire_sessions_tokenless fuel rest
        refine ⟨s0, hs0, d, hd, ?_, retire_dogs_token_of _ _ fuel app [] _ r hr htok⟩
        rw [hg]
        exact hexp

end app

namespace app

open model collision_detector

/-- The retirement listener does not return when a session holds an expired dog
without an entry in `player_id_to_token_`. -/
theorem RetirementListener_OnTick_tokenless (fuel : ℕ) (app : Application)
    (h : ∃ s ∈ app.game_.sessions_, ∃ d ∈ s.dogs_, d.idle_for ≥ app.game_.max_idle_time_ ∧
      app.tokens_.token_of d.id = none) :
    RetirementListener_OnTick fuel app = none := by
  unfold RetirementListener_OnTick
  rw [retire_sessions_tokenless fuel _ app [] h]

theorem notify_tokenless (fuel : ℕ) (dt : ℤ) (app : Application)
    (h : RetirementListener_OnTick fuel app = none) :
    ∀ (todo done : List Listener), Listener.retirement ∈ todo →
      notify fuel dt app done todo = none
  | [], _, hm => by simp at hm
  | l :: rest, done, hm => by
    cases l with
    | expired =>
      simp only [notify]
      exact notify_tokenless fuel dt app h rest done (by simpa using hm)
    | retirement => simp only [notify, h]
    | serializing t i n =>
      simp only [notify]
      exact notify_tokenless fuel dt app h rest _ (by simpa using hm)

/-- The loop of `Application::Tick` over the sessions, split after its first
iteration. -/
theorem tick_sessions_succ (fuel : ℕ) (draws : ℕ → LootDraw) (dt : ℤ) (idx n : ℕ)
    (app : Application) (h : (app.game_.sessions_[idx]?).isSome = true) :
    tick_sessions fuel draws dt idx (n + 1) app
      = (tick_sessions fuel draws dt idx 1 app).bind
          (fun r => if r.2 = true then some r else tick_sessions fuel draws dt (idx + 1) n r.1) := by
  cases hs : app.game_.sessions_[idx]? with
  | none => rw [hs] at h; exact Bool.noConfusion h
  | some s =>
    simp only [tick_sessions, hs]
    split_ifs with hthrown
    · simp
    · cases notify fuel dt _ [] app.listeners_ with
      | none => rfl
      | some app2 => simp [tick_sessions]

/-- The tick does not return when the dogs of a session, moved and aged, include
an expired dog without an entry in `player_id_to_token_`. -/
theorem tick_sessions_tokenless (fuel : ℕ) (draws : ℕ → LootDraw) (dt : ℤ) (idx n : ℕ)
    (app : Application)
    (h : ∃ s, app.game_.sessions_[idx]? = some s ∧
      (tick_session app.game_.max_idle_time_ (draws idx) dt s).2 = false ∧
      ∃ d ∈ (tick_session app.game_.max_idle_time_ (draws idx) dt s).1.dogs_,
        d.idle_for ≥ app.game_.max_idle_time_ ∧ app.tokens_.token_of d.id = none)
    (hl : Listener.retirement ∈ app.listeners_) :
    tick_sessions fuel draws dt idx (n + 1) app = none := by
  obtain ⟨s, hs, hok, d, hd, hexp, htok⟩ := h
  simp only [tick_sessions, hs, hok, Bool.false_eq_true, if_false]
  rw [notify_tokenless fuel dt _ _ _ [] hl]
  apply RetirementListener_OnTick_tokenless
  have hlt : idx < app.game_.sessions_.length := by
    rcases List.getElem?_eq_some_iff.mp hs with ⟨hlt, _⟩
    exact hlt
  exact ⟨_, List.mem_iff_getElem?.mpr ⟨idx, by simp [List.getElem?_set, hlt]⟩, d, hd, hexp, htok⟩

end app

namespace app

open model collision_detector

/-- Claim C15 as amended: when every `Save` and `Commit` succeeds, the dog ids
are pairwise different over all sessions and every expired dog (`idle_for ≥` max
idle time) has an entry in `player_id_to_token_`, then
`RetirementListener::OnTick` returns (with fuel above the number of dogs of each
session) and retires exactly the expired dogs: every session keeps, unchanged
and in order, the dogs with `idle_for <` max idle time; one record per expired
dog is committed with a fresh UUID, the name of the dog and its score and age
converted by `static_cast<int>`, which are the score and the age themselves when
these lie within the 32-bit range; the player registry and both token maps lose
exactly the entries of the expired dogs; the token of an expired dog no longer
resolves, and every other token resolves as before; and when the registries
were in bijection, no token resolves to an expired dog any more. -/
theorem C15_healthy_retirement (fuel : ℕ) (app : Application)
    (hscript : ∀ o ∈ app.database_.script, o = DbOutcome.ok)
    (hrest : app.database_.rest = DbOutcome.ok)
    (hfuel : ∀ s ∈ app.game_.sessions_, s.dogs_.length < fuel)
    (hids : ((app.game_.sessions_.flatMap (fun s => s.dogs_)).map (fun d => d.id)).Nodup)
    (htok : ∀ d ∈ expired_dogs app, app.tokens_.token_of d.id ≠ none) :
    ∃ app', RetirementListener_OnTick fuel app = some app' ∧
      app'.game_.sessions_ = app.game_.sessions_.map (fun s =>
        { s with
          dogs_ := s.dogs_.filter (fun d => decide (d.idle_for < app.game_.max_idle_time_)) }) ∧
      app'.database_.retired_players
        = app.database_.retired_players
          ++ retired_rows app.database_.next_uuid (expired_dogs app) ∧
      (∀ z : ℤ, -2 ^ 31 ≤ z → z < 2 ^ 31 → to_int32 z = z) ∧
      app'.players_ = app.players_.filter (fun p =>
        (expired_dogs app).all (fun d => p.1 != d.id)) ∧
      app'.tokens_.player_id_to_token_ = app.tokens_.player_id_to_token_.filter (fun x =>
        (expired_dogs app).all (fun d => x.1 != d.id)) ∧
      app'.tokens_.token_to_player_ = app.tokens_.token_to_player_.filter (fun x =>
        (expired_dogs app).all (fun d => app.tokens_.token_of d.id != some x.1)) ∧
      (∀ d ∈ expired_dogs app, ∀ t, app.tokens_.token_of d.id = some t →
        app'.tokens_.FindPlayerByToken t = none) ∧
      (∀ t, (∀ d ∈ expired_dogs app, app.tokens_.token_of d.id ≠ some t) →
        app'.tokens_.FindPlayerByToken t = app.tokens_.FindPlayerByToken t) ∧
      (RegistryBijection app.players_ app.tokens_ → ∀ d ∈ expired_dogs app, ∀ t,
        app'.tokens_.FindPlayerByToken t ≠ some d.id) := by
  have hloop := retire_sessions_healthy app fuel hscript hrest app.game_.sessions_ [] [] hfuel
    (fun s hs d hd hexp => htok d (List.mem_flatMap.mpr
      ⟨s, hs, List.mem_filter.mpr ⟨hd, by simpa using hexp⟩⟩))
    (fun _ _ _ _ e he => by simp at he) hids
  rw [retired_nil] at hloop
  simp only [List.nil_append] at hloop
  refine ⟨_, by unfold RetirementListener_OnTick; rw [hloop], rfl, rfl, to_int32_of_range,
    rfl, rfl, rfl, ?_, ?_, ?_⟩
  · intro d hd t ht
    unfold PlayerTokens.FindPlayerByToken
    have hnone : (List.filter (fun x => (expired_dogs app).all
        (fun d => app.tokens_.token_of d.id != some x.1)) app.tokens_.token_to_player_).find?
        (fun e => e.1 == t) = none := by
      rw [List.find?_eq_none]
      intro x hx hxt
      have hxt' : x.1 = t := by simpa using hxt
      have hall := (List.mem_filter.mp hx).2
      rw [List.all_eq_true] at hall
      have := hall d hd
      rw [ht, hxt'] at this
      simp at this
    have hsame : (app.retired (expired_dogs app)).tokens_.token_to_player_
        = List.filter (fun x => (expired_dogs app).all
          (fun d => app.tokens_.token_of d.id != some x.1)) app.tokens_.token_to_player_ := rfl
    show Option.map _ (List.find? _ (app.retired (expired_dogs app)).tokens_.token_to_player_)
      = none
    rw [hsame, hnone]
    rfl
  · intro t ht
    unfold PlayerTokens.FindPlayerByToken
    have hsame : (app.retired (expired_dogs app)).tokens_.token_to_player_
        = List.filter (fun x => (expired_dogs app).all
          (fun d => app.tokens_.token_of d.id != some x.1)) app.tokens_.token_to_player_ := rfl
    show Option.map _ (List.find? _ (app.retired (expired_dogs app)).tokens_.token_to_player_)
      = _
    rw [hsame, find?_filter_of_imp]
    intro x _ hxt
    have hxt' : x.1 = t := by simpa using hxt
    rw [List.all_eq_true]
    intro d hd
    rw [hxt']
    simpa using ht d hd
  · intro hreg d hd t hfind
    obtain ⟨_, hpit, _, hinv, _⟩ := hreg
    replace hfind : Option.map (fun e => e.2) ((List.filter (fun x => (expired_dogs app).all
        (fun d => app.tokens_.token_of d.id != some x.1)) app.tokens_.token_to_player_).find?
        (fun e => e.1 == t)) = some d.id := hfind
    cases hf : (List.filter (fun x => (expired_dogs app).all
        (fun d => app.tokens_.token_of d.id != some x.1)) app.tokens_.token_to_player_).find?
        (fun e => e.1 == t) with
    | none => rw [hf] at hfind; exact Option.noConfusion hfind
    | some e =>
      rw [hf] at hfind
      simp only [Option.map_some', Option.some.injEq] at hfind
      have hmem := List.mem_filter.mp (List.mem_of_find?_eq_some hf)
      have het : e.1 = t := by simpa using List.find?_some hf
      have hin : (t, d.id) ∈ app.tokens_.token_to_player_ := by
        rw [← het, ← hfind]
        exact hmem.1
      have htok : app.tokens_.token_of d.id = some t :=
        (lookup_nodup_keys _ hpit d.id t).mpr ((hinv t d.id).mp hin)
      have hall := hmem.2
      rw [List.all_eq_true] at hall
      have := hall d hd
      rw [htok, het] at this
      simp at this

end app

namespace app

open model collision_detector

/-- Witness of C15, the retirement scenario: max idle time 1000 ms, the dog
"Rex" idle for 1200 ms, the dog "Pluto" idle for 200 ms, a healthy database.
After `OnTick` the session holds "Pluto" only, one record `(0, "Rex", 30, 5000)`
is committed, the player 7 and its token are gone, and the token of "Rex" no
longer resolves while that of "Pluto" does. -/
theorem C15_witness_retirement :
    (RetirementListener_OnTick 3 (scenario.retirement_app [] DbOutcome.ok)).map
        (fun a => (a.game_.sessions_.map (fun s => s.dogs_), a.database_.retired_players,
          a.players_, a.tokens_))
      = some ([[scenario.stayer]], [⟨0, "Rex", 30, 5000⟩], [(8, ⟨"map1", 8⟩)],
          ⟨[("fedcba9876543210fedcba9876543210", 8)],
            [(8, "fedcba9876543210fedcba9876543210")]⟩) ∧
    ∃ app', RetirementListener_OnTick 3 (scenario.retirement_app [] DbOutcome.ok) = some app' ∧
      app'.database_.retired_players
        = retired_rows 0 (expired_dogs (scenario.retirement_app [] DbOutcome.ok)) ∧
      app'.tokens_.FindPlayerByToken "0123456789abcdef0123456789abcdef" = none ∧
      app'.tokens_.FindPlayerByToken "fedcba9876543210fedcba9876543210" = some 8 := by
  refine ⟨by rfl, ?_⟩
  obtain ⟨app', h1, _, h3, _, _, _, _, h8, h9, _⟩ := C15_healthy_retirement 3
    (scenario.retirement_app [] DbOutcome.ok)
    (by intro o ho; simp [scenario.retirement_app] at ho) rfl (by decide) (by decide)
    (by decide)
  refine ⟨app', h1, by simpa [scenario.retirement_app] using h3, ?_, ?_⟩
  · exact h8 scenario.retiree (by decide) _ (by decide)
  · rw [h9 _ (by decide)]
    decide

end app

namespace app

open model collision_detector

/-- Counterexample to C15 as stated: the retirement scenario with a dog of score
3000000000 and age 4294967301 ms.  The dog is retired, and the record committed
holds `static_cast<int>` of the two values, the score -1294967296 and the play
time 5 ms, not the score and the age of the dog. -/
theorem C15_counterexample_wide_record :
    scenario.wide_retiree.score = 3000000000 ∧ scenario.wide_retiree.age = 4294967301 ∧
    (RetirementListener_OnTick 3 scenario.wide_retirement_app).map
        (fun a => (a.game_.sessions_.map (fun s => s.dogs_), a.database_.retired_players))
      = some ([[scenario.stayer]], [⟨0, "Rex", -1294967296, 5⟩]) :=
  ⟨rfl, rfl, rfl⟩

end app

/-! ## Retirement when a dog id has been handed out twice -/

namespace serialization

open model app

/-- The retirement listener on states in which an id has been handed out twice
(after a restore `Dog::id_counter_` starts at 0 again).  (1) In the second run
"Goofy" has joined the map of "Pluto" and shares the player 0: after the
retirement of the dog the token of "Goofy" still resolves to the player 0, who
is no longer registered.  (2) With two maps, "Goofy" joins the other map and
gets a second dog with the id 0, the player 0 of "Pluto" and no entry in
`player_id_to_token_`.  In a tick of 60000 ms the dog of "Pluto" is retired
with the token and the player; for the dog of "Goofy" `RemoveToken(0)` throws
after the commit, the dog is attempted again at once, and the tick does not
return, whatever the number of iterations allowed. -/
theorem retirement_after_repeated_id :
    scenario.second_run_retired.map
        (fun r => (scenario.dogs_and_players r.1,
          r.1.tokens_.FindPlayerByToken "fedcba9876543210fedcba9876543210"))
      = some (([[]], []), some 0) ∧
    scenario.join_view scenario.two_maps_second_run
      = some (0, [[(0, "Pluto")], [(0, "Goofy")]], [(0, ⟨"map1", 0⟩)],
          [("0123456789abcdef0123456789abcdef", 0), ("fedcba9876543210fedcba9876543210", 0)]) ∧
    scenario.two_maps_second_run.map (fun r => r.app.tokens_.player_id_to_token_)
      = some [(0, "0123456789abcdef0123456789abcdef")] ∧
    ∀ fuel, scenario.two_maps_second_run.bind
      (fun r => r.app.Tick fuel scenario.no_loot 60000) = none := by
  refine ⟨rfl, rfl, rfl, ?_⟩
  intro fuel
  rcases fuel with _ | _ | n
  · rfl
  · rfl
  · have hsome : scenario.two_maps_second_run.isSome = true := rfl
    have hbind : ∀ (o : Option JoinResult) (h : o.isSome = true)
        (f : JoinResult → Option (Application × Bool)), f (o.get h) = none → o.bind f = none := by
      intro o h f hf
      cases o with
      | none => rfl
      | some x => exact hf
    apply hbind _ hsome
    have hlen : (scenario.two_maps_second_run.get hsome).app.game_.sessions_.length = 1 + 1 := rfl
    have hfirst : tick_sessions (n + 2) scenario.no_loot 60000 0 1
          (scenario.two_maps_second_run.get hsome).app
        = tick_sessions 2 scenario.no_loot 60000 0 1
          (scenario.two_maps_second_run.get hsome).app := rfl
    have hret : (tick_sessions 2 scenario.no_loot 60000 0 1
        (scenario.two_maps_second_run.get hsome).app).isSome = true := rfl
    have hzero : ((scenario.two_maps_second_run.get hsome).app.game_.sessions_[0]?).isSome
        = true := rfl
    have hflag : ((tick_sessions 2 scenario.no_loot 60000 0 1
        (scenario.two_maps_second_run.get hsome).app).get hret).2 = false := rfl
    have hone : ((tick_sessions 2 scenario.no_loot 60000 0 1
          (scenario.two_maps_second_run.get hsome).app).get hret).1.game_.sessions_[0 + 1]?
        = some ⟨scenario.map_two, [Dog.mk_new "Goofy" ⟨0, 0⟩ ⟨0, 0⟩ 3 0], [], 0, 0⟩ := rfl
    have hmax : ((tick_sessions 2 scenario.no_loot 60000 0 1
          (scenario.two_maps_second_run.get hsome).app).get hret).1.game_.max_idle_time_
        = 60000 := rfl
    have htok : PlayerTokens.token_of ((tick_sessions 2 scenario.no_loot 60000 0 1
          (scenario.two_maps_second_run.get hsome).app).get hret).1.tokens_ 0 = none := rfl
    have hlis : Listener.retirement ∈ ((tick_sessions 2 scenario.no_loot 60000 0 1
          (scenario.two_maps_second_run.get hsome).app).get hret).1.listeners_ := by
      have : ((tick_sessions 2 scenario.no_loot 60000 0 1
          (scenario.two_maps_second_run.get hsome).app).get hret).1.listeners_
          = [Listener.retirement] := rfl
      rw [this]
      exact List.mem_cons_self _ _
    have hdogs : (tick_session 60000 (scenario.no_loot (0 + 1)) 60000
          ⟨scenario.map_two, [Dog.mk_new "Goofy" ⟨0, 0⟩ ⟨0, 0⟩ 3 0], [], 0, 0⟩)
        = (⟨scenario.map_two,
            [{ Dog.mk_new "Goofy" ⟨0, 0⟩ ⟨0, 0⟩ 3 0 with age := 60000, idle_for := 60000 }],
            [], 0, 0⟩, false) := rfl
    unfold Application.Tick
    rw [hlen, tick_sessions_succ (n + 2) scenario.no_loot 60000 0 1 _ hzero, hfirst,
      ← Option.some_get hret]
    simp only [Option.some_bind]
    rw [if_neg (by rw [hflag]; exact Bool.false_ne_true)]
    apply tick_sessions_tokenless _ _ _ _ 0 _ _ hlis
    refine ⟨_, hone, ?_, ?_⟩
    · rw [hmax, hdogs]
    · rw [hmax, hdogs]
      exact ⟨_, List.mem_cons_self _ _, by decide, htok⟩

end serialization

/-! ## The dogs that stay in their session through a tick -/

namespace app

open model collision_detector

theorem Continues_refl {R : Dog → Dog → Prop} (hrefl : ∀ d, R d d) (l : List Dog) :
    Continues R l l := fun d hd => ⟨d, hd, hrefl d⟩

theorem Continues_trans {R : Dog → Dog → Prop} (htrans : ∀ a b c, R a b → R b c → R a c)
    {l₁ l₂ l₃ : List Dog} (h₁ : Continues R l₁ l₂) (h₂ : Continues R l₂ l₃) :
    Continues R l₁ l₃ := by
  intro d1 hd1
  obtain ⟨d2, hd2, h12⟩ := h₁ d1 hd1
  obtain ⟨d3, hd3, h23⟩ := h₂ d2 hd2
  exact ⟨d3, hd3, htrans _ _ _ h12 h23⟩

theorem Continues_set {R : Dog → Dog → Prop} (hrefl : ∀ d, R d d) :
    ∀ (l : List Dog) (idx : ℕ) (a b : Dog), l[idx]? = some a → R a b →
      Continues R l (l.set idx b)
  | [], _, _, _, h, _ => by simp at h
  | x :: l, 0, a, b, h, hab => by
    simp only [List.getElem?_cons_zero, Option.some.injEq] at h
    subst h
    intro d hd
    rcases List.mem_cons.mp hd with rfl | hd
    · exact ⟨b, by simp, hab⟩
    · exact ⟨d, by simp [hd], hrefl d⟩
  | x :: l, idx + 1, a, b, h, hab => by
    simp only [List.getElem?_cons_succ] at h
    intro d hd
    rcases List.mem_cons.mp hd with rfl | hd
    · exact ⟨d, by simp, hrefl d⟩
    · obtain ⟨d', hd', hr⟩ := Continues_set hrefl l idx a b h hab d hd
      exact ⟨d', by simp [hd'], hr⟩

/-- One event of the collision pass leaves every dog in the list, related to
what it was by `R`, when grabbing an item and depositing at a base do. -/
theorem handle_event_continues (R : Dog → Dog → Prop) (hrefl : ∀ d, R d d)
    (hgrab : ∀ (d : Dog) (id type : ℕ), R d (d.TryGrabItem id type).1)
    (hdep : ∀ (d : Dog) (score : ℕ), R d (d.SetScore score) ∧ R d (d.SetScore score).ClearBag)
    (provider : VectorItemGathererProvider) (m : Map) (st : PassState) (e : GatheringEvent) :
    Continues R st.dogs (handle_event provider m st e).dogs := by
  unfold handle_event
  split
  · exact Continues_refl hrefl _
  · rename_i di _
    split
    · exact Continues_refl hrefl _
    · rename_i dog hdog
      split_ifs with hitem
      · split
        · exact Continues_refl hrefl _
        · rename_i loot_id loot_type _
          dsimp only
          split_ifs
          · exact Continues_set hrefl _ di dog _ hdog (hgrab dog loot_id loot_type)
          · exact Continues_refl hrefl _
      · dsimp only
        split_ifs
        · exact Continues_set hrefl _ di dog _ hdog (hdep dog _).1
        · exact Continues_set hrefl _ di dog _ hdog (hdep dog _).2

/-- The loop over the events leaves every dog in the list, related to what it
was by `R`. -/
theorem handle_events_continues (R : Dog → Dog → Prop) (hrefl : ∀ d, R d d)
    (htrans : ∀ a b c, R a b → R b c → R a c)
    (hgrab : ∀ (d : Dog) (id type : ℕ), R d (d.TryGrabItem id type).1)
    (hdep : ∀ (d : Dog) (score : ℕ), R d (d.SetScore score) ∧ R d (d.SetScore score).ClearBag)
    (provider : VectorItemGathererProvider) (m : Map) :
    ∀ (events : List GatheringEvent) (st : PassState),
      Continues R st.dogs (handle_events provider m st events).dogs
  | [], st => Continues_refl hrefl _
  | e :: rest, st => by
    simp only [handle_events]
    have h1 := handle_event_continues R hrefl hgrab hdep provider m st e
    split_ifs
    · exact h1
    · exact Continues_trans htrans h1
        (handle_events_continues R hrefl htrans hgrab hdep provider m rest _)

/-- The three blocks of the tick on one session: every dog of the session is
still in it afterwards, with the same id and, unless it was expired, with its
clocks advanced. -/
theorem tick_session_advances (max_idle_time : ℤ) (draw : LootDraw) (dt : ℤ)
    (s : GameSession) :
    ∀ d ∈ s.dogs_, ∃ d' ∈ (tick_session max_idle_time draw dt s).1.dogs_,
      d'.id = d.id ∧
      (d.idle_for < max_idle_time →
        d'.age = d.age + dt ∧
        d'.idle_for = if d.is_idle = true then d.idle_for + dt else 0) := by
  intro d hd
  rw [(tick_session_dogs max_idle_time draw dt s).2]
  unfold gather_items
  have hpass := handle_events_continues
    (fun c c' => c'.id = c.id ∧ c'.age = c.age ∧ c'.idle_for = c.idle_for)
    (fun _ => ⟨rfl, rfl, rfl⟩)
    (fun a b c h₁ h₂ => ⟨h₂.1.trans h₁.1, h₂.2.1.trans h₁.2.1, h₂.2.2.trans h₁.2.2⟩)
    (fun c id type => by unfold Dog.TryGrabItem; split_ifs <;> exact ⟨rfl, rfl, rfl⟩)
    (fun c score => ⟨⟨rfl, rfl, rfl⟩, ⟨rfl, rfl, rfl⟩⟩)
    (VectorItemGathererProvider.create (generate_loot draw s).loot_map_ s.map_.bases
      (move_dogs s.map_ max_idle_time dt s.dogs_ 0).2) s.map_
    (FindGatherEvents (VectorItemGathererProvider.create (generate_loot draw s).loot_map_
      s.map_.bases (move_dogs s.map_ max_idle_time dt s.dogs_ 0).2).toProvider)
    ⟨s.dogs_.map (fun d => (tick_dog s.map_ max_idle_time dt d).1),
      (generate_loot draw s).loot_map_, false⟩
  obtain ⟨d', hd', hid, hage, hidle⟩ := hpass (tick_dog s.map_ max_idle_time dt d).1
    (List.mem_map.mpr ⟨d, hd, rfl⟩)
  refine ⟨d', hd', hid.trans (tick_dog_frame s.map_ max_idle_time dt d).2.2.2, ?_⟩
  intro hlt
  obtain ⟨h1, h2⟩ := (tick_dog_clocks s.map_ max_idle_time dt d).1 hlt
  exact ⟨hage.trans h1, hidle.trans h2⟩

theorem SessionKeeps_refl (max_idle_time : ℤ) (s : GameSession) :
    SessionKeeps max_idle_time s s := fun _ hd _ => hd

theorem SessionKeeps_trans (max_idle_time : ℤ) (a b c : GameSession)
    (h₁ : SessionKeeps max_idle_time a b) (h₂ : SessionKeeps max_idle_time b c) :
    SessionKeeps max_idle_time a c := fun d hd hlt => h₂ d (h₁ d hd hlt) hlt

/-- The inner loop of the retirement listener keeps the dogs it has passed and
every dog with `idle_for` below the max idle time. -/
theorem retire_dogs_keeps (max_idle_time : ℤ) :
    ∀ (fuel : ℕ) (app : Application) (kept todo : List Dog) (app' : Application)
      (kept' : List Dog),
      retire_dogs max_idle_time fuel app kept todo = some (app', kept') →
      (∀ d ∈ kept, d ∈ kept') ∧ (∀ d ∈ todo, d.idle_for < max_idle_time → d ∈ kept')
  | 0, _, _, _, _, _, h => by simp [retire_dogs] at h
  | fuel + 1, app, kept, [], app', kept', h => by
    simp only [retire_dogs, Option.some.injEq, Prod.mk.injEq] at h
    obtain ⟨rfl, rfl⟩ := h
    exact ⟨fun _ hd => hd, fun _ hd => by simp at hd⟩
  | fuel + 1, app, kept, dog :: rest, app', kept', h => by
    by_cases hdog : dog.idle_for ≥ max_idle_time
    · rw [retire_dogs_step max_idle_time fuel app kept dog rest hdog] at h
      obtain ⟨h1, h2⟩ := retire_dogs_keeps max_idle_time fuel _ _ _ _ _ h
      refine ⟨h1, ?_⟩
      intro d hd hlive
      rcases List.mem_cons.mp hd with rfl | hd
      · exact absurd hdog (not_le.mpr hlive)
      · refine h2 d ?_ hlive
        split_ifs
        · exact hd
        · exact List.mem_cons_of_mem _ hd
    · rw [retire_dogs_keep max_idle_time fuel app kept dog rest (not_le.mp hdog)] at h
      obtain ⟨h1, h2⟩ := retire_dogs_keeps max_idle_time fuel _ _ _ _ _ h
      refine ⟨fun d hd => h1 d (List.mem_append_left _ hd), ?_⟩
      intro d hd hlive
      rcases List.mem_cons.mp hd with rfl | hd
      · exact h1 d (List.mem_append_right _ (List.mem_singleton_self d))
      · exact h2 d hd hlive

/-- The outer loop of the retirement listener keeps in every session the dogs
with `idle_for` below the max idle time. -/
theorem retire_sessions_keeps (fuel : ℕ) :
    ∀ (todo : List GameSession) (app : Application) (done : List GameSession)
      (app' : Application) (res : List GameSession),
      retire_sessions fuel app done todo = some (app', res) →
      ∃ res2, res = done ++ res2 ∧
        List.Forall₂ (SessionKeeps app.game_.max_idle_time_) todo res2
  | [], app, done, app', res, h => by
    simp only [retire_sessions, Option.some.injEq, Prod.mk.injEq] at h
    obtain ⟨rfl, rfl⟩ := h
    exact ⟨[], by simp, List.Forall₂.nil⟩
  | s :: rest, app, done, app', res, h => by
    simp only [retire_sessions] at h
    split at h
    · exact Option.noConfusion h
    · rename_i r hr
      have hr' : retire_dogs app.game_.max_idle_time_ fuel app [] s.dogs_ = some (r.1, r.2) := by
        simpa using hr
      obtain ⟨_, hk⟩ := retire_dogs_keeps _ fuel app [] s.dogs_ r.1 r.2 hr'
      obtain ⟨_, hg, _⟩ := retire_dogs_sublist _ fuel app [] s.dogs_ r.1 r.2 hr'
      obtain ⟨res2, hres, hf⟩ := retire_sessions_keeps fuel rest _ _ _ _ h
      rw [hg] at hf
      refine ⟨{ s with dogs_ := r.2 } :: res2, ?_, List.Forall₂.cons hk hf⟩
      rw [hres]
      simp

/-- The retirement listener keeps in every session the dogs with `idle_for`
below the max idle time. -/
theorem RetirementListener_OnTick_keeps (fuel : ℕ) (app app' : Application)
    (h : RetirementListener_OnTick fuel app = some app') :
    List.Forall₂ (SessionKeeps app.game_.max_idle_time_)
      app.game_.sessions_ app'.game_.sessions_ := by
  unfold RetirementListener_OnTick at h
  split at h
  · exact Option.noConfusion h
  · rename_i r hr
    obtain ⟨res2, hres, hf⟩ := retire_sessions_keeps fuel _ _ _ r.1 r.2 (by simpa using hr)
    simp only [Option.some.injEq] at h
    subst h
    simp only [List.nil_append] at hres
    simpa [hres] using hf

/-- The block "Notify" keeps in every session the dogs with `idle_for` below
the max idle time. -/
theorem notify_keeps (fuel : ℕ) (dt : ℤ) :
    ∀ (todo : List Listener) (app : Application) (done : List Listener) (app' : Application),
      notify fuel dt app done todo = some app' →
      List.Forall₂ (SessionKeeps app.game_.max_idle_time_)
        app.game_.sessions_ app'.game_.sessions_
  | [], app, done, app', h => by
    simp only [notify, Option.some.injEq] at h
    subst h
    exact List.forall₂_same.mpr fun s _ => SessionKeeps_refl _ s
  | l :: rest, app, done, app', h => by
    cases l with
    | expired =>
      simp only [notify] at h
      exact notify_keeps fuel dt rest _ _ _ h
    | retirement =>
      simp only [notify] at h
      split at h
      · exact Option.noConfusion h
      · rename_i app1 h1
        have ha := RetirementListener_OnTick_keeps fuel app app1 h1
        obtain ⟨_, hb, _⟩ := RetirementListener_OnTick_shrinks fuel app app1 h1
        have hc := notify_keeps fuel dt rest _ _ _ h
        rw [hb] at hc
        exact forall₂_trans' (SessionKeeps_trans _) ha hc
    | serializing t i n =>
      simp only [notify] at h
      exact notify_keeps fuel dt rest _ _ _ h

/-- What the loop of a tick that no exception leaves does to each session, seen
from the dogs with `idle_for` below the max idle time: a session before
position `idx` keeps them; a session among the next `n` is ticked once and
keeps them before and after. -/
theorem tick_sessions_live (fuel : ℕ) (draws : ℕ → LootDraw) (dt : ℤ) :
    ∀ (n idx : ℕ) (app app' : Application),
      tick_sessions fuel draws dt idx n app = some (app', false) →
      ∀ (j : ℕ) (s s' : GameSession), app.game_.sessions_[j]? = some s →
        app'.game_.sessions_[j]? = some s' →
        (j < idx → SessionKeeps app.game_.max_idle_time_ s s') ∧
        (idx ≤ j → j < idx + n →
          SessionTickedLive app.game_.max_idle_time_ dt (draws j) s s')
  | 0, idx, app, app', h => by
    simp only [tick_sessions, Option.some.injEq, Prod.mk.injEq] at h
    obtain ⟨rfl, _⟩ := h
    intro j s s' hs hs'
    rw [hs] at hs'
    simp only [Option.some.injEq] at hs'
    subst hs'
    exact ⟨fun _ => SessionKeeps_refl _ s, fun h1 h2 => by omega⟩
  | n + 1, idx, app, app', h => by
    simp only [tick_sessions] at h
    split at h
    · rename_i hnone
      simp only [Option.some.injEq, Prod.mk.injEq] at h
      obtain ⟨rfl, _⟩ := h
      intro j s s' hs hs'
      rw [hs] at hs'
      simp only [Option.some.injEq] at hs'
      subst hs'
      refine ⟨fun _ => SessionKeeps_refl _ s, fun h1 _ => ?_⟩
      have hlen : app.game_.sessions_.length ≤ idx := by
        by_contra hlt
        rw [List.getElem?_eq_getElem (by omega)] at hnone
        exact Option.noConfusion hnone
      rw [List.getElem?_eq_none (by omega)] at hs
      exact Option.noConfusion hs
    · rename_i s₀ hs₀
      have hidx : idx < app.game_.sessions_.length := (List.getElem?_eq_some.mp hs₀).1
      split_ifs at h with hthrown
      · simp only [Option.some.injEq, Prod.mk.injEq] at h
        exact Bool.noConfusion h.2
      · split at h
        · exact Option.noConfusion h
        · rename_i app₂ hn
          obtain ⟨hshr, hmax⟩ := notify_shrinks fuel dt _ _ _ _ hn
          have hkeep := notify_keeps fuel dt _ _ _ _ hn
          have hrec := tick_sessions_live fuel draws dt n (idx + 1) app₂ app' h
          have hlen₂ := hshr.length_eq
          simp only [List.length_set] at hlen₂
          have hmax₂ : app₂.game_.max_idle_time_ = app.game_.max_idle_time_ := hmax
          have hkeep' : List.Forall₂ (SessionKeeps app.game_.max_idle_time_)
              (app.game_.sessions_.set idx
                (tick_session app.game_.max_idle_time_ (draws idx) dt s₀).1)
              app₂.game_.sessions_ := hkeep
          intro j s s' hs hs'
          have hj : j < app.game_.sessions_.length := (List.getElem?_eq_some.mp hs).1
          obtain ⟨s₂, hs₂⟩ : ∃ s₂, app₂.game_.sessions_[j]? = some s₂ :=
            ⟨_, List.getElem?_eq_getElem (by omega)⟩
          obtain ⟨s₁, hs₁, hsh⟩ := forall₂_getElem? hkeep' j s₂ hs₂
          obtain ⟨hbefore, hin⟩ := hrec j s₂ s' hs₂ hs'
          rw [hmax₂] at hin hbefore
          simp only [List.getElem?_set] at hs₁
          by_cases hji : idx = j
          · subst hji
            rw [if_pos rfl, if_pos hidx] at hs₁
            simp only [Option.some.injEq] at hs₁
            rw [hs₀] at hs
            simp only [Option.some.injEq] at hs
            subst hs
            refine ⟨fun h1 => by omega, fun _ _ => ⟨s₀, SessionKeeps_refl _ _, ?_⟩⟩
            rw [hs₁]
            exact SessionKeeps_trans _ _ _ _ hsh (hbefore (Nat.lt_succ_self _))
          · rw [if_neg hji, hs] at hs₁
            simp only [Option.some.injEq] at hs₁
            subst hs₁
            constructor
            · intro hlt
              exact SessionKeeps_trans _ _ _ _ hsh (hbefore (by omega))
            · intro h1 h2
              obtain ⟨s₃, h3, h4⟩ := hin (by omega) (by omega)
              exact ⟨s₃, SessionKeeps_trans _ _ _ _ hsh h3, h4⟩

end app

namespace app

open model collision_detector

/-- Claim C12 as amended: when `Application::Tick(dt)` returns and no exception
has left it, the sessions are in place and in every session: every dog after the
tick is a dog of that session before the tick (same id) such that, if its
`idle_for` was below the game's max idle time when the tick started, its age is
the old age plus `dt` and its `idle_for` is the old `idle_for` plus `dt` if its
idle flag was set when the tick started and 0 otherwise; where the dog ids of
the session are pairwise different, this holds for every dog with the same id
before and after the tick; and every dog of the session whose `idle_for` was
below the max idle time when the tick started is still in the session after the
tick, with the same id and its age and `idle_for` advanced in this way, unless
the advanced `idle_for` has reached the max idle time (the retirement listener
takes such a dog out in the same tick). -/
theorem C12_tick_advances_clocks (fuel : ℕ) (draws : ℕ → LootDraw) (dt : ℤ)
    (app app' : Application)
    (hT : Application.Tick fuel draws dt app = some (app', false)) :
    List.Forall₂
      (fun s s' =>
        (∀ d' ∈ s'.dogs_, ∃ d ∈ s.dogs_, d'.id = d.id ∧
          (d.idle_for < app.game_.max_idle_time_ →
            d'.age = d.age + dt ∧
            d'.idle_for = if d.is_idle = true then d.idle_for + dt else 0)) ∧
        ((s.dogs_.map (fun d => d.id)).Nodup →
          ∀ d ∈ s.dogs_, ∀ d' ∈ s'.dogs_, d'.id = d.id →
            d.idle_for < app.game_.max_idle_time_ →
            d'.age = d.age + dt ∧
            d'.idle_for = if d.is_idle = true then d.idle_for + dt else 0) ∧
        (∀ d ∈ s.dogs_, d.idle_for < app.game_.max_idle_time_ →
          (∃ d' ∈ s'.dogs_, d'.id = d.id ∧ d'.age = d.age + dt ∧
            d'.idle_for = if d.is_idle = true then d.idle_for + dt else 0) ∨
          app.game_.max_idle_time_ ≤ (if d.is_idle = true then d.idle_for + dt else 0)))
      app.game_.sessions_ app'.game_.sessions_ := by
  obtain ⟨_, hlen, htrace⟩ := tick_sessions_trace fuel draws dt _ 0 app app' false hT
  have hlive := tick_sessions_live fuel draws dt _ 0 app app' hT
  rw [List.forall₂_iff_get]
  refine ⟨hlen.symm, ?_⟩
  intro j h₁ h₂
  have hfirst : ∀ d' ∈ (app'.game_.sessions_.get ⟨j, h₂⟩).dogs_,
      ∃ d ∈ (app.game_.sessions_.get ⟨j, h₁⟩).dogs_, d'.id = d.id ∧
        (d.idle_for < app.game_.max_idle_time_ →
          d'.age = d.age + dt ∧
          d'.idle_for = if d.is_idle = true then d.idle_for + dt else 0) := by
    intro d' hd'
    rcases (htrace j _ _ (List.getElem?_eq_getElem h₁) (List.getElem?_eq_getElem h₂)).2
      (Nat.zero_le _) (by omega) with ⟨s₁, hs₁, hs₂⟩ | ⟨hthrown, _⟩
    · obtain ⟨d, hd, hrel⟩ := tick_session_clocks app.game_.max_idle_time_ (draws j) dt s₁
        d' (hs₂.2.subset hd')
      exact ⟨d, hs₁.2.subset hd, hrel⟩
    · exact Bool.noConfusion hthrown
  refine ⟨hfirst, ?_, ?_⟩
  · intro hnd d hd d' hd' hid hlt
    obtain ⟨d₀, hd₀, hid₀, hrel⟩ := hfirst d' hd'
    have heq : d₀ = d := List.inj_on_of_nodup_map hnd hd₀ hd (hid₀.symm.trans hid)
    rw [heq] at hrel
    exact hrel hlt
  · intro d hd hlt
    obtain ⟨s₁, hk₁, hk₂⟩ :=
      (hlive j _ _ (List.getElem?_eq_getElem h₁) (List.getElem?_eq_getElem h₂)).2
        (Nat.zero_le _) (by omega)
    obtain ⟨d₁, hd₁, hid, hclocks⟩ :=
      tick_session_advances app.game_.max_idle_time_ (draws j) dt s₁ d (hk₁ d hd hlt)
    obtain ⟨hage, hidle⟩ := hclocks hlt
    by_cases hnew : d₁.idle_for < app.game_.max_idle_time_
    · exact Or.inl ⟨d₁, hk₂ d₁ hd₁ hnew, hid, hage, hidle⟩
    · right
      rw [← hidle]
      exact not_lt.mp hnew

end app

namespace app

open model collision_detector

/-- Witness of C12, the walker scenario: the dog, not idle and with `idle_for`
0 below the max idle time 60000, is in its session after a tick of 2000 ms, with
age 2000 and `idle_for` 0. -/
theorem C12_witness_walker :
    scenario.dogs_after (Application.Tick 2 scenario.no_loot 2000
        (scenario.application_of scenario.deposit_map [scenario.walker [(1, 0)] 0]))
      = some ([[scenario.walker_after [] 10]], false) ∧
    (scenario.walker_after [] 10).age = 2000 ∧ (scenario.walker_after [] 10).idle_for = 0 ∧
    ∃ app', Application.Tick 2 scenario.no_loot 2000
        (scenario.application_of scenario.deposit_map [scenario.walker [(1, 0)] 0])
        = some (app', false) ∧
      List.Forall₂
        (fun s s' =>
          (∀ d' ∈ s'.dogs_, ∃ d ∈ s.dogs_, d'.id = d.id ∧
            (d.idle_for < (scenario.application_of scenario.deposit_map
                [scenario.walker [(1, 0)] 0]).game_.max_idle_time_ →
              d'.age = d.age + 2000 ∧
              d'.idle_for = if d.is_idle = true then d.idle_for + 2000 else 0)) ∧
          ((s.dogs_.map (fun d => d.id)).Nodup →
            ∀ d ∈ s.dogs_, ∀ d' ∈ s'.dogs_, d'.id = d.id →
              d.idle_for < (scenario.application_of scenario.deposit_map
                [scenario.walker [(1, 0)] 0]).game_.max_idle_time_ →
              d'.age = d.age + 2000 ∧
              d'.idle_for = if d.is_idle = true then d.idle_for + 2000 else 0) ∧
          (∀ d ∈ s.dogs_,
            d.idle_for < (scenario.application_of scenario.deposit_map
                [scenario.walker [(1, 0)] 0]).game_.max_idle_time_ →
            (∃ d' ∈ s'.dogs_, d'.id = d.id ∧ d'.age = d.age + 2000 ∧
              d'.idle_for = if d.is_idle = true then d.idle_for + 2000 else 0) ∨
            (scenario.application_of scenario.deposit_map
                [scenario.walker [(1, 0)] 0]).game_.max_idle_time_
              ≤ (if d.is_idle = true then d.idle_for + 2000 else 0)))
        (scenario.application_of scenario.deposit_map
          [scenario.walker [(1, 0)] 0]).game_.sessions_
        app'.game_.sessions_ := by
  have hT := Tick_walker [some 10, some 5] [(1, 0)] 0 (by decide)
  have hscore : (deposit [some 10, some 5] [(1, 0)] 0).1 = 10 := by decide
  rw [hscore] at hT
  obtain ⟨app', happ, _⟩ := Tick_walker_returns [some 10, some 5] [(1, 0)] 0 (by decide)
  exact ⟨hT, rfl, rfl, app', happ,
    C12_tick_advances_clocks 2 scenario.no_loot 2000 _ app' happ⟩

/-- Counterexample to C12 as stated.  (1) An exception leaves the tick: in the
first session the dog `walker` reaches the base with an item whose loot type
has no integer `value`, `as_int64` throws, and the tick ends there; the dog
`bystander` of the second session, with `idle_for` 0 below the max idle time
60000, has age 0 after the tick of 2000 ms, not 2000.  (2) A dog is retired in
the tick: in the retirement scenario (max idle time 1000 ms) the dog `stayer`
has `idle_for` 200 when the tick of 800 ms starts; the tick takes its `idle_for`
to 1000, the retirement listener retires it, and after the tick no dog is left
in the session. -/
theorem C12_counterexample_interrupted_tick :
    scenario.bystander.idle_for < scenario.interrupted_app.game_.max_idle_time_ ∧
    scenario.dogs_after (Application.Tick 2 scenario.no_loot 2000 scenario.interrupted_app)
      = some ([[scenario.walker_after [(1, 0)] 0], [scenario.bystander]], true) ∧
    scenario.bystander.age = 0 ∧
    scenario.stayer ∈ (scenario.retirement_app [] DbOutcome.ok).game_.sessions_.flatMap
      (fun s => s.dogs_) ∧
    scenario.stayer.idle_for
      < (scenario.retirement_app [] DbOutcome.ok).game_.max_idle_time_ ∧
    scenario.dogs_after
        (Application.Tick 3 scenario.no_loot 800 (scenario.retirement_app [] DbOutcome.ok))
      = some ([[]], false) := by
  refine ⟨by decide, by decide!, rfl, by decide, by decide, rfl⟩

end app
